import Mathlib

/-!
# SWF-Decompiler: primitive decoders, bit reader and tag walker

A shallow embedding of the decoders of `src/abcdec_s2.cpp`, `src/shape_to_svg.cpp`
and `src/swf_extractor.cpp`, with the properties proved about them.

Conventions of the embedding:

* a byte (`u8`, `uint8_t`) is a `Fin 256`; a buffer (`std::vector<u8>`) is a `List u8`;
* `u32` values are natural numbers kept below `2^32` by an explicit `% 2^32` wherever the
  C++ operation can leave that range; `i32` results are integers;
* `size_t` is 64 bits wide.  A cursor into a buffer is a natural number; `% 2^64` is written
  where the source subtracts or adds a wrapped quantity;
* a function taking a cursor by reference returns the new cursor next to its result;
* a `throw` is the `Except.error` of its message.
-/

set_option autoImplicit false

deriving instance DecidableEq for Except

/-- The byte type `u8` / `uint8_t` of the sources. -/
abbrev u8 := Fin 256

/-- The value of `a << s` as stored into a 32-bit integer: the mathematical shift reduced
modulo `2^32`.  (For `s ≥ 32` C++ leaves the shift undefined; no theorem below depends on the
value the model gives there.) -/
def shl32 (a s : Nat) : Nat := (a <<< s) % 2 ^ 32

/-- Conversion of a `u32` bit pattern to `i32` (two's complement). -/
def toI32 (x : Nat) : Int :=
  if x % 2 ^ 32 < 2 ^ 31 then ((x % 2 ^ 32 : Nat) : Int) else ((x % 2 ^ 32 : Nat) : Int) - 2 ^ 32

namespace Abc

/-- A `std::istream` over a byte sequence: the bytes not yet extracted and whether the
stream is still `good()`. -/
structure IStream where
  rest : List u8
  good : Bool
deriving DecidableEq, Repr

/-- A freshly opened stream over `bytes`. -/
def IStream.ofBytes (bytes : List u8) : IStream := ⟨bytes, true⟩

/-- The loop of `readU30` (abcdec_s2.cpp:29-39) on a good stream whose remaining bytes are
the list argument; `v` and `shift` are the loop variables.  `in.get(c)` on an exhausted
stream fails, the loop is left and 0 is returned with the stream no longer good. -/
def readU30Loop : List u8 → Nat → Nat → Except String (Nat × IStream)
  | [], _, _ => .ok (0, ⟨[], false⟩)
  | b :: rest, v, shift =>
    let v1 := v ||| shl32 (b.val &&& 0x7F) shift
    if b.val &&& 0x80 = 0 then .ok (v1, ⟨rest, true⟩)
    else
      let shift1 := shift + 7
      if shift1 > 35 then .error "Integer overflow in readU30"
      else readU30Loop rest v1 shift1

/-- The stream reader `readU30` (abcdec_s2.cpp:26-41). -/
def readU30 (s : IStream) : Except String (Nat × IStream) :=
  if s.good then readU30Loop s.rest 0 0 else .ok (0, s)

/-- The loop of `readU30FromBytes` (abcdec_s2.cpp:56-61); the list argument is the part of
the buffer from `pos` on, so `pos < data.size()` is "the list is not empty" and `data[pos]`
is its head.  Returns `(v, pos)`. -/
def readU30FromBytesLoop : List u8 → Nat → Nat → Nat → Nat × Nat
  | [], pos, v, _ => (v, pos)
  | b :: rest, pos, v, shift =>
    let v1 := v ||| shl32 (b.val &&& 0x7F) shift
    if b.val &&& 0x80 = 0 then (v1, pos + 1)
    else readU30FromBytesLoop rest (pos + 1) v1 (shift + 7)

/-- The buffer reader `readU30FromBytes` (abcdec_s2.cpp:53-63): returns the value and the
new position. -/
def readU30FromBytes (data : List u8) (pos : Nat) : Nat × Nat :=
  readU30FromBytesLoop (data.drop pos) pos 0 0

/-- The reader `readS24` (abcdec_s2.cpp:65-71): returns the value and the new position. -/
def readS24 (data : List u8) (pos : Nat) : Int × Nat :=
  if pos + 3 > data.length then (0, pos)
  else
    let v := (data.getD pos 0).val ||| shl32 (data.getD (pos + 1) 0).val 8
              ||| shl32 (data.getD (pos + 2) 0).val 16
    if v &&& 0x800000 ≠ 0 then (toI32 (v ||| 0xFF000000), pos + 3)
    else (toI32 v, pos + 3)

/-- The encoder the specification pairs with the u30 readers, with a recursion bound:
the minimal little-endian base-128 encoding, seven value bits per byte, bit `0x80` set on
every byte except the last. -/
def encodeU30Aux : Nat → Nat → List u8
  | 0, x => [Fin.ofNat (x % 128)]
  | fuel + 1, x =>
    if x < 128 then [Fin.ofNat x]
    else Fin.ofNat (x % 128 + 128) :: encodeU30Aux fuel (x / 128)

/-- The minimal base-128 encoding of `x` (written from the specification; the bound `x`
on the recursion is never reached). -/
def encodeU30 (x : Nat) : List u8 := encodeU30Aux x x

end Abc


/-! ## The bit reader

`class BitReader` is declared twice, in shape_to_svg.cpp (lines 92-133) and in
swf_extractor.cpp (lines 72-112).  The two declarations have the same fields and the same
bodies for `readBits`, `readSignedBits`, `alignByte` and `getBytePos`; the only textual
difference is the all-ones mask of `readSignedBits`, spelled `0xFFFFFFFF` in the first file
and `~0u` in the second, which is the same 32-bit constant.  One embedding serves both.
-/

/-- The state of a `BitReader`: the byte slice it reads (`data`, whose length is the
field `size`), the byte cursor and the bit cursor (0 is the most significant bit). -/
structure BitReader where
  data : List u8
  bytePos : Nat
  bitPos : Nat
deriving DecidableEq, Repr

namespace BitReader

/-- The constructor `BitReader(d, s)`: both cursors start at 0. -/
def new (d : List u8) : BitReader := ⟨d, 0, 0⟩

/-- The `for` loop of `readBits` (shape_to_svg.cpp:103-112, swf_extractor.cpp:83-92) with
`k` iterations left and `result` accumulated so far. -/
def readBitsLoop : Nat → BitReader → Nat → Nat × BitReader
  | 0, br, result => (result, br)
  | k + 1, br, result =>
    if br.bytePos ≥ br.data.length then (result, br)
    else
      let bit := ((br.data.getD br.bytePos 0).val >>> (7 - br.bitPos)) &&& 1
      let result1 := shl32 result 1 ||| bit
      let bitPos1 := br.bitPos + 1
      if bitPos1 = 8 then readBitsLoop k { br with bitPos := 0, bytePos := br.bytePos + 1 } result1
      else readBitsLoop k { br with bitPos := bitPos1 } result1

/-- The method `readBits(numBits)`: the value read and the reader afterwards. -/
def readBits (br : BitReader) (numBits : Nat) : Nat × BitReader :=
  readBitsLoop numBits br 0

/-- The method `readSignedBits(numBits)`.  The test mask is `1 << (numBits - 1)` and the
extension mask `0xFFFFFFFF << numBits` (`~0u << numBits`), both 32-bit; the `uint32_t`
result converts to `int32_t`.  (`numBits = 0` makes the source shift by -1; the model
shifts by 0, and both give 0 on the value 0 that `readBits(0)` returns.) -/
def readSignedBits (br : BitReader) (numBits : Nat) : Int × BitReader :=
  let r := br.readBits numBits
  if r.1 &&& shl32 1 (numBits - 1) ≠ 0 then (toI32 (r.1 ||| shl32 0xFFFFFFFF numBits), r.2)
  else (toI32 r.1, r.2)

/-- The method `alignByte()`. -/
def alignByte (br : BitReader) : BitReader :=
  if br.bitPos ≠ 0 then { br with bitPos := 0, bytePos := br.bytePos + 1 } else br

/-- The method `getBytePos()`. -/
def getBytePos (br : BitReader) : Nat := br.bytePos

/-- The method `setBytePos(pos)` (shape_to_svg.cpp:132). -/
def setBytePos (br : BitReader) (pos : Nat) : BitReader := { br with bytePos := pos, bitPos := 0 }

/-- The absolute bit cursor of a reader: bits before the cursor, counted from the start
of the slice. -/
def cursor (br : BitReader) : Nat := 8 * br.bytePos + br.bitPos

/-- The number of bits between the cursor and the end of the slice. -/
def remaining (br : BitReader) : Nat := 8 * br.data.length - br.cursor

end BitReader

/-- Bit number `k` of a buffer, bytes in order and each byte most significant bit first
(the reading order the specification gives for the bit reader). -/
def bitAt (data : List u8) (k : Nat) : Nat := (data.getD (k / 8) 0).val / 2 ^ (7 - k % 8) % 2

/-- The number whose binary digits, most significant first, are the `n` bits of the buffer
starting at bit number `c` (written from the specification). -/
def bitsValue (data : List u8) (c : Nat) : Nat → Nat
  | 0 => 0
  | n + 1 => bitAt data c * 2 ^ n + bitsValue data (c + 1) n

/-! ## The container extractor (swf_extractor.cpp)

What the embedding keeps and what it abstracts:

* the fields of `Matrix` are `double`s obtained by dividing a decoded fixed-point integer by
  `65536.0` (scale, rotate) or `20.0` (translate).  The embedding stores that integer (the
  numerator), so the identity matrix is `a = d = 65536`; the map from numerators to the
  doubles of the source is one-to-one;
* the file system and zlib are outside the program: `Env.canOpen` says whether a
  `std::ofstream` on a path opens, `Env.uncompress` is zlib's `uncompress` (destination
  capacity, source bytes; `none` for a result other than `Z_OK`);
* every file opened for writing is logged in `files` with the bytes written to it; for the
  text files (info files, hex dumps, sprite descriptors, the symbol list) only the name is
  kept, and a display-list snapshot keeps the list it prints;
* `int` counters are natural numbers (they only count up from 0), and `std::cout` /
  `std::cerr` are not modelled;
* the source has no handler for an exception and no test before some reads: a `resize`
  that throws `std::length_error` ends the program, and a read outside a buffer has no
  defined behaviour.  The field `fault` of the state holds the first such event of a run.
  The functions go on after it, with the bytes the buffer has, so that their values are
  defined on every input; a state with a fault stands for a run of the program that ended
  at that fault, and what the model computes after it is no behaviour of the program.
  `extractOutcome` gives the result of `extract` with the fault made explicit.
-/

namespace Swf

/-- The tag codes of `enum TagType` that the dispatcher names in a `case` label. -/
def TAG_END : Nat := 0
def TAG_SHOW_FRAME : Nat := 1
def TAG_DEFINE_SHAPE : Nat := 2
def TAG_PLACE_OBJECT : Nat := 4
def TAG_REMOVE_OBJECT : Nat := 5
def TAG_DEFINE_BITS : Nat := 6
def TAG_JPEG_TABLES : Nat := 8
def TAG_DEFINE_BITS_JPEG2 : Nat := 21
def TAG_DEFINE_BITS_JPEG3 : Nat := 35
def TAG_DEFINE_BITS_LOSSLESS : Nat := 20
def TAG_DEFINE_BITS_LOSSLESS2 : Nat := 36
def TAG_DEFINE_BITS_JPEG4 : Nat := 90
def TAG_DO_ACTION : Nat := 12
def TAG_DO_ABC : Nat := 82
def TAG_PLACE_OBJECT2 : Nat := 26
def TAG_PLACE_OBJECT3 : Nat := 70
def TAG_REMOVE_OBJECT2 : Nat := 28
def TAG_DEFINE_SHAPE2 : Nat := 22
def TAG_DEFINE_SHAPE3 : Nat := 32
def TAG_DEFINE_SHAPE4 : Nat := 83
def TAG_DEFINE_SPRITE : Nat := 39
def TAG_DEFINE_SOUND : Nat := 14
def TAG_DEFINE_BINARY_DATA : Nat := 87
def TAG_SYMBOL_CLASS : Nat := 76
def TAG_DEFINE_MORPH_SHAPE : Nat := 46
def TAG_DEFINE_MORPH_SHAPE2 : Nat := 84

/-- The codes that have a `case` label in the `switch` of `processTag`
(swf_extractor.cpp:430-704), in the order of the labels. -/
def handledTagCodes : List Nat :=
  [TAG_SHOW_FRAME, TAG_JPEG_TABLES, TAG_DEFINE_SHAPE, TAG_DEFINE_SHAPE2, TAG_DEFINE_SHAPE3,
   TAG_DEFINE_SHAPE4, TAG_DEFINE_MORPH_SHAPE, TAG_DEFINE_MORPH_SHAPE2, TAG_DEFINE_BITS,
   TAG_DEFINE_BITS_JPEG2, TAG_DEFINE_BITS_JPEG3, TAG_DEFINE_BITS_JPEG4,
   TAG_DEFINE_BITS_LOSSLESS, TAG_DEFINE_BITS_LOSSLESS2, TAG_DEFINE_BINARY_DATA,
   TAG_DEFINE_SOUND, TAG_DO_ACTION, TAG_DO_ABC, TAG_SYMBOL_CLASS, TAG_PLACE_OBJECT,
   TAG_PLACE_OBJECT2, TAG_PLACE_OBJECT3, TAG_REMOVE_OBJECT, TAG_REMOVE_OBJECT2,
   TAG_DEFINE_SPRITE]

/-- The struct `Matrix`, fields as fixed-point numerators (see the section header). -/
structure Matrix where
  a : Int := 65536
  b : Int := 0
  c : Int := 0
  d : Int := 65536
  tx : Int := 0
  ty : Int := 0
deriving DecidableEq, Repr

/-- The struct `ColorTransform` with the defaults of its constructor. -/
structure ColorTransform where
  rMult : Int := 256
  gMult : Int := 256
  bMult : Int := 256
  aMult : Int := 256
  rAdd : Int := 0
  gAdd : Int := 0
  bAdd : Int := 0
  aAdd : Int := 0
deriving DecidableEq, Repr

/-- The struct `DisplayObject`; `name` is the byte string read from the tag. -/
structure DisplayObject where
  characterId : Nat
  depth : Nat
  matrix : Matrix
  colorTransform : ColorTransform
  name : List u8
deriving DecidableEq, Repr

/-- What was written to an output file. -/
inductive FileContent where
  | bytes (b : List u8)
  | text
  | displayList (objects : List (Nat × DisplayObject))
deriving DecidableEq, Repr

/-- An output file: its path and what was written to it. -/
structure OutFile where
  name : String
  content : FileContent
deriving DecidableEq, Repr

/-- The surroundings of a run. `indeterminateU16` is the value found in the uninitialised
`characterId` / `depth` of a default-constructed `DisplayObject`. -/
structure Env where
  canOpen : String → Bool
  uncompress : Nat → List u8 → Option (List u8)
  indeterminateU16 : Nat

/-- The events that end a run of the program other than by a return: `resize` asked for
more than `max_size()` elements throws `std::length_error`, which nothing catches; a
read outside a buffer is undefined behaviour. -/
inductive Fault where
  | lengthError
  | outOfBounds
deriving DecidableEq, Repr

/-- The object `SWFExtractor`: its fields, the two function-local `static` counters of
`processTag`, the log of files written, and the first fault of the run (see the section
header). -/
structure SWFExtractor where
  data : List u8
  outputDir : String
  currentFrame : Nat
  globalFrame : Nat
  characterMap : List (Nat × String)
  characterTypes : List (Nat × String)
  displayList : List (Nat × DisplayObject)
  jpegTables : List u8
  actionCount : Nat
  abcCount : Nat
  files : List OutFile
  fault : Option Fault := none
deriving DecidableEq, Repr

/-- Records the fault `f` unless an earlier one is recorded. -/
def raise (st : SWFExtractor) (f : Fault) : SWFExtractor :=
  match st.fault with
  | some _ => st
  | none => { st with fault := some f }

/-- Assignment `m[k] = v` on a `std::map` kept as a key-ordered association list. -/
def mapInsert {V : Type} (k : Nat) (v : V) : List (Nat × V) → List (Nat × V)
  | [] => [(k, v)]
  | (k1, v1) :: rest =>
    if k < k1 then (k, v) :: (k1, v1) :: rest
    else if k = k1 then (k, v) :: rest
    else (k1, v1) :: mapInsert k v rest

/-- The call `m.erase(k)`. -/
def mapErase {V : Type} (k : Nat) : List (Nat × V) → List (Nat × V)
  | [] => []
  | (k1, v1) :: rest => if k = k1 then rest else (k1, v1) :: mapErase k rest

/-- Lookup in a `std::map` (`m.count(k)` is `(mapFind k m).isSome`). -/
def mapFind {V : Type} (k : Nat) : List (Nat × V) → Option V
  | [] => none
  | (k1, v1) :: rest => if k = k1 then some v1 else mapFind k rest

/-- Addition of `size_t` values. -/
def szAdd (a b : Nat) : Nat := (a + b) % 2 ^ 64

/-- Subtraction of `size_t` values (both below `2^64`). -/
def szSub (a b : Nat) : Nat := (a + 2 ^ 64 - b) % 2 ^ 64

/-- Subtraction `tagLength - k` in `uint32_t`, as in `tagLength - 2`. -/
def u32Sub (a k : Nat) : Nat := (a + 2 ^ 32 - k) % 2 ^ 32

/-- The member `readU32(pos)` (swf_extractor.cpp:132-137): value and new `pos`. -/
def readU32 (data : List u8) (pos : Nat) : Nat × Nat :=
  if pos + 4 > data.length then (0, pos)
  else ((data.getD pos 0).val ||| shl32 (data.getD (pos + 1) 0).val 8
          ||| shl32 (data.getD (pos + 2) 0).val 16 ||| shl32 (data.getD (pos + 3) 0).val 24,
        pos + 4)

/-- The member `readU16(pos)` (swf_extractor.cpp:139-144). -/
def readU16 (data : List u8) (pos : Nat) : Nat × Nat :=
  if pos + 2 > data.length then (0, pos)
  else ((data.getD pos 0).val ||| shl32 (data.getD (pos + 1) 0).val 8, pos + 2)

/-- The member `readU8(pos)` (swf_extractor.cpp:146-149). -/
def readU8 (data : List u8) (pos : Nat) : Nat × Nat :=
  if pos ≥ data.length then (0, pos) else ((data.getD pos 0).val, pos + 1)

/-- The loop and the final step of `readString(pos)` (swf_extractor.cpp:153-156) on the
part of the buffer from `pos` on: bytes are appended up to a zero byte, which is stepped
over; at the end of the buffer nothing is stepped over. -/
def readStringLoop : List u8 → Nat → List u8 → List u8 × Nat
  | [], pos, acc => (acc, pos)
  | b :: rest, pos, acc =>
    if b ≠ 0 then readStringLoop rest (pos + 1) (acc ++ [b]) else (acc, pos + 1)

/-- The member `readString(pos)` (swf_extractor.cpp:151-158). -/
def readString (data : List u8) (pos : Nat) : List u8 × Nat :=
  readStringLoop (data.drop pos) pos []

/-- The member `readMatrix(br)` (swf_extractor.cpp:160-178): the matrix and the reader
afterwards. -/
def readMatrix (br : BitReader) : Matrix × BitReader :=
  let m : Matrix := {}
  let hasScale := br.readBits 1
  let (m, br) :=
    if hasScale.1 ≠ 0 then
      let nScaleBits := hasScale.2.readBits 5
      let a := nScaleBits.2.readSignedBits nScaleBits.1
      let d := a.2.readSignedBits nScaleBits.1
      ({ m with a := a.1, d := d.1 }, d.2)
    else (m, hasScale.2)
  let hasRotate := br.readBits 1
  let (m, br) :=
    if hasRotate.1 ≠ 0 then
      let nRotateBits := hasRotate.2.readBits 5
      let c := nRotateBits.2.readSignedBits nRotateBits.1
      let b := c.2.readSignedBits nRotateBits.1
      ({ m with c := c.1, b := b.1 }, b.2)
    else (m, hasRotate.2)
  let nTranslateBits := br.readBits 5
  let tx := nTranslateBits.2.readSignedBits nTranslateBits.1
  let ty := tx.2.readSignedBits nTranslateBits.1
  ({ m with tx := tx.1, ty := ty.1 }, ty.2)

/-- The member `readColorTransform(br, hasAlpha)` (swf_extractor.cpp:180-199). -/
def readColorTransform (br : BitReader) (hasAlpha : Bool) : ColorTransform × BitReader :=
  let ct : ColorTransform := {}
  let hasAdd := br.readBits 1
  let hasMult := hasAdd.2.readBits 1
  let nBits := hasMult.2.readBits 4
  let br := nBits.2
  let (ct, br) :=
    if hasMult.1 ≠ 0 then
      let r := br.readSignedBits nBits.1
      let g := r.2.readSignedBits nBits.1
      let b := g.2.readSignedBits nBits.1
      if hasAlpha then
        let a := b.2.readSignedBits nBits.1
        ({ ct with rMult := r.1, gMult := g.1, bMult := b.1, aMult := a.1 }, a.2)
      else ({ ct with rMult := r.1, gMult := g.1, bMult := b.1 }, b.2)
    else (ct, br)
  if hasAdd.1 ≠ 0 then
    let r := br.readSignedBits nBits.1
    let g := r.2.readSignedBits nBits.1
    let b := g.2.readSignedBits nBits.1
    if hasAlpha then
      let a := b.2.readSignedBits nBits.1
      ({ ct with rAdd := r.1, gAdd := g.1, bAdd := b.1, aAdd := a.1 }, a.2)
    else ({ ct with rAdd := r.1, gAdd := g.1, bAdd := b.1 }, b.2)
  else (ct, br)

/-- The part of the buffer `[start, start + len)`, as handed to a `write` or to a callee
as pointer and length. -/
def slice (data : List u8) (start len : Nat) : List u8 := (data.drop start).take len

/-- Registration `characterMap[id] = path; characterTypes[id] = kind`. -/
def register (st : SWFExtractor) (id : Nat) (path kind : String) : SWFExtractor :=
  { st with characterMap := mapInsert id path st.characterMap,
            characterTypes := mapInsert id kind st.characterTypes }

/-- Appends a file to the log of files written. -/
def logFile (st : SWFExtractor) (name : String) (content : FileContent) : SWFExtractor :=
  { st with files := st.files ++ [⟨name, content⟩] }

/-- Opens a side file that the source writes without testing `is_open()`: it is logged
when the path can be opened. -/
def logSideFile (env : Env) (st : SWFExtractor) (name : String) : SWFExtractor :=
  if env.canOpen name then logFile st name .text else st

/-- The effect of `std::setw(4) << std::setfill('0')` on a frame number. -/
def pad4 (n : Nat) : String :=
  String.mk (List.replicate (4 - (toString n).length) '0') ++ toString n

/-- The member `extractShape` (swf_extractor.cpp:201-222). -/
def extractShape (env : Env) (st : SWFExtractor) (tagStart tagLength characterId : Nat)
    (_shapeVersion : Nat) : SWFExtractor :=
  let filename := st.outputDir ++ "/shape_" ++ toString characterId ++ ".dat"
  if env.canOpen filename then
    if tagStart + tagLength ≤ st.data.length then
      let st := logFile st filename (.bytes (slice st.data tagStart tagLength))
      let st := logSideFile env st
        (st.outputDir ++ "/shape_" ++ toString characterId ++ "_info.txt")
      register st characterId filename "shape"
    else logFile st filename (.bytes [])
  else st

/-- The member `extractJPEG` (swf_extractor.cpp:224-250); `imgData` is the `imgSize`
bytes the caller points at. -/
def extractJPEG (env : Env) (st : SWFExtractor) (imgData : List u8) (characterId : Nat)
    (hasTables : Bool) : SWFExtractor :=
  let filename := st.outputDir ++ "/image_" ++ toString characterId ++ ".jpg"
  if env.canOpen filename then
    let imgSize := imgData.length
    let written :=
      if hasTables ∧ st.jpegTables.length > 0 ∧ imgSize > 2 ∧
          ¬ ((imgData.getD 0 0).val = 0xFF ∧ (imgData.getD 1 0).val = 0xD8) then
        let tableSize := st.jpegTables.length
        let tables :=
          if tableSize ≥ 2 ∧ (st.jpegTables.getD (tableSize - 2) 0).val = 0xFF ∧
              (st.jpegTables.getD (tableSize - 1) 0).val = 0xD9 then
            st.jpegTables.take (tableSize - 2)
          else st.jpegTables
        let image :=
          if (imgData.getD 0 0).val = 0xFF ∧ (imgData.getD 1 0).val = 0xD8 then
            imgData.drop 2
          else imgData
        tables ++ image
      else imgData
    register (logFile st filename (.bytes written)) characterId filename "image"
  else st

/-- The member `extractPNG` (swf_extractor.cpp:252-275); `imgData` is the memory at the
pointer passed, up to the end of its allocation.  The source writes
`width * height * bpp` bytes from the pointer whatever the size of the buffer: when the
allocation is shorter the write reads outside it, a fault. -/
def extractPNG (env : Env) (st : SWFExtractor) (imgData : List u8) (width height : Nat)
    (_format : Nat) (characterId : Nat) (hasAlpha : Bool) : SWFExtractor :=
  let filename := st.outputDir ++ "/image_" ++ toString characterId ++ ".raw"
  let bpp := if hasAlpha then 4 else 3
  if env.canOpen filename then
    let st := if width * height * bpp ≤ imgData.length then st else raise st .outOfBounds
    let st := logFile st filename (.bytes (imgData.take (width * height * bpp)))
    let st := logSideFile env st
      (st.outputDir ++ "/image_" ++ toString characterId ++ "_info.txt")
    register st characterId filename "image"
  else st

/-- The member `extractBinaryData` (swf_extractor.cpp:277-289). -/
def extractBinaryData (env : Env) (st : SWFExtractor) (binData : List u8)
    (characterId : Nat) : SWFExtractor :=
  let filename := st.outputDir ++ "/binary_" ++ toString characterId ++ ".bin"
  if env.canOpen filename then
    register (logFile st filename (.bytes binData)) characterId filename "binary"
  else st

/-- The member `extractSound` (swf_extractor.cpp:291-307). -/
def extractSound (env : Env) (st : SWFExtractor) (soundData : List u8)
    (characterId format : Nat) : SWFExtractor :=
  let ext := if format = 2 then ".mp3" else ".raw"
  let filename := st.outputDir ++ "/sound_" ++ toString characterId ++ ext
  if env.canOpen filename then
    register (logFile st filename (.bytes soundData)) characterId filename "sound"
  else st

/-- The member `extractActionScript` (swf_extractor.cpp:309-334). -/
def extractActionScript (env : Env) (st : SWFExtractor) (scriptData : List u8)
    (frameNum scriptNum : Nat) (context : String) : SWFExtractor :=
  let filename :=
    if context.isEmpty then
      st.outputDir ++ "/frame_" ++ pad4 frameNum ++ "_action_" ++ toString scriptNum ++ ".as"
    else st.outputDir ++ "/" ++ context ++ "_action_" ++ toString scriptNum ++ ".as"
  if env.canOpen filename then
    logSideFile env (logFile st filename (.bytes scriptData)) (filename ++ ".hex")
  else st

/-- The member `saveFrameState` (swf_extractor.cpp:336-368). -/
def saveFrameState (env : Env) (st : SWFExtractor) (frameNum : Nat) : SWFExtractor :=
  let filename := st.outputDir ++ "/frame_" ++ pad4 frameNum ++ "_display.txt"
  if env.canOpen filename then logFile st filename (.displayList st.displayList) else st

/-- The decoding of a tag head (swf_extractor.cpp:776-782, and the same statements at
385-391 in `processSprite`): tag code, declared length and the cursor after the head. -/
def readTagHead (data : List u8) (pos : Nat) : Nat × Nat × Nat :=
  let tagCodeAndLength := readU16 data pos
  let tagType := tagCodeAndLength.1 >>> 6
  let tagLength := tagCodeAndLength.1 &&& 0x3F
  if tagLength = 0x3F then
    let ext := readU32 data tagCodeAndLength.2
    (tagType, ext.1, ext.2)
  else (tagType, tagLength, tagCodeAndLength.2)

/-- The `for` loop of the `TAG_SYMBOL_CLASS` case (swf_extractor.cpp:602-607): each round
reads a 16-bit id and a zero-terminated name; returns the cursor after `n` rounds. -/
def symbolClassLoop (data : List u8) : Nat → Nat → Nat
  | 0, pos => pos
  | n + 1, pos =>
    let tagId := readU16 data pos
    let name := readString data tagId.2
    symbolClassLoop data n name.2

/-- The value of the `int` expression `width * height * 4 + (colorTableSize + 1) * 4`
of the `TAG_DEFINE_BITS_LOSSLESS` case (swf_extractor.cpp:527), computed modulo `2^32`
and read as a signed number. -/
def sizeEstimate (width height colorTableSize : Nat) : Int :=
  toI32 ((width * height * 4 + (colorTableSize + 1) * 4) % 2 ^ 32)

/-- The body of `processTag` (swf_extractor.cpp:427-705): the state and the cursor `pos`
after the tag.  `procSprite` stands for the call of `processSprite`, the only callee that
loops over tags; it gives `none` when its recursion bound is used up, and so does the tag
then.  In the `TAG_DEFINE_MORPH_SHAPE` case the source writes `tagLength` bytes from
`tagStart` without a bounds test: a tag that reaches beyond the buffer is a fault.  In
the `TAG_DEFINE_BITS_LOSSLESS` case the size estimate is computed in `int` (modulo
`2^32`, as a two's-complement machine does) and converted to `size_t`: a negative
estimate asks `resize` for more than `max_size()` elements, which throws, a fault;
otherwise the vector holds `estimatedSize` zeros, `uncompress` stores its output at the
start, and `resize(destLen)` leaves the allocation as it is, so the memory at
`decompressed.data()` is the output followed by the zeros that are left. -/
def processTagWith (env : Env)
    (procSprite : SWFExtractor → Nat → Nat → Nat → Option (SWFExtractor × Nat))
    (st : SWFExtractor) (tagType tagLength pos : Nat) : Option (SWFExtractor × Nat) :=
  let tagStart := pos
  if tagType = TAG_SHOW_FRAME then
    let st := { st with currentFrame := st.currentFrame + 1, globalFrame := st.globalFrame + 1 }
    some (saveFrameState env st st.currentFrame, pos)
  else if tagType = TAG_JPEG_TABLES then
    let st := { st with jpegTables := [] }
    let st :=
      if pos + tagLength ≤ st.data.length then
        { st with jpegTables := slice st.data pos tagLength }
      else st
    some (st, pos + tagLength)
  else if tagType = TAG_DEFINE_SHAPE ∨ tagType = TAG_DEFINE_SHAPE2 ∨
      tagType = TAG_DEFINE_SHAPE3 ∨ tagType = TAG_DEFINE_SHAPE4 then
    let characterId := readU16 st.data pos
    let shapeVersion :=
      if tagType = TAG_DEFINE_SHAPE then 1
      else if tagType = TAG_DEFINE_SHAPE2 then 2
      else if tagType = TAG_DEFINE_SHAPE3 then 3 else 4
    some (extractShape env st tagStart tagLength characterId.1 shapeVersion,
          tagStart + tagLength)
  else if tagType = TAG_DEFINE_MORPH_SHAPE ∨ tagType = TAG_DEFINE_MORPH_SHAPE2 then
    let characterId := readU16 st.data pos
    let filename := st.outputDir ++ "/morph_shape_" ++ toString characterId.1 ++ ".dat"
    let st :=
      if env.canOpen filename then
        let st := if tagStart + tagLength ≤ st.data.length then st else raise st .outOfBounds
        register (logFile st filename (.bytes (slice st.data tagStart tagLength)))
          characterId.1 filename "morph_shape"
      else st
    some (st, tagStart + tagLength)
  else if tagType = TAG_DEFINE_BITS then
    let characterId := readU16 st.data pos
    let pos := characterId.2
    let imgSize := u32Sub tagLength 2
    if pos + imgSize ≤ st.data.length then
      some (extractJPEG env st (slice st.data pos imgSize) characterId.1 true, pos + imgSize)
    else some (st, pos)
  else if tagType = TAG_DEFINE_BITS_JPEG2 then
    let characterId := readU16 st.data pos
    let pos := characterId.2
    let imgSize := u32Sub tagLength 2
    if pos + imgSize ≤ st.data.length then
      some (extractJPEG env st (slice st.data pos imgSize) characterId.1 false, pos + imgSize)
    else some (st, pos)
  else if tagType = TAG_DEFINE_BITS_JPEG3 ∨ tagType = TAG_DEFINE_BITS_JPEG4 then
    let characterId := readU16 st.data pos
    let alphaDataOffset := readU32 st.data characterId.2
    let pos := alphaDataOffset.2
    let imgSize := alphaDataOffset.1
    if pos + imgSize ≤ st.data.length then
      some (extractJPEG env st (slice st.data pos imgSize) characterId.1 false,
            tagStart + tagLength)
    else some (st, pos)
  else if tagType = TAG_DEFINE_BITS_LOSSLESS ∨ tagType = TAG_DEFINE_BITS_LOSSLESS2 then
    let characterId := readU16 st.data pos
    let format := readU8 st.data characterId.2
    let width := readU16 st.data format.2
    let height := readU16 st.data width.2
    let pos := height.2
    let dataSize := u32Sub tagLength 7
    let colorTableSize := if format.1 = 3 then readU8 st.data pos else (0, pos)
    let dataSize := if format.1 = 3 then szSub dataSize 1 else dataSize
    let pos := colorTableSize.2
    let st :=
      if szAdd pos dataSize ≤ st.data.length then
        let estimate := sizeEstimate width.1 height.1 colorTableSize.1
        if estimate < 0 then raise st .lengthError
        else
          let estimatedSize := estimate.toNat
          match env.uncompress estimatedSize (slice st.data pos dataSize) with
          | some decompressed =>
            extractPNG env st
              (decompressed ++ List.replicate (estimatedSize - decompressed.length) 0)
              width.1 height.1 format.1 characterId.1 (tagType = TAG_DEFINE_BITS_LOSSLESS2)
          | none => st
      else st
    some (st, tagStart + tagLength)
  else if tagType = TAG_DEFINE_BINARY_DATA then
    let characterId := readU16 st.data pos
    let reserved := readU32 st.data characterId.2
    let pos := reserved.2
    let binSize := u32Sub tagLength 6
    if pos + binSize ≤ st.data.length then
      some (extractBinaryData env st (slice st.data pos binSize) characterId.1, pos + binSize)
    else some (st, pos)
  else if tagType = TAG_DEFINE_SOUND then
    let characterId := readU16 st.data pos
    let formatByte := readU8 st.data characterId.2
    let soundFormat := (formatByte.1 >>> 4) &&& 0x0F
    let pos := szSub formatByte.2 1
    let flags := readU8 st.data pos
    let sampleCount := readU32 st.data flags.2
    let pos := sampleCount.2
    let soundSize := u32Sub tagLength 7
    if szAdd pos soundSize ≤ st.data.length then
      some (extractSound env st (slice st.data pos soundSize) characterId.1 soundFormat,
            szAdd pos soundSize)
    else some (st, pos)
  else if tagType = TAG_DO_ACTION then
    if pos + tagLength ≤ st.data.length then
      let st1 := extractActionScript env st (slice st.data pos tagLength) st.currentFrame
        st.actionCount ""
      some ({ st1 with actionCount := st.actionCount + 1 }, pos + tagLength)
    else some (st, pos)
  else if tagType = TAG_DO_ABC then
    if pos + tagLength ≤ st.data.length then
      let filename := st.outputDir ++ "/abc_" ++ toString st.abcCount ++ ".abc"
      let st := { st with abcCount := st.abcCount + 1 }
      let st :=
        if env.canOpen filename then logFile st filename (.bytes (slice st.data pos tagLength))
        else st
      some (st, pos + tagLength)
    else some (st, pos)
  else if tagType = TAG_SYMBOL_CLASS then
    let numSymbols := readU16 st.data pos
    let st := logSideFile env st (st.outputDir ++ "/symbol_class.txt")
    some (st, symbolClassLoop st.data numSymbols.1 numSymbols.2)
  else if tagType = TAG_PLACE_OBJECT then
    let characterId := readU16 st.data pos
    let depth := readU16 st.data characterId.2
    let pos := depth.2
    let br := BitReader.new (st.data.drop pos)
    let matrix := readMatrix br
    let obj : DisplayObject :=
      { characterId := characterId.1, depth := depth.1, matrix := matrix.1,
        colorTransform := {}, name := [] }
    some ({ st with displayList := mapInsert depth.1 obj st.displayList },
          tagStart + tagLength)
  else if tagType = TAG_PLACE_OBJECT2 ∨ tagType = TAG_PLACE_OBJECT3 then
    let flags := readU8 st.data pos
    let depth := readU16 st.data flags.2
    let pos := depth.2
    let obj : DisplayObject :=
      match mapFind depth.1 st.displayList with
      | some o => o
      | none =>
        { characterId := env.indeterminateU16, depth := env.indeterminateU16,
          matrix := {}, colorTransform := {}, name := [] }
    let obj := { obj with depth := depth.1 }
    let (obj, pos) :=
      if flags.1 &&& 0x02 ≠ 0 then
        let characterId := readU16 st.data pos
        ({ obj with characterId := characterId.1 }, characterId.2)
      else (obj, pos)
    let (obj, pos) :=
      if flags.1 &&& 0x04 ≠ 0 then
        let br := BitReader.new (st.data.drop pos)
        let matrix := readMatrix br
        let br := matrix.2.alignByte
        ({ obj with matrix := matrix.1 },
         szAdd tagStart (szSub br.getBytePos (szSub tagStart pos)))
      else (obj, pos)
    let (obj, pos) :=
      if flags.1 &&& 0x08 ≠ 0 then
        let br := BitReader.new (st.data.drop pos)
        let ct := readColorTransform br (tagType = TAG_PLACE_OBJECT3)
        let br := ct.2.alignByte
        ({ obj with colorTransform := ct.1 },
         szAdd tagStart (szSub br.getBytePos (szSub tagStart pos)))
      else (obj, pos)
    let obj :=
      if flags.1 &&& 0x20 ≠ 0 then { obj with name := (readString st.data pos).1 } else obj
    some ({ st with displayList := mapInsert depth.1 obj st.displayList },
          tagStart + tagLength)
  else if tagType = TAG_REMOVE_OBJECT then
    let characterId := readU16 st.data pos
    let depth := readU16 st.data characterId.2
    some ({ st with displayList := mapErase depth.1 st.displayList }, depth.2)
  else if tagType = TAG_REMOVE_OBJECT2 then
    let depth := readU16 st.data pos
    some ({ st with displayList := mapErase depth.1 st.displayList }, depth.2)
  else if tagType = TAG_DEFINE_SPRITE then
    let spriteId := readU16 st.data pos
    let frameCount := readU16 st.data spriteId.2
    let spriteEnd := tagStart + tagLength
    match procSprite st spriteId.1 frameCount.2 spriteEnd with
    | none => none
    | some (st, _) => some (st, spriteEnd)
  else some (st, tagStart + tagLength)

/-- The part of `processSprite` around its loop (swf_extractor.cpp:370-382, 422-424): the
descriptor file is opened, the loop `loop st spriteId spriteFrame actionCount pos endPos`
runs from frame 0 and action 0, and the sprite is registered. -/
def processSpriteWith (env : Env)
    (loop : SWFExtractor → Nat → Nat → Nat → Nat → Nat → Option (SWFExtractor × Nat))
    (st : SWFExtractor) (spriteId pos endPos : Nat) : Option (SWFExtractor × Nat) :=
  let metafile := st.outputDir ++ "/sprite_" ++ toString spriteId ++ "_info.txt"
  let st := logSideFile env st metafile
  match loop st spriteId 0 0 pos endPos with
  | none => none
  | some (st, pos) => some (register st spriteId metafile "sprite", pos)

/-- The `while` loop of `processSprite` (swf_extractor.cpp:384-420), bounded by a number
of nested steps (`none` when the bound is used up): each round and each descent into a
nested sprite takes one. -/
def processSpriteLoop (env : Env) :
    Nat → SWFExtractor → Nat → Nat → Nat → Nat → Nat → Option (SWFExtractor × Nat)
  | 0, _, _, _, _, _, _ => none
  | fuel + 1, st, spriteId, spriteFrame, actionCount, pos, endPos =>
    if pos < endPos ∧ pos < st.data.length then
      let head := readTagHead st.data pos
      let tagType := head.1
      let tagLength := head.2.1
      let pos := head.2.2
      if tagType = TAG_END then some (st, pos)
      else
        let tagStart := pos
        if tagType = TAG_SHOW_FRAME then
          processSpriteLoop env fuel st spriteId (spriteFrame + 1) actionCount
            (tagStart + tagLength) endPos
        else if tagType = TAG_DO_ACTION then
          if pos + tagLength ≤ st.data.length then
            let ctx := "sprite_" ++ toString spriteId ++ "_frame_" ++ toString spriteFrame
            let st := extractActionScript env st (slice st.data pos tagLength) spriteFrame
              actionCount ctx
            processSpriteLoop env fuel st spriteId spriteFrame (actionCount + 1)
              (tagStart + tagLength) endPos
          else
            processSpriteLoop env fuel st spriteId spriteFrame actionCount
              (tagStart + tagLength) endPos
        else
          match processTagWith env (processSpriteWith env (processSpriteLoop env fuel))
              st tagType tagLength pos with
          | none => none
          | some (st, _) =>
            processSpriteLoop env fuel st spriteId spriteFrame actionCount
              (tagStart + tagLength) endPos
    else some (st, pos)

/-- The member `processSprite(spriteId, pos, endPos)` with recursion bound `fuel`. -/
def processSprite (env : Env) (fuel : Nat) (st : SWFExtractor) (spriteId pos endPos : Nat) :
    Option (SWFExtractor × Nat) :=
  processSpriteWith env (processSpriteLoop env fuel) st spriteId pos endPos

/-- The member `processTag(tagType, tagLength, pos)`; `fuel` bounds the sprite descent. -/
def processTag (env : Env) (fuel : Nat) (st : SWFExtractor) (tagType tagLength pos : Nat) :
    Option (SWFExtractor × Nat) :=
  processTagWith env (processSprite env fuel) st tagType tagLength pos

/-- The tag loop of `extract` (swf_extractor.cpp:775-787) with recursion bound `fuel`:
the state and the cursor when the loop is left. -/
def extractLoop (env : Env) : Nat → SWFExtractor → Nat → Option (SWFExtractor × Nat)
  | 0, _, _ => none
  | fuel + 1, st, pos =>
    if pos < st.data.length then
      let head := readTagHead st.data pos
      if head.1 = TAG_END then some (st, head.2.2)
      else
        match processTag env fuel st head.1 head.2.1 head.2.2 with
        | none => none
        | some (st, pos) => extractLoop env fuel st pos
    else some (st, pos)

/-- The cursor at which `extract` starts its tag loop (swf_extractor.cpp:757-769): after
the bit-packed frame rectangle, the frame rate and the frame count. -/
def extractHeader (data : List u8) : Nat :=
  let br := BitReader.new data
  let nBits := br.readBits 5
  let x1 := nBits.2.readSignedBits nBits.1
  let x2 := x1.2.readSignedBits nBits.1
  let y1 := x2.2.readSignedBits nBits.1
  let y2 := y1.2.readSignedBits nBits.1
  let pos := y2.2.alignByte.getBytePos
  let frameRate := readU16 data pos
  let frameCount := readU16 data frameRate.2
  frameCount.2

/-- The member `extract()` (swf_extractor.cpp:756-802) up to its summary output. -/
def extract (env : Env) (fuel : Nat) (st : SWFExtractor) : Option (SWFExtractor × Nat) :=
  extractLoop env fuel st (extractHeader st.data)

/-- The result of a run of `extract()`: the first fault of the run, at which the
program ends, or the state and the cursor it returns with; `none` when `fuel` is used
up. -/
def extractOutcome (env : Env) (fuel : Nat) (st : SWFExtractor) :
    Option (Except Fault (SWFExtractor × Nat)) :=
  match extract env fuel st with
  | none => none
  | some (st1, pos) =>
    match st1.fault with
    | some f => some (.error f)
    | none => some (.ok (st1, pos))

/-- The object after `SWFExtractor(outDir)` and a successful `loadSWF` that left `body`
in `data`. -/
def SWFExtractor.loaded (outDir : String) (body : List u8) : SWFExtractor :=
  { data := body, outputDir := outDir, currentFrame := 0, globalFrame := 0,
    characterMap := [], characterTypes := [], displayList := [], jpegTables := [],
    actionCount := 0, abcCount := 0, files := [] }

end Swf

/-! ## The shape renderer (shape_to_svg.cpp)

What the embedding keeps and what it abstracts:

* coordinates are `double`s in the source.  The embedding is generic in the number type `F`
  and takes the four operations the renderer applies to coordinates as a parameter
  (`Arith F`): the constant `0`, the conversion `x / 20.0` of a 32-bit integer, the
  addition, and the comparison `std::abs(a - b) < 0.0001` of `Point::operator==`.
  Theorems stated for every `Arith F` hold for the source's doubles; `Arith.exact` is the
  same arithmetic carried out exactly, over the rationals;
* `struct Matrix` and `readMatrix` have the same text as in swf_extractor.cpp, and the
  embedding of that file (`Swf.Matrix`, `Swf.readMatrix`) is used;
* the text written to the SVG file is kept as structure: a path's `d` attribute is a list
  of commands (`M`, `L`, `Q`, `Z`, and the blank that ends an open sub-path), a `<path>`
  element is its commands with the style values its attributes are printed from, and the
  document is the bounds, the gradient definitions and the path elements.  The formatting
  of numbers is not modelled;
* `FillStyle fill;` leaves `fill.type` uninitialised; `ShapeRenderer.indeterminate` is
  the value found there.
-/

namespace Shape

/-- The operations on `double` coordinates that the renderer uses. -/
structure Arith (F : Type) where
  zero : F
  ofTwips : Int → F
  add : F → F → F
  near : F → F → Bool

/-- The arithmetic of the source carried out exactly: `x / 20`, `+`, and
`|a - b| < 0.0001`, over the rationals. -/
def Arith.exact : Arith ℚ where
  zero := 0
  ofTwips := fun x => (x : ℚ) / 20
  add := fun a b => a + b
  near := fun a b => decide (|a - b| < 1 / 10000)

/-- The struct `RGBA`; the default constructor gives opaque black. -/
structure RGBA where
  r : Nat := 0
  g : Nat := 0
  b : Nat := 0
  a : Nat := 255
deriving DecidableEq, Repr

/-- The struct `Point`. -/
structure Point (F : Type) where
  x : F
  y : F
deriving DecidableEq, Repr

/-- The comparison `Point::operator==` (shape_to_svg.cpp:28-30). -/
def Point.eq {F : Type} (A : Arith F) (p other : Point F) : Bool :=
  A.near p.x other.x && A.near p.y other.y

/-- The struct `Rect`. -/
structure Rect where
  xMin : Int := 0
  xMax : Int := 0
  yMin : Int := 0
  yMax : Int := 0
deriving DecidableEq, Repr

/-- The struct `FillStyle`; `type` is 0 solid, 1 linear, 2 radial, 3 bitmap. -/
structure FillStyle where
  type : Int
  color : RGBA := {}
  matrix : Swf.Matrix := {}
  gradientColors : List RGBA := []
  gradientRatios : List Nat := []
deriving DecidableEq, Repr

/-- The struct `LineStyle` with the defaults of its constructor. -/
structure LineStyle where
  width : Nat := 20
  color : RGBA := {}
  startCap : Nat := 0
  endCap : Nat := 0
  joinStyle : Nat := 0
  miterLimit : Nat := 0
  hasFill : Bool := false
  fillStyle : FillStyle
deriving DecidableEq, Repr

/-- The struct `Edge`. -/
structure Edge (F : Type) where
  p1 : Point F
  p2 : Point F
  control : Point F
  isQuad : Bool
deriving DecidableEq, Repr

/-- The method `Edge::reversed` (shape_to_svg.cpp:78-85). -/
def Edge.reversed {F : Type} (e : Edge F) : Edge F :=
  { p1 := e.p2, p2 := e.p1, control := e.control, isQuad := e.isQuad }

/-- The member `readU16(br)` (shape_to_svg.cpp:154-161); the renderer's `data` is the
buffer of the reader. -/
def readU16 (br : BitReader) : Nat × BitReader :=
  let br := br.alignByte
  let pos := br.getBytePos
  if pos + 2 > br.data.length then (0, br)
  else ((br.data.getD pos 0).val ||| shl32 (br.data.getD (pos + 1) 0).val 8,
        br.setBytePos (pos + 2))

/-- The member `readU8(br)` (shape_to_svg.cpp:163-169). -/
def readU8 (br : BitReader) : Nat × BitReader :=
  let br := br.alignByte
  let pos := br.getBytePos
  if pos ≥ br.data.length then (0, br)
  else ((br.data.getD pos 0).val, br.setBytePos (pos + 1))

/-- The member `readRect(br)` (shape_to_svg.cpp:171-180). -/
def readRect (br : BitReader) : Rect × BitReader :=
  let nBits := br.readBits 5
  let xMin := nBits.2.readSignedBits nBits.1
  let xMax := xMin.2.readSignedBits nBits.1
  let yMin := xMax.2.readSignedBits nBits.1
  let yMax := yMin.2.readSignedBits nBits.1
  ({ xMin := xMin.1, xMax := xMax.1, yMin := yMin.1, yMax := yMax.1 }, yMax.2.alignByte)

/-- The member `readRGB(br)` (shape_to_svg.cpp:202-208). -/
def readRGB (br : BitReader) : RGBA × BitReader :=
  let r := readU8 br
  let g := readU8 r.2
  let b := readU8 g.2
  ({ r := r.1, g := g.1, b := b.1 }, b.2)

/-- The member `readRGBA(br)` (shape_to_svg.cpp:210-217). -/
def readRGBA (br : BitReader) : RGBA × BitReader :=
  let r := readU8 br
  let g := readU8 r.2
  let b := readU8 g.2
  let a := readU8 b.2
  ({ r := r.1, g := g.1, b := b.1, a := a.1 }, a.2)

/-- The choice `hasAlpha ? readRGBA(br) : readRGB(br)`. -/
def readColor (br : BitReader) (hasAlpha : Bool) : RGBA × BitReader :=
  if hasAlpha then readRGBA br else readRGB br

/-- The loop over gradient stops in `readFillStyles` (shape_to_svg.cpp:401-404): the
ratios and colours pushed, in order, and the reader afterwards. -/
def readGradientStops (hasAlpha : Bool) : Nat → BitReader → List Nat × List RGBA × BitReader
  | 0, br => ([], [], br)
  | k + 1, br =>
    let ratio := readU8 br
    let color := readColor ratio.2 hasAlpha
    let rest := readGradientStops hasAlpha k color.2
    (ratio.1 :: rest.1, color.1 :: rest.2.1, rest.2.2)

/-- One round of the loop of `readFillStyles` (shape_to_svg.cpp:388-412): the style
pushed and the reader afterwards. -/
def readFillStyle (shapeVersion indeterminate : Int) (hasAlpha : Bool) (br : BitReader) :
    FillStyle × BitReader :=
  let fill : FillStyle := { type := indeterminate }
  let fillType := readU8 br
  let br := fillType.2
  if fillType.1 = 0x00 then
    let color := readColor br hasAlpha
    ({ fill with type := 0, color := color.1 }, color.2)
  else if fillType.1 = 0x10 ∨ fillType.1 = 0x12 ∨ fillType.1 = 0x13 then
    let matrix := Swf.readMatrix br
    let br := matrix.2.alignByte
    let spread := br.readBits 2
    let interp := spread.2.readBits 2
    let numGradients := interp.2.readBits 4
    let stops := readGradientStops hasAlpha (numGradients.1 % 256) numGradients.2
    let br := if shapeVersion ≥ 4 ∧ fillType.1 = 0x13 then (readU16 stops.2.2).2 else stops.2.2
    ({ fill with type := if fillType.1 = 0x10 then 1 else 2, matrix := matrix.1,
                 gradientRatios := stops.1, gradientColors := stops.2.1 }, br)
  else if fillType.1 ≥ 0x40 then
    let bitmapId := readU16 br
    let matrix := Swf.readMatrix bitmapId.2
    ({ fill with type := 3, matrix := matrix.1 }, matrix.2.alignByte)
  else (fill, br)

/-- The loop of `readFillStyles` (shape_to_svg.cpp:387-413) with `count` rounds left. -/
def readFillStylesLoop (shapeVersion indeterminate : Int) (hasAlpha : Bool) :
    Nat → BitReader → List FillStyle × BitReader
  | 0, br => ([], br)
  | count + 1, br =>
    let fill := readFillStyle shapeVersion indeterminate hasAlpha br
    let rest := readFillStylesLoop shapeVersion indeterminate hasAlpha count fill.2
    (fill.1 :: rest.1, rest.2)

/-- The count read at the head of a style table (shape_to_svg.cpp:382-385, 418-421): a
byte, replaced by a 16-bit value when it is `0xFF` and the shape version is at least 2. -/
def readStyleCount (shapeVersion : Int) (br : BitReader) : Nat × BitReader :=
  let count := readU8 br
  if count.1 = 0xFF ∧ shapeVersion ≥ 2 then readU16 count.2 else count

/-- The member `readFillStyles(br, hasAlpha)` (shape_to_svg.cpp:380-414): the new
`activeFillStyles` and the reader afterwards. -/
def readFillStyles (shapeVersion indeterminate : Int) (hasAlpha : Bool) (br : BitReader) :
    List FillStyle × BitReader :=
  let count := readStyleCount shapeVersion br
  readFillStylesLoop shapeVersion indeterminate hasAlpha count.1 count.2

/-- One round of the loop of `readLineStyles` (shape_to_svg.cpp:424-450).  A version-4
style with the has-fill bit calls `readFillStyles`, which replaces `activeFillStyles`;
the round returns the fill-style table as it leaves it. -/
def readLineStyle (shapeVersion indeterminate : Int) (hasAlpha : Bool)
    (activeFillStyles : List FillStyle) (br : BitReader) :
    List FillStyle × LineStyle × BitReader :=
  let style : LineStyle := { fillStyle := { type := indeterminate } }
  let width := readU16 br
  let style := { style with width := width.1 }
  let br := width.2
  if shapeVersion ≥ 4 then
    let startCap := br.readBits 2
    let joinStyle := startCap.2.readBits 2
    let hasFill := joinStyle.2.readBits 1
    let f1 := hasFill.2.readBits 1
    let f2 := f1.2.readBits 1
    let f3 := f2.2.readBits 1
    let f4 := f3.2.readBits 5
    let f5 := f4.2.readBits 1
    let endCap := f5.2.readBits 2
    let br := endCap.2.alignByte
    let style := { style with startCap := startCap.1, joinStyle := joinStyle.1,
                              hasFill := hasFill.1 ≠ 0, endCap := endCap.1 }
    let miter := if joinStyle.1 = 2 then readU16 br else (style.miterLimit, br)
    let style := { style with miterLimit := miter.1 }
    let br := miter.2
    if hasFill.1 ≠ 0 then
      let fills := readFillStyles shapeVersion indeterminate hasAlpha br
      (fills.1, { style with color := { r := 0, g := 0, b := 0 } }, fills.2)
    else
      let color := readRGBA br
      (activeFillStyles, { style with color := color.1 }, color.2)
  else
    let color := readColor br hasAlpha
    (activeFillStyles, { style with color := color.1 }, color.2)

/-- The loop of `readLineStyles` (shape_to_svg.cpp:423-451) with `count` rounds left:
the fill-style table afterwards, the line styles pushed and the reader. -/
def readLineStylesLoop (shapeVersion indeterminate : Int) (hasAlpha : Bool) :
    Nat → List FillStyle → BitReader → List FillStyle × List LineStyle × BitReader
  | 0, fills, br => (fills, [], br)
  | count + 1, fills, br =>
    let style := readLineStyle shapeVersion indeterminate hasAlpha fills br
    let rest := readLineStylesLoop shapeVersion indeterminate hasAlpha count style.1 style.2.2
    (rest.1, style.2.1 :: rest.2.1, rest.2.2)

/-- The member `readLineStyles(br, hasAlpha)` (shape_to_svg.cpp:416-452): the
`activeFillStyles` it leaves, the new `activeLineStyles` and the reader afterwards. -/
def readLineStyles (shapeVersion indeterminate : Int) (hasAlpha : Bool)
    (activeFillStyles : List FillStyle) (br : BitReader) :
    List FillStyle × List LineStyle × BitReader :=
  let count := readStyleCount shapeVersion br
  readLineStylesLoop shapeVersion indeterminate hasAlpha count.1 activeFillStyles count.2


/-- A command of a path's `d` attribute: `M x y`, `L x y`, `Q cx cy x y`, `Z`, and the
blank written at the end of a sub-path that is not closed. -/
inductive PathCmd (F : Type) where
  | M (p : Point F)
  | L (p : Point F)
  | Q (control p : Point F)
  | Z
  | gap
deriving DecidableEq, Repr

/-- The drawing segment written for an edge (shape_to_svg.cpp:271-276 and 284-289): `Q`
with the control point for a quadratic edge, `L` otherwise, to the edge's end point. -/
def segment {F : Type} (e : Edge F) : PathCmd F :=
  if e.isQuad then .Q e.control e.p2 else .L e.p2

/-- The `for` loop inside `edgesToPathD` (shape_to_svg.cpp:282-295): the first edge, in
list order, whose start point compares equal to `tip`, and the list without it. -/
def findNext {F : Type} (A : Arith F) (tip : Point F) :
    List (Edge F) → Option (Edge F × List (Edge F))
  | [] => none
  | e :: rest =>
    if Point.eq A e.p1 tip then some (e, rest)
    else
      match findNext A tip rest with
      | none => none
      | some (found, rest1) => some (found, e :: rest1)

/-- The loop `while (found)` of `edgesToPathD` (shape_to_svg.cpp:280-296), bounded by
`fuel` rounds (`none` when the bound is used up): the segments written and the edges
left. -/
def extendPath {F : Type} (A : Arith F) :
    Nat → Point F → List (Edge F) → Option (List (PathCmd F) × List (Edge F))
  | 0, _, _ => none
  | fuel + 1, tip, edges =>
    match findNext A tip edges with
    | none => some ([], edges)
    | some (e, rest) =>
      match extendPath A fuel e.p2 rest with
      | none => none
      | some (cmds, left) => some (segment e :: cmds, left)

/-- The loop `while (!edges.empty())` of `edgesToPathD` (shape_to_svg.cpp:265-303),
bounded by `fuel` rounds: the commands written and the edges left. -/
def edgesToPathDLoop {F : Type} (A : Arith F) (isFill : Bool) :
    Nat → List (Edge F) → Option (List (PathCmd F) × List (Edge F))
  | 0, _ => none
  | _ + 1, [] => some ([], [])
  | fuel + 1, current :: edges =>
    match extendPath A fuel current.p2 edges with
    | none => none
    | some (cmds, left) =>
      match edgesToPathDLoop A isFill fuel left with
      | none => none
      | some (more, final) =>
        some (PathCmd.M current.p1 :: segment current :: cmds
                ++ (if isFill then PathCmd.Z else PathCmd.gap) :: more, final)

/-- The member `edgesToPathD(edges, isFill)` (shape_to_svg.cpp:258-305): the commands of
the path data and the list `edges` as the call leaves it. -/
def edgesToPathD {F : Type} (A : Arith F) (fuel : Nat) (edges : List (Edge F)) (isFill : Bool) :
    Option (List (PathCmd F) × List (Edge F)) :=
  if edges.isEmpty then some ([], edges) else edgesToPathDLoop A isFill fuel edges

/-- The value of a fill's `fill` / `stroke` attribute. -/
inductive Paint where
  | rgb (r g b : Nat)
  | gradient (id : Nat)
  | grey
deriving DecidableEq, Repr

/-- The value of a fill's opacity attributes: `alpha / 255.0` or the text `1`. -/
inductive Opacity where
  | alpha (a : Nat)
  | one
deriving DecidableEq, Repr

/-- A `<path>` element of the document: a fill with its paint and opacity, or a stroke
with the line style its attributes are printed from. -/
inductive PathElem (F : Type) where
  | fill (d : List (PathCmd F)) (paint : Paint) (opacity : Opacity)
  | stroke (d : List (PathCmd F)) (style : LineStyle)
deriving DecidableEq, Repr

/-- A gradient definition appended to `defsContent` by `defineGradient`. -/
structure GradientDef where
  id : Nat
  fill : FillStyle
deriving DecidableEq, Repr

/-- The fields of `ShapeRenderer` that rendering works on, and the value of an
uninitialised `FillStyle::type`. -/
structure ShapeRenderer (F : Type) where
  shapeVersion : Int
  indeterminate : Int
  bounds : Rect := {}
  globalGradientCount : Nat := 0
  fillLayers : List (Nat × List (Edge F)) := []
  strokeLayers : List (Nat × List (Edge F)) := []
  activeFillStyles : List FillStyle := []
  activeLineStyles : List LineStyle := []
  svgContent : List (PathElem F) := []
  defsContent : List GradientDef := []

/-- The statement `layers[idx].push_back(edge)` on a `std::map<int, std::list<Edge>>`. -/
def pushEdge {F : Type} (layers : List (Nat × List (Edge F))) (idx : Nat) (edge : Edge F) :
    List (Nat × List (Edge F)) :=
  Swf.mapInsert idx (((Swf.mapFind idx layers).getD []) ++ [edge]) layers

/-- The loop "Render Fills" of `flushLayers` (shape_to_svg.cpp:309-342) over the layers
in key order; `none` when a path runs out of `fuel`. -/
def flushFills {F : Type} (A : Arith F) (fuel : Nat) :
    List (Nat × List (Edge F)) → ShapeRenderer F → Option (ShapeRenderer F)
  | [], r => some r
  | (styleIdx, edges) :: layers, r =>
    if edges.isEmpty then flushFills A fuel layers r
    else if styleIdx < 1 ∨ styleIdx > r.activeFillStyles.length then flushFills A fuel layers r
    else
      match r.activeFillStyles.get? (styleIdx - 1) with
      | none => flushFills A fuel layers r
      | some fs =>
        let (paint, opacity, r) :=
          if fs.type = 0 then (Paint.rgb fs.color.r fs.color.g fs.color.b, Opacity.alpha fs.color.a, r)
          else if fs.type = 1 ∨ fs.type = 2 then
            (Paint.gradient r.globalGradientCount, Opacity.one,
             { r with globalGradientCount := r.globalGradientCount + 1,
                      defsContent := r.defsContent ++ [⟨r.globalGradientCount, fs⟩] })
          else (Paint.grey, Opacity.one, r)
        match edgesToPathD A fuel edges true with
        | none => none
        | some (d, _) =>
          flushFills A fuel layers
            { r with svgContent := r.svgContent ++ [PathElem.fill d paint opacity] }

/-- The loop "Render Strokes" of `flushLayers` (shape_to_svg.cpp:345-374). -/
def flushStrokes {F : Type} (A : Arith F) (fuel : Nat) :
    List (Nat × List (Edge F)) → ShapeRenderer F → Option (ShapeRenderer F)
  | [], r => some r
  | (styleIdx, edges) :: layers, r =>
    if edges.isEmpty then flushStrokes A fuel layers r
    else if styleIdx < 1 ∨ styleIdx > r.activeLineStyles.length then flushStrokes A fuel layers r
    else
      match r.activeLineStyles.get? (styleIdx - 1) with
      | none => flushStrokes A fuel layers r
      | some ls =>
        match edgesToPathD A fuel edges false with
        | none => none
        | some (d, _) =>
          flushStrokes A fuel layers
            { r with svgContent := r.svgContent ++ [PathElem.stroke d ls] }

/-- The member `flushLayers()` (shape_to_svg.cpp:307-378). -/
def flushLayers {F : Type} (A : Arith F) (fuel : Nat) (r : ShapeRenderer F) :
    Option (ShapeRenderer F) :=
  match flushFills A fuel r.fillLayers r with
  | none => none
  | some r1 =>
    match flushStrokes A fuel r1.strokeLayers r1 with
    | none => none
    | some r2 => some { r2 with fillLayers := [], strokeLayers := [] }


/-- The local variables of `renderToSVG` that the record loop keeps besides the reader
(shape_to_svg.cpp:488-494). -/
structure Pen (F : Type) where
  numFillBits : Nat
  numLineBits : Nat
  currentPos : Point F
  currentFill0 : Nat := 0
  currentFill1 : Nat := 0
  currentLine : Nat := 0

/-- What one round of the record loop reads from the bit stream: the end record, a
style change (its flags, the move target in twips, the new style indices, and with the
new-styles flag the two tables and the two field widths read), a straight edge with its
deltas, or a curved edge with its control and anchor deltas. -/
inductive Record where
  | endOfShape
  | styleChange (moveTo : Option (Int × Int)) (fill0 fill1 line : Option Nat)
      (newStyles : Option (List FillStyle × List LineStyle × Nat × Nat))
  | straight (dx dy : Int)
  | curve (cdx cdy adx ady : Int)
deriving DecidableEq, Repr

/-- The reads of one round of the record loop (shape_to_svg.cpp:497-552), in the order
of the source.  The reads depend on the reader, the two field widths, the version and
`hasAlpha` only, so they are gathered here and the updates they feed are in
`applyRecord`. -/
def readRecord (shapeVersion indeterminate : Int) (hasAlpha : Bool)
    (numFillBits numLineBits : Nat) (br : BitReader) : Record × BitReader :=
  let typeFlag := br.readBits 1
  let br := typeFlag.2
  if typeFlag.1 = 0 then
    let flags := br.readBits 5
    let br := flags.2
    if flags.1 = 0 then (.endOfShape, br)
    else
      let (moveTo, br) :=
        if flags.1 &&& 0x01 ≠ 0 then
          let nBits := br.readBits 5
          let x := nBits.2.readSignedBits nBits.1
          let y := x.2.readSignedBits nBits.1
          (some (x.1, y.1), y.2)
        else (none, br)
      let (fill0, br) :=
        if flags.1 &&& 0x02 ≠ 0 then
          let v := br.readBits numFillBits
          (some v.1, v.2)
        else (none, br)
      let (fill1, br) :=
        if flags.1 &&& 0x04 ≠ 0 then
          let v := br.readBits numFillBits
          (some v.1, v.2)
        else (none, br)
      let (line, br) :=
        if flags.1 &&& 0x08 ≠ 0 then
          let v := br.readBits numLineBits
          (some v.1, v.2)
        else (none, br)
      if flags.1 &&& 0x10 ≠ 0 then
        let fills := readFillStyles shapeVersion indeterminate hasAlpha br
        let lines := readLineStyles shapeVersion indeterminate hasAlpha fills.1 fills.2
        let nf := lines.2.2.readBits 4
        let nl := nf.2.readBits 4
        (.styleChange moveTo fill0 fill1 line (some (lines.1, lines.2.1, nf.1, nl.1)), nl.2)
      else (.styleChange moveTo fill0 fill1 line none, br)
  else
    let straightFlag := br.readBits 1
    let numBits := straightFlag.2.readBits 4
    let br := numBits.2
    let numBits := numBits.1 + 2
    if straightFlag.1 ≠ 0 then
      let generalLine := br.readBits 1
      let br := generalLine.2
      if generalLine.1 ≠ 0 then
        let dx := br.readSignedBits numBits
        let dy := dx.2.readSignedBits numBits
        (.straight dx.1 dy.1, dy.2)
      else
        let vert := br.readBits 1
        let d := vert.2.readSignedBits numBits
        if vert.1 ≠ 0 then (.straight 0 d.1, d.2) else (.straight d.1 0, d.2)
    else
      let cdx := br.readSignedBits numBits
      let cdy := cdx.2.readSignedBits numBits
      let adx := cdy.2.readSignedBits numBits
      let ady := adx.2.readSignedBits numBits
      (.curve cdx.1 cdy.1 adx.1 ady.1, ady.2)

/-- The edge built by an edge record from the pen position (shape_to_svg.cpp:521-552);
`none` for a record that is not an edge.  A straight edge keeps the control point of a
default-constructed `Edge`, the origin. -/
def edgeOf {F : Type} (A : Arith F) (currentPos : Point F) : Record → Option (Edge F)
  | .straight dx dy =>
    some { p1 := currentPos,
           p2 := ⟨A.add currentPos.x (A.ofTwips dx), A.add currentPos.y (A.ofTwips dy)⟩,
           control := ⟨A.zero, A.zero⟩, isQuad := false }
  | .curve cdx cdy adx ady =>
    let control : Point F :=
      ⟨A.add currentPos.x (A.ofTwips cdx), A.add currentPos.y (A.ofTwips cdy)⟩
    some { p1 := currentPos,
           p2 := ⟨A.add control.x (A.ofTwips adx), A.add control.y (A.ofTwips ady)⟩,
           control := control, isQuad := true }
  | _ => none

/-- The end of an edge record (shape_to_svg.cpp:554-564): the edge goes, reversed, to the
layer of `currentFill0`, as it is to the layers of `currentFill1` and `currentLine`, each
when the index is not 0, and the pen moves to the edge's end point. -/
def emitEdge {F : Type} (r : ShapeRenderer F) (pen : Pen F) (edge : Edge F) :
    ShapeRenderer F × Pen F :=
  let fillLayers :=
    if pen.currentFill0 ≠ 0 then pushEdge r.fillLayers pen.currentFill0 edge.reversed
    else r.fillLayers
  let fillLayers :=
    if pen.currentFill1 ≠ 0 then pushEdge fillLayers pen.currentFill1 edge else fillLayers
  let strokeLayers :=
    if pen.currentLine ≠ 0 then pushEdge r.strokeLayers pen.currentLine edge
    else r.strokeLayers
  ({ r with fillLayers := fillLayers, strokeLayers := strokeLayers },
   { pen with currentPos := edge.p2 })

/-- The updates of one round of the record loop for the record read
(shape_to_svg.cpp:502-519 and 521-564); `none` when `flushLayers` runs out of `fuel`. -/
def applyRecord {F : Type} (A : Arith F) (fuel : Nat) (r : ShapeRenderer F) (pen : Pen F) :
    Record → Option (ShapeRenderer F × Pen F)
  | .endOfShape => some (r, pen)
  | .styleChange moveTo fill0 fill1 line newStyles =>
    let pen :=
      match moveTo with
      | some (x, y) => { pen with currentPos := ⟨A.ofTwips x, A.ofTwips y⟩ }
      | none => pen
    let pen := match fill0 with
      | some v => { pen with currentFill0 := v }
      | none => pen
    let pen := match fill1 with
      | some v => { pen with currentFill1 := v }
      | none => pen
    let pen := match line with
      | some v => { pen with currentLine := v }
      | none => pen
    match newStyles with
    | some (fills, lines, nf, nl) =>
      match flushLayers A fuel r with
      | none => none
      | some r1 =>
        some ({ r1 with activeFillStyles := fills, activeLineStyles := lines },
              { pen with numFillBits := nf, numLineBits := nl })
    | none => some (r, pen)
  | record =>
    match edgeOf A pen.currentPos record with
    | some edge => some (emitEdge r pen edge)
    | none => some (r, pen)

/-- The loop `while (true)` of `renderToSVG` (shape_to_svg.cpp:496-566), bounded by
`fuel` rounds: the renderer, the pen and the reader when the end record is read. -/
def recordLoop {F : Type} (A : Arith F) (hasAlpha : Bool) :
    Nat → ShapeRenderer F → Pen F → BitReader → Option (ShapeRenderer F × Pen F × BitReader)
  | 0, _, _, _ => none
  | fuel + 1, r, pen, br =>
    let rec1 := readRecord r.shapeVersion r.indeterminate hasAlpha pen.numFillBits
      pen.numLineBits br
    match rec1.1 with
    | .endOfShape => some (r, pen, rec1.2)
    | record =>
      match applyRecord A fuel r pen record with
      | none => none
      | some (r1, pen1) => recordLoop A hasAlpha fuel r1 pen1 rec1.2

/-- The document written by `renderToSVG` (shape_to_svg.cpp:573-587): the bounds the
`svg` element's size and view box are printed from, the gradient definitions (the `defs`
block is written when there are any) and the path elements. -/
structure SvgDoc (F : Type) where
  bounds : Rect
  defs : List GradientDef
  paths : List (PathElem F)

/-- The renderer and the pen when `renderToSVG` enters its record loop
(shape_to_svg.cpp:469-494), with the reader at the first record. -/
def renderStart {F : Type} (A : Arith F) (shapeVersion indeterminate : Int) (data : List u8) :
    ShapeRenderer F × Pen F × BitReader :=
  let br := BitReader.new data
  let id := readU16 br
  let bounds := readRect id.2
  let br :=
    if shapeVersion = 4 then
      let edgeBounds := readRect bounds.2
      let f1 := edgeBounds.2.readBits 5
      let f2 := f1.2.readBits 1
      let f3 := f2.2.readBits 1
      let f4 := f3.2.readBits 1
      f4.2.alignByte
    else bounds.2
  let hasAlpha : Bool := shapeVersion ≥ 3
  let fills := readFillStyles shapeVersion indeterminate hasAlpha br
  let lines := readLineStyles shapeVersion indeterminate hasAlpha fills.1 fills.2
  let numFillBits := lines.2.2.readBits 4
  let numLineBits := numFillBits.2.readBits 4
  ({ shapeVersion := shapeVersion, indeterminate := indeterminate, bounds := bounds.1,
     activeFillStyles := lines.1, activeLineStyles := lines.2.1 },
   { numFillBits := numFillBits.1, numLineBits := numLineBits.1,
     currentPos := ⟨A.zero, A.zero⟩ },
   numLineBits.2)

/-- The renderer when the record loop of `renderToSVG` has ended, before the final
`flushLayers()` (shape_to_svg.cpp:568). -/
def decodeShape {F : Type} (A : Arith F) (fuel : Nat) (shapeVersion indeterminate : Int)
    (data : List u8) : Option (ShapeRenderer F) :=
  let start := renderStart A shapeVersion indeterminate data
  match recordLoop A (shapeVersion ≥ 3) fuel start.1 start.2.1 start.2.2 with
  | none => none
  | some (r, _, _) => some r

/-- The member `renderToSVG(outputFile)` (shape_to_svg.cpp:468-590) on a renderer loaded
with `data`: the document written, `some none` when the output file does not open, and
`none` when `fuel` is used up. -/
def renderToSVG {F : Type} (A : Arith F) (fuel : Nat) (shapeVersion indeterminate : Int)
    (data : List u8) (canOpen : Bool) : Option (Option (SvgDoc F)) :=
  match decodeShape A fuel shapeVersion indeterminate data with
  | none => none
  | some r =>
    match flushLayers A fuel r with
    | none => none
    | some r1 =>
      if canOpen then some (some ⟨r1.bounds, r1.defsContent, r1.svgContent⟩) else some none

/-! ### Vocabulary of the statements about the shape renderer -/

/-- The path data of one sub-path as the specification describes it: one `M` at the start
point of its first edge, one drawing segment per edge in order, and one `Z` for a fill
(the blank for a stroke). -/
def subPathD {F : Type} (isFill : Bool) : List (Edge F) → List (PathCmd F)
  | [] => []
  | e :: rest =>
    PathCmd.M e.p1 :: (e :: rest).map segment ++ [if isFill then PathCmd.Z else PathCmd.gap]

/-- Whether a command is an `M`. -/
def PathCmd.isMove {F : Type} : PathCmd F → Bool
  | .M _ => true
  | _ => false

/-- Whether a command is a drawing segment, `L` or `Q`. -/
def PathCmd.isSegment {F : Type} : PathCmd F → Bool
  | .L _ => true
  | .Q _ _ => true
  | _ => false

/-- Whether a command is a `Z`. -/
def PathCmd.isClose {F : Type} : PathCmd F → Bool
  | .Z => true
  | _ => false

/-- The property the specification states of a fill layer: every edge has an end point
that compares equal (`Point::operator==`) to the start point of an edge of the layer. -/
def layerChains {F : Type} (A : Arith F) (layer : List (Edge F)) : Bool :=
  layer.all (fun e => layer.any (fun e2 => Point.eq A e2.p1 e.p2))

/-- The records that the loop reads from `br` on, in order, are the given ones (with the
field widths fixed, as no record of the list brings new styles). -/
def readsRecords (shapeVersion indeterminate : Int) (hasAlpha : Bool)
    (numFillBits numLineBits : Nat) : BitReader → List Record → Prop
  | _, [] => True
  | br, record :: rest =>
    (readRecord shapeVersion indeterminate hasAlpha numFillBits numLineBits br).1 = record ∧
    readsRecords shapeVersion indeterminate hasAlpha numFillBits numLineBits
      (readRecord shapeVersion indeterminate hasAlpha numFillBits numLineBits br).2 rest

/-- Whether a reader yields a given run of records can be computed. -/
instance readsRecords.instDecidable (shapeVersion indeterminate : Int) (hasAlpha : Bool)
    (numFillBits numLineBits : Nat) :
    ∀ (br : BitReader) (l : List Record),
      Decidable (readsRecords shapeVersion indeterminate hasAlpha numFillBits numLineBits br l)
  | _, [] => isTrue trivial
  | br, _ :: rest =>
    @instDecidableAnd _ _ inferInstance
      (readsRecords.instDecidable shapeVersion indeterminate hasAlpha numFillBits numLineBits
        (readRecord shapeVersion indeterminate hasAlpha numFillBits numLineBits br).2 rest)

/-- The straight edges drawn from the point `p` by a list of deltas in twips, each edge
starting where the one before ends. -/
def straightEdges {F : Type} (A : Arith F) : Point F → List (Int × Int) → List (Edge F)
  | _, [] => []
  | p, d :: ds =>
    let e : Edge F :=
      { p1 := p, p2 := ⟨A.add p.x (A.ofTwips d.1), A.add p.y (A.ofTwips d.2)⟩,
        control := ⟨A.zero, A.zero⟩, isQuad := false }
    e :: straightEdges A e.p2 ds

/-- The fill layers when layer 1 holds the edges `l` and no other layer exists. -/
def singleLayer {F : Type} (l : List (Edge F)) : List (Nat × List (Edge F)) :=
  match l with
  | [] => []
  | _ :: _ => [(1, l)]

/-- The pen position after a style change with the given move target, from `p`. -/
def moveTarget {F : Type} (A : Arith F) (p : Point F) : Option (Int × Int) → Point F
  | some (x, y) => ⟨A.ofTwips x, A.ofTwips y⟩
  | none => p

end Shape

/-! ## The constant pool of the bytecode container (abcdec_s2.cpp) -/

namespace Abc

/-- The call `in.read(buf, n)` of `std::istream`: the bytes stored in the buffer and the
stream after the call.  With fewer than `n` bytes left, the bytes that remain are stored
and the stream is no longer good; a stream that is not good stores nothing. -/
def IStream.read (s : IStream) (n : Nat) : List u8 × IStream :=
  if s.good then
    if n ≤ s.rest.length then (s.rest.take n, ⟨s.rest.drop n, true⟩)
    else (s.rest, ⟨[], false⟩)
  else ([], s)

/-- The call `in.get()` of `std::istream` assigned to a `u8`: the next byte, or `EOF`
(-1, the byte 0xFF) when no byte can be extracted. -/
def IStream.get (s : IStream) : u8 × IStream :=
  if s.good then
    match s.rest with
    | b :: rest => (b, ⟨rest, true⟩)
    | [] => (0xFF, ⟨[], false⟩)
  else (0xFF, s)

/-- The guard of `safeResize` (abcdec_s2.cpp:45-50): more than two million items is an
error; the resize itself is part of the table built by the caller. -/
def safeResize (count : Nat) (context : String) : Except String Unit :=
  if count > 2000000 then
    .error ("File corruption detected: " ++ context ++ " count too high ("
      ++ toString count ++ ")")
  else .ok ()

/-- The function `readString` (abcdec_s2.cpp:73-79): a string of `len` zero bytes
overwritten from the stream. -/
def readString (s : IStream) : Except String (List u8 × IStream) :=
  match readU30 s with
  | .error e => .error e
  | .ok (len, s1) =>
    if len > 1000000 then .error "String length too big"
    else .ok ((s1.read len).1 ++ List.replicate (len - (s1.read len).1.length) 0,
              (s1.read len).2)

/-- A run of `n` calls `readU30(in)`, as in the loops of the integer tables, of the
namespace sets and of the type parameters. -/
def readU30s : Nat → IStream → Except String (List Nat × IStream)
  | 0, s => .ok ([], s)
  | n + 1, s =>
    match readU30 s with
    | .error e => .error e
    | .ok (v, s1) =>
      match readU30s n s1 with
      | .error e => .error e
      | .ok (vs, s2) => .ok (v :: vs, s2)

/-- The loop of the double table (abcdec_s2.cpp:225-229): each entry is the bytes that
`in.read` stored in `d`; with fewer than 8 of them the rest of `d` is uninitialised. -/
def readDoubles : Nat → IStream → List (List u8) × IStream
  | 0, s => ([], s)
  | n + 1, s =>
    ((s.read 8).1 :: (readDoubles n (s.read 8).2).1, (readDoubles n (s.read 8).2).2)

/-- The loop of the string table (abcdec_s2.cpp:233). -/
def readStrings : Nat → IStream → Except String (List (List u8) × IStream)
  | 0, s => .ok ([], s)
  | n + 1, s =>
    match readString s with
    | .error e => .error e
    | .ok (v, s1) =>
      match readStrings n s1 with
      | .error e => .error e
      | .ok (vs, s2) => .ok (v :: vs, s2)

/-- The struct `Namespace`; `resize` fills new entries with zeros. -/
structure Namespace where
  kind : u8 := 0
  name : Nat := 0
deriving DecidableEq, Repr

/-- The loop of the namespace table (abcdec_s2.cpp:237-240). -/
def readNamespaces : Nat → IStream → Except String (List Namespace × IStream)
  | 0, s => .ok ([], s)
  | n + 1, s =>
    match readU30 s.get.2 with
    | .error e => .error e
    | .ok (name, s1) =>
      match readNamespaces n s1 with
      | .error e => .error e
      | .ok (vs, s2) => .ok ({ kind := s.get.1, name := name } :: vs, s2)

/-- The loop of the namespace sets (abcdec_s2.cpp:243-246): a count and that many
values, all dropped. -/
def skipNsSets : Nat → IStream → Except String IStream
  | 0, s => .ok s
  | n + 1, s =>
    match readU30 s with
    | .error e => .error e
    | .ok (cnt, s1) =>
      match readU30s cnt s1 with
      | .error e => .error e
      | .ok (_, s2) => skipNsSets n s2

/-- The struct `Multiname`. -/
structure Multiname where
  kind : u8 := 0
  nsIndex : Nat := 0
  nameIndex : Nat := 0
deriving DecidableEq, Repr

/-- The struct `ConstantPool`; a double is kept as the bytes read for it. -/
structure ConstantPool where
  ints : List Int := []
  uints : List Nat := []
  doubles : List (List u8) := []
  strings : List (List u8) := []
deriving DecidableEq, Repr

/-- The struct `MethodInfo`. -/
structure MethodInfo where
  name : Nat := 0
  paramCount : Nat := 0
deriving DecidableEq, Repr

/-- The struct `MethodBody`. -/
structure MethodBody where
  method : Nat := 0
  maxStack : Nat := 0
  localCount : Nat := 0
  code : List u8 := []
deriving DecidableEq, Repr

/-- The struct `Trait`. -/
structure Trait where
  name : Nat := 0
  kind : u8 := 0
  methodIndex : Nat := 0
  classIndex : Nat := 0
deriving DecidableEq, Repr

/-- The struct `Script`. -/
structure Script where
  init : Nat := 0
  traits : List Trait := []
deriving DecidableEq, Repr

/-- The struct `InstanceInfo`; `resize` fills the fields of a new entry with zeros. -/
structure InstanceInfo where
  name : Nat := 0
  superName : Nat := 0
  iinit : Nat := 0
  traits : List Trait := []
deriving DecidableEq, Repr

/-- The struct `ClassInfo`. -/
structure ClassInfo where
  cinit : Nat := 0
  traits : List Trait := []
deriving DecidableEq, Repr

/-- The struct `ClassDef`; the field `inst` is the member `instance` of the source. -/
structure ClassDef where
  inst : InstanceInfo := {}
  statics : ClassInfo := {}
deriving DecidableEq, Repr

/-- The struct `ABC`. -/
structure ABC where
  cp : ConstantPool := {}
  multinames : List Multiname := []
  methods : List MethodInfo := []
  bodies : List MethodBody := []
  scripts : List Script := []
  classes : List ClassDef := []
  namespaces : List Namespace := []
deriving DecidableEq, Repr

/-- A vector after `resize(count)` and the loop `for (i = 1; i < count; i++)`: entry 0
keeps the value `resize` gave it, the others are the entries read. -/
def tableOf {α : Type} (count : Nat) (zero : α) (entries : List α) : List α :=
  if count = 0 then [] else zero :: entries

/-- The statements of `parseConstantPool` before the multiname table
(abcdec_s2.cpp:215-246): the integer, unsigned, double, string, namespace and
namespace-set tables. -/
def parseTablesBefore (s : IStream) : Except String (ABC × IStream) :=
  match readU30 s with
  | .error e => .error e
  | .ok (ic, s) =>
  match safeResize ic "Integer Pool" with
  | .error e => .error e
  | .ok _ =>
  match readU30s (ic - 1) s with
  | .error e => .error e
  | .ok (ints, s) =>
  match readU30 s with
  | .error e => .error e
  | .ok (uc, s) =>
  match safeResize uc "UInt Pool" with
  | .error e => .error e
  | .ok _ =>
  match readU30s (uc - 1) s with
  | .error e => .error e
  | .ok (uints, s) =>
  match readU30 s with
  | .error e => .error e
  | .ok (dc, s) =>
  match safeResize dc "Double Pool" with
  | .error e => .error e
  | .ok _ =>
  match readU30 (readDoubles (dc - 1) s).2 with
  | .error e => .error e
  | .ok (sc, s1) =>
  match safeResize sc "String Pool" with
  | .error e => .error e
  | .ok _ =>
  match readStrings (sc - 1) s1 with
  | .error e => .error e
  | .ok (strings, s2) =>
  match readU30 s2 with
  | .error e => .error e
  | .ok (nsc, s3) =>
  match safeResize nsc "Namespaces" with
  | .error e => .error e
  | .ok _ =>
  match readNamespaces (nsc - 1) s3 with
  | .error e => .error e
  | .ok (namespaces, s4) =>
  match readU30 s4 with
  | .error e => .error e
  | .ok (nssc, s5) =>
  match skipNsSets (nssc - 1) s5 with
  | .error e => .error e
  | .ok s6 =>
    .ok ({ cp := { ints := tableOf ic 0 (ints.map toI32),
                   uints := tableOf uc 0 uints,
                   doubles := tableOf dc [0, 0, 0, 0, 0, 0, 0, 0] (readDoubles (dc - 1) s).1,
                   strings := tableOf sc [] strings },
           namespaces := tableOf nsc {} namespaces }, s6)

/-- The value of `kind` after `u8 kind; in.read((char*)&kind, 1);`
(abcdec_s2.cpp:252-253): the byte read, or, when no byte could be read, what the
uninitialised variable holds, `garbage`. -/
def kindOf (garbage : u8) (s : IStream) : u8 := (s.read 1).1.headD garbage

/-- One round of the multiname loop (abcdec_s2.cpp:252-287): the kind byte and the
`switch` on it. -/
def readMultiname (garbage : u8) (s : IStream) : Except String (Multiname × IStream) :=
  let kind := kindOf garbage s
  let s := (s.read 1).2
  if kind = 0x07 ∨ kind = 0x0D then
    match readU30 s with
    | .error e => .error e
    | .ok (nsIndex, s1) =>
      match readU30 s1 with
      | .error e => .error e
      | .ok (nameIndex, s2) => .ok ({ kind := kind, nsIndex := nsIndex, nameIndex := nameIndex }, s2)
  else if kind = 0x0F ∨ kind = 0x10 then
    match readU30 s with
    | .error e => .error e
    | .ok (nameIndex, s1) => .ok ({ kind := kind, nameIndex := nameIndex }, s1)
  else if kind = 0x11 ∨ kind = 0x12 then
    .ok ({ kind := kind }, s)
  else if kind = 0x09 ∨ kind = 0x0E then
    match readU30 s with
    | .error e => .error e
    | .ok (nameIndex, s1) =>
      match readU30 s1 with
      | .error e => .error e
      | .ok (_, s2) => .ok ({ kind := kind, nameIndex := nameIndex }, s2)
  else if kind = 0x1B ∨ kind = 0x1C then
    match readU30 s with
    | .error e => .error e
    | .ok (_, s1) => .ok ({ kind := kind }, s1)
  else if kind = 0x1D then
    match readU30 s with
    | .error e => .error e
    | .ok (nameIndex, s1) =>
      match readU30 s1 with
      | .error e => .error e
      | .ok (gcount, s2) =>
        match readU30s gcount s2 with
        | .error e => .error e
        | .ok (_, s3) => .ok ({ kind := kind, nameIndex := nameIndex }, s3)
  else .error ("Unknown Multiname Kind: " ++ toString kind.val)

/-- The multiname loop (abcdec_s2.cpp:251-288) from entry `i` on, for `n` entries;
`garbage i` is what the uninitialised `kind` of round `i` holds. -/
def parseMultinamesLoop (garbage : Nat → u8) :
    Nat → Nat → IStream → Except String (List Multiname × IStream)
  | _, 0, s => .ok ([], s)
  | i, n + 1, s =>
    match readMultiname (garbage i) s with
    | .error e => .error e
    | .ok (m, s1) =>
      match parseMultinamesLoop garbage (i + 1) n s1 with
      | .error e => .error e
      | .ok (ms, s2) => .ok (m :: ms, s2)

/-- The multiname table of `parseConstantPool` (abcdec_s2.cpp:248-288). -/
def parseMultinameTable (garbage : Nat → u8) (abc : ABC) (s : IStream) :
    Except String (ABC × IStream) :=
  match readU30 s with
  | .error e => .error e
  | .ok (mc, s1) =>
    match safeResize mc "Multiname Pool" with
    | .error e => .error e
    | .ok _ =>
      match parseMultinamesLoop garbage 1 (mc - 1) s1 with
      | .error e => .error e
      | .ok (ms, s2) => .ok ({ abc with multinames := tableOf mc {} ms }, s2)

/-- The method `ABCParser::parseConstantPool` (abcdec_s2.cpp:214-289) on a fresh `ABC`. -/
def parseConstantPool (garbage : Nat → u8) (s : IStream) : Except String (ABC × IStream) :=
  match parseTablesBefore s with
  | .error e => .error e
  | .ok (abc, s1) => parseMultinameTable garbage abc s1

/-- The kind bytes that the specification lists as recognised. -/
def knownKinds : List u8 :=
  [0x07, 0x0D, 0x0F, 0x10, 0x11, 0x12, 0x09, 0x0E, 0x1B, 0x1C, 0x1D]

/-- The variants of a multiname in the specification. -/
inductive Variant where
  | qname | rtqname | rtqnameL | multiname | multinameL | generic
deriving DecidableEq, Repr

/-- The variant the specification gives a kind byte. -/
def variantOf (kind : u8) : Option Variant :=
  if kind = 0x07 ∨ kind = 0x0D then some .qname
  else if kind = 0x0F ∨ kind = 0x10 then some .rtqname
  else if kind = 0x11 ∨ kind = 0x12 then some .rtqnameL
  else if kind = 0x09 ∨ kind = 0x0E then some .multiname
  else if kind = 0x1B ∨ kind = 0x1C then some .multinameL
  else if kind = 0x1D then some .generic
  else none

/-- The number of u30 fields every entry of a variant has, in the specification: QName
ns and name; RTQName name; RTQNameL nothing; Multiname name and ns-set; MultinameL
ns-set; Generic name and a count (followed by that many type parameters). -/
def Variant.fixedFields : Variant → Nat
  | .qname => 2
  | .rtqname => 1
  | .rtqnameL => 0
  | .multiname => 2
  | .multinameL => 1
  | .generic => 2

/-- The fields of an entry of a variant read as the specification lists them: the fixed
fields, then for Generic as many type parameters as the count field says. -/
def readVariantFields (v : Variant) (s : IStream) : Except String (List Nat × IStream) :=
  match readU30s v.fixedFields s with
  | .error e => .error e
  | .ok (fs, s1) =>
    if v = .generic then
      match readU30s (fs.getD 1 0) s1 with
      | .error e => .error e
      | .ok (ps, s2) => .ok (fs ++ ps, s2)
    else .ok (fs, s1)

/-- The entry stored for a kind byte and the fields read, in the specification: the
namespace index of a QName, and the name index of every variant that has a name. -/
def multinameOf (kind : u8) (v : Variant) (fs : List Nat) : Multiname :=
  match v with
  | .qname => { kind := kind, nsIndex := fs.getD 0 0, nameIndex := fs.getD 1 0 }
  | .rtqname => { kind := kind, nameIndex := fs.getD 0 0 }
  | .rtqnameL => { kind := kind }
  | .multiname => { kind := kind, nameIndex := fs.getD 0 0 }
  | .multinameL => { kind := kind }
  | .generic => { kind := kind, nameIndex := fs.getD 0 0 }

end Abc

/-! ## The tables after the constant pool and the start of the parse (abcdec_s2.cpp) -/

namespace Abc

/-- The method `ABCParser::readVersion` (abcdec_s2.cpp:196-202): two reads of two bytes;
the values are printed only. -/
def readVersion (s : IStream) : IStream := ((s.read 2).2.read 2).2

/-- The loop of the optional parameters (abcdec_s2.cpp:307-310): a value index and a
kind byte per round, both dropped. -/
def skipOptionals : Nat → IStream → Except String IStream
  | 0, s => .ok s
  | n + 1, s =>
    match readU30 s with
    | .error e => .error e
    | .ok (_, s1) => skipOptionals n s1.get.2

/-- One round of the method loop (abcdec_s2.cpp:296-316); `garbage` is what the
uninitialised `flags` holds when `in.read` stores nothing. -/
def readMethod (garbage : u8) (s : IStream) : Except String (MethodInfo × IStream) := do
  let (paramCount, s) ← readU30 s
  let (_, s) ← readU30 s
  let (_, s) ← readU30s paramCount s
  let (name, s) ← readU30 s
  let flags : u8 := (s.read 1).1.headD garbage
  let s := (s.read 1).2
  let s ← (if flags.val &&& 0x08 ≠ 0 then do
              let (optCount, s) ← readU30 s
              skipOptionals optCount s
            else pure s)
  let s ← (if flags.val &&& 0x80 ≠ 0 then do
              let (_, s) ← readU30s paramCount s
              pure s
            else pure s)
  pure ({ name := name, paramCount := paramCount }, s)

/-- The method loop (abcdec_s2.cpp:295-317) from method `i` on, for `n` methods. -/
def readMethods (garbage : Nat → u8) : Nat → Nat → IStream →
    Except String (List MethodInfo × IStream)
  | _, 0, s => .ok ([], s)
  | i, n + 1, s =>
    match readMethod (garbage i) s with
    | .error e => .error e
    | .ok (m, s1) =>
      match readMethods garbage (i + 1) n s1 with
      | .error e => .error e
      | .ok (ms, s2) => .ok (m :: ms, s2)

/-- The method `ABCParser::parseMethods` (abcdec_s2.cpp:291-318). -/
def parseMethods (garbage : Nat → u8) (abc : ABC) (s : IStream) :
    Except String (ABC × IStream) := do
  let (count, s) ← readU30 s
  safeResize count "Methods"
  let (methods, s) ← readMethods garbage 0 count s
  pure ({ abc with methods := methods }, s)

/-- The loop of `skipMetadata` (abcdec_s2.cpp:322-326); `kv * 2` is a `u32` product. -/
def skipMetadataLoop : Nat → IStream → Except String IStream
  | 0, s => .ok s
  | n + 1, s =>
    match readU30 s with
    | .error e => .error e
    | .ok (_, s1) =>
      match readU30 s1 with
      | .error e => .error e
      | .ok (kv, s2) =>
        match readU30s ((kv * 2) % 2 ^ 32) s2 with
        | .error e => .error e
        | .ok (_, s3) => skipMetadataLoop n s3

/-- The method `ABCParser::skipMetadata` (abcdec_s2.cpp:320-327). -/
def skipMetadata (s : IStream) : Except String IStream :=
  match readU30 s with
  | .error e => .error e
  | .ok (c, s1) => skipMetadataLoop c s1

/-- The method `ABCParser::readTraitData` (abcdec_s2.cpp:457-484): the slot or dispatch
id, then the fields of the trait kind in the low nibble. -/
def readTraitData (kind : u8) (t : Trait) (s : IStream) : Except String (Trait × IStream) :=
  let traitKind := kind.val &&& 0x0F
  match readU30 s with
  | .error e => .error e
  | .ok (_, s1) =>
    if traitKind = 0 ∨ traitKind = 6 then
      match readU30 s1 with
      | .error e => .error e
      | .ok (_, s2) =>
        match readU30 s2 with
        | .error e => .error e
        | .ok (vindex, s3) => if vindex ≠ 0 then .ok (t, s3.get.2) else .ok (t, s3)
    else if traitKind = 1 ∨ traitKind = 2 ∨ traitKind = 3 then
      match readU30 s1 with
      | .error e => .error e
      | .ok (methodIndex, s2) => .ok ({ t with methodIndex := methodIndex }, s2)
    else if traitKind = 4 then
      match readU30 s1 with
      | .error e => .error e
      | .ok (classIndex, s2) => .ok ({ t with classIndex := classIndex }, s2)
    else if traitKind = 5 then
      match readU30 s1 with
      | .error e => .error e
      | .ok (_, s2) => .ok (t, s2)
    else .error "Unknown trait kind"

/-- One round of the trait loop that `parseClasses` has twice and `parseScripts` once
(abcdec_s2.cpp:386-390, 401-405, 420-424): the name, the kind byte read into the field
`kind` (0 before the read), and the data of the kind. -/
def readTrait (s : IStream) : Except String (Trait × IStream) :=
  match readU30 s with
  | .error e => .error e
  | .ok (name, s1) =>
    readTraitData ((s1.read 1).1.headD 0)
      { name := name, kind := (s1.read 1).1.headD 0 } (s1.read 1).2

/-- The trait loop of `parseClasses` and `parseScripts` for `n` traits. -/
def readTraits : Nat → IStream → Except String (List Trait × IStream)
  | 0, s => .ok ([], s)
  | n + 1, s =>
    match readTrait s with
    | .error e => .error e
    | .ok (t, s1) =>
      match readTraits n s1 with
      | .error e => .error e
      | .ok (ts, s2) => .ok (t :: ts, s2)

/-- The fields of an instance before its traits (abcdec_s2.cpp:371-384): the entry
without traits, the trait count and the stream. -/
def readInstanceHead (s : IStream) : Except String (InstanceInfo × Nat × IStream) := do
  let (name, s) ← readU30 s
  let (superName, s) ← readU30 s
  let flags : u8 := s.get.1
  let s := s.get.2
  let s ← (if flags.val &&& 0x08 ≠ 0 then do let (_, s) ← readU30 s; pure s else pure s)
  let s ← (if flags.val &&& 0x10 ≠ 0 then do let (_, s) ← readU30 s; pure s else pure s)
  let s ← (if flags.val &&& 0x20 ≠ 0 then do let (_, s) ← readU30 s; pure s else pure s)
  let (ifaceCount, s) ← readU30 s
  let (_, s) ← readU30s ifaceCount s
  let (iinit, s) ← readU30 s
  let (tc, s) ← readU30 s
  pure ({ name := name, superName := superName, iinit := iinit }, tc, s)

/-- One round of the instance loop of `parseClasses` (abcdec_s2.cpp:370-391). -/
def readInstance (s : IStream) : Except String (InstanceInfo × IStream) :=
  match readInstanceHead s with
  | .error e => .error e
  | .ok (inst, tc, s1) =>
    match readTraits tc s1 with
    | .error e => .error e
    | .ok (traits, s2) => .ok ({ inst with traits := traits }, s2)

/-- The instance loop of `parseClasses` (abcdec_s2.cpp:369-392). -/
def readInstances : Nat → IStream → Except String (List InstanceInfo × IStream)
  | 0, s => .ok ([], s)
  | n + 1, s =>
    match readInstance s with
    | .error e => .error e
    | .ok (x, s1) =>
      match readInstances n s1 with
      | .error e => .error e
      | .ok (xs, s2) => .ok (x :: xs, s2)

/-- One round of the class loop of `parseClasses` (abcdec_s2.cpp:396-406). -/
def readClassInfo (s : IStream) : Except String (ClassInfo × IStream) := do
  let (cinit, s) ← readU30 s
  let (tc, s) ← readU30 s
  let (traits, s) ← readTraits tc s
  pure ({ cinit := cinit, traits := traits }, s)

/-- The class loop of `parseClasses` (abcdec_s2.cpp:395-407). -/
def readClassInfos : Nat → IStream → Except String (List ClassInfo × IStream)
  | 0, s => .ok ([], s)
  | n + 1, s =>
    match readClassInfo s with
    | .error e => .error e
    | .ok (x, s1) =>
      match readClassInfos n s1 with
      | .error e => .error e
      | .ok (xs, s2) => .ok (x :: xs, s2)

/-- The method `ABCParser::parseClasses` (abcdec_s2.cpp:364-408). -/
def parseClasses (abc : ABC) (s : IStream) : Except String (ABC × IStream) :=
  match readU30 s with
  | .error e => .error e
  | .ok (count, s1) =>
    match safeResize count "Classes" with
    | .error e => .error e
    | .ok _ =>
      match readInstances count s1 with
      | .error e => .error e
      | .ok (insts, s2) =>
        match readClassInfos count s2 with
        | .error e => .error e
        | .ok (statics, s3) =>
          .ok ({ abc with classes :=
                  List.zipWith (fun i c => { inst := i, statics := c }) insts statics }, s3)

/-- One round of the loop of `parseScripts` (abcdec_s2.cpp:416-425). -/
def readScript (s : IStream) : Except String (Script × IStream) := do
  let (init, s) ← readU30 s
  let (tc, s) ← readU30 s
  let (traits, s) ← readTraits tc s
  pure ({ init := init, traits := traits }, s)

/-- The loop of `parseScripts` (abcdec_s2.cpp:415-426). -/
def readScripts : Nat → IStream → Except String (List Script × IStream)
  | 0, s => .ok ([], s)
  | n + 1, s =>
    match readScript s with
    | .error e => .error e
    | .ok (x, s1) =>
      match readScripts n s1 with
      | .error e => .error e
      | .ok (xs, s2) => .ok (x :: xs, s2)

/-- The method `ABCParser::parseScripts` (abcdec_s2.cpp:412-427). -/
def parseScripts (abc : ABC) (s : IStream) : Except String (ABC × IStream) := do
  let (count, s) ← readU30 s
  safeResize count "Scripts"
  let (scripts, s) ← readScripts count s
  pure ({ abc with scripts := scripts }, s)

/-- The loop of `skipExceptions` (abcdec_s2.cpp:448-454): five values per round. -/
def skipExceptionsLoop : Nat → IStream → Except String IStream
  | 0, s => .ok s
  | n + 1, s =>
    match readU30s 5 s with
    | .error e => .error e
    | .ok (_, s1) => skipExceptionsLoop n s1

/-- The method `ABCParser::skipExceptions` (abcdec_s2.cpp:446-455). -/
def skipExceptions (s : IStream) : Except String IStream :=
  match readU30 s with
  | .error e => .error e
  | .ok (count, s1) => skipExceptionsLoop count s1

/-- One round of the loop of `skipTraits` (abcdec_s2.cpp:489-499): the name, the kind
byte from `in.get()`, the data of the kind, and with bit `0x40` of the kind a count and
that many metadata indices. -/
def skipTrait (s : IStream) : Except String IStream :=
  match readU30 s with
  | .error e => .error e
  | .ok (_, s1) =>
    match readTraitData s1.get.1 {} s1.get.2 with
    | .error e => .error e
    | .ok (_, s2) =>
      if s1.get.1.val &&& 0x40 ≠ 0 then
        match readU30 s2 with
        | .error e => .error e
        | .ok (metadataCount, s3) =>
          match readU30s metadataCount s3 with
          | .error e => .error e
          | .ok (_, s4) => .ok s4
      else .ok s2

/-- The loop of `skipTraits` (abcdec_s2.cpp:488-500). -/
def skipTraitsLoop : Nat → IStream → Except String IStream
  | 0, s => .ok s
  | n + 1, s =>
    match skipTrait s with
    | .error e => .error e
    | .ok s1 => skipTraitsLoop n s1

/-- The method `ABCParser::skipTraits` (abcdec_s2.cpp:486-501). -/
def skipTraits (s : IStream) : Except String IStream :=
  match readU30 s with
  | .error e => .error e
  | .ok (traitCount, s1) => skipTraitsLoop traitCount s1

/-- One round of the loop of `parseMethodBodies` (abcdec_s2.cpp:433-442); the code is
`len` zero bytes overwritten from the stream. -/
def readMethodBody (s : IStream) : Except String (MethodBody × IStream) := do
  let (method, s) ← readU30 s
  let (maxStack, s) ← readU30 s
  let (localCount, s) ← readU30 s
  let (_, s) ← readU30 s
  let (_, s) ← readU30 s
  let (len, s) ← readU30 s
  safeResize len "Method Code"
  let code := (s.read len).1 ++ List.replicate (len - (s.read len).1.length) 0
  let s := (s.read len).2
  let s ← skipExceptions s
  let s ← skipTraits s
  pure ({ method := method, maxStack := maxStack, localCount := localCount, code := code }, s)

/-- The loop of `parseMethodBodies` (abcdec_s2.cpp:432-443). -/
def readMethodBodies : Nat → IStream → Except String (List MethodBody × IStream)
  | 0, s => .ok ([], s)
  | n + 1, s =>
    match readMethodBody s with
    | .error e => .error e
    | .ok (x, s1) =>
      match readMethodBodies n s1 with
      | .error e => .error e
      | .ok (xs, s2) => .ok (x :: xs, s2)

/-- The method `ABCParser::parseMethodBodies` (abcdec_s2.cpp:429-444). -/
def parseMethodBodies (abc : ABC) (s : IStream) : Except String (ABC × IStream) := do
  let (count, s) ← readU30 s
  safeResize count "MethodBodies"
  let (bodies, s) ← readMethodBodies count s
  pure ({ abc with bodies := bodies }, s)

/-- The method `ABCParser::parse` (abcdec_s2.cpp:163-185).  The functions `garbageKind`
and `garbageFlags` give what the uninitialised `kind` of a multiname round and `flags` of
a method round hold when the stream gives no byte. -/
def parse (garbageKind garbageFlags : Nat → u8) (s : IStream) : Except String ABC :=
  match parseConstantPool garbageKind (readVersion s) with
  | .error e => .error e
  | .ok (abc1, s1) =>
    match parseMethods garbageFlags abc1 s1 with
    | .error e => .error e
    | .ok (abc2, s2) =>
      match skipMetadata s2 with
      | .error e => .error e
      | .ok s3 =>
        match parseClasses abc2 s3 with
        | .error e => .error e
        | .ok (abc3, s4) =>
          match parseScripts abc3 s4 with
          | .error e => .error e
          | .ok (abc4, s5) =>
            match parseMethodBodies abc4 s5 with
            | .error e => .error e
            | .ok (abc5, _) => .ok abc5

/-- A `std::ifstream` on an opened file: the bytes of the file, the read position, and
the state bits `eofbit` and `failbit`. -/
structure FileStream where
  data : List u8
  pos : Nat := 0
  eof : Bool := false
  fail : Bool := false
deriving DecidableEq, Repr

/-- The member `good()`: no state bit is set. -/
def FileStream.good (f : FileStream) : Bool := !f.eof && !f.fail

/-- The call `in.read(buf, n)`: on a good stream the next `n` bytes, or with fewer left
the bytes that remain and `eofbit` and `failbit`; a stream that is not good gets
`failbit` and gives nothing. -/
def FileStream.read (f : FileStream) (n : Nat) : List u8 × FileStream :=
  if f.good then
    if f.pos + n ≤ f.data.length then
      ((f.data.drop f.pos).take n, { f with pos := f.pos + n })
    else (f.data.drop f.pos, { f with pos := f.data.length, eof := true, fail := true })
  else ([], { f with fail := true })

/-- The call `std::getline(in, name, 0)`: the bytes up to the first zero byte are
extracted and the zero byte with them; without a zero byte everything is extracted and
`eofbit` is set, and `failbit` too when nothing was extracted. -/
def FileStream.getlineZero (f : FileStream) : FileStream :=
  if f.good then
    if ((f.data.drop f.pos).takeWhile (fun b => b ≠ 0)).length < (f.data.drop f.pos).length then
      { f with pos := f.pos + ((f.data.drop f.pos).takeWhile (fun b => b ≠ 0)).length + 1 }
    else
      { f with pos := f.data.length, eof := true,
               fail := decide ((f.data.drop f.pos).length = 0) }
  else { f with fail := true }

/-- The call `in.tellg()`: the position, or -1 (`none`) on a stream that is not good,
which also gets `failbit`. -/
def FileStream.tellg (f : FileStream) : Option Nat × FileStream :=
  if f.good then (some f.pos, f) else (none, { f with fail := true })

/-- The call `in.seekg(pos)`: `eofbit` is cleared first, and the position is set unless
`failbit` is set. -/
def FileStream.seekg (f : FileStream) (pos : Option Nat) : FileStream :=
  if f.fail then { f with eof := false }
  else
    match pos with
    | some p => { f with eof := false, pos := p }
    | none => { f with eof := false, fail := true }

/-- The stream as the parser sees it: the bytes from the position on, and `good()`. -/
def FileStream.toIStream (f : FileStream) : IStream := ⟨f.data.drop f.pos, f.good⟩

/-- The part of `main` before the parse (abcdec_s2.cpp:972-992) on the bytes of the
opened file: the flag word, the name or the rewind, and the diagnostic read of 16 bytes
with its rewind.  `uninit` is what `flags` holds when fewer than four bytes are read. -/
def mainStream (uninit : Nat) (data : List u8) : FileStream :=
  let r := ({ data := data } : FileStream).read 4
  let flags :=
    if r.1.length = 4 then
      (r.1.getD 0 0).val + 256 * (r.1.getD 1 0).val + 65536 * (r.1.getD 2 0).val
        + 16777216 * (r.1.getD 3 0).val
    else uninit
  let f1 := if flags = 1 then r.2.getlineZero else r.2.seekg (some 0)
  let startOfABC := f1.tellg
  let f3 := (startOfABC.2.read 16).2
  f3.seekg startOfABC.1

/-- The parse that `main` runs (abcdec_s2.cpp:972-997). -/
def mainParse (uninit : Nat) (garbageKind garbageFlags : Nat → u8) (data : List u8) :
    Except String ABC :=
  parse garbageKind garbageFlags (mainStream uninit data).toIStream

/-- Where the ABC data starts according to the specification: after the flag word 1 and
the zero-terminated name, or at offset 0. -/
def abcStart (data : List u8) : Nat :=
  if data.take 4 = [1, 0, 0, 0] then
    4 + ((data.drop 4).takeWhile (fun b => b ≠ 0)).length + 1
  else 0

/-- The class lookups of the emission loop of `main` (abcdec_s2.cpp:1006-1014): for each
trait of each script, in order, whose kind has the low nibble 4, the element
`abc.classes[t.classIndex]`; `none` stands for an index outside the vector, which
`operator[]` does not check. -/
def mainClassLookups (abc : ABC) : List (Option ClassDef) :=
  (abc.scripts.flatMap
    (fun s => s.traits.filter (fun t => decide (t.kind.val &&& 0x0F = 4)))).map
    (fun t => abc.classes.get? t.classIndex)

end Abc

/-! ## The bytecode decompiler (abcdec_s2.cpp, class `Decompiler`) -/

namespace Decompiler

/-- The bytes of a `std::string` as text, each byte the character of its code. -/
def text (bytes : List u8) : String := String.mk (bytes.map (fun b => Char.ofNat b.val))

/-- What `decompileMethod` reads and never writes: the parsed `ABC`, the public flag
`keepOpcodeComments`, and the text `std::to_string` gives a double of the pool (kept as
its bytes). -/
structure Env where
  abc : Abc.ABC
  keepOpcodeComments : Bool := false
  doubleText : List u8 → String

/-- The members of `Decompiler` that `decompileMethod` writes, with its local variables
`jumpTargets` and `pc`.  The stack is kept top first.  The field `hex` says whether
`std::hex` has been set on `output`. -/
structure State where
  stack : List String := []
  locals : List String := []
  output : String := ""
  hex : Bool := false
  indent : Nat := 0
  jumpTargets : List Nat := []
  pc : Nat := 0
deriving DecidableEq, Repr

/-- The method `getString` (abcdec_s2.cpp:512-516). -/
def getString (env : Env) (idx : Nat) : String :=
  if idx < env.abc.cp.strings.length then text (env.abc.cp.strings.getD idx []) else ""

/-- The loop of `out` that writes the indentation (abcdec_s2.cpp:519). -/
def writeIndent : Nat → String → String
  | 0, o => o
  | n + 1, o => writeIndent n (o ++ "    ")

/-- The method `out` (abcdec_s2.cpp:518-521). -/
def out (st : State) (str : String) : State :=
  { st with output := writeIndent st.indent st.output ++ str ++ "\n" }

/-- The method `isNonSemanticOpcode` (abcdec_s2.cpp:523-533). -/
def isNonSemanticOpcode (op : Nat) : Bool :=
  op = 0x19 ∨ op = 0x20 ∨ op = 0x21 ∨ op = 0x26 ∨ op = 0x27 ∨ op = 0x30 ∨ op = 0x34 ∨
  op = 0x93 ∨ op = 0x128 ∨ op = 0x130 ∨ op = 0x1D ∨ op = 0x1E ∨ op = 0xD0 ∨ op = 0xD1 ∨
  op = 0xD2 ∨ op = 0xD3

/-- The method `getName` (abcdec_s2.cpp:553-559). -/
def getName (env : Env) (idx : Nat) : String :=
  if idx = 0 ∨ idx ≥ env.abc.multinames.length then "unknown"
  else if (env.abc.multinames.getD idx {}).nameIndex < env.abc.cp.strings.length then
    text (env.abc.cp.strings.getD (env.abc.multinames.getD idx {}).nameIndex [])
  else "name" ++ toString idx

/-- The statement `stack.push(v)`. -/
def push (st : State) (v : String) : State := { st with stack := v :: st.stack }

/-- The conversion `(i8)` of a byte. -/
def toI8 (b : u8) : Int := if b.val < 128 then (b.val : Int) else (b.val : Int) - 256

/-- The sum `pc + offset` of a `size_t` and an `i32`, a `size_t`. -/
def jumpTarget (pc : Nat) (offset : Int) : Nat := (((pc : Int) + offset) % 2 ^ 64).toNat

/-- The text `operator<<` writes for a number on `output`: decimal, or hexadecimal once
`std::hex` has been set. -/
def numText (hex : Bool) (n : Nat) : String :=
  if hex then String.mk (Nat.toDigits 16 n) else toString n

/-- The loop that pops the arguments (abcdec_s2.cpp:795-798, 818-821, 862-865): at most
`argc` rounds, while the stack is not empty; returns `args` and the stack. -/
def popArgs : Nat → List String → List String → List String × List String
  | 0, stack, args => (args, stack)
  | _ + 1, [], args => (args, [])
  | n + 1, top :: rest, args => popArgs n rest (args ++ [top])

/-- The loop that joins the arguments (abcdec_s2.cpp:804-807, 827-830, 868-871) from
index `i` on. -/
def joinArgs : List String → Nat → String → String
  | [], _, call => call
  | a :: rest, i, call => joinArgs rest (i + 1) ((if i > 0 then call ++ ", " else call) ++ a)

/-- The loop of `newobject` (abcdec_s2.cpp:852-854): `n` rounds, each popping when the
stack is not empty. -/
def popN : Nat → List String → List String
  | 0, stack => stack
  | n + 1, stack => popN n stack.tail

/-- The statements of `setlocal` after the index is known (abcdec_s2.cpp:691-696,
702-707). -/
def setLocal (st : State) (idx : Nat) : State :=
  match st.stack with
  | top :: rest =>
    let st1 := out st ("var local" ++ toString idx ++ " = " ++ top ++ ";")
    { st1 with
      locals := if idx < st1.locals.length then st1.locals.set idx ("local" ++ toString idx)
                else st1.locals,
      stack := rest }
  | [] => st

/-- The binary operators (abcdec_s2.cpp:711-763), one body for the six cases, which
differ in the operator text only. -/
def binaryOp (st : State) (opText : String) : State :=
  match st.stack with
  | r :: l :: rest => { st with stack := ("(" ++ l ++ opText ++ r ++ ")") :: rest }
  | _ => st

/-- The conversions (abcdec_s2.cpp:921-943), one body for the three cases. -/
def convertOp (st : State) (castText : String) : State :=
  match st.stack with
  | val :: rest => { st with stack := (castText ++ val ++ ")") :: rest }
  | [] => st

/-- The `switch` of `decompileMethod` (abcdec_s2.cpp:606-952) on the opcode `op`, with
`st.pc` the offset after the opcode byte. -/
def execOp (env : Env) (code : List u8) (op : Nat) (st : State) : State :=
  if op = 0x47 then out st "return;"
  else if op = 0x48 then
    match st.stack with
    | top :: rest => { out st ("return " ++ top ++ ";") with stack := rest }
    | [] => st
  else if op = 0x20 then push st "null"
  else if op = 0x21 then push st "undefined"
  else if op = 0x26 then push st "true"
  else if op = 0x27 then push st "false"
  else if op = 0x28 then push st "NaN"
  else if op = 0x24 then
    if st.pc < code.length then
      { push st (toString (toI8 (code.getD st.pc 0))) with pc := st.pc + 1 }
    else st
  else if op = 0x25 then
    { push st (toString (Abc.readU30FromBytes code st.pc).1) with
      pc := (Abc.readU30FromBytes code st.pc).2 }
  else if op = 0x2C then
    { push st ("\"" ++ getString env (Abc.readU30FromBytes code st.pc).1 ++ "\"") with
      pc := (Abc.readU30FromBytes code st.pc).2 }
  else if op = 0x2D then
    { push st
        (if (Abc.readU30FromBytes code st.pc).1 < env.abc.cp.ints.length then
          toString (env.abc.cp.ints.getD (Abc.readU30FromBytes code st.pc).1 0)
        else "0") with
      pc := (Abc.readU30FromBytes code st.pc).2 }
  else if op = 0x2E then
    { push st
        (if (Abc.readU30FromBytes code st.pc).1 < env.abc.cp.uints.length then
          toString (env.abc.cp.uints.getD (Abc.readU30FromBytes code st.pc).1 0)
        else "0") with
      pc := (Abc.readU30FromBytes code st.pc).2 }
  else if op = 0x2F then
    { push st
        (if (Abc.readU30FromBytes code st.pc).1 < env.abc.cp.doubles.length then
          env.doubleText (env.abc.cp.doubles.getD (Abc.readU30FromBytes code st.pc).1 [])
        else "0.0") with
      pc := (Abc.readU30FromBytes code st.pc).2 }
  else if op = 0x30 then { st with stack := st.stack.tail }
  else if op = 0xD0 then push st "this"
  else if op = 0xD1 then push st (if st.locals.length > 1 then st.locals.getD 1 "" else "arg1")
  else if op = 0xD2 then push st (if st.locals.length > 2 then st.locals.getD 2 "" else "arg2")
  else if op = 0xD3 then push st (if st.locals.length > 3 then st.locals.getD 3 "" else "arg3")
  else if op = 0x62 then
    { push st
        (if (Abc.readU30FromBytes code st.pc).1 < st.locals.length then
          "local" ++ toString (Abc.readU30FromBytes code st.pc).1
        else "arg" ++ toString (Abc.readU30FromBytes code st.pc).1) with
      pc := (Abc.readU30FromBytes code st.pc).2 }
  else if op = 0x63 then
    setLocal { st with pc := (Abc.readU30FromBytes code st.pc).2 }
      (Abc.readU30FromBytes code st.pc).1
  else if op = 0xD4 ∨ op = 0xD5 ∨ op = 0xD6 ∨ op = 0xD7 then setLocal st (op - 0xD4)
  else if op = 0xA0 then binaryOp st " + "
  else if op = 0xA1 then binaryOp st " - "
  else if op = 0xA2 then binaryOp st " * "
  else if op = 0xA3 then binaryOp st " / "
  else if op = 0xAB then binaryOp st " == "
  else if op = 0xAD then binaryOp st " < "
  else if op = 0x60 then
    { push st (getName env (Abc.readU30FromBytes code st.pc).1) with
      pc := (Abc.readU30FromBytes code st.pc).2 }
  else if op = 0x66 then
    match st.stack with
    | obj :: rest =>
      { st with pc := (Abc.readU30FromBytes code st.pc).2,
                stack := (obj ++ "." ++ getName env (Abc.readU30FromBytes code st.pc).1) :: rest }
    | [] => { st with pc := (Abc.readU30FromBytes code st.pc).2 }
  else if op = 0x61 ∨ op = 0x68 then
    match st.stack with
    | val :: obj :: rest =>
      { out { st with pc := (Abc.readU30FromBytes code st.pc).2 }
          (obj ++ "." ++ getName env (Abc.readU30FromBytes code st.pc).1 ++ " = " ++ val
            ++ ";") with
        stack := rest }
    | _ => { st with pc := (Abc.readU30FromBytes code st.pc).2 }
  else if op = 0x46 then
    let idx := Abc.readU30FromBytes code st.pc
    let argc := Abc.readU30FromBytes code idx.2
    let popped := popArgs argc.1 st.stack []
    match popped.2 with
    | obj :: rest =>
      { st with pc := argc.2,
                stack := (joinArgs popped.1.reverse 0 (obj ++ "." ++ getName env idx.1 ++ "(")
                            ++ ")") :: rest }
    | [] => { st with pc := argc.2, stack := [] }
  else if op = 0x4F then
    let idx := Abc.readU30FromBytes code st.pc
    let argc := Abc.readU30FromBytes code idx.2
    let popped := popArgs argc.1 st.stack []
    match popped.2 with
    | obj :: rest =>
      { out { st with pc := argc.2 }
          (joinArgs popped.1.reverse 0 (obj ++ "." ++ getName env idx.1 ++ "(") ++ ");") with
        stack := rest }
    | [] => { st with pc := argc.2, stack := [] }
  else if op = 0x40 then
    { push st ("function_" ++ toString (Abc.readU30FromBytes code st.pc).1) with
      pc := (Abc.readU30FromBytes code st.pc).2 }
  else if op = 0x55 then
    { st with pc := (Abc.readU30FromBytes code st.pc).2,
              stack := ("Class_" ++ toString (Abc.readU30FromBytes code st.pc).1)
                        :: st.stack.tail }
  else if op = 0x56 then
    { st with pc := (Abc.readU30FromBytes code st.pc).2,
              stack := "\x7b\x7d" :: popN (((Abc.readU30FromBytes code st.pc).1 * 2) % 2 ^ 32)
                                st.stack }
  else if op = 0x57 then
    let argc := Abc.readU30FromBytes code st.pc
    let popped := popArgs argc.1 st.stack []
    { st with pc := argc.2, stack := (joinArgs popped.1.reverse 0 "[" ++ "]") :: popped.2 }
  else if op = 0x10 then
    let offset := Abc.readS24 code st.pc
    let target := jumpTarget offset.2 offset.1
    out { st with pc := offset.2, jumpTargets := target :: st.jumpTargets }
      ("goto label_" ++ toString target ++ ";")
  else if op = 0x11 then
    let offset := Abc.readS24 code st.pc
    let target := jumpTarget offset.2 offset.1
    match st.stack with
    | top :: rest =>
      { out { st with pc := offset.2, jumpTargets := target :: st.jumpTargets }
          ("if (" ++ top ++ ") goto label_" ++ toString target ++ ";") with
        stack := rest }
    | [] => { st with pc := offset.2, jumpTargets := target :: st.jumpTargets }
  else if op = 0x12 then
    let offset := Abc.readS24 code st.pc
    let target := jumpTarget offset.2 offset.1
    match st.stack with
    | top :: rest =>
      { out { st with pc := offset.2, jumpTargets := target :: st.jumpTargets }
          ("if (!(" ++ top ++ ")) goto label_" ++ toString target ++ ";") with
        stack := rest }
    | [] => { st with pc := offset.2, jumpTargets := target :: st.jumpTargets }
  else if op = 0x29 then
    match st.stack with
    | top :: rest => { out st (top ++ ";") with stack := rest }
    | [] => st
  else if op = 0x2A then
    match st.stack with
    | top :: rest => { st with stack := top :: top :: rest }
    | [] => st
  else if op = 0x73 then convertOp st "int("
  else if op = 0x74 then convertOp st "uint("
  else if op = 0x75 then convertOp st "Number("
  else if env.keepOpcodeComments then out st ("// opcode 0x" ++ toString op)
  else st

/-- The label test at the head of a round (abcdec_s2.cpp:591-597), made after `pc` has
been incremented past the opcode byte; both branches of the source write the same. -/
def emitLabel (st : State) : State :=
  if st.pc ∈ st.jumpTargets then
    { st with output := st.output ++ "label_" ++ numText st.hex st.pc ++ ":\n" }
  else st

/-- One round of the loop of `decompileMethod` (abcdec_s2.cpp:589-952): the opcode is
fetched and `pc` incremented, the label test is made, the opcodes of
`isNonSemanticOpcode` are left, the others go to the `switch`. -/
def step (env : Env) (code : List u8) (st : State) : State :=
  if isNonSemanticOpcode (code.getD st.pc 0).val then
    if env.keepOpcodeComments then
      { emitLabel { st with pc := st.pc + 1 } with
        output := (emitLabel { st with pc := st.pc + 1 }).output ++ "// opcode 0x"
                    ++ String.mk (Nat.toDigits 16 (code.getD st.pc 0).val) ++ "\n",
        hex := true }
    else emitLabel { st with pc := st.pc + 1 }
  else execOp env code (code.getD st.pc 0).val (emitLabel { st with pc := st.pc + 1 })

/-- The loop `while (pc < code.size())` of `decompileMethod`, with a bound on the number
of rounds; `none` when the bound is used up. -/
def decompileLoop (env : Env) (code : List u8) : Nat → State → Option State
  | 0, st => if st.pc < code.length then none else some st
  | fuel + 1, st =>
    if st.pc < code.length then decompileLoop env code fuel (step env code st) else some st

/-- The state of `decompileMethod` before its loop (abcdec_s2.cpp:577-586), on a
`Decompiler` whose `output` has the number base `hex`. -/
def initState (hex : Bool) (body : Abc.MethodBody) : State :=
  { stack := [], locals := List.replicate (if body.localCount > 0 then body.localCount else 4)
                              "undefined",
    output := "", hex := hex, indent := 1, jumpTargets := [], pc := 0 }

/-- The method `decompileMethod` (abcdec_s2.cpp:576-956): the text returned.  A round
moves `pc` forward, so the number of rounds is at most the length of the code. -/
def decompileMethod (env : Env) (hex : Bool) (body : Abc.MethodBody) : Option String :=
  (decompileLoop env body.code body.code.length (initState hex body)).map (fun st => st.output)

end Decompiler

/-! ## Vocabulary of the statements on the progress of the readers and on the chains of
`edgesToPathD` -/

/-- The reader `br1` is a later state of the reader `br`: it reads the same bytes, its
bit index is in `0..7`, and its cursor is not before the cursor of `br`. -/
def BitReader.Advances (br br1 : BitReader) : Prop :=
  br1.data = br.data ∧ br1.bitPos < 8 ∧ br.cursor ≤ br1.cursor

namespace Shape

/-- The chain of the specification, grown from the point `tip` over the edges
`remaining`: it is empty when no remaining edge starts at the tip (and then `left` is
`remaining`); otherwise its first edge starts at the tip, no edge before it in
`remaining` does, and the rest of the chain is grown from the end point of that edge
over the other edges. -/
def greedyChain {F : Type} (A : Arith F) :
    Point F → List (Edge F) → List (Edge F) → List (Edge F) → Prop
  | tip, remaining, [], left =>
    (∀ x ∈ remaining, Point.eq A x.p1 tip = false) ∧ left = remaining
  | tip, remaining, e :: chain, left =>
    ∃ before after, remaining = before ++ e :: after ∧
      (∀ x ∈ before, Point.eq A x.p1 tip = false) ∧ Point.eq A e.p1 tip = true ∧
      greedyChain A e.p2 (before ++ after) chain left

/-- The sub-paths of the specification over the edges `remaining`: none when no edge
remains; otherwise the first sub-path starts with the first remaining edge and goes on
with the chain grown from its end point, and the other sub-paths are those of the edges
the chain leaves. -/
def greedySubPaths {F : Type} (A : Arith F) : List (Edge F) → List (List (Edge F)) → Prop
  | remaining, [] => remaining = []
  | remaining, sub :: subs =>
    ∃ first rest chain left, remaining = first :: rest ∧ sub = first :: chain ∧
      greedyChain A first.p2 rest chain left ∧ greedySubPaths A left subs

end Shape

namespace Swf

/-- The display snapshots among the files written: the files `saveFrameState` writes,
one for each frame shown, in the order written. -/
def frameSnapshots (st : SWFExtractor) : List OutFile :=
  st.files.filter (fun f => match f.content with
    | .displayList _ => true
    | _ => false)

/-- The state `st1` has the buffer, the frame counters and the display snapshots of the
state `st`. -/
def sameFrames (st st1 : SWFExtractor) : Prop :=
  st1.data = st.data ∧ st1.currentFrame = st.currentFrame ∧
  st1.globalFrame = st.globalFrame ∧ frameSnapshots st1 = frameSnapshots st

end Swf

/-! ## Arithmetic of the bitwise operations used by the decoders -/

theorem or_shiftLeft_eq_add (v a s : Nat) (hv : v < 2 ^ s) : v ||| (a <<< s) = v + a * 2 ^ s := by
  rw [Nat.shiftLeft_eq, Nat.or_comm, Nat.mul_comm a, ← Nat.mul_add_lt_is_or hv]
  omega

theorem or_shl32_eq_add (v a s : Nat) (hv : v < 2 ^ s) (ha : a * 2 ^ s < 2 ^ 32) :
    v ||| shl32 a s = v + a * 2 ^ s := by
  unfold shl32
  rw [Nat.mod_eq_of_lt (by rw [Nat.shiftLeft_eq]; exact ha)]
  exact or_shiftLeft_eq_add v a s hv

theorem byte_and_7F (b : u8) : b.val &&& 0x7F = b.val % 128 :=
  Nat.and_pow_two_sub_one_eq_mod b.val 7

theorem and_two_pow_eq_zero_iff (x i : Nat) : x &&& 2 ^ i = 0 ↔ x / 2 ^ i % 2 = 0 := by
  rw [Nat.and_two_pow, Nat.testBit_to_div_mod]
  have hpos : 0 < 2 ^ i := Nat.two_pow_pos i
  by_cases hc : x / 2 ^ i % 2 = 1
  · simp [hc]
  · simp [hc]; omega

theorem byte_and_80 (b : u8) : b.val &&& 0x80 = 0 ↔ b.val < 128 := by
  have h := and_two_pow_eq_zero_iff b.val 7
  have hb := b.isLt
  norm_num at h
  rw [h]
  omega

theorem val_ofNat_u8 (x : Nat) (h : x < 256) : ((Fin.ofNat x : u8) : Nat) = x := by
  show x % 256 = x
  exact Nat.mod_eq_of_lt h

/-! ## The u30 readers on encoded values -/

namespace Abc

theorem encodeU30Aux_length (fuel : Nat) : ∀ (x k : Nat), 1 ≤ k → x < 128 ^ k →
    (encodeU30Aux fuel x).length ≤ k := by
  induction fuel with
  | zero => intro x k hk _; simpa [encodeU30Aux] using hk
  | succ f ih =>
    intro x k hk hx
    unfold encodeU30Aux
    split
    · simpa using hk
    · rename_i hge
      obtain ⟨j, rfl⟩ : ∃ j, k = j + 1 := ⟨k - 1, by omega⟩
      have hj : 1 ≤ j := by
        rcases Nat.eq_zero_or_pos j with h0 | h0
        · subst h0; simp at hx; omega
        · exact h0
      have hx2 : x / 128 < 128 ^ j := by
        rw [Nat.div_lt_iff_lt_mul (by decide)]
        rw [pow_succ] at hx
        exact hx
      have := ih (x / 128) j hj hx2
      simp only [List.length_cons]
      omega

theorem readU30Loop_encode (fuel : Nat) : ∀ (x v shift : Nat) (tail : List u8),
    x ≤ fuel → v < 2 ^ shift → x * 2 ^ shift < 2 ^ 32 →
    readU30Loop (encodeU30Aux fuel x ++ tail) v shift = .ok (v + x * 2 ^ shift, ⟨tail, true⟩) := by
  induction fuel with
  | zero =>
    intro x v shift tail hx hv _
    have : x = 0 := by omega
    subst this
    have h0 : ((Fin.ofNat (0 % 128) : u8) : Nat) = 0 := rfl
    simp [encodeU30Aux, readU30Loop, shl32, h0]
  | succ f ih =>
    intro x v shift tail hx hv hs
    have hP : 0 < 2 ^ shift := Nat.two_pow_pos shift
    unfold encodeU30Aux
    split
    · rename_i hlt
      have hb : ((Fin.ofNat x : u8) : Nat) = x := val_ofNat_u8 x (by omega)
      have h80 : ((Fin.ofNat x : u8) : Nat) &&& 0x80 = 0 := (byte_and_80 _).2 (by omega)
      have h7F : ((Fin.ofNat x : u8) : Nat) &&& 0x7F = x := by rw [byte_and_7F, hb]; omega
      simp only [List.cons_append, List.nil_append, readU30Loop, h80, h7F, if_true]
      rw [or_shl32_eq_add v x shift hv hs]
      rfl
    · rename_i hge
      have hb : ((Fin.ofNat (x % 128 + 128) : u8) : Nat) = x % 128 + 128 :=
        val_ofNat_u8 _ (by omega)
      have h80 : ¬ (((Fin.ofNat (x % 128 + 128) : u8) : Nat) &&& 0x80 = 0) := by
        rw [byte_and_80, hb]; omega
      have h7F : ((Fin.ofNat (x % 128 + 128) : u8) : Nat) &&& 0x7F = x % 128 := by
        rw [byte_and_7F, hb]; omega
      have hx128 : x = 128 * (x / 128) + x % 128 := (Nat.div_add_mod x 128).symm
      have hmul : x * 2 ^ shift = 128 * ((x / 128) * 2 ^ shift) + (x % 128) * 2 ^ shift := by
        conv_lhs => rw [hx128]
        ring
      have hr : (x % 128) * 2 ^ shift ≤ 127 * 2 ^ shift :=
        Nat.mul_le_mul_right _ (by omega)
      have hq : 1 * 2 ^ shift ≤ (x / 128) * 2 ^ shift :=
        Nat.mul_le_mul_right _ (by omega)
      have hpow : 2 ^ (shift + 7) = 128 * 2 ^ shift := by rw [pow_add]; ring
      have hshift : shift + 7 ≤ 35 := by
        by_contra hcon
        have : 2 ^ 29 ≤ 2 ^ shift := Nat.pow_le_pow_right (by decide) (by omega)
        norm_num at this hs
        omega
      simp only [List.cons_append, readU30Loop, h80, h7F, if_false]
      rw [if_neg (by omega), or_shl32_eq_add v (x % 128) shift hv (by omega)]
      have hq2 : x / 128 * 2 ^ (shift + 7) = 128 * ((x / 128) * 2 ^ shift) := by
        rw [hpow]; ring
      show readU30Loop (encodeU30Aux f (x / 128) ++ tail) _ _ = _
      rw [ih (x / 128) (v + x % 128 * 2 ^ shift) (shift + 7) tail (by omega)
        (by rw [hpow]; omega) (by rw [hq2]; omega)]
      rw [hq2, hmul]
      congr 2
      omega

theorem readU30FromBytesLoop_encode (fuel : Nat) : ∀ (x pos v shift : Nat) (tail : List u8),
    x ≤ fuel → v < 2 ^ shift → x * 2 ^ shift < 2 ^ 32 →
    readU30FromBytesLoop (encodeU30Aux fuel x ++ tail) pos v shift
      = (v + x * 2 ^ shift, pos + (encodeU30Aux fuel x).length) := by
  induction fuel with
  | zero =>
    intro x pos v shift tail hx hv _
    have : x = 0 := by omega
    subst this
    have h0 : ((Fin.ofNat (0 % 128) : u8) : Nat) = 0 := rfl
    simp [encodeU30Aux, readU30FromBytesLoop, shl32, h0]
  | succ f ih =>
    intro x pos v shift tail hx hv hs
    have hP : 0 < 2 ^ shift := Nat.two_pow_pos shift
    unfold encodeU30Aux
    split
    · rename_i hlt
      have hb : ((Fin.ofNat x : u8) : Nat) = x := val_ofNat_u8 x (by omega)
      have h80 : ((Fin.ofNat x : u8) : Nat) &&& 0x80 = 0 := (byte_and_80 _).2 (by omega)
      have h7F : ((Fin.ofNat x : u8) : Nat) &&& 0x7F = x := by rw [byte_and_7F, hb]; omega
      simp only [List.cons_append, List.nil_append, readU30FromBytesLoop, h80, h7F, if_true]
      rw [or_shl32_eq_add v x shift hv hs]
      rfl
    · rename_i hge
      have hb : ((Fin.ofNat (x % 128 + 128) : u8) : Nat) = x % 128 + 128 :=
        val_ofNat_u8 _ (by omega)
      have h80 : ¬ (((Fin.ofNat (x % 128 + 128) : u8) : Nat) &&& 0x80 = 0) := by
        rw [byte_and_80, hb]; omega
      have h7F : ((Fin.ofNat (x % 128 + 128) : u8) : Nat) &&& 0x7F = x % 128 := by
        rw [byte_and_7F, hb]; omega
      have hx128 : x = 128 * (x / 128) + x % 128 := (Nat.div_add_mod x 128).symm
      have hmul : x * 2 ^ shift = 128 * ((x / 128) * 2 ^ shift) + (x % 128) * 2 ^ shift := by
        conv_lhs => rw [hx128]
        ring
      have hr : (x % 128) * 2 ^ shift ≤ 127 * 2 ^ shift :=
        Nat.mul_le_mul_right _ (by omega)
      have hpow : 2 ^ (shift + 7) = 128 * 2 ^ shift := by rw [pow_add]; ring
      have hq2 : x / 128 * 2 ^ (shift + 7) = 128 * ((x / 128) * 2 ^ shift) := by
        rw [hpow]; ring
      simp only [List.cons_append, readU30FromBytesLoop, h80, h7F, if_false]
      rw [or_shl32_eq_add v (x % 128) shift hv (by omega)]
      show readU30FromBytesLoop (encodeU30Aux f (x / 128) ++ tail) _ _ _ = _
      rw [ih (x / 128) (pos + 1) (v + x % 128 * 2 ^ shift) (shift + 7) tail (by omega)
        (by rw [hpow]; omega) (by rw [hq2]; omega)]
      rw [hq2, hmul, List.length_cons]
      congr 1
      · omega
      · omega

theorem encodeU30Aux_fuel (f : Nat) : ∀ (g x : Nat), x ≤ f → x ≤ g →
    encodeU30Aux f x = encodeU30Aux g x := by
  induction f with
  | zero =>
    intro g x hf _
    have : x = 0 := by omega
    subst this
    cases g <;> simp [encodeU30Aux]
  | succ f ih =>
    intro g x hf hg
    cases g with
    | zero =>
      have : x = 0 := by omega
      subst this
      simp [encodeU30Aux]
    | succ g =>
      unfold encodeU30Aux
      split
      · rfl
      · rw [ih g (x / 128) (by omega) (by omega)]

/-- The encoder satisfies the defining equation of the minimal base-128 encoding: a value
below 128 is one byte, a larger one is its low seven bits with the continuation bit set,
followed by the encoding of the rest. -/
theorem encodeU30_unfold (x : Nat) :
    encodeU30 x = if x < 128 then [Fin.ofNat x]
      else Fin.ofNat (x % 128 + 128) :: encodeU30 (x / 128) := by
  unfold encodeU30
  cases x with
  | zero => simp [encodeU30Aux]
  | succ n =>
    rw [encodeU30Aux]
    split
    · rfl
    · rw [encodeU30Aux_fuel n ((n + 1) / 128) ((n + 1) / 128) (by omega) (Nat.le_refl _)]

/-- Claim C1.  For every `x < 2^32` the minimal base-128 encoding of `x` has at most five
bytes, and both readers decode it back to `x` whatever bytes follow, consuming exactly the
bytes of the encoding: the stream reader `readU30` leaves the following bytes in a good
stream, and the buffer reader `readU30FromBytes`, started at any position of a buffer
holding the encoding, ends at that position plus the length of the encoding. -/
theorem readU30_encode_roundtrip (x : Nat) (hx : x < 2 ^ 32) (pre tail : List u8) :
    (encodeU30 x).length ≤ 5 ∧
    readU30 (IStream.ofBytes (encodeU30 x ++ tail)) = .ok (x, ⟨tail, true⟩) ∧
    readU30FromBytes (pre ++ (encodeU30 x ++ tail)) pre.length
      = (x, pre.length + (encodeU30 x).length) := by
  refine ⟨?_, ?_, ?_⟩
  · exact encodeU30Aux_length x x 5 (by decide) (by norm_num at hx ⊢; omega)
  · have h := readU30Loop_encode x x 0 0 tail (Nat.le_refl _) (by decide) (by simpa using hx)
    simpa [readU30, IStream.ofBytes, encodeU30] using h
  · have h := readU30FromBytesLoop_encode x x pre.length 0 0 tail (Nat.le_refl _) (by decide)
      (by simpa using hx)
    simpa [readU30FromBytes, encodeU30] using h

/-- Witness of `readU30_encode_roundtrip` at `x = 300` (encoded `AC 02`). -/
theorem readU30_encode_roundtrip_witness :
    (encodeU30 300).length ≤ 5 ∧
    readU30 (IStream.ofBytes (encodeU30 300 ++ [9])) = .ok (300, ⟨[9], true⟩) ∧
    readU30FromBytes ([7] ++ (encodeU30 300 ++ [9])) ([7] : List u8).length
      = (300, ([7] : List u8).length + (encodeU30 300).length) :=
  readU30_encode_roundtrip 300 (by decide) [7] [9]

/-! ## The error and end-of-input behaviour of `readU30` -/

theorem readU30Loop_ok_or_overflow : ∀ (l : List u8) (v shift : Nat),
    (∃ r s, readU30Loop l v shift = .ok (r, s)) ∨
    readU30Loop l v shift = .error "Integer overflow in readU30" := by
  intro l
  induction l with
  | nil => intro v shift; exact Or.inl ⟨0, ⟨[], false⟩, rfl⟩
  | cons b rest ih =>
    intro v shift
    simp only [readU30Loop]
    split
    · exact Or.inl ⟨_, _, rfl⟩
    · split
      · exact Or.inr rfl
      · exact ih _ _

theorem readU30Loop_overflow_iff : ∀ (l : List u8) (v shift n : Nat),
    shift + 7 * n = 42 → 1 ≤ n →
    (readU30Loop l v shift = .error "Integer overflow in readU30" ↔
      (n ≤ l.length ∧ ∀ i, i < n → (l.getD i 0).val &&& 0x80 ≠ 0)) := by
  intro l
  induction l with
  | nil =>
    intro v shift n _ hn
    simp only [readU30Loop, List.length_nil]
    constructor
    · intro h; cases h
    · intro h; omega
  | cons b rest ih =>
    intro v shift n hs hn
    simp only [readU30Loop]
    split
    · rename_i hclear
      constructor
      · intro h; cases h
      · intro h
        have := h.2 0 (by omega)
        simp at this
        exact absurd hclear this
    · rename_i hset
      split
      · rename_i hover
        have hn1 : n = 1 := by omega
        subst hn1
        constructor
        · intro _
          refine ⟨by simp, ?_⟩
          intro i hi
          have : i = 0 := by omega
          subst this
          simpa using hset
        · intro _; rfl
      · rename_i hover
        obtain ⟨m, rfl⟩ : ∃ m, n = m + 1 := ⟨n - 1, by omega⟩
        rw [ih _ (shift + 7) m (by omega) (by omega)]
        constructor
        · rintro ⟨hlen, hall⟩
          refine ⟨by simp; omega, ?_⟩
          intro i hi
          cases i with
          | zero => simpa using hset
          | succ j => simpa using hall j (by omega)
        · rintro ⟨hlen, hall⟩
          refine ⟨by simp at hlen; omega, ?_⟩
          intro i hi
          simpa using hall (i + 1) (by omega)

/-- Claim C2.  On a stream delivering `bytes`, `readU30` raises its integer-overflow error
exactly when the input has six leading bytes that all carry the continuation bit `0x80`;
it raises no other error, and whenever one of the first six bytes has the continuation bit
clear it returns a value. -/
theorem readU30_overflow_iff (bytes : List u8) :
    (readU30 (IStream.ofBytes bytes) = .error "Integer overflow in readU30" ↔
      (6 ≤ bytes.length ∧ ∀ i, i < 6 → (bytes.getD i 0).val &&& 0x80 ≠ 0)) ∧
    (∀ e, readU30 (IStream.ofBytes bytes) = .error e → e = "Integer overflow in readU30") ∧
    ((∃ i, i < 6 ∧ i < bytes.length ∧ (bytes.getD i 0).val &&& 0x80 = 0) →
      ∃ v s, readU30 (IStream.ofBytes bytes) = .ok (v, s)) := by
  have hiff := readU30Loop_overflow_iff bytes 0 0 6 (by decide) (by decide)
  have hor := readU30Loop_ok_or_overflow bytes 0 0
  have hdef : readU30 (IStream.ofBytes bytes) = readU30Loop bytes 0 0 := by
    simp [readU30, IStream.ofBytes]
  rw [hdef]
  refine ⟨hiff, ?_, ?_⟩
  · intro e he
    rcases hor with ⟨r, s, h⟩ | h
    · rw [h] at he; cases he
    · rw [h] at he; cases he; rfl
  · rintro ⟨i, hi6, _, hclear⟩
    rcases hor with h | h
    · exact h
    · exact absurd hclear ((hiff.1 h).2 i hi6)

/-- Witness of `readU30_overflow_iff`: six continuation bytes raise, and a clear
continuation bit on the sixth byte gives a value. -/
theorem readU30_overflow_iff_witness :
    readU30 (IStream.ofBytes [0x80, 0x80, 0x80, 0x80, 0x80, 0x80, 0x01])
      = .error "Integer overflow in readU30" ∧
    ∃ v s, readU30 (IStream.ofBytes [0x80, 0x80, 0x80, 0x80, 0x80, 0x01]) = .ok (v, s) :=
  ⟨(readU30_overflow_iff [0x80, 0x80, 0x80, 0x80, 0x80, 0x80, 0x01]).1.2
      ⟨by decide, by decide⟩,
   (readU30_overflow_iff [0x80, 0x80, 0x80, 0x80, 0x80, 0x01]).2.2
      ⟨5, by decide, by decide, by decide⟩⟩

theorem readU30Loop_eof : ∀ (l : List u8) (v shift : Nat),
    shift + 7 * l.length ≤ 35 → (∀ b ∈ l, b.val &&& 0x80 ≠ 0) →
    readU30Loop l v shift = .ok (0, ⟨[], false⟩) := by
  intro l
  induction l with
  | nil => intro v shift _ _; rfl
  | cons b rest ih =>
    intro v shift hlen hall
    have hb : ¬ (b.val &&& 0x80 = 0) := hall b (List.mem_cons_self _ _)
    simp only [List.length_cons] at hlen
    simp only [readU30Loop, hb, if_false]
    rw [if_neg (by omega)]
    exact ih _ _ (by omega) (fun c hc => hall c (List.mem_cons_of_mem _ hc))

/-- Claim C3.  If the stream ends before a byte with a clear continuation bit has been read
(no byte at all, or one to five bytes that all carry the continuation bit), `readU30`
raises nothing and returns 0, not the partially accumulated value; the stream is left
exhausted and no longer good.  A stream that is already not good gives 0 as well. -/
theorem readU30_eof_returns_zero (bytes : List u8) (hlen : bytes.length ≤ 5)
    (hall : ∀ b ∈ bytes, b.val &&& 0x80 ≠ 0) :
    readU30 (IStream.ofBytes bytes) = .ok (0, ⟨[], false⟩) ∧
    readU30 ⟨bytes, false⟩ = .ok (0, ⟨bytes, false⟩) := by
  constructor
  · have h := readU30Loop_eof bytes 0 0 (by omega) hall
    simpa [readU30, IStream.ofBytes] using h
  · simp [readU30]

/-- Witness of `readU30_eof_returns_zero`: three continuation bytes `FF FF FF` then end of
input; the accumulated value `0x1FFFFF` is not returned. -/
theorem readU30_eof_returns_zero_witness :
    readU30 (IStream.ofBytes [0xFF, 0xFF, 0xFF]) = .ok (0, ⟨[], false⟩) ∧
    readU30 ⟨[0xFF, 0xFF, 0xFF], false⟩ = .ok (0, ⟨[0xFF, 0xFF, 0xFF], false⟩) :=
  readU30_eof_returns_zero [0xFF, 0xFF, 0xFF] (by decide)
    (by intro b hb; simp only [List.mem_cons, List.mem_singleton, List.not_mem_nil, or_false,
          or_self] at hb; subst hb; decide)

/-! ## The signed 24-bit reader -/

theorem readS24_raw (b0 b1 b2 : u8) :
    (b0.val ||| shl32 b1.val 8 ||| shl32 b2.val 16) = b0.val + 256 * b1.val + 65536 * b2.val := by
  have h0 := b0.isLt
  have h1 := b1.isLt
  have h2 := b2.isLt
  rw [or_shl32_eq_add b0.val b1.val 8 (by omega) (by omega)]
  rw [or_shl32_eq_add _ b2.val 16 (by omega) (by omega)]
  omega

theorem or_FF000000 (u : Nat) (hu : u < 2 ^ 24) : u ||| 0xFF000000 = u + 0xFF000000 := by
  have h := or_shiftLeft_eq_add u 255 24 hu
  norm_num at h
  exact h

/-- Claim C4.  When three bytes are available at `pos`, `readS24` returns the one integer
`v` in `[-2^23, 2^23)` congruent modulo `2^24` to the little-endian value
`b0 + 256*b1 + 65536*b2` of the bytes at `pos`, `pos+1`, `pos+2`, and advances `pos` by 3;
when fewer than three bytes are available it returns 0 and leaves `pos` where it was. -/
theorem readS24_spec (data : List u8) (pos : Nat) :
    (pos + 3 ≤ data.length →
      (-(2 : Int) ^ 23 ≤ (readS24 data pos).1 ∧ (readS24 data pos).1 < (2 : Int) ^ 23 ∧
       (readS24 data pos).1 % (2 : Int) ^ 24
          = ((((data.getD pos 0).val + 256 * (data.getD (pos + 1) 0).val
              + 65536 * (data.getD (pos + 2) 0).val : Nat) : Int)) % (2 : Int) ^ 24 ∧
       (∀ w : Int, -(2 : Int) ^ 23 ≤ w → w < (2 : Int) ^ 23 →
          w % (2 : Int) ^ 24
            = ((((data.getD pos 0).val + 256 * (data.getD (pos + 1) 0).val
              + 65536 * (data.getD (pos + 2) 0).val : Nat) : Int)) % (2 : Int) ^ 24 →
          w = (readS24 data pos).1) ∧
       (readS24 data pos).2 = pos + 3)) ∧
    (pos + 3 > data.length → readS24 data pos = (0, pos)) := by
  constructor
  · intro hlen
    have h0 := (data.getD pos 0).isLt
    have h1 := (data.getD (pos + 1) 0).isLt
    have h2 := (data.getD (pos + 2) 0).isLt
    have hraw := readS24_raw (data.getD pos 0) (data.getD (pos + 1) 0) (data.getD (pos + 2) 0)
    generalize hu : (data.getD pos 0).val + 256 * (data.getD (pos + 1) 0).val
      + 65536 * (data.getD (pos + 2) 0).val = u at hraw
    have hlt : u < 2 ^ 24 := by norm_num; omega
    have hsign := and_two_pow_eq_zero_iff u 23
    have hor := or_FF000000 u hlt
    norm_num at hsign hlt hor
    unfold readS24
    rw [if_neg (by omega)]
    simp only [hraw]
    by_cases hs : u &&& 0x800000 = 0
    · have hsmall : u < 8388608 := by
        have := hsign.1 hs
        omega
      simp only [hs, ne_eq, not_true_eq_false, if_false]
      have hv : toI32 u = (u : Int) := by
        unfold toI32
        norm_num
        omega
      rw [hv]
      refine ⟨by omega, by omega, by omega, ?_, trivial⟩
      intro w hw1 hw2 hw3
      omega
    · have hbig : 8388608 ≤ u := by
        by_contra hcon
        exact hs (hsign.2 (by omega))
      simp only [hs, ne_eq, not_false_eq_true, if_true]
      rw [hor]
      have hv : toI32 (u + 0xFF000000) = (u : Int) - 16777216 := by
        unfold toI32
        norm_num
        omega
      rw [hv]
      refine ⟨by omega, by omega, by omega, ?_, trivial⟩
      intro w hw1 hw2 hw3
      omega
  · intro hlen
    unfold readS24
    rw [if_pos hlen]

/-- Witness of `readS24_spec`: the bytes `FE FF FF` decode to -2, and a buffer of two bytes
gives 0 without moving the position. -/
theorem readS24_spec_witness :
    (readS24 [0xFE, 0xFF, 0xFF] 0).1 % (2 : Int) ^ 24
      = (((([0xFE, 0xFF, 0xFF] : List u8).getD 0 0).val
          + 256 * (([0xFE, 0xFF, 0xFF] : List u8).getD (0 + 1) 0).val
          + 65536 * (([0xFE, 0xFF, 0xFF] : List u8).getD (0 + 2) 0).val : Nat) : Int)
          % (2 : Int) ^ 24 ∧
    readS24 [0xFE, 0xFF] 0 = (0, 0) :=
  ⟨((readS24_spec [0xFE, 0xFF, 0xFF] 0).1 (by decide)).2.2.1,
   (readS24_spec [0xFE, 0xFF] 0).2 (by decide)⟩

end Abc

/-! ## The bit reader -/

theorem bitsValue_lt (data : List u8) : ∀ (n c : Nat), bitsValue data c n < 2 ^ n := by
  intro n
  induction n with
  | zero => intro c; simp [bitsValue]
  | succ n ih =>
    intro c
    have h1 := ih (c + 1)
    have h2 : bitAt data c ≤ 1 := by unfold bitAt; omega
    have h3 : bitAt data c * 2 ^ n ≤ 1 * 2 ^ n := Nat.mul_le_mul_right _ h2
    simp only [bitsValue]
    rw [pow_succ]
    omega

theorem shl32_one_or_bit (r b : Nat) (hb : b ≤ 1) : shl32 r 1 ||| b = (2 * r + b) % 2 ^ 32 := by
  unfold shl32
  rw [Nat.shiftLeft_eq]
  have h : b < 2 ^ 1 := by omega
  have hdvd : (r * 2 ^ 1 % 2 ^ 32) = 2 ^ 1 * (r % 2 ^ 31) := by
    norm_num
    omega
  rw [hdvd, ← Nat.mul_add_lt_is_or h]
  norm_num
  omega

namespace BitReader

theorem readBitsLoop_spec : ∀ (k : Nat) (br : BitReader) (r : Nat),
    br.bitPos < 8 → r < 2 ^ 32 →
    readBitsLoop k br r =
      ((r * 2 ^ (min k br.remaining) + bitsValue br.data br.cursor (min k br.remaining)) % 2 ^ 32,
       ⟨br.data, (br.cursor + min k br.remaining) / 8, (br.cursor + min k br.remaining) % 8⟩) := by
  intro k
  induction k with
  | zero =>
    intro br r hbit hr
    obtain ⟨d, bp, bi⟩ := br
    simp only [readBitsLoop, cursor, remaining, Nat.zero_min, pow_zero, mul_one, bitsValue,
      add_zero, Nat.mod_eq_of_lt hr]
    simp only [Prod.mk.injEq, BitReader.mk.injEq, true_and]
    simp only at hbit
    omega
  | succ k ih =>
    intro br r hbit hr
    obtain ⟨d, bp, bi⟩ := br
    simp only at hbit
    unfold readBitsLoop
    simp only [cursor, remaining]
    by_cases hend : bp ≥ d.length
    · rw [if_pos hend]
      have hz : 8 * d.length - (8 * bp + bi) = 0 := by omega
      simp only [hz, Nat.min_zero, pow_zero, mul_one, bitsValue, add_zero, Nat.mod_eq_of_lt hr]
      simp only [Prod.mk.injEq, BitReader.mk.injEq, true_and]
      omega
    · rw [if_neg hend]
      have hbitAt : ((d.getD bp 0).val >>> (7 - bi)) &&& 1 = bitAt d (8 * bp + bi) := by
        unfold bitAt
        rw [Nat.shiftRight_eq_div_pow, Nat.and_one_is_mod]
        have h1 : (8 * bp + bi) / 8 = bp := by omega
        have h2 : (8 * bp + bi) % 8 = bi := by omega
        rw [h1, h2]
      have hb1 : bitAt d (8 * bp + bi) ≤ 1 := by unfold bitAt; omega
      obtain ⟨m, hm⟩ : ∃ m, min (k + 1) (8 * d.length - (8 * bp + bi)) = m + 1 :=
        ⟨min (k + 1) (8 * d.length - (8 * bp + bi)) - 1, by omega⟩
      have hmod : ∀ (B : Nat), (((2 * r + bitAt d (8 * bp + bi)) % 2 ^ 32) * 2 ^ m + B) % 2 ^ 32
          = (r * 2 ^ (m + 1) + (bitAt d (8 * bp + bi) * 2 ^ m + B)) % 2 ^ 32 := by
        intro B
        have e : r * 2 ^ (m + 1) + (bitAt d (8 * bp + bi) * 2 ^ m + B)
            = (2 * r + bitAt d (8 * bp + bi)) * 2 ^ m + B := by ring
        rw [e]
        exact Nat.ModEq.add_right B (Nat.ModEq.mul_right _ (Nat.mod_modEq _ _))
      simp only [hbitAt, shl32_one_or_bit r _ hb1, hm, bitsValue]
      split
      · rename_i h8
        rw [ih _ _ (by simp) (Nat.mod_lt _ (by norm_num))]
        simp only [cursor, remaining]
        have hm2 : min k (8 * d.length - (8 * (bp + 1) + 0)) = m := by omega
        have hc : 8 * (bp + 1) + 0 = 8 * bp + bi + 1 := by omega
        rw [hm2, hc, hmod]
        simp only [Prod.mk.injEq, BitReader.mk.injEq, true_and]
        omega
      · rename_i h8
        rw [ih _ _ (by simp; omega) (Nat.mod_lt _ (by norm_num))]
        simp only [cursor, remaining]
        have hm2 : min k (8 * d.length - (8 * bp + (bi + 1))) = m := by omega
        have hc : 8 * bp + (bi + 1) = 8 * bp + bi + 1 := by omega
        rw [hm2, hc, hmod]
        simp only [Prod.mk.injEq, BitReader.mk.injEq, true_and]
        omega

/-- The value `readBits n` returns is below `2^n` when `n` bits are available. -/
theorem readBits_lt_two_pow (br : BitReader) (n : Nat) (hbit : br.bitPos < 8)
    (havail : br.cursor + n ≤ 8 * br.data.length) : (br.readBits n).1 < 2 ^ n := by
  have h := readBitsLoop_spec n br 0 hbit (by norm_num)
  have hrem : br.remaining = 8 * br.data.length - br.cursor := rfl
  have hmin : min n br.remaining = n := by omega
  unfold readBits
  rw [h, hmin]
  simp only [zero_mul, zero_add]
  exact Nat.lt_of_le_of_lt (Nat.mod_le _ _) (bitsValue_lt br.data n br.cursor)

/-- Claim C5.  From a reader state with the bit index in `0..7`, for `n ≤ 32` and at least
`n` bits remaining, `readBits n` returns the number whose binary digits, most significant
first, are the next `n` bits of the buffer (each byte taken most significant bit first)
and advances the cursor by exactly `n` bits: afterwards the bit index is in `0..7`, the
byte index does not exceed the buffer size and the buffer is the same.  The embedded
`readBits` is the one of shape_to_svg.cpp and of swf_extractor.cpp. -/
theorem readBits_spec (br : BitReader) (n : Nat) (hbit : br.bitPos < 8) (hn : n ≤ 32)
    (havail : br.cursor + n ≤ 8 * br.data.length) :
    (br.readBits n).1 = bitsValue br.data br.cursor n ∧
    (br.readBits n).2.cursor = br.cursor + n ∧
    (br.readBits n).2.bitPos < 8 ∧
    (br.readBits n).2.bytePos ≤ br.data.length ∧
    (br.readBits n).2.data = br.data := by
  have h := readBitsLoop_spec n br 0 hbit (by norm_num)
  have hrem : br.remaining = 8 * br.data.length - (8 * br.bytePos + br.bitPos) := rfl
  have hcur : br.cursor = 8 * br.bytePos + br.bitPos := rfl
  have hmin : min n br.remaining = n := by omega
  have hlt := bitsValue_lt br.data n br.cursor
  have hpow : 2 ^ n ≤ 2 ^ 32 := Nat.pow_le_pow_right (by decide) hn
  unfold readBits
  rw [h, hmin]
  simp only [zero_mul, zero_add, cursor] at hlt havail ⊢
  refine ⟨Nat.mod_eq_of_lt (by omega), ?_, ?_, ?_, trivial⟩
  · omega
  · omega
  · omega

/-- Witness of `readBits_spec`: five bits from bit 6 of `A5 C3` are `0 1 1 1 0`:
the bit cursor moves from 6 to 11. -/
theorem readBits_spec_witness :
    (BitReader.readBits ⟨[0xA5, 0xC3], 0, 6⟩ 5).1
        = bitsValue [0xA5, 0xC3] (BitReader.cursor ⟨[0xA5, 0xC3], 0, 6⟩) 5 ∧
    (BitReader.readBits ⟨[0xA5, 0xC3], 0, 6⟩ 5).2.cursor
        = BitReader.cursor ⟨[0xA5, 0xC3], 0, 6⟩ + 5 ∧
    (BitReader.readBits ⟨[0xA5, 0xC3], 0, 6⟩ 5).2.bitPos < 8 ∧
    (BitReader.readBits ⟨[0xA5, 0xC3], 0, 6⟩ 5).2.bytePos ≤ ([0xA5, 0xC3] : List u8).length ∧
    (BitReader.readBits ⟨[0xA5, 0xC3], 0, 6⟩ 5).2.data = [0xA5, 0xC3] :=
  readBits_spec ⟨[0xA5, 0xC3], 0, 6⟩ 5 (by decide) (by decide) (by decide)

end BitReader

/-! ### Sign extension -/

theorem shl32_allOnes (n : Nat) (hn : n ≤ 32) : shl32 0xFFFFFFFF n = 2 ^ 32 - 2 ^ n := by
  unfold shl32
  rw [Nat.shiftLeft_eq]
  have hQ : 2 ^ (32 - n) * 2 ^ n = 2 ^ 32 := by rw [← pow_add]; congr 1; omega
  have hR : 0 < 2 ^ n := Nat.two_pow_pos n
  have hQpos : 0 < 2 ^ (32 - n) := Nat.two_pow_pos _
  obtain ⟨q, hq⟩ : ∃ q, 2 ^ (32 - n) = q + 1 := ⟨2 ^ (32 - n) - 1, by omega⟩
  obtain ⟨r, hr⟩ : ∃ r, 2 ^ n = r + 1 := ⟨2 ^ n - 1, by omega⟩
  rw [hq, hr] at hQ
  have hQ2 : q * r + q + r + 1 = 2 ^ 32 := by rw [← hQ]; ring
  have e : 4294967295 * 2 ^ n = q * (r + 1) + r * 2 ^ 32 := by
    rw [hr]
    have : q * (r + 1) = q * r + q := by ring
    rw [this]
    norm_num at hQ2 ⊢
    omega
  rw [e, Nat.add_mul_mod_self_right, hr]
  have : q * (r + 1) = q * r + q := by ring
  rw [this]
  norm_num at hQ2 ⊢
  omega

theorem signExtend_arith (u n : Nat) (h1 : 1 ≤ n) (h31 : n ≤ 31) (hu : u < 2 ^ n) :
    (if u &&& shl32 1 (n - 1) ≠ 0 then toI32 (u ||| shl32 0xFFFFFFFF n) else toI32 u)
      = if u < 2 ^ (n - 1) then (u : Int) else (u : Int) - 2 ^ n := by
  obtain ⟨m, rfl⟩ : ∃ m, n = m + 1 := ⟨n - 1, by omega⟩
  simp only [Nat.add_sub_cancel]
  have hP : 0 < 2 ^ m := Nat.two_pow_pos m
  have hP30 : 2 ^ m ≤ 2 ^ 30 := Nat.pow_le_pow_right (by decide) (by omega)
  have h2P : 2 ^ (m + 1) = 2 * 2 ^ m := by rw [pow_succ]; ring
  have hmask : shl32 1 m = 2 ^ m := by
    unfold shl32
    rw [Nat.shiftLeft_eq, one_mul]
    exact Nat.mod_eq_of_lt (by norm_num at hP30 ⊢; omega)
  have htest := and_two_pow_eq_zero_iff u m
  have hdiv : u / 2 ^ m < 2 := by
    rw [Nat.div_lt_iff_lt_mul hP]
    omega
  have hdiv0 : u / 2 ^ m = 0 ↔ u < 2 ^ m := by
    rw [Nat.div_eq_zero_iff hP]
  have hcast : ((2 : Int) ^ (m + 1)) = 2 * ((2 ^ m : Nat) : Int) := by
    push_cast
    rw [pow_succ]; ring
  rw [hmask]
  by_cases hs : u < 2 ^ m
  · have hz : u &&& 2 ^ m = 0 := htest.2 (by rw [hdiv0.2 hs])
    simp only [hz, ne_eq, not_true_eq_false, if_false, hs, if_true]
    unfold toI32
    norm_num at hP30 ⊢
    omega
  · have hnz : u &&& 2 ^ m ≠ 0 := by
      intro hcon
      have h0 := htest.1 hcon
      have ht : u / 2 ^ m = 0 := by
        generalize u / 2 ^ m = t at h0 hdiv
        omega
      exact hs (hdiv0.1 ht)
    simp only [hnz, ne_eq, not_false_eq_true, if_true, hs, if_false]
    have hmask2 := shl32_allOnes (m + 1) (by omega)
    have hor : u ||| shl32 0xFFFFFFFF (m + 1) = u + (2 ^ 32 - 2 ^ (m + 1)) := by
      have hQ : 2 ^ (32 - (m + 1)) * 2 ^ (m + 1) = 2 ^ 32 := by
        rw [← pow_add]; congr 1; omega
      have hQpos : 0 < 2 ^ (32 - (m + 1)) := Nat.two_pow_pos _
      have e : 2 ^ 32 - 2 ^ (m + 1) = (2 ^ (32 - (m + 1)) - 1) <<< (m + 1) := by
        rw [Nat.shiftLeft_eq, Nat.sub_mul, hQ, one_mul]
      rw [hmask2, e, or_shiftLeft_eq_add u _ (m + 1) hu, ← Nat.shiftLeft_eq]
    rw [hor, hcast]
    unfold toI32
    rw [h2P] at hu ⊢
    norm_num at hP30 ⊢
    omega

theorem int_unique_mod (w s u m : Int) (hw1 : -m ≤ 2 * w) (hw2 : 2 * w < m)
    (hs1 : -m ≤ 2 * s) (hs2 : 2 * s < m) (hw : w % m = u % m) (hs : s % m = u % m) : w = s := by
  have hd : m ∣ w - s := by
    have : w % m = s % m := by rw [hw, hs]
    exact Int.ModEq.dvd (show s ≡ w [ZMOD m] from this.symm)
  have habs : |w - s| < m := by
    rw [abs_lt]
    constructor <;> omega
  have := Int.eq_zero_of_abs_lt_dvd hd habs
  omega

namespace BitReader

/-- Claim C6.  For `1 ≤ n ≤ 31`, from a reader state with the bit index in `0..7` and at
least `n` bits remaining, `readSignedBits n` returns the one integer `s` with
`-2^(n-1) ≤ s < 2^(n-1)` that is congruent modulo `2^n` to the value `u` that `readBits n`
returns from the same state, and it leaves the reader where `readBits n` leaves it.  The
embedded `readSignedBits` is the one of shape_to_svg.cpp and of swf_extractor.cpp. -/
theorem readSignedBits_spec (br : BitReader) (n : Nat) (hbit : br.bitPos < 8)
    (h1 : 1 ≤ n) (h31 : n ≤ 31) (havail : br.cursor + n ≤ 8 * br.data.length) :
    -(2 : Int) ^ (n - 1) ≤ (br.readSignedBits n).1 ∧
    (br.readSignedBits n).1 < (2 : Int) ^ (n - 1) ∧
    (br.readSignedBits n).1 % (2 : Int) ^ n = ((br.readBits n).1 : Int) % (2 : Int) ^ n ∧
    (∀ w : Int, -(2 : Int) ^ (n - 1) ≤ w → w < (2 : Int) ^ (n - 1) →
        w % (2 : Int) ^ n = ((br.readBits n).1 : Int) % (2 : Int) ^ n →
        w = (br.readSignedBits n).1) ∧
    (br.readSignedBits n).2 = (br.readBits n).2 := by
  have hu : (br.readBits n).1 < 2 ^ n := readBits_lt_two_pow br n hbit havail
  have harith := signExtend_arith (br.readBits n).1 n h1 h31 hu
  have hval : (br.readSignedBits n).1
      = if (br.readBits n).1 < 2 ^ (n - 1) then ((br.readBits n).1 : Int)
        else ((br.readBits n).1 : Int) - 2 ^ n := by
    rw [← harith]
    unfold readSignedBits
    simp only
    split <;> rfl
  have hstate : (br.readSignedBits n).2 = (br.readBits n).2 := by
    unfold readSignedBits
    simp only
    split <;> rfl
  generalize (br.readBits n).1 = u at hu hval
  generalize (br.readSignedBits n).1 = s at hval
  obtain ⟨m, rfl⟩ : ∃ m, n = m + 1 := ⟨n - 1, by omega⟩
  simp only [Nat.add_sub_cancel] at hval ⊢
  have hP : (0 : Int) < 2 ^ m := by positivity
  have h2P : (2 : Int) ^ (m + 1) = 2 * 2 ^ m := by rw [pow_succ]; ring
  have huI : (u : Int) < 2 ^ (m + 1) := by exact_mod_cast hu
  have hcases : (u < 2 ^ m ∧ s = u) ∨ (¬ u < 2 ^ m ∧ s = (u : Int) - 2 ^ (m + 1)) := by
    by_cases hc : u < 2 ^ m
    · left; exact ⟨hc, by rw [hval, if_pos hc]⟩
    · right; exact ⟨hc, by rw [hval, if_neg hc]⟩
  have hcong : s % (2 : Int) ^ (m + 1) = (u : Int) % (2 : Int) ^ (m + 1) := by
    rcases hcases with ⟨_, hs⟩ | ⟨_, hs⟩
    · rw [hs]
    · rw [hs, Int.sub_emod, Int.emod_self, sub_zero, Int.emod_emod_of_dvd _ (dvd_refl _)]
  have hlo : -(2 : Int) ^ m ≤ s := by
    rcases hcases with ⟨hc, hs⟩ | ⟨hc, hs⟩
    · rw [hs]; have : (0 : Int) ≤ u := Int.natCast_nonneg u; omega
    · have hc2 : (2 : Int) ^ m ≤ u := by
        have : 2 ^ m ≤ u := Nat.le_of_not_lt hc
        exact_mod_cast this
      rw [hs, h2P]; omega
  have hhi : s < (2 : Int) ^ m := by
    rcases hcases with ⟨hc, hs⟩ | ⟨hc, hs⟩
    · rw [hs]; exact_mod_cast hc
    · rw [hs]; rw [h2P] at huI ⊢; omega
  refine ⟨hlo, hhi, hcong, ?_, hstate⟩
  intro w hw1 hw2 hw3
  exact int_unique_mod w s u ((2 : Int) ^ (m + 1)) (by rw [h2P]; omega) (by rw [h2P]; omega)
    (by rw [h2P]; omega) (by rw [h2P]; omega) hw3 hcong

/-- Witness of `readSignedBits_spec`: the three bits `1 0 1` read as signed give -3, and
read as unsigned give 5. -/
theorem readSignedBits_spec_witness :
    -(2 : Int) ^ (3 - 1) ≤ (BitReader.readSignedBits ⟨[0xA0], 0, 0⟩ 3).1 ∧
    (BitReader.readSignedBits ⟨[0xA0], 0, 0⟩ 3).1 < (2 : Int) ^ (3 - 1) ∧
    (BitReader.readSignedBits ⟨[0xA0], 0, 0⟩ 3).1 % (2 : Int) ^ 3
      = ((BitReader.readBits ⟨[0xA0], 0, 0⟩ 3).1 : Int) % (2 : Int) ^ 3 ∧
    (BitReader.readSignedBits ⟨[0xA0], 0, 0⟩ 3).2 = (BitReader.readBits ⟨[0xA0], 0, 0⟩ 3).2 :=
  have h := readSignedBits_spec ⟨[0xA0], 0, 0⟩ 3 (by decide) (by decide) (by decide) (by decide)
  ⟨h.1, h.2.1, h.2.2.1, h.2.2.2.2⟩

/-- Claim C7, as the code has it.  When fewer than `n` bits remain, `readBits n` does not
fail: it returns the value (modulo `2^32`) of the bits that do remain, most significant
first, and stops at the end of the buffer.  The result is 0 when no bit remains, and the
reader is then left as it was; with some bits remaining the result is their value, which
need not be 0. -/
theorem readBits_truncated (br : BitReader) (n : Nat) (hbit : br.bitPos < 8)
    (hfew : br.remaining < n) :
    (br.readBits n).1 = bitsValue br.data br.cursor br.remaining % 2 ^ 32 ∧
    (br.remaining = 0 → (br.readBits n).1 = 0 ∧ (br.readBits n).2 = br) ∧
    (br.cursor ≤ 8 * br.data.length →
      (br.readBits n).2.bytePos = br.data.length ∧ (br.readBits n).2.bitPos = 0) := by
  have h := readBitsLoop_spec n br 0 hbit (by norm_num)
  have hrem : br.remaining = 8 * br.data.length - (8 * br.bytePos + br.bitPos) := rfl
  have hcur : br.cursor = 8 * br.bytePos + br.bitPos := rfl
  have hmin : min n br.remaining = br.remaining := by omega
  unfold readBits
  rw [h, hmin]
  simp only [zero_mul, zero_add]
  refine ⟨trivial, ?_, ?_⟩
  · intro h0
    rw [h0]
    obtain ⟨d, bp, bi⟩ := br
    simp only [bitsValue, Nat.zero_mod, add_zero, cursor, true_and, BitReader.mk.injEq]
    simp only at hbit
    omega
  · intro hin
    constructor <;> omega

/-- Witness of `readBits_truncated`: nine bits asked of the one byte `FF`. -/
theorem readBits_truncated_witness :
    (BitReader.readBits ⟨[0xFF], 0, 0⟩ 9).1
      = bitsValue [0xFF] (BitReader.cursor ⟨[0xFF], 0, 0⟩) (BitReader.remaining ⟨[0xFF], 0, 0⟩)
          % 2 ^ 32 :=
  (readBits_truncated ⟨[0xFF], 0, 0⟩ 9 (by decide) (by decide)).1

/-- Counterexample to claim C7 as stated: with eight bits remaining and nine asked for,
`readBits` returns 255, not 0. -/
theorem readBits_truncated_counterexample :
    BitReader.remaining ⟨[0xFF], 0, 0⟩ < 9 ∧
    (BitReader.readBits ⟨[0xFF], 0, 0⟩ 9).1 = 255 ∧
    (BitReader.readBits ⟨[0xFF], 0, 0⟩ 9).1 ≠ 0 := by
  decide

end BitReader

/-! ## The tag walker -/

namespace Swf

theorem readU16_value (data : List u8) (p : Nat) (hp : p + 2 ≤ data.length) :
    readU16 data p = ((data.getD p 0).val + 256 * (data.getD (p + 1) 0).val, p + 2) := by
  have h0 := (data.getD p 0).isLt
  have h1 := (data.getD (p + 1) 0).isLt
  unfold readU16
  rw [if_neg (by omega), or_shl32_eq_add _ _ 8 (by omega) (by omega)]
  congr 1
  omega

theorem readU32_value (data : List u8) (p : Nat) (hp : p + 4 ≤ data.length) :
    readU32 data p = ((data.getD p 0).val + 256 * (data.getD (p + 1) 0).val
      + 65536 * (data.getD (p + 2) 0).val + 16777216 * (data.getD (p + 3) 0).val, p + 4) := by
  have h0 := (data.getD p 0).isLt
  have h1 := (data.getD (p + 1) 0).isLt
  have h2 := (data.getD (p + 2) 0).isLt
  have h3 := (data.getD (p + 3) 0).isLt
  unfold readU32
  rw [if_neg (by omega), or_shl32_eq_add _ _ 8 (by omega) (by omega),
    or_shl32_eq_add _ _ 16 (by omega) (by omega), or_shl32_eq_add _ _ 24 (by omega) (by omega)]
  congr 1
  omega

/-- Claim C8.  For a tag head read from two bytes `b0`, `b1` at offset `p`, with
`h = b0 + 256*b1`: the tag code is `h >> 6`; when `(h & 0x3F) ≠ 0x3F` the declared length
is `h & 0x3F` and the payload starts at `p + 2`; when `(h & 0x3F) = 0x3F` and four more
bytes are available the declared length is those four bytes as an unsigned little-endian
32-bit number and the payload starts at `p + 6`.  `readTagHead` is the head decoding of
the top-level loop (`extractLoop`) and of the sprite loop (`processSpriteLoop`). -/
theorem readTagHead_spec (data : List u8) (p : Nat) (hp : p + 2 ≤ data.length) :
    (readTagHead data p).1
      = ((data.getD p 0).val + 256 * (data.getD (p + 1) 0).val) >>> 6 ∧
    (((data.getD p 0).val + 256 * (data.getD (p + 1) 0).val) &&& 0x3F ≠ 0x3F →
      (readTagHead data p).2
        = (((data.getD p 0).val + 256 * (data.getD (p + 1) 0).val) &&& 0x3F, p + 2)) ∧
    (((data.getD p 0).val + 256 * (data.getD (p + 1) 0).val) &&& 0x3F = 0x3F →
      p + 6 ≤ data.length →
      (readTagHead data p).2
        = ((data.getD (p + 2) 0).val + 256 * (data.getD (p + 3) 0).val
            + 65536 * (data.getD (p + 4) 0).val + 16777216 * (data.getD (p + 5) 0).val,
           p + 6)) := by
  have h16 := readU16_value data p hp
  unfold readTagHead
  simp only [h16]
  refine ⟨?_, ?_, ?_⟩
  · split <;> rfl
  · intro hne
    rw [if_neg hne]
  · intro heq hlen
    rw [if_pos heq]
    have h32 := readU32_value data (p + 2) (by omega)
    simp only [h32]

/-- Witness of `readTagHead_spec`: the short head `CD 09` is code 39 with length 13, and
the long head `FF 09` followed by `01 02 03 04` is code 39 with length `0x04030201`. -/
theorem readTagHead_spec_witness :
    readTagHead [0xCD, 0x09] 0 = (39, 13, 2) ∧
    readTagHead [0xFF, 0x09, 1, 2, 3, 4] 0 = (39, 0x04030201, 6) := by
  have h1 := readTagHead_spec [0xCD, 0x09] 0 (by decide)
  have h2 := readTagHead_spec [0xFF, 0x09, 1, 2, 3, 4] 0 (by decide)
  constructor
  · exact Prod.ext h1.1 (h1.2.1 (by decide))
  · exact Prod.ext h2.1 (h2.2.2 (by decide) (by decide))

/-- Claim C9.  For a tag code that has no `case` label in the dispatcher, `processTag`
called at payload start `pos` with declared length `tagLength` sets the cursor to
`pos + tagLength` and returns the walker state as it was (frame counters, display list,
JPEG tables buffer, character table, counters and files written), at top level and when
called from a sprite loop (any `procSprite`). -/
theorem processTag_unhandled (env : Env) (fuel : Nat)
    (procSprite : SWFExtractor → Nat → Nat → Nat → Option (SWFExtractor × Nat))
    (st : SWFExtractor) (tagType tagLength pos : Nat) (h : tagType ∉ handledTagCodes) :
    processTag env fuel st tagType tagLength pos = some (st, pos + tagLength) ∧
    processTagWith env procSprite st tagType tagLength pos = some (st, pos + tagLength) := by
  have key : ∀ f, processTagWith env f st tagType tagLength pos = some (st, pos + tagLength) := by
    intro f
    simp only [handledTagCodes, List.mem_cons, List.mem_singleton, List.not_mem_nil,
      not_or, or_false] at h
    obtain ⟨h1, h2, h3, h4, h5, h6, h7, h8, h9, h10, h11, h12, h13, h14, h15, h16, h17, h18,
      h19, h20, h21, h22, h23, h24, h25⟩ := h
    unfold processTagWith
    simp only [h1, h2, h3, h4, h5, h6, h7, h8, h9, h10, h11, h12, h13, h14, h15, h16, h17,
      h18, h19, h20, h21, h22, h23, h24, h25, or_self, if_false]
  exact ⟨key _, key _⟩

/-- Witness of `processTag_unhandled`: code 69 (FileAttributes) with declared length 4 at
payload start 7 of a loaded body. -/
theorem processTag_unhandled_witness :
    processTag ⟨fun _ => true, fun _ _ => none, 0⟩ 0
        (SWFExtractor.loaded "out" [0, 0, 24, 1, 0, 0x44, 0x11, 8, 0, 0, 0, 0, 0]) 69 4 7
      = some (SWFExtractor.loaded "out" [0, 0, 24, 1, 0, 0x44, 0x11, 8, 0, 0, 0, 0, 0], 7 + 4) :=
  (processTag_unhandled ⟨fun _ => true, fun _ _ => none, 0⟩ 0 (fun _ _ _ _ => none)
    (SWFExtractor.loaded "out" [0, 0, 24, 1, 0, 0x44, 0x11, 8, 0, 0, 0, 0, 0]) 69 4 7
    (by decide)).1

theorem saveFrameState_fields (env : Env) (st : SWFExtractor) (n : Nat) :
    (saveFrameState env st n).data = st.data ∧
    (saveFrameState env st n).currentFrame = st.currentFrame := by
  unfold saveFrameState logFile
  simp only
  split <;> exact ⟨rfl, rfl⟩

theorem processTag_showFrame (env : Env) (fuel : Nat) (st : SWFExtractor)
    (tagLength pos : Nat) :
    ∃ st1, processTag env fuel st TAG_SHOW_FRAME tagLength pos = some (st1, pos) ∧
      st1.data = st.data ∧ st1.currentFrame = st.currentFrame + 1 := by
  refine ⟨saveFrameState env
    { st with currentFrame := st.currentFrame + 1, globalFrame := st.globalFrame + 1 }
    (st.currentFrame + 1), ?_, ?_, ?_⟩
  · simp [processTag, processTagWith]
  · exact (saveFrameState_fields env _ _).1
  · exact (saveFrameState_fields env _ _).2

/-- Claim C10, at a failing input.  The body `00 00 18 01 00 | 42 00 40 00 | 40 00 | 00 00`
holds, after its five header bytes, a ShowFrame tag with declared length 2 (payload start
7), a ShowFrame tag of length 0 at offset 9 and an End tag.  Dispatching the first tag
leaves the cursor at 7, not at 7 + 2: `processTag` does not move the cursor for ShowFrame,
whatever the declared length.  The walker then reads the payload `40 00` as a tag head and
counts three frames where the body has two ShowFrame tags. -/
theorem processTag_cursor_showFrame (env : Env) (fuel : Nat) :
    (∀ (st : SWFExtractor) (tagLength pos : Nat),
      (processTag env fuel st TAG_SHOW_FRAME tagLength pos).map Prod.snd = some pos) ∧
    extractHeader [0, 0, 0x18, 1, 0, 0x42, 0, 0x40, 0, 0x40, 0, 0, 0] = 5 ∧
    readTagHead [0, 0, 0x18, 1, 0, 0x42, 0, 0x40, 0, 0x40, 0, 0, 0] 5 = (TAG_SHOW_FRAME, 2, 7) ∧
    (processTag env fuel
        (SWFExtractor.loaded "out" [0, 0, 0x18, 1, 0, 0x42, 0, 0x40, 0, 0x40, 0, 0, 0])
        TAG_SHOW_FRAME 2 7).map Prod.snd = some 7 ∧
    (extract env (fuel + 4)
        (SWFExtractor.loaded "out" [0, 0, 0x18, 1, 0, 0x42, 0, 0x40, 0, 0x40, 0, 0, 0])).map
      (fun r => (r.1.currentFrame, r.2)) = some (3, 13) := by
  have hgen : ∀ (f : Nat) (st : SWFExtractor) (tagLength pos : Nat),
      (processTag env f st TAG_SHOW_FRAME tagLength pos).map Prod.snd = some pos := by
    intro f st tagLength pos
    obtain ⟨st1, h, _⟩ := processTag_showFrame env f st tagLength pos
    rw [h]; rfl
  refine ⟨hgen fuel, by decide, by decide, hgen fuel _ _ _, ?_⟩
  have hhead : extractHeader [0, 0, 0x18, 1, 0, 0x42, 0, 0x40, 0, 0x40, 0, 0, 0] = 5 := by
    decide
  have step : ∀ (f : Nat) (st : SWFExtractor) (pos L : Nat),
      st.data = [0, 0, 0x18, 1, 0, 0x42, 0, 0x40, 0, 0x40, 0, 0, 0] → pos < 13 →
      readTagHead [0, 0, 0x18, 1, 0, 0x42, 0, 0x40, 0, 0x40, 0, 0, 0] pos
        = (TAG_SHOW_FRAME, L, pos + 2) →
      ∃ st1, extractLoop env (f + 1) st pos = extractLoop env f st1 (pos + 2) ∧
        st1.data = st.data ∧ st1.currentFrame = st.currentFrame + 1 := by
    intro f st pos L hd hpos hh
    obtain ⟨st1, h, h1, h2⟩ := processTag_showFrame env f st L (pos + 2)
    refine ⟨st1, ?_, h1, h2⟩
    rw [extractLoop, hd, if_pos (by simpa using hpos)]
    simp only [hh, h]
    rw [if_neg (by decide)]
  unfold extract
  have hd0 : (SWFExtractor.loaded "out" [0, 0, 0x18, 1, 0, 0x42, 0, 0x40, 0, 0x40, 0, 0, 0]).data
      = [0, 0, 0x18, 1, 0, 0x42, 0, 0x40, 0, 0x40, 0, 0, 0] := rfl
  rw [hd0, hhead]
  obtain ⟨s1, e1, d1, c1⟩ := step (fuel + 3)
    (SWFExtractor.loaded "out" [0, 0, 0x18, 1, 0, 0x42, 0, 0x40, 0, 0x40, 0, 0, 0]) 5 2 rfl
    (by decide) (by decide)
  obtain ⟨s2, e2, d2, c2⟩ := step (fuel + 2) s1 7 0 d1 (by decide) (by decide)
  obtain ⟨s3, e3, d3, c3⟩ := step (fuel + 1) s2 9 0 (d2.trans d1) (by decide) (by decide)
  rw [e1, e2, e3]
  have hd3 : s3.data = [0, 0, 0x18, 1, 0, 0x42, 0, 0x40, 0, 0x40, 0, 0, 0] :=
    d3.trans (d2.trans d1)
  have hend : readTagHead [0, 0, 0x18, 1, 0, 0x42, 0, 0x40, 0, 0x40, 0, 0, 0] 11
      = (TAG_END, 0, 13) := by decide
  rw [extractLoop, hd3, if_pos (by decide)]
  simp only [hend, if_true, Option.map_some']
  rw [c3, c2, c1]
  rfl

theorem extractLoop_showFrame_step (env : Env) (f : Nat) (st : SWFExtractor) (pos L p1 : Nat)
    (hpos : pos < st.data.length) (hh : readTagHead st.data pos = (TAG_SHOW_FRAME, L, p1)) :
    ∃ st1, extractLoop env (f + 1) st pos = extractLoop env f st1 p1 ∧
      st1.data = st.data ∧ st1.currentFrame = st.currentFrame + 1 := by
  obtain ⟨st1, h, h1, h2⟩ := processTag_showFrame env f st L p1
  refine ⟨st1, ?_, h1, h2⟩
  rw [extractLoop, if_pos hpos]
  simp only [hh, h]
  rw [if_neg (by decide)]

/-- Claim C11, at a failing input.  The body `00 00 18 01 00 | 8A 01 07 00 40 00` holds,
after its five header bytes, a DefineBits head (code 6) with declared length 10 and
payload start 7, where only 4 bytes remain.  `processTag` reads the character id, finds
that the image does not fit and returns with the cursor at 9; the top-level loop goes on,
reads the bytes `40 00` of the payload as a ShowFrame head and dispatches it: a frame is
counted after the tag that should have ended the walk. -/
theorem extract_truncated_defineBits (env : Env) (fuel : Nat) :
    extractHeader [0, 0, 0x18, 1, 0, 0x8A, 0x01, 7, 0, 0x40, 0] = 5 ∧
    readTagHead [0, 0, 0x18, 1, 0, 0x8A, 0x01, 7, 0, 0x40, 0] 5 = (TAG_DEFINE_BITS, 10, 7) ∧
    ([0, 0, 0x18, 1, 0, 0x8A, 0x01, 7, 0, 0x40, 0] : List u8).length - 7 < 10 ∧
    processTag env fuel (SWFExtractor.loaded "out" [0, 0, 0x18, 1, 0, 0x8A, 0x01, 7, 0, 0x40, 0])
        TAG_DEFINE_BITS 10 7
      = some (SWFExtractor.loaded "out" [0, 0, 0x18, 1, 0, 0x8A, 0x01, 7, 0, 0x40, 0], 9) ∧
    readTagHead [0, 0, 0x18, 1, 0, 0x8A, 0x01, 7, 0, 0x40, 0] 9 = (TAG_SHOW_FRAME, 0, 11) ∧
    (extract env (fuel + 3)
        (SWFExtractor.loaded "out" [0, 0, 0x18, 1, 0, 0x8A, 0x01, 7, 0, 0x40, 0])).map
      (fun r => (r.1.currentFrame, r.2)) = some (1, 11) := by
  refine ⟨by decide, by decide, by decide, rfl, by decide, ?_⟩
  unfold extract
  have hhead : extractHeader [0, 0, 0x18, 1, 0, 0x8A, 0x01, 7, 0, 0x40, 0] = 5 := by decide
  have hd0 : (SWFExtractor.loaded "out" [0, 0, 0x18, 1, 0, 0x8A, 0x01, 7, 0, 0x40, 0]).data
      = [0, 0, 0x18, 1, 0, 0x8A, 0x01, 7, 0, 0x40, 0] := rfl
  rw [hd0, hhead]
  have h1 : extractLoop env (fuel + 3)
      (SWFExtractor.loaded "out" [0, 0, 0x18, 1, 0, 0x8A, 0x01, 7, 0, 0x40, 0]) 5
      = extractLoop env (fuel + 2)
          (SWFExtractor.loaded "out" [0, 0, 0x18, 1, 0, 0x8A, 0x01, 7, 0, 0x40, 0]) 9 := by
    rw [extractLoop, hd0, if_pos (by decide)]
    have hh : readTagHead [0, 0, 0x18, 1, 0, 0x8A, 0x01, 7, 0, 0x40, 0] 5
        = (TAG_DEFINE_BITS, 10, 7) := by decide
    simp only [hh]
    rw [if_neg (by decide)]
    have : processTag env (fuel + 2)
      (SWFExtractor.loaded "out" [0, 0, 0x18, 1, 0, 0x8A, 0x01, 7, 0, 0x40, 0]) TAG_DEFINE_BITS 10 7
      = some (SWFExtractor.loaded "out" [0, 0, 0x18, 1, 0, 0x8A, 0x01, 7, 0, 0x40, 0], 9) := rfl
    rw [this]
  obtain ⟨s2, e2, d2, c2⟩ := extractLoop_showFrame_step env (fuel + 1)
    (SWFExtractor.loaded "out" [0, 0, 0x18, 1, 0, 0x8A, 0x01, 7, 0, 0x40, 0]) 9 0 11
    (by decide) (by decide)
  rw [h1, e2]
  rw [extractLoop, d2, hd0, if_neg (by decide)]
  simp only [Option.map_some', c2]
  rfl

theorem register_data (st : SWFExtractor) (id : Nat) (p k : String) :
    (register st id p k).data = st.data := rfl

theorem logFile_data (st : SWFExtractor) (n : String) (c : FileContent) :
    (logFile st n c).data = st.data := rfl

theorem logSideFile_data (env : Env) (st : SWFExtractor) (n : String) :
    (logSideFile env st n).data = st.data := by
  unfold logSideFile; split <;> rfl

theorem raise_fields (st : SWFExtractor) (f : Fault) :
    (raise st f).data = st.data ∧ (raise st f).outputDir = st.outputDir ∧
    (raise st f).currentFrame = st.currentFrame ∧ (raise st f).globalFrame = st.globalFrame ∧
    (raise st f).files = st.files := by
  unfold raise
  split <;> exact ⟨rfl, rfl, rfl, rfl, rfl⟩

theorem raise_data (st : SWFExtractor) (f : Fault) : (raise st f).data = st.data :=
  (raise_fields st f).1

theorem raiseUnless_data (st : SWFExtractor) (f : Fault) (c : Prop) [Decidable c] :
    (if c then st else raise st f).data = st.data := by
  split
  · rfl
  · exact raise_data st f

theorem extractShape_data (env : Env) (st : SWFExtractor) (a b c d : Nat) :
    (extractShape env st a b c d).data = st.data := by
  unfold extractShape
  simp only
  split
  · split
    · simp [register_data, logSideFile_data, logFile_data]
    · rfl
  · rfl

theorem extractJPEG_data (env : Env) (st : SWFExtractor) (img : List u8) (id : Nat) (t : Bool) :
    (extractJPEG env st img id t).data = st.data := by
  unfold extractJPEG
  simp only
  split <;> rfl

theorem extractPNG_data (env : Env) (st : SWFExtractor) (img : List u8) (w h f id : Nat)
    (a : Bool) : (extractPNG env st img w h f id a).data = st.data := by
  unfold extractPNG
  simp only
  split
  · simp only [register_data, logSideFile_data, logFile_data, raiseUnless_data]
  · rfl

theorem extractBinaryData_data (env : Env) (st : SWFExtractor) (b : List u8) (id : Nat) :
    (extractBinaryData env st b id).data = st.data := by
  unfold extractBinaryData
  simp only
  split <;> rfl

theorem extractSound_data (env : Env) (st : SWFExtractor) (b : List u8) (id f : Nat) :
    (extractSound env st b id f).data = st.data := by
  unfold extractSound
  simp only
  split <;> split <;> rfl

theorem extractActionScript_data (env : Env) (st : SWFExtractor) (b : List u8) (f n : Nat)
    (c : String) : (extractActionScript env st b f n c).data = st.data := by
  unfold extractActionScript
  simp only
  split <;> split <;> first | rfl | simp only [logSideFile_data, logFile_data]

theorem saveFrameState_data (env : Env) (st : SWFExtractor) (n : Nat) :
    (saveFrameState env st n).data = st.data := (saveFrameState_fields env st n).1

theorem readU16_pos_ge (data : List u8) (p : Nat) : p ≤ (readU16 data p).2 := by
  unfold readU16; split <;> simp


theorem processTagWith_default (env : Env)
    (procSprite : SWFExtractor → Nat → Nat → Nat → Option (SWFExtractor × Nat))
    (st : SWFExtractor) (tagType tagLength pos : Nat) (h : tagType ∉ handledTagCodes) :
    processTagWith env procSprite st tagType tagLength pos = some (st, pos + tagLength) := by
  simp only [handledTagCodes, List.mem_cons, List.mem_singleton, List.not_mem_nil,
    not_or, or_false] at h
  obtain ⟨h1, h2, h3, h4, h5, h6, h7, h8, h9, h10, h11, h12, h13, h14, h15, h16, h17, h18,
    h19, h20, h21, h22, h23, h24, h25⟩ := h
  unfold processTagWith
  simp only [h1, h2, h3, h4, h5, h6, h7, h8, h9, h10, h11, h12, h13, h14, h15, h16, h17,
    h18, h19, h20, h21, h22, h23, h24, h25, or_self, if_false]

set_option maxRecDepth 4000 in
/-- `processTag` returns (for every tag code) and keeps the buffer, provided the sprite
descent it may start, at a cursor not before `pos`, does. -/
theorem processTagWith_keeps_data (env : Env)
    (procSprite : SWFExtractor → Nat → Nat → Nat → Option (SWFExtractor × Nat))
    (st : SWFExtractor) (tagType tagLength pos : Nat)
    (h : ∀ id p e, pos ≤ p → ∃ st1 p1, procSprite st id p e = some (st1, p1) ∧ st1.data = st.data) :
    ∃ st1 p1, processTagWith env procSprite st tagType tagLength pos = some (st1, p1) ∧
      st1.data = st.data := by
  by_cases hmem : tagType ∈ handledTagCodes
  · simp only [handledTagCodes, List.mem_cons, List.mem_singleton, List.not_mem_nil,
      or_false] at hmem
    by_cases hs : tagType = TAG_DEFINE_SPRITE
    · subst hs
      obtain ⟨st1, p1, h1, h2⟩ := h (readU16 st.data pos).1
        (readU16 st.data (readU16 st.data pos).2).2 (pos + tagLength)
        (Nat.le_trans (readU16_pos_ge _ _) (readU16_pos_ge _ _))
      unfold processTagWith
      simp -zeta only [Nat.reduceEqDiff, if_true, if_false, or_self, or_true, true_or, or_false, false_or,
        TAG_SHOW_FRAME, TAG_DEFINE_SHAPE, TAG_PLACE_OBJECT,
        TAG_REMOVE_OBJECT, TAG_DEFINE_BITS, TAG_JPEG_TABLES, TAG_DEFINE_BITS_JPEG2,
        TAG_DEFINE_BITS_JPEG3, TAG_DEFINE_BITS_LOSSLESS, TAG_DEFINE_BITS_LOSSLESS2,
        TAG_DEFINE_BITS_JPEG4, TAG_DO_ACTION, TAG_DO_ABC, TAG_PLACE_OBJECT2, TAG_PLACE_OBJECT3,
        TAG_REMOVE_OBJECT2, TAG_DEFINE_SHAPE2, TAG_DEFINE_SHAPE3, TAG_DEFINE_SHAPE4,
        TAG_DEFINE_SPRITE, TAG_DEFINE_SOUND, TAG_DEFINE_BINARY_DATA, TAG_SYMBOL_CLASS,
        TAG_DEFINE_MORPH_SHAPE, TAG_DEFINE_MORPH_SHAPE2]
      simp only [h1]
      exact ⟨_, _, rfl, h2⟩
    · rcases hmem with rfl | rfl | rfl | rfl | rfl | rfl | rfl | rfl | rfl | rfl | rfl | rfl |
        rfl | rfl | rfl | rfl | rfl | rfl | rfl | rfl | rfl | rfl | rfl | rfl | rfl
      all_goals first
        | exact absurd rfl hs
        | (unfold processTagWith
           simp -zeta only [Nat.reduceEqDiff, if_true, if_false, or_self, or_true, true_or, or_false,
            false_or, TAG_SHOW_FRAME, TAG_DEFINE_SHAPE, TAG_PLACE_OBJECT,
            TAG_REMOVE_OBJECT, TAG_DEFINE_BITS, TAG_JPEG_TABLES, TAG_DEFINE_BITS_JPEG2,
            TAG_DEFINE_BITS_JPEG3, TAG_DEFINE_BITS_LOSSLESS, TAG_DEFINE_BITS_LOSSLESS2,
            TAG_DEFINE_BITS_JPEG4, TAG_DO_ACTION, TAG_DO_ABC, TAG_PLACE_OBJECT2,
            TAG_PLACE_OBJECT3, TAG_REMOVE_OBJECT2, TAG_DEFINE_SHAPE2, TAG_DEFINE_SHAPE3,
            TAG_DEFINE_SHAPE4, TAG_DEFINE_SPRITE, TAG_DEFINE_SOUND, TAG_DEFINE_BINARY_DATA,
            TAG_SYMBOL_CLASS, TAG_DEFINE_MORPH_SHAPE, TAG_DEFINE_MORPH_SHAPE2]
           try simp only []
           repeat' split
           all_goals refine ⟨_, _, rfl, ?_⟩
           all_goals first
             | with_reducible rfl
             | simp only [saveFrameState_data, extractShape_data, extractJPEG_data,
                 extractPNG_data, extractBinaryData_data, extractSound_data,
                 extractActionScript_data, logSideFile_data, logFile_data, register_data,
                 raise_data])
  · rw [processTagWith_default env procSprite st tagType tagLength pos hmem]
    exact ⟨_, _, rfl, rfl⟩


theorem readTagHead_pos_ge (data : List u8) (p : Nat) (h : (readTagHead data p).1 ≠ TAG_END) :
    p + 2 ≤ (readTagHead data p).2.2 := by
  unfold readTagHead at h ⊢
  by_cases hlen : p + 2 > data.length
  · exfalso
    apply h
    have h16 : readU16 data p = (0, p) := by unfold readU16; rw [if_pos hlen]
    simp only [h16]
    split <;> rfl
  · have h16 : (readU16 data p).2 = p + 2 := by unfold readU16; rw [if_neg hlen]
    simp only
    split
    · simp only [h16]
      unfold readU32
      split <;> simp
    · simp only [h16]; exact Nat.le_refl _

theorem processSpriteWith_keeps_data (env : Env)
    (loop : SWFExtractor → Nat → Nat → Nat → Nat → Nat → Option (SWFExtractor × Nat))
    (st : SWFExtractor) (spriteId pos endPos : Nat)
    (h : ∀ st0, st0.data = st.data → ∃ st1 p1, loop st0 spriteId 0 0 pos endPos = some (st1, p1) ∧
      st1.data = st.data) :
    ∃ st1 p1, processSpriteWith env loop st spriteId pos endPos = some (st1, p1) ∧
      st1.data = st.data := by
  unfold processSpriteWith
  simp only
  obtain ⟨st1, p1, h1, h2⟩ := h _ (logSideFile_data env st _)
  rw [h1]
  exact ⟨_, _, rfl, by rw [register_data, h2]⟩

/-- The sprite loop returns, and keeps the buffer, whenever its bound exceeds the number
of bytes from the cursor to the end of the buffer. -/
theorem processSpriteLoop_terminates (env : Env) : ∀ (fuel : Nat) (st : SWFExtractor)
    (spriteId spriteFrame actionCount pos endPos : Nat),
    1 ≤ fuel → st.data.length < pos + fuel →
    ∃ st1 p1, processSpriteLoop env fuel st spriteId spriteFrame actionCount pos endPos
        = some (st1, p1) ∧ st1.data = st.data := by
  intro fuel
  induction fuel with
  | zero => intro st _ _ _ _ _ h; omega
  | succ f ih =>
    intro st spriteId spriteFrame actionCount pos endPos _ hlen
    rw [processSpriteLoop]
    split
    · rename_i hcond
      simp only
      split
      · exact ⟨_, _, rfl, rfl⟩
      · rename_i hne
        have hge := readTagHead_pos_ge st.data pos hne
        have hf : 1 ≤ f := by omega
        split
        · exact ih st _ _ _ _ _ hf (by omega)
        · split
          · split
            · obtain ⟨st1, p1, h1, h2⟩ := ih (extractActionScript env st
                (slice st.data (readTagHead st.data pos).2.2 (readTagHead st.data pos).2.1)
                spriteFrame actionCount
                ("sprite_" ++ toString spriteId ++ "_frame_" ++ toString spriteFrame))
                spriteId spriteFrame (actionCount + 1)
                ((readTagHead st.data pos).2.2 + (readTagHead st.data pos).2.1) endPos hf
                (by rw [extractActionScript_data]; omega)
              exact ⟨st1, p1, h1, by rw [h2, extractActionScript_data]⟩
            · exact ih st _ _ _ _ _ hf (by omega)
          · obtain ⟨st1, p1, h1, h2⟩ := processTagWith_keeps_data env
              (processSpriteWith env (processSpriteLoop env f)) st (readTagHead st.data pos).1
              (readTagHead st.data pos).2.1 (readTagHead st.data pos).2.2
              (by
                intro id p e hp
                apply processSpriteWith_keeps_data
                intro st0 hst0
                obtain ⟨st2, p2, h3, h4⟩ := ih st0 id 0 0 p e hf (by rw [hst0]; omega)
                exact ⟨st2, p2, h3, by rw [h4, hst0]⟩)
            rw [h1]
            simp only
            obtain ⟨st3, p3, h5, h6⟩ := ih st1 spriteId spriteFrame actionCount
              ((readTagHead st.data pos).2.2 + (readTagHead st.data pos).2.1) endPos hf
              (by rw [h2]; omega)
            exact ⟨st3, p3, h5, by rw [h6, h2]⟩
    · exact ⟨_, _, rfl, rfl⟩

theorem mapFind_mapInsert_self {V : Type} (k : Nat) (v : V) (l : List (Nat × V)) :
    mapFind k (mapInsert k v l) = some v := by
  induction l with
  | nil => simp [mapInsert, mapFind]
  | cons a rest ih =>
    obtain ⟨k1, v1⟩ := a
    unfold mapInsert
    split
    · simp [mapFind]
    · split
      · simp [mapFind]
      · rename_i h1 h2
        simp [mapFind, h2, ih]

theorem mapFind_mapInsert_ne {V : Type} (k k2 : Nat) (v : V) (l : List (Nat × V))
    (hne : k2 ≠ k) : mapFind k2 (mapInsert k v l) = mapFind k2 l := by
  induction l with
  | nil => simp [mapInsert, mapFind, hne]
  | cons a rest ih =>
    obtain ⟨k1, v1⟩ := a
    unfold mapInsert
    split
    · simp [mapFind, hne]
    · split
      · rename_i h1 h2
        subst h2
        simp [mapFind, hne]
      · rename_i h1 h2
        simp only [mapFind, ih]

/-- Claim C13.  For a PlaceObject2 or PlaceObject3 tag whose depth field `d` addresses a
depth at which the display list holds an object `o`, `processTag` leaves at `d` an object
with depth field `d` whose character id, matrix, colour transform and name are those of
`o` whenever the flag `0x02`, `0x04`, `0x08`, `0x20` respectively is clear, and the
entries at every other depth are as before. -/
theorem processTag_placeObject2_keeps (env : Env) (fuel : Nat) (st : SWFExtractor)
    (tagType tagLength pos : Nat) (o : DisplayObject)
    (ht : tagType = TAG_PLACE_OBJECT2 ∨ tagType = TAG_PLACE_OBJECT3)
    (ho : mapFind (readU16 st.data (readU8 st.data pos).2).1 st.displayList = some o) :
    ∃ st1 o1, processTag env fuel st tagType tagLength pos = some (st1, pos + tagLength) ∧
      mapFind (readU16 st.data (readU8 st.data pos).2).1 st1.displayList = some o1 ∧
      o1.depth = (readU16 st.data (readU8 st.data pos).2).1 ∧
      ((readU8 st.data pos).1 &&& 0x02 = 0 → o1.characterId = o.characterId) ∧
      ((readU8 st.data pos).1 &&& 0x04 = 0 → o1.matrix = o.matrix) ∧
      ((readU8 st.data pos).1 &&& 0x08 = 0 → o1.colorTransform = o.colorTransform) ∧
      ((readU8 st.data pos).1 &&& 0x20 = 0 → o1.name = o.name) ∧
      ∀ d2, d2 ≠ (readU16 st.data (readU8 st.data pos).2).1 →
        mapFind d2 st1.displayList = mapFind d2 st.displayList := by
  unfold processTag processTagWith
  rcases ht with rfl | rfl
  all_goals
    simp -zeta only [Nat.reduceEqDiff, if_true, if_false, or_self, or_true, true_or, or_false,
      false_or, TAG_SHOW_FRAME, TAG_DEFINE_SHAPE, TAG_PLACE_OBJECT,
      TAG_REMOVE_OBJECT, TAG_DEFINE_BITS, TAG_JPEG_TABLES, TAG_DEFINE_BITS_JPEG2,
      TAG_DEFINE_BITS_JPEG3, TAG_DEFINE_BITS_LOSSLESS, TAG_DEFINE_BITS_LOSSLESS2,
      TAG_DEFINE_BITS_JPEG4, TAG_DO_ACTION, TAG_DO_ABC, TAG_PLACE_OBJECT2, TAG_PLACE_OBJECT3,
      TAG_REMOVE_OBJECT2, TAG_DEFINE_SHAPE2, TAG_DEFINE_SHAPE3, TAG_DEFINE_SHAPE4,
      TAG_DEFINE_SPRITE, TAG_DEFINE_SOUND, TAG_DEFINE_BINARY_DATA, TAG_SYMBOL_CLASS,
      TAG_DEFINE_MORPH_SHAPE, TAG_DEFINE_MORPH_SHAPE2]
    simp only [ho]
    refine ⟨_, _, rfl, mapFind_mapInsert_self _ _ _, ?_, ?_, ?_, ?_, ?_, ?_⟩
    · repeat' split
      all_goals rfl
    · intro hf
      simp only [hf, ne_eq, not_true_eq_false, if_false]
      repeat' split
      all_goals rfl
    · intro hf
      simp only [hf, ne_eq, not_true_eq_false, if_false]
      repeat' split
      all_goals rfl
    · intro hf
      simp only [hf, ne_eq, not_true_eq_false, if_false]
      repeat' split
      all_goals rfl
    · intro hf
      simp only [hf, ne_eq, not_true_eq_false, if_false]
      repeat' split
      all_goals rfl
    · intro d2 hd2
      exact mapFind_mapInsert_ne _ _ _ _ hd2

/-- What `extractJPEG` writes for a DefineBits image of more than two bytes when the
tables buffer is not empty: the image alone when it starts with `FF D8`, and otherwise
the tables (without a trailing `FF D9`) followed by the image. -/
theorem extractJPEG_written (env : Env) (st : SWFExtractor) (P : List u8) (id : Nat)
    (hopen : env.canOpen (st.outputDir ++ "/image_" ++ toString id ++ ".jpg") = true)
    (hT : st.jpegTables.length > 0) (hP : P.length > 2) :
    (((P.getD 0 0).val = 0xFF ∧ (P.getD 1 0).val = 0xD8) →
      (extractJPEG env st P id true).files
        = st.files ++ [⟨st.outputDir ++ "/image_" ++ toString id ++ ".jpg", .bytes P⟩]) ∧
    (¬ ((P.getD 0 0).val = 0xFF ∧ (P.getD 1 0).val = 0xD8) →
      (extractJPEG env st P id true).files
        = st.files ++ [⟨st.outputDir ++ "/image_" ++ toString id ++ ".jpg",
            .bytes ((if st.jpegTables.length ≥ 2 ∧
                (st.jpegTables.getD (st.jpegTables.length - 2) 0).val = 0xFF ∧
                (st.jpegTables.getD (st.jpegTables.length - 1) 0).val = 0xD9
              then st.jpegTables.take (st.jpegTables.length - 2) else st.jpegTables) ++ P)⟩]) := by
  constructor
  · intro hsoi
    unfold extractJPEG
    simp only []
    rw [if_pos hopen, if_neg (fun h => h.2.2.2 hsoi)]
    rfl
  · intro hsoi
    unfold extractJPEG
    simp only []
    rw [if_pos hopen, if_pos ⟨trivial, hT, hP, hsoi⟩, if_neg hsoi]
    rfl

/-- Claim C14, at a failing input.  The body holds a JPEGTables tag with the tables
`FF D8 FF DB 01 FF D9` and a DefineBits tag (id 7) with the image `FF D8 FF C0 AA`.  The
file written for the image holds the image bytes alone, `FF D8 FF C0 AA`: the tables are
not written, where the claim gives `FF D8 FF DB 01` followed by `FF C0 AA`. -/
theorem extract_defineBits_soi :
    (extract ⟨fun _ => true, fun _ _ => none, 0⟩ 4
        (SWFExtractor.loaded "out"
          [0, 0, 0x18, 1, 0,
           0x07, 0x02, 0xFF, 0xD8, 0xFF, 0xDB, 0x01, 0xFF, 0xD9,
           0x87, 0x01, 7, 0, 0xFF, 0xD8, 0xFF, 0xC0, 0xAA,
           0, 0])).map (fun r => (r.1.jpegTables, r.1.files.map (fun f => f.content)))
      = some ([0xFF, 0xD8, 0xFF, 0xDB, 0x01, 0xFF, 0xD9],
              [FileContent.bytes [0xFF, 0xD8, 0xFF, 0xC0, 0xAA]]) := by
  decide

/-- Witness of `processTag_placeObject2_keeps`: a PlaceObject2 tag with flags `01` (move)
and depth 3 on a display list that holds character 5 at depth 3. -/
theorem processTag_placeObject2_keeps_witness :
    ∃ st1 o1, processTag ⟨fun _ => true, fun _ _ => none, 0⟩ 0
        { SWFExtractor.loaded "out" [0x01, 0x03, 0x00] with
          displayList := [(3, ⟨5, 3, {}, {}, [0x61]⟩)] } TAG_PLACE_OBJECT2 3 0
        = some (st1, 0 + 3) ∧
      mapFind 3 st1.displayList = some o1 ∧ o1.depth = 3 ∧ o1.characterId = 5 ∧
      o1.name = [0x61] :=
  have h := processTag_placeObject2_keeps ⟨fun _ => true, fun _ _ => none, 0⟩ 0
    { SWFExtractor.loaded "out" [0x01, 0x03, 0x00] with
      displayList := [(3, ⟨5, 3, {}, {}, [0x61]⟩)] } TAG_PLACE_OBJECT2 3 0
    ⟨5, 3, {}, {}, [0x61]⟩ (Or.inl rfl) (by decide)
  match h with
  | ⟨st1, o1, h1, h2, h3, h4, _, _, h7, _⟩ =>
    ⟨st1, o1, h1, h2, h3, h4 (by decide), h7 (by decide)⟩

end Swf

/-! ## The shape renderer: style tables, edge emission and path data -/

namespace Shape

theorem readFillStylesLoop_length (v i : Int) (a : Bool) : ∀ (n : Nat) (br : BitReader),
    (readFillStylesLoop v i a n br).1.length = n := by
  intro n
  induction n with
  | zero => intro br; rfl
  | succ n ih => intro br; simp [readFillStylesLoop, ih]

theorem readLineStylesLoop_length (v i : Int) (a : Bool) : ∀ (n : Nat) (fills : List FillStyle)
    (br : BitReader), (readLineStylesLoop v i a n fills br).2.1.length = n := by
  intro n
  induction n with
  | zero => intro fills br; rfl
  | succ n ih => intro fills br; simp [readLineStylesLoop, ih]

/-- The 16-bit value `readU16` returns from a byte-aligned reader with two bytes left is
the little-endian value of those bytes. -/
theorem readU16_aligned (br : BitReader) (hbit : br.bitPos = 0)
    (hlen : br.bytePos + 2 ≤ br.data.length) :
    (readU16 br).1 = (br.data.getD br.bytePos 0).val
      + 256 * (br.data.getD (br.bytePos + 1) 0).val := by
  have h0 := (br.data.getD br.bytePos 0).isLt
  have h1 := (br.data.getD (br.bytePos + 1) 0).isLt
  unfold readU16
  have ha : br.alignByte = br := by
    unfold BitReader.alignByte
    rw [if_neg (by simp [hbit])]
  simp only [ha, BitReader.getBytePos]
  rw [if_neg (by omega), or_shl32_eq_add _ _ 8 (by omega) (by omega)]
  omega

/-- Claim C15.  In `readFillStyles` and in `readLineStyles`, with `c` the count byte read
first: for `c ≠ 0xFF` the table has `c` entries in every version; for `c = 0xFF` and
version at least 2 it has as many entries as the 16-bit value read next (little-endian:
low byte first); for `c = 0xFF` and a version below 2 it has 255 entries and the first
entry is read right after the count byte.  The length of the style vector is that
count. -/
theorem readStyles_count (v i : Int) (a : Bool) (fills : List FillStyle) (br : BitReader) :
    ((readU8 br).1 ≠ 0xFF →
      (readFillStyles v i a br).1.length = (readU8 br).1 ∧
      (readLineStyles v i a fills br).2.1.length = (readU8 br).1) ∧
    ((readU8 br).1 = 0xFF → v ≥ 2 →
      (readFillStyles v i a br).1.length = (readU16 (readU8 br).2).1 ∧
      (readLineStyles v i a fills br).2.1.length = (readU16 (readU8 br).2).1 ∧
      ((readU8 br).2.bitPos = 0 → (readU8 br).2.bytePos + 2 ≤ (readU8 br).2.data.length →
        (readU16 (readU8 br).2).1
          = ((readU8 br).2.data.getD (readU8 br).2.bytePos 0).val
            + 256 * ((readU8 br).2.data.getD ((readU8 br).2.bytePos + 1) 0).val)) ∧
    ((readU8 br).1 = 0xFF → v < 2 →
      (readFillStyles v i a br).1.length = 255 ∧
      (readLineStyles v i a fills br).2.1.length = 255 ∧
      readFillStyles v i a br = readFillStylesLoop v i a 255 (readU8 br).2 ∧
      readLineStyles v i a fills br = readLineStylesLoop v i a 255 fills (readU8 br).2) := by
  refine ⟨?_, ?_, ?_⟩
  · intro hc
    have hcount : readStyleCount v br = readU8 br := by
      unfold readStyleCount
      simp only
      rw [if_neg (fun h => hc h.1)]
    unfold readFillStyles readLineStyles
    simp only [hcount, readFillStylesLoop_length, readLineStylesLoop_length, and_self]
  · intro hc hv
    have hcount : readStyleCount v br = readU16 (readU8 br).2 := by
      unfold readStyleCount
      simp only
      rw [if_pos ⟨hc, hv⟩]
    unfold readFillStyles readLineStyles
    simp only [hcount, readFillStylesLoop_length, readLineStylesLoop_length, true_and]
    intro hbit hlen
    exact readU16_aligned _ hbit hlen
  · intro hc hv
    have hcount : readStyleCount v br = readU8 br := by
      unfold readStyleCount
      simp only
      rw [if_neg (fun h => by omega)]
    unfold readFillStyles readLineStyles
    simp only [hcount, readFillStylesLoop_length, readLineStylesLoop_length, hc, true_and]

/-- Witness of `readStyles_count`: a table starting `FF 02 00` has 2 entries in version 2
and 255 entries in version 1. -/
theorem readStyles_count_witness :
    (readFillStyles 2 0 false (BitReader.new [0xFF, 0x02, 0x00])).1.length = 2 ∧
    (readFillStyles 1 0 false (BitReader.new [0xFF, 0x02, 0x00])).1.length = 255 ∧
    (readLineStyles 1 0 false [] (BitReader.new [0x03])).2.1.length = 3 := by
  have h2 := (readStyles_count 2 0 false [] (BitReader.new [0xFF, 0x02, 0x00])).2.1
    (by decide) (by decide)
  have h1 := (readStyles_count 1 0 false [] (BitReader.new [0xFF, 0x02, 0x00])).2.2
    (by decide) (by decide)
  have h3 := (readStyles_count 1 0 false [] (BitReader.new [0x03])).1 (by decide)
  refine ⟨?_, h1.1, ?_⟩
  · rw [h2.1]; decide
  · rw [h3.2]; decide

theorem layer_pushEdge {F : Type} (layers : List (Nat × List (Edge F))) (idx k : Nat)
    (e : Edge F) :
    (Swf.mapFind k (pushEdge layers idx e)).getD []
      = (Swf.mapFind k layers).getD [] ++ (if k = idx then [e] else []) := by
  unfold pushEdge
  by_cases hk : k = idx
  · subst hk
    rw [Swf.mapFind_mapInsert_self]
    simp
  · rw [Swf.mapFind_mapInsert_ne _ _ _ _ hk]
    simp [hk]

theorem emitEdge_fillLayers {F : Type} (r : ShapeRenderer F) (pen : Pen F) (edge : Edge F)
    (k : Nat) :
    (Swf.mapFind k (emitEdge r pen edge).1.fillLayers).getD []
      = (Swf.mapFind k r.fillLayers).getD []
        ++ (if pen.currentFill0 ≠ 0 ∧ k = pen.currentFill0 then [edge.reversed] else [])
        ++ (if pen.currentFill1 ≠ 0 ∧ k = pen.currentFill1 then [edge] else []) := by
  unfold emitEdge
  simp only
  by_cases h0 : pen.currentFill0 = 0 <;> by_cases h1 : pen.currentFill1 = 0 <;>
    simp [h0, h1, layer_pushEdge]

theorem emitEdge_strokeLayers {F : Type} (r : ShapeRenderer F) (pen : Pen F) (edge : Edge F)
    (k : Nat) :
    (Swf.mapFind k (emitEdge r pen edge).1.strokeLayers).getD []
      = (Swf.mapFind k r.strokeLayers).getD []
        ++ (if pen.currentLine ≠ 0 ∧ k = pen.currentLine then [edge] else []) := by
  unfold emitEdge
  simp only
  by_cases h0 : pen.currentLine = 0 <;> simp [h0, layer_pushEdge]

theorem edgeOf_p1 {F : Type} (A : Arith F) (p : Point F) (record : Record) (e : Edge F)
    (h : edgeOf A p record = some e) : e.p1 = p := by
  cases record with
  | endOfShape => simp [edgeOf] at h
  | styleChange m f0 f1 l n => simp [edgeOf] at h
  | straight dx dy =>
    simp only [edgeOf, Option.some.injEq] at h
    rw [← h]
  | curve a b c d =>
    simp only [edgeOf, Option.some.injEq] at h
    rw [← h]

theorem applyRecord_edge {F : Type} (A : Arith F) (fuel : Nat) (r : ShapeRenderer F)
    (pen : Pen F) (record : Record) (edge : Edge F)
    (h : edgeOf A pen.currentPos record = some edge) :
    applyRecord A fuel r pen record = some (emitEdge r pen edge) := by
  cases record with
  | endOfShape => simp [edgeOf] at h
  | styleChange m f0 f1 l n => simp [edgeOf] at h
  | straight dx dy => simp only [applyRecord, h]
  | curve a b c d => simp only [applyRecord, h]

/-- Claim C16.  An edge record decoded with the pen at `currentPos` and the style indices
`(fill0, fill1, line)` builds an edge starting at `currentPos` and ends with `emitEdge`,
which appends the reversed edge (start and end swapped, control point and curve flag
kept) to `fillLayers[fill0]` iff `fill0 ≠ 0`, then the edge itself to `fillLayers[fill1]`
iff `fill1 ≠ 0`, and the edge to `strokeLayers[line]` iff `line ≠ 0`; every other layer
and everything else in the renderer and the pen are as before, except the pen position,
which becomes the end point of the edge. -/
theorem emitEdge_spec {F : Type} (A : Arith F) (fuel : Nat) (r : ShapeRenderer F) (pen : Pen F)
    (record : Record) (edge : Edge F) (h : edgeOf A pen.currentPos record = some edge) :
    applyRecord A fuel r pen record = some (emitEdge r pen edge) ∧
    edge.p1 = pen.currentPos ∧
    (edge.reversed.p1 = edge.p2 ∧ edge.reversed.p2 = edge.p1 ∧
      edge.reversed.control = edge.control ∧ edge.reversed.isQuad = edge.isQuad) ∧
    (∀ k, (Swf.mapFind k (emitEdge r pen edge).1.fillLayers).getD []
        = (Swf.mapFind k r.fillLayers).getD []
          ++ (if pen.currentFill0 ≠ 0 ∧ k = pen.currentFill0 then [edge.reversed] else [])
          ++ (if pen.currentFill1 ≠ 0 ∧ k = pen.currentFill1 then [edge] else [])) ∧
    (∀ k, (Swf.mapFind k (emitEdge r pen edge).1.strokeLayers).getD []
        = (Swf.mapFind k r.strokeLayers).getD []
          ++ (if pen.currentLine ≠ 0 ∧ k = pen.currentLine then [edge] else [])) ∧
    (emitEdge r pen edge).2.currentPos = edge.p2 ∧
    (emitEdge r pen edge).2 = { pen with currentPos := edge.p2 } ∧
    (emitEdge r pen edge).1
      = { r with fillLayers := (emitEdge r pen edge).1.fillLayers,
                 strokeLayers := (emitEdge r pen edge).1.strokeLayers } :=
  ⟨applyRecord_edge A fuel r pen record edge h, edgeOf_p1 A _ record edge h,
    ⟨rfl, rfl, rfl, rfl⟩, emitEdge_fillLayers r pen edge, emitEdge_strokeLayers r pen edge,
    rfl, rfl, rfl⟩

/-- Witness of `emitEdge_spec`: a straight edge record of 100 twips to the right with the
pen at the origin, `fill0 = 2`, `fill1 = 1` and `line = 0`, under the exact arithmetic.
Layer 2 gets the reversed edge and layer 1 the edge as it is. -/
theorem emitEdge_spec_witness :
    (Swf.mapFind 2 (emitEdge ({ shapeVersion := 1, indeterminate := 0 } : ShapeRenderer ℚ)
        { numFillBits := 2, numLineBits := 0, currentPos := ⟨0, 0⟩, currentFill0 := 2,
          currentFill1 := 1 }
        ⟨⟨0, 0⟩, ⟨5, 0⟩, ⟨0, 0⟩, false⟩).1.fillLayers).getD []
      = [⟨⟨5, 0⟩, ⟨0, 0⟩, ⟨0, 0⟩, false⟩] ∧
    (Swf.mapFind 1 (emitEdge ({ shapeVersion := 1, indeterminate := 0 } : ShapeRenderer ℚ)
        { numFillBits := 2, numLineBits := 0, currentPos := ⟨0, 0⟩, currentFill0 := 2,
          currentFill1 := 1 }
        ⟨⟨0, 0⟩, ⟨5, 0⟩, ⟨0, 0⟩, false⟩).1.fillLayers).getD []
      = [⟨⟨0, 0⟩, ⟨5, 0⟩, ⟨0, 0⟩, false⟩] :=
  have h := emitEdge_spec Arith.exact 1 ({ shapeVersion := 1, indeterminate := 0 })
    { numFillBits := 2, numLineBits := 0, currentPos := ⟨0, 0⟩, currentFill0 := 2,
      currentFill1 := 1 }
    (.straight 100 0) ⟨⟨0, 0⟩, ⟨5, 0⟩, ⟨0, 0⟩, false⟩ (by decide!)
  ⟨(h.2.2.2.1 2).trans (by decide!), (h.2.2.2.1 1).trans (by decide!)⟩

theorem findNext_perm {F : Type} (A : Arith F) (tip : Point F) :
    ∀ (l : List (Edge F)) (e : Edge F) (rest : List (Edge F)),
    findNext A tip l = some (e, rest) → List.Perm (e :: rest) l := by
  intro l
  induction l with
  | nil => intro e rest h; simp [findNext] at h
  | cons a l ih =>
    intro e rest h
    unfold findNext at h
    split at h
    · simp only [Option.some.injEq, Prod.mk.injEq] at h
      obtain ⟨rfl, rfl⟩ := h
      exact List.Perm.refl _
    · split at h
      · cases h
      · rename_i found rest1 hf
        simp only [Option.some.injEq, Prod.mk.injEq] at h
        obtain ⟨rfl, rfl⟩ := h
        exact (List.Perm.swap a found rest1).trans (List.Perm.cons a (ih _ _ hf))

/-- The loop `while (found)` returns when its bound exceeds the number of edges: it
writes the segments of a chain of edges and leaves the others. -/
theorem extendPath_spec {F : Type} (A : Arith F) : ∀ (fuel : Nat) (tip : Point F)
    (edges : List (Edge F)), edges.length < fuel →
    ∃ chain left, extendPath A fuel tip edges = some (chain.map segment, left) ∧
      List.Perm (chain ++ left) edges := by
  intro fuel
  induction fuel with
  | zero => intro tip edges h; omega
  | succ f ih =>
    intro tip edges hlen
    unfold extendPath
    split
    · exact ⟨[], edges, rfl, List.Perm.refl _⟩
    · rename_i e rest hf
      have hperm := findNext_perm A tip edges e rest hf
      have hl : rest.length < f := by
        have := hperm.length_eq
        simp only [List.length_cons] at this
        omega
      obtain ⟨chain, left, h1, h2⟩ := ih e.p2 rest hl
      rw [h1]
      refine ⟨e :: chain, left, rfl, ?_⟩
      exact (List.Perm.cons e h2).trans hperm

theorem edgesToPathDLoop_spec {F : Type} (A : Arith F) (isFill : Bool) : ∀ (fuel : Nat)
    (edges : List (Edge F)), edges.length < fuel →
    ∃ subs : List (List (Edge F)),
      edgesToPathDLoop A isFill fuel edges = some ((subs.map (subPathD isFill)).flatten, []) ∧
      (∀ s ∈ subs, s ≠ []) ∧ List.Perm subs.flatten edges := by
  intro fuel
  induction fuel with
  | zero => intro edges h; omega
  | succ f ih =>
    intro edges hlen
    cases edges with
    | nil => exact ⟨[], rfl, by simp, List.Perm.refl _⟩
    | cons current rest =>
      simp only [List.length_cons] at hlen
      obtain ⟨chain, left, h1, h2⟩ := extendPath_spec A f current.p2 rest (by omega)
      have hl : left.length < f := by
        have := h2.length_eq
        simp only [List.length_append] at this
        omega
      obtain ⟨subs, h3, h4, h5⟩ := ih left hl
      refine ⟨(current :: chain) :: subs, ?_, ?_, ?_⟩
      · simp only [edgesToPathDLoop, h1, h3, List.map_cons, List.flatten_cons, subPathD,
          List.cons_append, List.append_assoc, List.singleton_append, List.nil_append]
      · intro s hs
        rcases List.mem_cons.1 hs with rfl | hs
        · simp
        · exact h4 s hs
      · simp only [List.flatten_cons, List.cons_append]
        refine List.Perm.cons current ?_
        exact (List.Perm.append_left chain h5).trans h2

theorem segment_isSegment {F : Type} (e : Edge F) :
    (segment e).isSegment = true ∧ (segment e).isMove = false ∧ (segment e).isClose = false := by
  unfold segment
  split <;> exact ⟨rfl, rfl, rfl⟩

theorem subPathD_counts {F : Type} (isFill : Bool) (s : List (Edge F)) (hs : s ≠ []) :
    (subPathD isFill s).countP PathCmd.isMove = 1 ∧
    (subPathD isFill s).countP PathCmd.isSegment = s.length ∧
    (subPathD isFill s).countP PathCmd.isClose = if isFill then 1 else 0 := by
  have hseg : ∀ l : List (Edge F), (l.map segment).countP PathCmd.isMove = 0 ∧
      (l.map segment).countP PathCmd.isSegment = l.length ∧
      (l.map segment).countP PathCmd.isClose = 0 := by
    intro l
    induction l with
    | nil => simp
    | cons e l ih =>
      have h := segment_isSegment e
      simp [List.countP_cons, h.1, h.2.1, h.2.2, ih.1, ih.2.1, ih.2.2]
  cases s with
  | nil => exact absurd rfl hs
  | cons e rest =>
    have h := hseg (e :: rest)
    have hM : (PathCmd.M e.p1 : PathCmd F).isMove = true := rfl
    have hM2 : (PathCmd.M e.p1 : PathCmd F).isSegment = false := rfl
    have hM3 : (PathCmd.M e.p1 : PathCmd F).isClose = false := rfl
    simp only [subPathD, List.cons_append, List.countP_cons, List.countP_append, h.1, h.2.1,
      h.2.2, hM, hM2, hM3, List.countP_nil]
    cases isFill <;> simp [PathCmd.isMove, PathCmd.isSegment, PathCmd.isClose]

theorem subPaths_counts {F : Type} (isFill : Bool) : ∀ (subs : List (List (Edge F))),
    (∀ s ∈ subs, s ≠ []) →
    ((subs.map (subPathD isFill)).flatten).countP PathCmd.isMove = subs.length ∧
    ((subs.map (subPathD isFill)).flatten).countP PathCmd.isSegment = subs.flatten.length ∧
    ((subs.map (subPathD isFill)).flatten).countP PathCmd.isClose
      = if isFill then subs.length else 0 := by
  intro subs
  induction subs with
  | nil => intro _; cases isFill <;> simp
  | cons s subs ih =>
    intro h
    have h1 := subPathD_counts isFill s (h s (List.mem_cons_self _ _))
    have h2 := ih (fun t ht => h t (List.mem_cons_of_mem _ ht))
    simp only [List.map_cons, List.flatten_cons, List.countP_append, h1.1, h1.2.1, h1.2.2,
      h2.1, h2.2.1, h2.2.2, List.length_cons, List.length_append]
    refine ⟨by omega, trivial, ?_⟩
    cases isFill <;> simp
    omega

/-- Claim C17.  For every list of edges, `edgesToPathD` returns (a bound above the number
of edges is enough) and leaves the list empty.  The path data it writes is that of a
sequence of non-empty sub-paths whose edges, taken together, are the input edges, each
used once: one `M` at the start of each sub-path, one drawing segment (`L` or `Q`) per
edge, and one `Z` at the end of each sub-path for a fill (none for a stroke). -/
theorem edgesToPathD_spec {F : Type} (A : Arith F) (fuel : Nat) (edges : List (Edge F))
    (isFill : Bool) (hfuel : edges.length < fuel) :
    ∃ subs : List (List (Edge F)),
      edgesToPathD A fuel edges isFill = some ((subs.map (subPathD isFill)).flatten, []) ∧
      (∀ s ∈ subs, s ≠ []) ∧ List.Perm subs.flatten edges ∧
      ((subs.map (subPathD isFill)).flatten).countP PathCmd.isSegment = edges.length ∧
      ((subs.map (subPathD isFill)).flatten).countP PathCmd.isMove = subs.length ∧
      ((subs.map (subPathD isFill)).flatten).countP PathCmd.isClose
        = if isFill then subs.length else 0 := by
  have key : ∃ subs : List (List (Edge F)),
      edgesToPathD A fuel edges isFill = some ((subs.map (subPathD isFill)).flatten, []) ∧
      (∀ s ∈ subs, s ≠ []) ∧ List.Perm subs.flatten edges := by
    unfold edgesToPathD
    split
    · rename_i hempty
      have : edges = [] := by simpa using hempty
      subst this
      exact ⟨[], rfl, by simp, List.Perm.refl _⟩
    · exact edgesToPathDLoop_spec A isFill fuel edges hfuel
  obtain ⟨subs, h1, h2, h3⟩ := key
  have hc := subPaths_counts isFill subs h2
  exact ⟨subs, h1, h2, h3, by rw [hc.2.1, h3.length_eq], hc.1, hc.2.2⟩

/-- Witness of `edgesToPathD_spec`: three edges, the third continuing the first. -/
theorem edgesToPathD_spec_witness :
    ∃ subs : List (List (Edge ℚ)),
      edgesToPathD Arith.exact 4
        [⟨⟨0, 0⟩, ⟨5, 0⟩, ⟨0, 0⟩, false⟩, ⟨⟨9, 9⟩, ⟨7, 7⟩, ⟨8, 8⟩, true⟩,
         ⟨⟨5, 0⟩, ⟨5, 5⟩, ⟨0, 0⟩, false⟩] true
        = some ((subs.map (subPathD true)).flatten, []) ∧
      (∀ s ∈ subs, s ≠ []) ∧
      List.Perm subs.flatten
        [⟨⟨0, 0⟩, ⟨5, 0⟩, ⟨0, 0⟩, false⟩, ⟨⟨9, 9⟩, ⟨7, 7⟩, ⟨8, 8⟩, true⟩,
         ⟨⟨5, 0⟩, ⟨5, 5⟩, ⟨0, 0⟩, false⟩] :=
  match edgesToPathD_spec Arith.exact 4
    [⟨⟨0, 0⟩, ⟨5, 0⟩, ⟨0, 0⟩, false⟩, ⟨⟨9, 9⟩, ⟨7, 7⟩, ⟨8, 8⟩, true⟩,
     ⟨⟨5, 0⟩, ⟨5, 5⟩, ⟨0, 0⟩, false⟩] true (by decide) with
  | ⟨subs, h1, h2, h3, _⟩ => ⟨subs, h1, h2, h3⟩

theorem edgesToPathD_example :
    edgesToPathD Arith.exact 4
        [⟨⟨0, 0⟩, ⟨5, 0⟩, ⟨0, 0⟩, false⟩, ⟨⟨9, 9⟩, ⟨7, 7⟩, ⟨8, 8⟩, true⟩,
         ⟨⟨5, 0⟩, ⟨5, 5⟩, ⟨0, 0⟩, false⟩] true
      = some ([.M ⟨0, 0⟩, .L ⟨5, 0⟩, .L ⟨5, 5⟩, .Z, .M ⟨9, 9⟩, .Q ⟨8, 8⟩ ⟨7, 7⟩, .Z], []) := by
  decide!

/-- Claim C18, as the code has it.  When an edge record directly follows another, the
second edge starts at the pen position the first one left, its end point: the same value,
so the two compare equal when the comparison holds of equal coordinates.  With
`fill1 ≠ 0` both edges are in `fillLayers[fill1]` after the two records, and with
`fill0 ≠ 0` both reversed edges are in `fillLayers[fill0]`, where the end point of the
second reversed edge is the start point of the first. -/
theorem consecutive_edges_chain {F : Type} (A : Arith F) (hrefl : ∀ x, A.near x x = true)
    (r : ShapeRenderer F) (pen : Pen F) (rec1 rec2 : Record) (e1 e2 : Edge F)
    (h1 : edgeOf A pen.currentPos rec1 = some e1)
    (h2 : edgeOf A (emitEdge r pen e1).2.currentPos rec2 = some e2) (fuel : Nat) :
    applyRecord A fuel r pen rec1 = some (emitEdge r pen e1) ∧
    applyRecord A fuel (emitEdge r pen e1).1 (emitEdge r pen e1).2 rec2
      = some (emitEdge (emitEdge r pen e1).1 (emitEdge r pen e1).2 e2) ∧
    e1.p1 = pen.currentPos ∧ e2.p1 = e1.p2 ∧ Point.eq A e2.p1 e1.p2 = true ∧
    Point.eq A e1.reversed.p1 e2.reversed.p2 = true ∧
    (pen.currentFill1 ≠ 0 →
      e1 ∈ (Swf.mapFind pen.currentFill1
          (emitEdge (emitEdge r pen e1).1 (emitEdge r pen e1).2 e2).1.fillLayers).getD [] ∧
      e2 ∈ (Swf.mapFind pen.currentFill1
          (emitEdge (emitEdge r pen e1).1 (emitEdge r pen e1).2 e2).1.fillLayers).getD []) ∧
    (pen.currentFill0 ≠ 0 →
      e1.reversed ∈ (Swf.mapFind pen.currentFill0
          (emitEdge (emitEdge r pen e1).1 (emitEdge r pen e1).2 e2).1.fillLayers).getD [] ∧
      e2.reversed ∈ (Swf.mapFind pen.currentFill0
          (emitEdge (emitEdge r pen e1).1 (emitEdge r pen e1).2 e2).1.fillLayers).getD []) := by
  have hp : e2.p1 = e1.p2 := edgeOf_p1 A _ rec2 e2 h2
  have hpen : (emitEdge r pen e1).2.currentFill0 = pen.currentFill0 ∧
      (emitEdge r pen e1).2.currentFill1 = pen.currentFill1 := ⟨rfl, rfl⟩
  have heq : ∀ p : Point F, Point.eq A p p = true := by
    intro p; simp [Point.eq, hrefl]
  refine ⟨applyRecord_edge A fuel r pen rec1 e1 h1, applyRecord_edge A fuel _ _ rec2 e2 h2,
    edgeOf_p1 A _ rec1 e1 h1, hp, by rw [hp]; exact heq _, ?_, ?_, ?_⟩
  · show Point.eq A e1.p2 e2.p1 = true
    rw [hp]; exact heq _
  · intro hf
    simp only [emitEdge_fillLayers, hpen.1, hpen.2]
    simp [hf]
  · intro hf
    simp only [emitEdge_fillLayers, hpen.1, hpen.2]
    simp [hf]

/-- Witness of `consecutive_edges_chain`: two straight edge records, 100 twips right then
100 twips down, with `fill1 = 1`, under the exact arithmetic. -/
theorem consecutive_edges_chain_witness :
    (⟨⟨0 + 100 / 20, 0 + 0 / 20⟩, ⟨0 + 100 / 20 + 0 / 20, 0 + 0 / 20 + 100 / 20⟩,
        ⟨0, 0⟩, false⟩ : Edge ℚ).p1
      = (⟨⟨0, 0⟩, ⟨0 + 100 / 20, 0 + 0 / 20⟩, ⟨0, 0⟩, false⟩ : Edge ℚ).p2 :=
  (consecutive_edges_chain Arith.exact (by intro x; simp [Arith.exact])
    { shapeVersion := 1, indeterminate := 0 }
    { numFillBits := 1, numLineBits := 0, currentPos := ⟨0, 0⟩, currentFill1 := 1 }
    (.straight 100 0) (.straight 0 100)
    ⟨⟨0, 0⟩, ⟨0 + 100 / 20, 0 + 0 / 20⟩, ⟨0, 0⟩, false⟩
    ⟨⟨0 + 100 / 20, 0 + 0 / 20⟩, ⟨0 + 100 / 20 + 0 / 20, 0 + 0 / 20 + 100 / 20⟩, ⟨0, 0⟩, false⟩
    (by simp [edgeOf, Arith.exact]) (by simp [edgeOf, emitEdge, Arith.exact]) 1).2.2.2.1

/-- Counterexample to claim C18 as stated.  The version-1 payload holds one solid fill,
a style change selecting `fill1 = 1`, one straight edge 100 twips to the right and the
end record.  When the layer is flushed at the end, `fillLayers[1]` holds the single edge
from (0, 0) to (5, 0), and no edge of the layer starts at (5, 0). -/
theorem fillLayer_open_counterexample :
    (decodeShape Arith.exact 4 1 0
        [1, 0, 64, 3, 32, 3, 32, 1, 0, 255, 0, 0, 0, 16, 19, 176, 200, 0]).map
      (fun r => r.fillLayers)
      = some [(1, [⟨⟨0, 0⟩, ⟨5, 0⟩, ⟨0, 0⟩, false⟩])] ∧
    layerChains Arith.exact [⟨⟨0, 0⟩, ⟨5, 0⟩, ⟨0, 0⟩, false⟩] = false := by
  decide!

theorem findNext_head {F : Type} (A : Arith F) (hrefl : ∀ x, A.near x x = true)
    (e : Edge F) (rest : List (Edge F)) : findNext A e.p1 (e :: rest) = some (e, rest) := by
  unfold findNext
  rw [if_pos (by simp [Point.eq, hrefl])]

theorem extendPath_straightEdges {F : Type} (A : Arith F) (hrefl : ∀ x, A.near x x = true) :
    ∀ (deltas : List (Int × Int)) (fuel : Nat) (tip : Point F), deltas.length < fuel →
    extendPath A fuel tip (straightEdges A tip deltas)
      = some ((straightEdges A tip deltas).map (fun e => PathCmd.L e.p2), []) := by
  intro deltas
  induction deltas with
  | nil =>
    intro fuel tip h
    obtain ⟨f, rfl⟩ : ∃ f, fuel = f + 1 := ⟨fuel - 1, by simp at h; omega⟩
    simp [straightEdges, extendPath, findNext]
  | cons d ds ih =>
    intro fuel tip h
    obtain ⟨f, rfl⟩ : ∃ f, fuel = f + 1 := ⟨fuel - 1, by omega⟩
    simp only [List.length_cons] at h
    simp only [straightEdges]
    rw [extendPath]
    have hf := findNext_head A hrefl
      ({ p1 := tip, p2 := ⟨A.add tip.x (A.ofTwips d.1), A.add tip.y (A.ofTwips d.2)⟩,
         control := ⟨A.zero, A.zero⟩, isQuad := false } : Edge F)
      (straightEdges A ⟨A.add tip.x (A.ofTwips d.1), A.add tip.y (A.ofTwips d.2)⟩ ds)
    simp only at hf
    simp only [hf, ih f _ (by omega), List.map_cons, segment]
    rfl

theorem edgesToPathD_straightEdges {F : Type} (A : Arith F) (hrefl : ∀ x, A.near x x = true)
    (deltas : List (Int × Int)) (fuel : Nat) (p : Point F) (hne : deltas ≠ [])
    (hfuel : deltas.length < fuel) :
    edgesToPathD A fuel (straightEdges A p deltas) true
      = some (PathCmd.M p :: (straightEdges A p deltas).map (fun e => PathCmd.L e.p2)
                ++ [PathCmd.Z], []) := by
  cases deltas with
  | nil => exact absurd rfl hne
  | cons d ds =>
    obtain ⟨f, rfl⟩ : ∃ f, fuel = f + 1 := ⟨fuel - 1, by omega⟩
    obtain ⟨g, rfl⟩ : ∃ g, f = g + 1 := ⟨f - 1, by simp at hfuel; omega⟩
    simp only [List.length_cons] at hfuel
    simp only [straightEdges, edgesToPathD, List.isEmpty_cons, Bool.false_eq_true, if_false,
      edgesToPathDLoop]
    rw [extendPath_straightEdges A hrefl ds (g + 1) _ (by omega)]
    simp [edgesToPathDLoop, segment]

theorem pushEdge_singleLayer {F : Type} (l : List (Edge F)) (e : Edge F) :
    pushEdge (singleLayer l) 1 e = singleLayer (l ++ [e]) := by
  cases l <;> simp [singleLayer, pushEdge, Swf.mapFind, Swf.mapInsert]

/-- The record loop on a run of straight edges followed by the end record, with
`fill0 = 0`, `fill1 = 1`, `line = 0` and layer 1 the only fill layer. -/
theorem recordLoop_straight_run {F : Type} (A : Arith F) (ha : Bool) :
    ∀ (deltas : List (Int × Int)) (fuel : Nat) (r : ShapeRenderer F) (pen : Pen F)
      (br : BitReader) (l : List (Edge F)),
    pen.currentFill0 = 0 → pen.currentFill1 = 1 → pen.currentLine = 0 →
    r.fillLayers = singleLayer l →
    readsRecords r.shapeVersion r.indeterminate ha pen.numFillBits pen.numLineBits br
      (deltas.map (fun d => Record.straight d.1 d.2) ++ [Record.endOfShape]) →
    deltas.length < fuel →
    ∃ pen1 br1, recordLoop A ha fuel r pen br
      = some ({ r with fillLayers := singleLayer (l ++ straightEdges A pen.currentPos deltas) },
              pen1, br1) := by
  intro deltas
  induction deltas with
  | nil =>
    intro fuel r pen br l _ _ _ hl hrec hfuel
    obtain ⟨f, rfl⟩ : ∃ f, fuel = f + 1 := ⟨fuel - 1, by simp at hfuel; omega⟩
    simp only [List.map_nil, List.nil_append, readsRecords, and_true] at hrec
    refine ⟨pen,
      (readRecord r.shapeVersion r.indeterminate ha pen.numFillBits pen.numLineBits br).2, ?_⟩
    rw [recordLoop]
    simp only [hrec, straightEdges, List.append_nil, ← hl]
  | cons d ds ih =>
    intro fuel r pen br l h0 h1 h2 hl hrec hfuel
    obtain ⟨f, rfl⟩ : ∃ f, fuel = f + 1 := ⟨fuel - 1, by omega⟩
    simp only [List.length_cons] at hfuel
    simp only [List.map_cons, List.cons_append, readsRecords] at hrec
    obtain ⟨hr1, hr2⟩ := hrec
    rw [recordLoop]
    simp only [hr1, applyRecord, edgeOf]
    have hemit : emitEdge r pen
        { p1 := pen.currentPos,
          p2 := ⟨A.add pen.currentPos.x (A.ofTwips d.1), A.add pen.currentPos.y (A.ofTwips d.2)⟩,
          control := ⟨A.zero, A.zero⟩, isQuad := false }
        = ({ r with fillLayers := singleLayer (l ++ [
              { p1 := pen.currentPos,
                p2 := ⟨A.add pen.currentPos.x (A.ofTwips d.1),
                       A.add pen.currentPos.y (A.ofTwips d.2)⟩,
                control := ⟨A.zero, A.zero⟩, isQuad := false }]) },
           { pen with currentPos :=
              ⟨A.add pen.currentPos.x (A.ofTwips d.1), A.add pen.currentPos.y (A.ofTwips d.2)⟩ }) := by
      unfold emitEdge
      simp only [h0, h1, h2, ne_eq, not_true_eq_false, if_false, one_ne_zero, not_false_eq_true,
        if_true]
      rw [hl, pushEdge_singleLayer]
    rw [hemit]
    simp only
    obtain ⟨pen1, br1, h⟩ := ih f
      { r with fillLayers := singleLayer (l ++ [
              { p1 := pen.currentPos,
                p2 := ⟨A.add pen.currentPos.x (A.ofTwips d.1),
                       A.add pen.currentPos.y (A.ofTwips d.2)⟩,
                control := ⟨A.zero, A.zero⟩, isQuad := false }]) }
      { pen with currentPos :=
              ⟨A.add pen.currentPos.x (A.ofTwips d.1), A.add pen.currentPos.y (A.ofTwips d.2)⟩ }
      (readRecord r.shapeVersion r.indeterminate ha pen.numFillBits pen.numLineBits br).2
      (l ++ [
              { p1 := pen.currentPos,
                p2 := ⟨A.add pen.currentPos.x (A.ofTwips d.1),
                       A.add pen.currentPos.y (A.ofTwips d.2)⟩,
                control := ⟨A.zero, A.zero⟩, isQuad := false }]) h0 h1 h2 rfl hr2
      (by omega)
    refine ⟨pen1, br1, ?_⟩
    rw [h]
    simp [straightEdges]

theorem flushLayers_single_solid {F : Type} (A : Arith F) (hrefl : ∀ x, A.near x x = true)
    (fuel : Nat) (r : ShapeRenderer F) (fs : FillStyle) (p : Point F)
    (deltas : List (Int × Int)) (hne : deltas ≠ []) (hfuel : deltas.length < fuel)
    (hfills : r.activeFillStyles = [fs]) (htype : fs.type = 0)
    (hlayers : r.fillLayers = singleLayer (straightEdges A p deltas))
    (hstrokes : r.strokeLayers = []) :
    flushLayers A fuel r
      = some { r with
          fillLayers := [], strokeLayers := [],
          svgContent := r.svgContent ++
            [PathElem.fill
              (PathCmd.M p :: (straightEdges A p deltas).map (fun e => PathCmd.L e.p2)
                ++ [PathCmd.Z])
              (Paint.rgb fs.color.r fs.color.g fs.color.b) (Opacity.alpha fs.color.a)] } := by
  have hlen : (straightEdges A p deltas).length = deltas.length := by
    clear hlayers hfuel hne
    induction deltas generalizing p with
    | nil => rfl
    | cons d ds ih => simp [straightEdges, ih]
  have hpath := edgesToPathD_straightEdges A hrefl deltas fuel p hne hfuel
  obtain ⟨e, es, hes⟩ : ∃ e es, straightEdges A p deltas = e :: es := by
    cases deltas with
    | nil => exact absurd rfl hne
    | cons d ds => exact ⟨_, _, rfl⟩
  unfold flushLayers
  rw [hlayers]
  rw [hes] at hpath ⊢
  simp only [singleLayer, flushFills, List.isEmpty_cons, Bool.false_eq_true, if_false, hfills,
    List.length_singleton, Nat.lt_irrefl, or_self, List.get?, htype, if_true, hpath,
    hstrokes, flushStrokes, gt_iff_lt]

/-- Claim C19.  Take a version-2 shape payload whose style tables decode to a single
solid fill of colour (r, g, b) and no line style, and whose records are a style change
selecting `fill1 = 1` (with an optional move, and `fill0` and `line` left or set to 0)
followed by `n ≥ 1` straight edges and the end record.  Provided the comparison of
coordinates holds of equal values, the document written has exactly one path element:
a fill of paint `rgb(r,g,b)` whose path data is one `M` at the first point, the `n`
segments `L` in record order and one closing `Z`. -/
theorem renderToSVG_single_loop {F : Type} (A : Arith F) (hrefl : ∀ x, A.near x x = true)
    (indeterminate : Int) (data : List u8) (fuel : Nat) (fs : FillStyle)
    (moveTo : Option (Int × Int)) (fill0 line : Option Nat) (deltas : List (Int × Int))
    (hfills : (renderStart A 2 indeterminate data).1.activeFillStyles = [fs])
    (htype : fs.type = 0)
    (hfill0 : fill0 = none ∨ fill0 = some 0) (hline : line = none ∨ line = some 0)
    (hrec : readsRecords 2 indeterminate false
      (renderStart A 2 indeterminate data).2.1.numFillBits
      (renderStart A 2 indeterminate data).2.1.numLineBits
      (renderStart A 2 indeterminate data).2.2
      (Record.styleChange moveTo fill0 (some 1) line none
        :: deltas.map (fun d => Record.straight d.1 d.2) ++ [Record.endOfShape]))
    (hne : deltas ≠ []) (hfuel : deltas.length + 2 ≤ fuel) :
    (renderToSVG A fuel 2 indeterminate data true).map (fun doc => doc.map (fun d => d.paths))
      = some (some [PathElem.fill
          (PathCmd.M (moveTarget A ⟨A.zero, A.zero⟩ moveTo)
            :: (straightEdges A (moveTarget A ⟨A.zero, A.zero⟩ moveTo) deltas).map
                (fun e => PathCmd.L e.p2)
            ++ [PathCmd.Z])
          (Paint.rgb fs.color.r fs.color.g fs.color.b) (Opacity.alpha fs.color.a)]) := by
  obtain ⟨f, rfl⟩ : ∃ f, fuel = f + 1 := ⟨fuel - 1, by omega⟩
  simp only [List.cons_append, readsRecords] at hrec
  obtain ⟨hr1, hr2⟩ := hrec
  generalize hstart : renderStart A 2 indeterminate data = start at hfills hr1 hr2
  have hv : start.1.shapeVersion = 2 := by rw [← hstart]; rfl
  have hi : start.1.indeterminate = indeterminate := by rw [← hstart]; rfl
  have hfl : start.1.fillLayers = [] := by rw [← hstart]; rfl
  have hsl : start.1.strokeLayers = [] := by rw [← hstart]; rfl
  have hsvg : start.1.svgContent = [] := by rw [← hstart]; rfl
  have hp0 : start.2.1.currentFill0 = 0 := by rw [← hstart]; rfl
  have hp2 : start.2.1.currentLine = 0 := by rw [← hstart]; rfl
  have hpos : start.2.1.currentPos = ⟨A.zero, A.zero⟩ := by rw [← hstart]; rfl
  have hdec : (decide ((2 : Int) ≥ 3)) = false := by decide
  -- the pen after the style change
  obtain ⟨pen1, hpen1, hq0, hq1, hq2, hqpos, hqnf, hqnl⟩ : ∃ pen1 : Pen F,
      applyRecord A f start.1 start.2.1 (Record.styleChange moveTo fill0 (some 1) line none)
        = some (start.1, pen1) ∧ pen1.currentFill0 = 0 ∧ pen1.currentFill1 = 1 ∧
        pen1.currentLine = 0 ∧ pen1.currentPos = moveTarget A ⟨A.zero, A.zero⟩ moveTo ∧
        pen1.numFillBits = start.2.1.numFillBits ∧ pen1.numLineBits = start.2.1.numLineBits := by
    refine ⟨_, rfl, ?_, ?_, ?_, ?_, ?_, ?_⟩
    · rcases hfill0 with rfl | rfl <;> rcases hline with rfl | rfl <;>
        cases moveTo <;> simp [hp0]
    · rcases hfill0 with rfl | rfl <;> rcases hline with rfl | rfl <;>
        cases moveTo <;> simp
    · rcases hfill0 with rfl | rfl <;> rcases hline with rfl | rfl <;>
        cases moveTo <;> simp [hp2]
    · rcases hfill0 with rfl | rfl <;> rcases hline with rfl | rfl <;>
        cases moveTo <;> simp [hpos, moveTarget]
    · rcases hfill0 with rfl | rfl <;> rcases hline with rfl | rfl <;>
        cases moveTo <;> simp
    · rcases hfill0 with rfl | rfl <;> rcases hline with rfl | rfl <;>
        cases moveTo <;> simp
  obtain ⟨pen2, br2, hloop⟩ := recordLoop_straight_run A false deltas f start.1 pen1
    (readRecord 2 indeterminate false start.2.1.numFillBits start.2.1.numLineBits start.2.2).2
    [] hq0 hq1 hq2 (by rw [hfl]; rfl) (by rw [hv, hi, hqnf, hqnl]; exact hr2) (by omega)
  unfold renderToSVG decodeShape
  simp only [hstart, hdec]
  rw [recordLoop]
  simp only [hv, hi, hr1, hpen1, hloop, hsvg, hqpos, List.nil_append, if_true]
  have key : ∀ r : ShapeRenderer F, r.activeFillStyles = [fs] →
      r.fillLayers = singleLayer (straightEdges A (moveTarget A ⟨A.zero, A.zero⟩ moveTo) deltas) →
      r.strokeLayers = [] → r.svgContent = [] →
      Option.map (fun doc => Option.map (fun d => d.paths) doc)
        (match flushLayers A (f + 1) r with
          | none => none
          | some r1 => some (some ({ bounds := r1.bounds, defs := r1.defsContent,
                                     paths := r1.svgContent } : SvgDoc F)))
        = some (some [PathElem.fill
          (PathCmd.M (moveTarget A ⟨A.zero, A.zero⟩ moveTo)
            :: (straightEdges A (moveTarget A ⟨A.zero, A.zero⟩ moveTo) deltas).map
                (fun e => PathCmd.L e.p2)
            ++ [PathCmd.Z])
          (Paint.rgb fs.color.r fs.color.g fs.color.b) (Opacity.alpha fs.color.a)]) := by
    intro r h1 h2 h3 h4
    rw [flushLayers_single_solid A hrefl (f + 1) r fs _ deltas hne (by omega) h1 htype h2 h3]
    simp only [Option.map_some', h4, List.nil_append]
  exact key _ hfills rfl hsl rfl

/-- Witness of `renderToSVG_single_loop`: the red square of 100 twips, version 2, under
the exact arithmetic.  The payload holds the bounds, one solid fill (255, 0, 0), no line
style, a style change selecting `fill1 = 1`, four straight edges and
the end record. -/
theorem renderToSVG_single_loop_witness :
    (renderToSVG Arith.exact 6 2 0
        [1, 0, 64, 3, 32, 3, 32, 1, 0, 255, 0, 0, 0, 16, 19, 176, 201, 178, 201, 177, 57,
          179, 56, 0] true).map (fun doc => doc.map (fun d => d.paths))
      = some (some [PathElem.fill
          (PathCmd.M (moveTarget Arith.exact ⟨0, 0⟩ none)
            :: (straightEdges Arith.exact (moveTarget Arith.exact ⟨0, 0⟩ none)
                  [(100, 0), (0, 100), (-100, 0), (0, -100)]).map (fun e => PathCmd.L e.p2)
            ++ [PathCmd.Z])
          (Paint.rgb 255 0 0) (Opacity.alpha 255)]) :=
  renderToSVG_single_loop Arith.exact (by intro x; simp [Arith.exact]) 0
    [1, 0, 64, 3, 32, 3, 32, 1, 0, 255, 0, 0, 0, 16, 19, 176, 201, 178, 201, 177, 57,
      179, 56, 0] 6 { type := 0, color := ⟨255, 0, 0, 255⟩ }
    none none none [(100, 0), (0, 100), (-100, 0), (0, -100)]
    (by decide!) rfl (Or.inl rfl) (Or.inl rfl) (by decide!) (by decide) (by decide)

end Shape

/-! ## The constant pool: errors of the multiname table -/

namespace Abc

theorem readU30_error (s : IStream) (e : String) (h : readU30 s = .error e) :
    e = "Integer overflow in readU30" := by
  unfold readU30 at h
  split at h
  · rcases readU30Loop_ok_or_overflow s.rest 0 0 with ⟨r, t, hr⟩ | hr
    · rw [hr] at h; cases h
    · rw [hr] at h; cases h; rfl
  · cases h

theorem readU30s_error : ∀ (n : Nat) (s : IStream) (e : String),
    readU30s n s = .error e → e = "Integer overflow in readU30" := by
  intro n
  induction n with
  | zero => intro s e h; cases h
  | succ n ih =>
    intro s e h
    unfold readU30s at h
    cases h1 : readU30 s with
    | error e1 =>
      rw [h1] at h
      cases h
      exact readU30_error s _ h1
    | ok r =>
      obtain ⟨v, s1⟩ := r
      rw [h1] at h
      simp only at h
      cases h2 : readU30s n s1 with
      | error e2 =>
        rw [h2] at h
        cases h
        exact ih s1 _ h2
      | ok r2 =>
        rw [h2] at h
        cases h

theorem readVariantFields_error (v : Variant) (s : IStream) (e : String)
    (h : readVariantFields v s = .error e) : e = "Integer overflow in readU30" := by
  unfold readVariantFields at h
  cases h1 : readU30s v.fixedFields s with
  | error e1 =>
    rw [h1] at h
    cases h
    exact readU30s_error _ s _ h1
  | ok r =>
    obtain ⟨fs, s1⟩ := r
    rw [h1] at h
    simp only at h
    split at h
    · cases h2 : readU30s (fs.getD 1 0) s1 with
      | error e2 =>
        rw [h2] at h
        cases h
        exact readU30s_error _ s1 _ h2
      | ok r2 =>
        rw [h2] at h
        cases h
    · cases h

theorem readMultiname_unknown (garbage : u8) (s : IStream)
    (h : kindOf garbage s ∉ knownKinds) :
    readMultiname garbage s
      = .error ("Unknown Multiname Kind: " ++ toString (kindOf garbage s).val) := by
  simp only [knownKinds, List.mem_cons, List.mem_singleton, List.not_mem_nil, or_false,
    not_or] at h
  obtain ⟨h1, h2, h3, h4, h5, h6, h7, h8, h9, h10, h11⟩ := h
  unfold readMultiname
  simp only [h1, h2, h3, h4, h5, h6, h7, h8, h9, h10, h11, or_self, if_false]

theorem readMultiname_known (garbage : u8) (s : IStream)
    (h : kindOf garbage s ∈ knownKinds) :
    ∃ v, variantOf (kindOf garbage s) = some v ∧
      readMultiname garbage s
        = (readVariantFields v (s.read 1).2).map
            (fun r => (multinameOf (kindOf garbage s) v r.1, r.2)) := by
  simp only [knownKinds, List.mem_cons, List.mem_singleton, List.not_mem_nil, or_false] at h
  rcases h with h | h | h | h | h | h | h | h | h | h | h
  all_goals
    unfold readMultiname
    simp +decide only [h, if_true, if_false]
    refine ⟨_, rfl, ?_⟩
    simp only [readVariantFields, Variant.fixedFields, readU30s, multinameOf]
    first
    | rfl
    | (cases readU30 (s.read 1).2 with
        | error e => rfl
        | ok r1 =>
          obtain ⟨a, s1⟩ := r1
          try simp only []
          first
          | rfl
          | (cases readU30 s1 with
              | error e => rfl
              | ok r2 =>
                obtain ⟨b, s2⟩ := r2
                try simp only [List.getD_cons_succ, List.getD_cons_zero, if_true]
                first
                | rfl
                | (cases readU30s b s2 with
                    | error e => rfl
                    | ok r3 => obtain ⟨ps, s3⟩ := r3; rfl)))

theorem variantOf_unknown (kind : u8) (h : kind ∉ knownKinds) : variantOf kind = none := by
  simp only [knownKinds, List.mem_cons, List.mem_singleton, List.not_mem_nil, or_false,
    not_or] at h
  obtain ⟨h1, h2, h3, h4, h5, h6, h7, h8, h9, h10, h11⟩ := h
  unfold variantOf
  simp only [h1, h2, h3, h4, h5, h6, h7, h8, h9, h10, h11, or_self, if_false]

theorem readMultiname_error_iff (garbage : u8) (s : IStream) (e : String) :
    readMultiname garbage s = .error e ↔
      (kindOf garbage s ∉ knownKinds ∧
        e = "Unknown Multiname Kind: " ++ toString (kindOf garbage s).val) ∨
      (∃ v, variantOf (kindOf garbage s) = some v ∧
        readVariantFields v (s.read 1).2 = .error e ∧ e = "Integer overflow in readU30") := by
  by_cases hk : kindOf garbage s ∈ knownKinds
  · obtain ⟨v, hv, hr⟩ := readMultiname_known garbage s hk
    rw [hr]
    constructor
    · intro h
      cases hf : readVariantFields v (s.read 1).2 with
      | error e1 =>
        rw [hf] at h
        simp only [Except.map, Except.error.injEq] at h
        subst h
        exact Or.inr ⟨v, hv, hf, readVariantFields_error _ _ _ hf⟩
      | ok r =>
        rw [hf] at h
        simp [Except.map] at h
    · rintro (⟨h, _⟩ | ⟨v1, hv1, hf, _⟩)
      · exact absurd hk h
      · rw [hv] at hv1
        cases hv1
        rw [hf]
        rfl
  · rw [readMultiname_unknown garbage s hk]
    constructor
    · intro h
      simp only [Except.error.injEq] at h
      exact Or.inl ⟨hk, h.symm⟩
    · rintro (⟨_, h⟩ | ⟨v, hv, _, _⟩)
      · rw [h]
      · rw [variantOf_unknown _ hk] at hv
        cases hv

theorem parseMultinamesLoop_error_iff (garbage : Nat → u8) (e : String) :
    ∀ (n i : Nat) (s : IStream),
      parseMultinamesLoop garbage i n s = .error e ↔
        ∃ j ms sj, j < n ∧ parseMultinamesLoop garbage i j s = .ok (ms, sj) ∧
          readMultiname (garbage (i + j)) sj = .error e := by
  intro n
  induction n with
  | zero =>
    intro i s
    simp [parseMultinamesLoop]
  | succ n ih =>
    intro i s
    rw [parseMultinamesLoop]
    cases hm : readMultiname (garbage i) s with
    | error e1 =>
      simp only
      constructor
      · intro h
        cases h
        exact ⟨0, [], s, Nat.succ_pos _, rfl, hm⟩
      · rintro ⟨j, ms, sj, _, hj, he⟩
        cases j with
        | zero =>
          simp only [parseMultinamesLoop, Except.ok.injEq, Prod.mk.injEq] at hj
          rw [← hj.2, Nat.add_zero, hm] at he
          cases he
          rfl
        | succ j =>
          rw [parseMultinamesLoop, hm] at hj
          cases hj
    | ok r =>
      obtain ⟨m, s1⟩ := r
      simp only
      constructor
      · intro h
        cases hl : parseMultinamesLoop garbage (i + 1) n s1 with
        | error e2 =>
          rw [hl] at h
          cases h
          obtain ⟨j, ms, sj, hjn, hj, he⟩ := (ih (i + 1) s1).1 hl
          refine ⟨j + 1, m :: ms, sj, Nat.succ_lt_succ hjn, ?_, ?_⟩
          · rw [parseMultinamesLoop, hm]
            simp only [hj]
          · rw [← he]
            congr 2
            omega
        | ok r2 =>
          rw [hl] at h
          cases h
      · rintro ⟨j, ms, sj, hjn, hj, he⟩
        cases j with
        | zero =>
          simp only [parseMultinamesLoop, Except.ok.injEq, Prod.mk.injEq] at hj
          rw [← hj.2, Nat.add_zero, hm] at he
          cases he
        | succ j =>
          rw [parseMultinamesLoop, hm] at hj
          simp only at hj
          cases hl : parseMultinamesLoop garbage (i + 1) j s1 with
          | error e2 =>
            rw [hl] at hj
            cases hj
          | ok r2 =>
            obtain ⟨ms2, s2⟩ := r2
            rw [hl] at hj
            simp only [Except.ok.injEq, Prod.mk.injEq] at hj
            have he2 : readMultiname (garbage (i + 1 + j)) s2 = .error e := by
              rw [← he, hj.2]
              congr 2
              omega
            have := (ih (i + 1) s1).2 ⟨j, ms2, s2, Nat.lt_of_succ_lt_succ hjn, hl, he2⟩
            rw [this]

theorem parseMultinameTable_error_iff (garbage : Nat → u8) (abc : ABC) (s1 : IStream)
    (e : String) :
    parseMultinameTable garbage abc s1 = .error e ↔
      (readU30 s1 = .error e ∧ e = "Integer overflow in readU30") ∨
      ∃ mc s2, readU30 s1 = .ok (mc, s2) ∧
        ((2000000 < mc ∧
            e = "File corruption detected: " ++ "Multiname Pool" ++ " count too high ("
              ++ toString mc ++ ")") ∨
         (mc ≤ 2000000 ∧ ∃ j ms sj, j + 1 < mc ∧
            parseMultinamesLoop garbage 1 j s2 = .ok (ms, sj) ∧
            ((kindOf (garbage (1 + j)) sj ∉ knownKinds ∧
                e = "Unknown Multiname Kind: "
                  ++ toString (kindOf (garbage (1 + j)) sj).val) ∨
             (∃ v, variantOf (kindOf (garbage (1 + j)) sj) = some v ∧
                readVariantFields v (sj.read 1).2 = .error e ∧
                e = "Integer overflow in readU30")))) := by
  unfold parseMultinameTable
  cases hr : readU30 s1 with
  | error e1 =>
    simp only
    constructor
    · intro h
      cases h
      exact Or.inl ⟨rfl, readU30_error _ _ hr⟩
    · rintro (⟨h, _⟩ | ⟨mc, s2, h, _⟩)
      · cases h
        rfl
      · cases h
  | ok r =>
    obtain ⟨mc, s2⟩ := r
    simp only
    by_cases hmc : mc > 2000000
    · have hsr : safeResize mc "Multiname Pool"
          = .error ("File corruption detected: " ++ "Multiname Pool" ++ " count too high ("
              ++ toString mc ++ ")") := by
        unfold safeResize
        rw [if_pos hmc]
      rw [hsr]
      simp only
      constructor
      · intro h
        cases h
        exact Or.inr ⟨mc, s2, rfl, Or.inl ⟨hmc, rfl⟩⟩
      · rintro (⟨h, _⟩ | ⟨mc1, s3, h, hrest⟩)
        · cases h
        · cases h
          rcases hrest with ⟨_, h⟩ | ⟨h, _⟩
          · rw [h]
          · omega
    · have hsr : safeResize mc "Multiname Pool" = .ok () := by
        unfold safeResize
        rw [if_neg hmc]
      rw [hsr]
      simp only
      have hloop := parseMultinamesLoop_error_iff garbage e (mc - 1) 1 s2
      constructor
      · intro h
        cases hl : parseMultinamesLoop garbage 1 (mc - 1) s2 with
        | error e2 =>
          rw [hl] at h
          cases h
          obtain ⟨j, ms, sj, hj, hok, herr⟩ := hloop.1 hl
          exact Or.inr ⟨mc, s2, rfl, Or.inr ⟨by omega, j, ms, sj, by omega, hok,
            (readMultiname_error_iff _ _ _).1 herr⟩⟩
        | ok r2 =>
          rw [hl] at h
          cases h
      · rintro (⟨h, _⟩ | ⟨mc1, s3, h, hrest⟩)
        · cases h
        · cases h
          rcases hrest with ⟨h, _⟩ | ⟨_, j, ms, sj, hj, hok, herr⟩
          · omega
          · have := hloop.2 ⟨j, ms, sj, by omega, hok, (readMultiname_error_iff _ _ _).2 herr⟩
            rw [this]

/-- Claim C20, as the code has it.  Given that the tables before it parse,
`parseConstantPool` raises an error exactly when the multiname count has six continuation
bytes, or the count is above 2,000,000, or the first entry (index 1 .. count-1) that does
not parse has a kind outside the set of the specification (the error names the kind) or
has a kind of the set and a u30 field with six continuation bytes.  The kind of an entry
is the byte read, or an uninitialised value when the stream is used up.  An entry with a
kind outside the set always raises; an entry with a kind of the set reads exactly the
fields of its variant (QName: ns and name; RTQName: name; RTQNameL: nothing; Multiname:
name and ns-set; MultinameL: ns-set; Generic: name, a count and that many type
parameters) and raises only when one of them overflows. -/
theorem parseConstantPool_error_iff (garbage : Nat → u8) (s : IStream) (abc1 : ABC)
    (s1 : IStream) (hbefore : parseTablesBefore s = .ok (abc1, s1)) (e : String) :
    (parseConstantPool garbage s = .error e ↔
      (readU30 s1 = .error e ∧ e = "Integer overflow in readU30") ∨
      ∃ mc s2, readU30 s1 = .ok (mc, s2) ∧
        ((2000000 < mc ∧
            e = "File corruption detected: " ++ "Multiname Pool" ++ " count too high ("
              ++ toString mc ++ ")") ∨
         (mc ≤ 2000000 ∧ ∃ j ms sj, j + 1 < mc ∧
            parseMultinamesLoop garbage 1 j s2 = .ok (ms, sj) ∧
            ((kindOf (garbage (1 + j)) sj ∉ knownKinds ∧
                e = "Unknown Multiname Kind: "
                  ++ toString (kindOf (garbage (1 + j)) sj).val) ∨
             (∃ v, variantOf (kindOf (garbage (1 + j)) sj) = some v ∧
                readVariantFields v (sj.read 1).2 = .error e ∧
                e = "Integer overflow in readU30"))))) ∧
    (∀ g sj, kindOf g sj ∉ knownKinds →
      readMultiname g sj
        = .error ("Unknown Multiname Kind: " ++ toString (kindOf g sj).val)) ∧
    (∀ g sj, kindOf g sj ∈ knownKinds → ∃ v, variantOf (kindOf g sj) = some v ∧
      readMultiname g sj
        = (readVariantFields v (sj.read 1).2).map
            (fun r => (multinameOf (kindOf g sj) v r.1, r.2))) ∧
    (∀ v sj e1, readVariantFields v sj = .error e1 → e1 = "Integer overflow in readU30") := by
  refine ⟨?_, readMultiname_unknown, readMultiname_known, readVariantFields_error⟩
  have hpc : parseConstantPool garbage s = parseMultinameTable garbage abc1 s1 := by
    simp only [parseConstantPool, hbefore]
  rw [hpc]
  exact parseMultinameTable_error_iff garbage abc1 s1 e

/-- Witness of `parseConstantPool_error_iff`: six empty tables, a multiname count of 2
and an entry of kind 8. -/
theorem parseConstantPool_error_iff_witness :
    parseConstantPool (fun _ => 0) (IStream.ofBytes [0, 0, 0, 0, 0, 0, 2, 8])
      = .error "Unknown Multiname Kind: 8" :=
  (parseConstantPool_error_iff (fun _ => 0) (IStream.ofBytes [0, 0, 0, 0, 0, 0, 2, 8]) {}
    ⟨[2, 8], true⟩ (by decide) "Unknown Multiname Kind: 8").1.2
    (Or.inr ⟨2, ⟨[8], true⟩, by decide, Or.inr ⟨by decide, 0, [], ⟨[8], true⟩, by decide,
      by decide, Or.inl ⟨by decide, by decide⟩⟩⟩)

/-- Counterexample to claim C20 as stated.  The six tables before the multiname table
are empty and parse; the multiname count is 2, so there is one entry; its kind byte is
0x07, a QName, in the set; its first field has six continuation bytes.  The parse raises
the overflow error of the u30 reader although no entry has a kind outside the set. -/
theorem parseConstantPool_overflow_counterexample :
    parseTablesBefore
        (IStream.ofBytes [0, 0, 0, 0, 0, 0, 2, 0x07, 0x80, 0x80, 0x80, 0x80, 0x80, 0x80])
      = .ok ({}, ⟨[2, 0x07, 0x80, 0x80, 0x80, 0x80, 0x80, 0x80], true⟩) ∧
    readU30 ⟨[2, 0x07, 0x80, 0x80, 0x80, 0x80, 0x80, 0x80], true⟩
      = .ok (2, ⟨[0x07, 0x80, 0x80, 0x80, 0x80, 0x80, 0x80], true⟩) ∧
    kindOf 0 ⟨[0x07, 0x80, 0x80, 0x80, 0x80, 0x80, 0x80], true⟩ = 0x07 ∧
    (0x07 : u8) ∈ knownKinds ∧
    parseConstantPool (fun _ => 0)
        (IStream.ofBytes [0, 0, 0, 0, 0, 0, 2, 0x07, 0x80, 0x80, 0x80, 0x80, 0x80, 0x80])
      = .error "Integer overflow in readU30" := by
  decide

end Abc

/-! ## The tables after the constant pool: counts, trait metadata, start of the data -/

namespace Abc

theorem readTrait_eof (b : Bool) : readTrait ⟨[], b⟩ = .ok ({}, ⟨[], false⟩) := by
  cases b <;> rfl

theorem readTraits_eof : ∀ (n : Nat) (b : Bool), 0 < n →
    readTraits n ⟨[], b⟩ = .ok (List.replicate n {}, ⟨[], false⟩) := by
  intro n
  induction n with
  | zero => intro b h; omega
  | succ n ih =>
    intro b _
    rw [readTraits, readTrait_eof]
    cases n with
    | zero => rfl
    | succ m => simp only [ih false (Nat.succ_pos m), List.replicate_succ]

theorem parse_traits_at_eof (garbageKind garbageFlags : Nat → u8) (s s1 s2 s3 s4 : IStream)
    (abc1 abc2 : ABC) (inst : InstanceInfo) (tc : Nat) (b : Bool)
    (h1 : parseConstantPool garbageKind (readVersion s) = .ok (abc1, s1))
    (h2 : parseMethods garbageFlags abc1 s1 = .ok (abc2, s2))
    (h3 : skipMetadata s2 = .ok s3)
    (h4 : readU30 s3 = .ok (1, s4))
    (h5 : readInstanceHead s4 = .ok (inst, tc, ⟨[], b⟩)) (htc : 0 < tc) :
    (parse garbageKind garbageFlags s).map
      (fun abc => abc.classes.map (fun c => c.inst.traits.length)) = .ok [tc] := by
  have h6 : safeResize 1 "Classes" = .ok () := by decide
  have h7 : readClassInfos 1 ⟨[], false⟩ = .ok ([{}], ⟨[], false⟩) := by decide
  have h8 : ∀ abc : ABC, parseScripts abc ⟨[], false⟩
      = .ok ({ abc with scripts := [] }, ⟨[], false⟩) := by
    intro abc; rfl
  have h9 : ∀ abc : ABC, parseMethodBodies abc ⟨[], false⟩
      = .ok ({ abc with bodies := [] }, ⟨[], false⟩) := by
    intro abc; rfl
  have h10 : readInstances 1 s4
      = .ok ([{ inst with traits := List.replicate tc {} }], ⟨[], false⟩) := by
    rw [readInstances, readInstance, h5]
    simp only [readTraits_eof tc b htc, readInstances]
  simp only [parse, h1, h2, h3, parseClasses, h4, h6, h10, h7, h8, h9, Except.map,
    List.zipWith, List.map, List.length_replicate]

/-- Claim C21, on the code.  The file holds a version, seven empty pools, no method, no
metadata, and one class whose instance declares 3,000,000 traits (count bytes
`C0 8D B7 01`) and then ends.  The parse raises nothing and returns a class whose
instance has a list of 3,000,000 traits: the trait count is not passed to `safeResize`.
The same count as the number of classes is rejected. -/
theorem parse_trait_count_unchecked :
    (parse (fun _ => 0) (fun _ => 0)
        (IStream.ofBytes [0x10, 0, 0x2E, 0, 0, 0, 0, 0, 0, 0, 0, 0, 0,
          1, 0, 0, 0, 0, 0, 0xC0, 0x8D, 0xB7, 0x01])).map
      (fun abc => abc.classes.map (fun c => c.inst.traits.length)) = .ok [3000000] ∧
    parse (fun _ => 0) (fun _ => 0)
        (IStream.ofBytes [0x10, 0, 0x2E, 0, 0, 0, 0, 0, 0, 0, 0, 0, 0,
          0xC0, 0x8D, 0xB7, 0x01])
      = .error "File corruption detected: Classes count too high (3000000)" :=
  ⟨parse_traits_at_eof (fun _ => 0) (fun _ => 0) _
      ⟨[0, 0, 1, 0, 0, 0, 0, 0, 0xC0, 0x8D, 0xB7, 0x01], true⟩
      ⟨[0, 1, 0, 0, 0, 0, 0, 0xC0, 0x8D, 0xB7, 0x01], true⟩
      ⟨[1, 0, 0, 0, 0, 0, 0xC0, 0x8D, 0xB7, 0x01], true⟩
      ⟨[0, 0, 0, 0, 0, 0xC0, 0x8D, 0xB7, 0x01], true⟩ {} {} {} 3000000 true
      (by decide) (by decide) (by decide) (by decide) (by decide) (by decide),
    by decide⟩

/-- Claim C22, on the code.  The file holds a version, seven empty pools, no method, no
metadata, no class, one script with two traits and no method body.  The first trait
(name 1) is a Slot whose kind byte `40` has the metadata bit, followed by its slot id,
type and value index (all 0) and a metadata list of one index (`01 05`); the second
(name 2) is a Method with dispatch id 0 and method index 7.  The trait loop of
`parseScripts` does not consume the metadata list: it decodes the second trait from the
list, as name 1, kind 5, and leaves the bytes `00 07` for the method-body table.
The loop of `skipTraits` on the same two traits consumes the list and all the bytes. -/
theorem parse_script_trait_metadata :
    parse (fun _ => 0) (fun _ => 0)
        (IStream.ofBytes [0x10, 0, 0x2E, 0, 0, 0, 0, 0, 0, 0, 0, 0, 0, 0,
          1, 0, 2, 1, 0x40, 0, 0, 0, 1, 5, 2, 1, 0, 7, 0])
      = .ok { scripts := [{ init := 0, traits := [{ name := 1, kind := 0x40 },
                                                   { name := 1, kind := 5 }] }] } ∧
    parseScripts {} (IStream.ofBytes [1, 0, 2, 1, 0x40, 0, 0, 0, 1, 5, 2, 1, 0, 7, 0])
      = .ok ({ scripts := [{ init := 0, traits := [{ name := 1, kind := 0x40 },
                                                    { name := 1, kind := 5 }] }] },
             ⟨[0, 7, 0], true⟩) ∧
    readTraits 2 (IStream.ofBytes [1, 0x40, 0, 0, 0, 1, 5, 2, 1, 0, 7])
      = .ok ([{ name := 1, kind := 0x40 }, { name := 1, kind := 5 }], ⟨[0, 7], true⟩) ∧
    skipTraits (IStream.ofBytes [2, 1, 0x40, 0, 0, 0, 1, 5, 2, 1, 0, 7]) = .ok ⟨[], true⟩ := by
  decide

theorem flagWord_eq_one (a b c d : u8) :
    a.val + 256 * b.val + 65536 * c.val + 16777216 * d.val = 1 ↔
      ([a, b, c, d] : List u8) = [1, 0, 0, 0] := by
  have ha := a.isLt
  have hb := b.isLt
  have hc := c.isLt
  have hd := d.isLt
  constructor
  · intro h
    have h1 : a = 1 := Fin.ext (by show a.val = 1; omega)
    have h2 : b = 0 := Fin.ext (by show b.val = 0; omega)
    have h3 : c = 0 := Fin.ext (by show c.val = 0; omega)
    have h4 : d = 0 := Fin.ext (by show d.val = 0; omega)
    rw [h1, h2, h3, h4]
  · intro h
    simp only [List.cons.injEq, and_true] at h
    obtain ⟨rfl, rfl, rfl, rfl⟩ := h
    rfl

theorem FileStream.read_good (data : List u8) (pos n : Nat) (h : pos + n ≤ data.length) :
    ({ data := data, pos := pos, eof := false, fail := false } : FileStream).read n
      = ((data.drop pos).take n, { data := data, pos := pos + n, eof := false, fail := false }) := by
  unfold FileStream.read
  simp only [FileStream.good, Bool.not_false, Bool.and_self, if_true]
  rw [if_pos h]

theorem FileStream.getlineZero_found (data : List u8) (pos : Nat)
    (h : ((data.drop pos).takeWhile (fun b => b ≠ 0)).length < (data.drop pos).length) :
    ({ data := data, pos := pos, eof := false, fail := false } : FileStream).getlineZero
      = { data := data, pos := pos + ((data.drop pos).takeWhile (fun b => b ≠ 0)).length + 1,
          eof := false, fail := false } := by
  unfold FileStream.getlineZero
  simp only [FileStream.good, Bool.not_false, Bool.and_self, if_true]
  rw [if_pos h]

theorem mainStream_of_enough (uninit : Nat) (data : List u8) (h4 : 4 ≤ data.length)
    (h16 : abcStart data + 16 ≤ data.length) :
    (mainStream uninit data).toIStream = IStream.ofBytes (data.drop (abcStart data)) := by
  obtain ⟨a, b, c, d, rest, rfl⟩ : ∃ a b c d rest, data = a :: b :: c :: d :: rest := by
    match data, h4 with
    | a :: b :: c :: d :: rest, _ => exact ⟨a, b, c, d, rest, rfl⟩
  have hread := FileStream.read_good (a :: b :: c :: d :: rest) 0 4 (by simp)
  have htake : ((a :: b :: c :: d :: rest).drop 0).take 4 = [a, b, c, d] := rfl
  rw [htake] at hread
  have hlen : (a :: b :: c :: d :: rest).length = rest.length + 4 := rfl
  rw [hlen] at h16
  have hfinal : ∀ p, p + 16 ≤ rest.length + 4 →
      (((({ data := a :: b :: c :: d :: rest, pos := p, eof := false, fail := false }
          : FileStream).tellg).2.read 16).2.seekg
        (({ data := a :: b :: c :: d :: rest, pos := p, eof := false, fail := false }
          : FileStream).tellg).1).toIStream
      = IStream.ofBytes ((a :: b :: c :: d :: rest).drop p) := by
    intro p hp
    have ht : ({ data := a :: b :: c :: d :: rest, pos := p, eof := false, fail := false }
        : FileStream).tellg
        = (some p, { data := a :: b :: c :: d :: rest, pos := p, eof := false,
                     fail := false }) := rfl
    rw [ht]
    simp only []
    rw [FileStream.read_good _ _ _ (by rw [hlen]; exact hp)]
    rfl
  unfold mainStream
  simp only [hread, List.length_cons, List.length_nil, Nat.zero_add, Nat.reduceAdd, if_true,
    List.getD_cons_zero, List.getD_cons_succ]
  by_cases hflag : ([a, b, c, d] : List u8) = [1, 0, 0, 0]
  · have hstart : abcStart (a :: b :: c :: d :: rest)
        = 4 + (rest.takeWhile (fun b => b ≠ 0)).length + 1 := by
      unfold abcStart
      simp only [List.take_succ_cons, List.take_zero, List.drop_succ_cons, List.drop_zero]
      rw [if_pos hflag]
    rw [hstart] at h16 ⊢
    rw [if_pos ((flagWord_eq_one a b c d).2 hflag),
      FileStream.getlineZero_found _ _ (by
        show (rest.takeWhile (fun b => b ≠ 0)).length < rest.length
        omega)]
    exact hfinal _ h16
  · have hstart : abcStart (a :: b :: c :: d :: rest) = 0 := by
      unfold abcStart
      simp only [List.take_succ_cons, List.take_zero]
      rw [if_neg hflag]
    rw [hstart] at h16 ⊢
    rw [if_neg (fun h => hflag ((flagWord_eq_one a b c d).1 h))]
    exact hfinal 0 h16

/-- Claim C23, on the code.  The file of 12 bytes holds a version and a constant pool
whose string table has the one entry `ABC`; its first word is not 1, so the data start
at offset 0.  Parsing the bytes from offset 0 returns that string table.  `main` returns
an `ABC` with empty tables: its diagnostic read of 16 bytes finds 12, which sets
`failbit`, the rewind `seekg(startOfABC)` then does nothing, and the parser reads from a
stream that is not good.  The same happens behind a header (flag word 1, name `a`). -/
theorem mainParse_short_file :
    abcStart [0x10, 0, 0x2E, 0, 0, 0, 0, 2, 3, 0x41, 0x42, 0x43] = 0 ∧
    parse (fun _ => 0) (fun _ => 0)
        (IStream.ofBytes ([0x10, 0, 0x2E, 0, 0, 0, 0, 2, 3, 0x41, 0x42, 0x43].drop
          (abcStart [0x10, 0, 0x2E, 0, 0, 0, 0, 2, 3, 0x41, 0x42, 0x43])))
      = .ok { cp := { strings := [[], [0x41, 0x42, 0x43]] } } ∧
    mainStream 0 [0x10, 0, 0x2E, 0, 0, 0, 0, 2, 3, 0x41, 0x42, 0x43]
      = { data := [0x10, 0, 0x2E, 0, 0, 0, 0, 2, 3, 0x41, 0x42, 0x43], pos := 12,
          eof := false, fail := true } ∧
    mainParse 0 (fun _ => 0) (fun _ => 0) [0x10, 0, 0x2E, 0, 0, 0, 0, 2, 3, 0x41, 0x42, 0x43]
      = .ok {} ∧
    abcStart [1, 0, 0, 0, 0x61, 0, 0x10, 0, 0x2E, 0, 0, 0, 0, 2, 3, 0x41, 0x42, 0x43] = 6 ∧
    parse (fun _ => 0) (fun _ => 0)
        (IStream.ofBytes
          ([1, 0, 0, 0, 0x61, 0, 0x10, 0, 0x2E, 0, 0, 0, 0, 2, 3, 0x41, 0x42, 0x43].drop 6))
      = .ok { cp := { strings := [[], [0x41, 0x42, 0x43]] } } ∧
    mainParse 0 (fun _ => 0) (fun _ => 0)
        [1, 0, 0, 0, 0x61, 0, 0x10, 0, 0x2E, 0, 0, 0, 0, 2, 3, 0x41, 0x42, 0x43]
      = .ok {} := by
  decide

end Abc

/-! ## The bytecode decompiler: the cases of the `switch` and whole bodies -/

namespace Decompiler

theorem decompileLoop_suppressed (env : Env) (code : List u8) (fuel : Nat) (st : State)
    (op : Nat) (hpc : st.pc < code.length) (hop : (code.getD st.pc 0).val = op)
    (h : isNonSemanticOpcode op = true) :
    decompileLoop env code (fuel + 1) st =
      decompileLoop env code fuel
        (if env.keepOpcodeComments then
          { emitLabel { st with pc := st.pc + 1 } with
            output := (emitLabel { st with pc := st.pc + 1 }).output ++ "// opcode 0x"
                        ++ String.mk (Nat.toDigits 16 op) ++ "\n",
            hex := true }
        else emitLabel { st with pc := st.pc + 1 }) := by
  subst hop
  rw [decompileLoop, if_pos hpc]
  unfold step
  rw [if_pos h]

theorem decompileLoop_switch (env : Env) (code : List u8) (fuel : Nat) (st : State)
    (op : Nat) (hpc : st.pc < code.length) (hop : (code.getD st.pc 0).val = op)
    (h : isNonSemanticOpcode op = false) :
    decompileLoop env code (fuel + 1) st =
      decompileLoop env code fuel
        (execOp env code op (emitLabel { st with pc := st.pc + 1 })) := by
  subst hop
  rw [decompileLoop, if_pos hpc]
  unfold step
  rw [if_neg (by rw [h]; decide)]

theorem decompileLoop_end (env : Env) (code : List u8) (fuel : Nat) (st : State)
    (h : ¬ st.pc < code.length) : decompileLoop env code fuel st = some st := by
  cases fuel with
  | zero => rw [decompileLoop, if_neg h]
  | succ n => rw [decompileLoop, if_neg h]

theorem step_switch (env : Env) (code : List u8) (st : State) (op : Nat)
    (hop : (code.getD st.pc 0).val = op) (h : isNonSemanticOpcode op = false) :
    step env code st = execOp env code op (emitLabel { st with pc := st.pc + 1 }) := by
  subst hop
  unfold step
  rw [if_neg (by rw [h]; decide)]

theorem emitLabel_fields (st : State) :
    (emitLabel st).stack = st.stack ∧ (emitLabel st).locals = st.locals ∧
    (emitLabel st).pc = st.pc ∧ (emitLabel st).jumpTargets = st.jumpTargets ∧
    (emitLabel st).hex = st.hex ∧ (emitLabel st).indent = st.indent := by
  unfold emitLabel
  split <;> exact ⟨rfl, rfl, rfl, rfl, rfl, rfl⟩

theorem emitLabel_output (st : State) (h : st.pc ∉ st.jumpTargets) :
    (emitLabel st).output = st.output := by
  unfold emitLabel
  rw [if_neg h]

theorem execOp_returnvoid (env : Env) (code : List u8) (st : State) :
    execOp env code 0x47 st = out st "return;" := rfl

theorem execOp_returnvalue (env : Env) (code : List u8) (st : State) :
    execOp env code 0x48 st =
      match st.stack with
      | top :: rest => { out st ("return " ++ top ++ ";") with stack := rest }
      | [] => st := rfl

theorem execOp_pushnan (env : Env) (code : List u8) (st : State) :
    execOp env code 0x28 st = push st "NaN" := rfl

theorem execOp_pushbyte (env : Env) (code : List u8) (st : State) :
    execOp env code 0x24 st =
      if st.pc < code.length then
        { push st (toString (toI8 (code.getD st.pc 0))) with pc := st.pc + 1 }
      else st := rfl

theorem execOp_pushshort (env : Env) (code : List u8) (st : State) :
    execOp env code 0x25 st =
      { push st (toString (Abc.readU30FromBytes code st.pc).1) with
        pc := (Abc.readU30FromBytes code st.pc).2 } := rfl

theorem execOp_pushstring (env : Env) (code : List u8) (st : State) :
    execOp env code 0x2C st =
      { push st ("\"" ++ getString env (Abc.readU30FromBytes code st.pc).1 ++ "\"") with
        pc := (Abc.readU30FromBytes code st.pc).2 } := rfl

theorem execOp_pushint (env : Env) (code : List u8) (st : State) :
    execOp env code 0x2D st =
      { push st
          (if (Abc.readU30FromBytes code st.pc).1 < env.abc.cp.ints.length then
            toString (env.abc.cp.ints.getD (Abc.readU30FromBytes code st.pc).1 0)
          else "0") with
        pc := (Abc.readU30FromBytes code st.pc).2 } := rfl

theorem execOp_pushuint (env : Env) (code : List u8) (st : State) :
    execOp env code 0x2E st =
      { push st
          (if (Abc.readU30FromBytes code st.pc).1 < env.abc.cp.uints.length then
            toString (env.abc.cp.uints.getD (Abc.readU30FromBytes code st.pc).1 0)
          else "0") with
        pc := (Abc.readU30FromBytes code st.pc).2 } := rfl

theorem execOp_pushdouble (env : Env) (code : List u8) (st : State) :
    execOp env code 0x2F st =
      { push st
          (if (Abc.readU30FromBytes code st.pc).1 < env.abc.cp.doubles.length then
            env.doubleText (env.abc.cp.doubles.getD (Abc.readU30FromBytes code st.pc).1 [])
          else "0.0") with
        pc := (Abc.readU30FromBytes code st.pc).2 } := rfl

theorem execOp_getlocal (env : Env) (code : List u8) (st : State) :
    execOp env code 0x62 st =
      { push st
          (if (Abc.readU30FromBytes code st.pc).1 < st.locals.length then
            "local" ++ toString (Abc.readU30FromBytes code st.pc).1
          else "arg" ++ toString (Abc.readU30FromBytes code st.pc).1) with
        pc := (Abc.readU30FromBytes code st.pc).2 } := rfl

theorem execOp_setlocal (env : Env) (code : List u8) (st : State) :
    execOp env code 0x63 st =
      setLocal { st with pc := (Abc.readU30FromBytes code st.pc).2 }
        (Abc.readU30FromBytes code st.pc).1 := rfl

theorem execOp_setlocal_n (env : Env) (code : List u8) (st : State) :
    execOp env code 0xD4 st = setLocal st 0 ∧ execOp env code 0xD5 st = setLocal st 1 ∧
    execOp env code 0xD6 st = setLocal st 2 ∧ execOp env code 0xD7 st = setLocal st 3 :=
  ⟨rfl, rfl, rfl, rfl⟩

theorem execOp_binary (env : Env) (code : List u8) (st : State) :
    execOp env code 0xA0 st = binaryOp st " + " ∧ execOp env code 0xA1 st = binaryOp st " - " ∧
    execOp env code 0xA2 st = binaryOp st " * " ∧ execOp env code 0xA3 st = binaryOp st " / " ∧
    execOp env code 0xAB st = binaryOp st " == " ∧
    execOp env code 0xAD st = binaryOp st " < " :=
  ⟨rfl, rfl, rfl, rfl, rfl, rfl⟩

theorem execOp_getlex (env : Env) (code : List u8) (st : State) :
    execOp env code 0x60 st =
      { push st (getName env (Abc.readU30FromBytes code st.pc).1) with
        pc := (Abc.readU30FromBytes code st.pc).2 } := rfl

theorem execOp_getproperty (env : Env) (code : List u8) (st : State) :
    execOp env code 0x66 st =
      match st.stack with
      | obj :: rest =>
        { st with pc := (Abc.readU30FromBytes code st.pc).2,
                  stack := (obj ++ "." ++ getName env (Abc.readU30FromBytes code st.pc).1)
                            :: rest }
      | [] => { st with pc := (Abc.readU30FromBytes code st.pc).2 } := rfl

theorem execOp_setproperty (env : Env) (code : List u8) (st : State) (op : Nat)
    (hop : op = 0x61 ∨ op = 0x68) :
    execOp env code op st =
      match st.stack with
      | val :: obj :: rest =>
        { out { st with pc := (Abc.readU30FromBytes code st.pc).2 }
            (obj ++ "." ++ getName env (Abc.readU30FromBytes code st.pc).1 ++ " = " ++ val
              ++ ";") with
          stack := rest }
      | _ => { st with pc := (Abc.readU30FromBytes code st.pc).2 } := by
  rcases hop with rfl | rfl <;> rfl

theorem execOp_callproperty (env : Env) (code : List u8) (st : State) :
    execOp env code 0x46 st =
      match (popArgs (Abc.readU30FromBytes code (Abc.readU30FromBytes code st.pc).2).1
              st.stack []).2 with
      | obj :: rest =>
        { st with
          pc := (Abc.readU30FromBytes code (Abc.readU30FromBytes code st.pc).2).2,
          stack :=
            (joinArgs (popArgs (Abc.readU30FromBytes code
                  (Abc.readU30FromBytes code st.pc).2).1 st.stack []).1.reverse 0
                (obj ++ "." ++ getName env (Abc.readU30FromBytes code st.pc).1 ++ "(")
              ++ ")") :: rest }
      | [] =>
        { st with
          pc := (Abc.readU30FromBytes code (Abc.readU30FromBytes code st.pc).2).2,
          stack := [] } := rfl

theorem execOp_callpropvoid (env : Env) (code : List u8) (st : State) :
    execOp env code 0x4F st =
      match (popArgs (Abc.readU30FromBytes code (Abc.readU30FromBytes code st.pc).2).1
              st.stack []).2 with
      | obj :: rest =>
        { out { st with
                pc := (Abc.readU30FromBytes code (Abc.readU30FromBytes code st.pc).2).2 }
            (joinArgs (popArgs (Abc.readU30FromBytes code
                  (Abc.readU30FromBytes code st.pc).2).1 st.stack []).1.reverse 0
                (obj ++ "." ++ getName env (Abc.readU30FromBytes code st.pc).1 ++ "(")
              ++ ");") with
          stack := rest }
      | [] =>
        { st with
          pc := (Abc.readU30FromBytes code (Abc.readU30FromBytes code st.pc).2).2,
          stack := [] } := rfl

theorem execOp_newfunction (env : Env) (code : List u8) (st : State) :
    execOp env code 0x40 st =
      { push st ("function_" ++ toString (Abc.readU30FromBytes code st.pc).1) with
        pc := (Abc.readU30FromBytes code st.pc).2 } := rfl

theorem execOp_newclass (env : Env) (code : List u8) (st : State) :
    execOp env code 0x55 st =
      { st with pc := (Abc.readU30FromBytes code st.pc).2,
                stack := ("Class_" ++ toString (Abc.readU30FromBytes code st.pc).1)
                          :: st.stack.tail } := rfl

theorem execOp_newobject (env : Env) (code : List u8) (st : State) :
    execOp env code 0x56 st =
      { st with pc := (Abc.readU30FromBytes code st.pc).2,
                stack := "\x7b\x7d" :: popN (((Abc.readU30FromBytes code st.pc).1 * 2) % 2 ^ 32)
                                  st.stack } := rfl

theorem execOp_newarray (env : Env) (code : List u8) (st : State) :
    execOp env code 0x57 st =
      { st with
        pc := (Abc.readU30FromBytes code st.pc).2,
        stack := (joinArgs (popArgs (Abc.readU30FromBytes code st.pc).1 st.stack []).1.reverse
                    0 "[" ++ "]")
                  :: (popArgs (Abc.readU30FromBytes code st.pc).1 st.stack []).2 } := rfl

theorem execOp_jump (env : Env) (code : List u8) (st : State) :
    execOp env code 0x10 st =
      out { st with pc := (Abc.readS24 code st.pc).2,
                    jumpTargets := jumpTarget (Abc.readS24 code st.pc).2
                                     (Abc.readS24 code st.pc).1 :: st.jumpTargets }
        ("goto label_"
          ++ toString (jumpTarget (Abc.readS24 code st.pc).2 (Abc.readS24 code st.pc).1)
          ++ ";") := rfl

theorem execOp_iftrue (env : Env) (code : List u8) (st : State) :
    execOp env code 0x11 st =
      match st.stack with
      | top :: rest =>
        { out { st with pc := (Abc.readS24 code st.pc).2,
                        jumpTargets := jumpTarget (Abc.readS24 code st.pc).2
                                         (Abc.readS24 code st.pc).1 :: st.jumpTargets }
            ("if (" ++ top ++ ") goto label_"
              ++ toString (jumpTarget (Abc.readS24 code st.pc).2 (Abc.readS24 code st.pc).1)
              ++ ";") with
          stack := rest }
      | [] => { st with pc := (Abc.readS24 code st.pc).2,
                        jumpTargets := jumpTarget (Abc.readS24 code st.pc).2
                                         (Abc.readS24 code st.pc).1 :: st.jumpTargets } := rfl

theorem execOp_iffalse (env : Env) (code : List u8) (st : State) :
    execOp env code 0x12 st =
      match st.stack with
      | top :: rest =>
        { out { st with pc := (Abc.readS24 code st.pc).2,
                        jumpTargets := jumpTarget (Abc.readS24 code st.pc).2
                                         (Abc.readS24 code st.pc).1 :: st.jumpTargets }
            ("if (!(" ++ top ++ ")) goto label_"
              ++ toString (jumpTarget (Abc.readS24 code st.pc).2 (Abc.readS24 code st.pc).1)
              ++ ";") with
          stack := rest }
      | [] => { st with pc := (Abc.readS24 code st.pc).2,
                        jumpTargets := jumpTarget (Abc.readS24 code st.pc).2
                                         (Abc.readS24 code st.pc).1 :: st.jumpTargets } := rfl

theorem execOp_pop (env : Env) (code : List u8) (st : State) :
    execOp env code 0x29 st =
      match st.stack with
      | top :: rest => { out st (top ++ ";") with stack := rest }
      | [] => st := rfl

theorem execOp_dup (env : Env) (code : List u8) (st : State) :
    execOp env code 0x2A st =
      match st.stack with
      | top :: rest => { st with stack := top :: top :: rest }
      | [] => st := rfl

theorem execOp_convert (env : Env) (code : List u8) (st : State) :
    execOp env code 0x73 st = convertOp st "int(" ∧
    execOp env code 0x74 st = convertOp st "uint(" ∧
    execOp env code 0x75 st = convertOp st "Number(" :=
  ⟨rfl, rfl, rfl⟩

theorem execOp_default (env : Env) (code : List u8) (op : Nat) (st : State)
    (h : op ∉ [0x47, 0x48, 0x20, 0x21, 0x26, 0x27, 0x28, 0x24, 0x25, 0x2C, 0x2D, 0x2E, 0x2F,
      0x30, 0xD0, 0xD1, 0xD2, 0xD3, 0x62, 0x63, 0xD4, 0xD5, 0xD6, 0xD7, 0xA0, 0xA1, 0xA2,
      0xA3, 0xAB, 0xAD, 0x60, 0x66, 0x61, 0x68, 0x46, 0x4F, 0x40, 0x55, 0x56, 0x57, 0x10,
      0x11, 0x12, 0x29, 0x2A, 0x73, 0x74, 0x75]) :
    execOp env code op st =
      if env.keepOpcodeComments then out st ("// opcode 0x" ++ toString op) else st := by
  simp only [List.mem_cons, List.mem_singleton, List.not_mem_nil, or_false, not_or] at h
  unfold execOp
  simp only [h, or_self, if_false]

/-- Claim C24, on the code.  For the body `D1 D2 A0 48` (getlocal_1; getlocal_2; add;
returnvalue), every local count and every `ABC`, `decompileMethod` returns no statement:
the text is empty, or with `keepOpcodeComments` the two comment lines of the suppressed
opcodes.  The opcodes `D1` and `D2` are in `isNonSemanticOpcode`, so the loop leaves them
before the `switch`; `add` then finds fewer than two operands and `returnvalue` an empty
stack. -/
theorem decompileMethod_adder (abc : Abc.ABC) (keepOpcodeComments : Bool)
    (doubleText : List u8 → String) (hex : Bool) (method maxStack localCount : Nat) :
    decompileMethod ⟨abc, keepOpcodeComments, doubleText⟩ hex
        { method := method, maxStack := maxStack, localCount := localCount,
          code := [0xD1, 0xD2, 0xA0, 0x48] }
      = some (if keepOpcodeComments then "// opcode 0xd1\n// opcode 0xd2\n" else "") ∧
    isNonSemanticOpcode 0xD1 = true ∧ isNonSemanticOpcode 0xD2 = true := by
  refine ⟨?_, rfl, rfl⟩
  unfold decompileMethod
  simp only [initState, List.length_cons, List.length_nil, Nat.zero_add, Nat.reduceAdd]
  rw [decompileLoop_suppressed _ _ _ _ 0xD1 (by simp) (by rfl) (by rfl)]
  cases keepOpcodeComments
  · simp only [emitLabel, List.not_mem_nil, if_false, Bool.false_eq_true]
    rw [decompileLoop_suppressed _ _ _ _ 0xD2 (by simp) (by rfl) (by rfl)]
    simp only [emitLabel, List.not_mem_nil, if_false, Bool.false_eq_true]
    rw [decompileLoop_switch _ _ _ _ 0xA0 (by simp) (by rfl) (by rfl)]
    simp only [emitLabel, List.not_mem_nil, if_false, (execOp_binary _ _ _).1, binaryOp]
    rw [decompileLoop_switch _ _ _ _ 0x48 (by simp) (by rfl) (by rfl)]
    simp only [emitLabel, List.not_mem_nil, if_false, execOp_returnvalue]
    rw [decompileLoop_end _ _ _ _ (by simp)]
    rfl
  · simp only [emitLabel, List.not_mem_nil, if_false, if_true]
    rw [decompileLoop_suppressed _ _ _ _ 0xD2 (by simp) (by rfl) (by rfl)]
    simp only [emitLabel, List.not_mem_nil, if_false, if_true]
    rw [decompileLoop_switch _ _ _ _ 0xA0 (by simp) (by rfl) (by rfl)]
    simp only [emitLabel, List.not_mem_nil, if_false, (execOp_binary _ _ _).1, binaryOp]
    rw [decompileLoop_switch _ _ _ _ 0x48 (by simp) (by rfl) (by rfl)]
    simp only [emitLabel, List.not_mem_nil, if_false, execOp_returnvalue]
    rw [decompileLoop_end _ _ _ _ (by simp)]
    simp only [Option.map_some', Option.some.injEq]
    decide

/-- Claim C25, on the code.  For the body of the specification, pushbyte 1; iffalse L;
pushstring "A"; returnvalue; L: pushstring "B"; returnvalue (bytes
`24 01 12 03 00 00 2C 01 48 2C 02 48`, L = 9, strings 1 and 2 of the pool `A` and `B`),
`decompileMethod` returns the label line before `return "A";`, not after it: the label
test of the loop is made after `pc` has been incremented past the opcode byte, so the
target 9 is met in the round of the instruction at offset 8. -/
theorem decompileMethod_branch (keepOpcodeComments : Bool) (doubleText : List u8 → String)
    (hex : Bool) (method maxStack localCount : Nat) :
    decompileMethod ⟨{ cp := { strings := [[], [0x41], [0x42]] } }, keepOpcodeComments,
          doubleText⟩ hex
        { method := method, maxStack := maxStack, localCount := localCount,
          code := [0x24, 1, 0x12, 3, 0, 0, 0x2C, 1, 0x48, 0x2C, 2, 0x48] }
      = some "    if (!(1)) goto label_9;\nlabel_9:\n    return \"A\";\n    return \"B\";\n" := by
  have hs24 : Abc.readS24 [0x24, 1, 0x12, 3, 0, 0, 0x2C, 1, 0x48, 0x2C, 2, 0x48] 3 = (3, 6) := by
    decide
  have hu7 : Abc.readU30FromBytes [0x24, 1, 0x12, 3, 0, 0, 0x2C, 1, 0x48, 0x2C, 2, 0x48] 7
      = (1, 8) := by decide
  have hu10 : Abc.readU30FromBytes [0x24, 1, 0x12, 3, 0, 0, 0x2C, 1, 0x48, 0x2C, 2, 0x48] 10
      = (2, 11) := by decide
  have hj : jumpTarget 6 3 = 9 := by decide
  have hn : numText hex 9 = "9" := by cases hex <;> decide
  unfold decompileMethod
  simp only [initState, List.length_cons, List.length_nil, Nat.zero_add, Nat.reduceAdd]
  rw [decompileLoop_switch _ _ _ _ 0x24 (by simp) (by rfl) (by rfl)]
  simp only [emitLabel, List.not_mem_nil, if_false, execOp_pushbyte, List.length_cons,
    List.length_nil, Nat.reduceAdd, Nat.reduceLT, if_true, push]
  rw [decompileLoop_switch _ _ _ _ 0x12 (by simp) (by rfl) (by rfl)]
  simp only [emitLabel, List.not_mem_nil, if_false, execOp_iffalse, hs24, hj, out]
  rw [decompileLoop_switch _ _ _ _ 0x2C (by simp) (by rfl) (by rfl)]
  simp only [emitLabel, List.mem_singleton, Nat.reduceAdd, Nat.reduceEqDiff, if_false,
    execOp_pushstring, hu7, push]
  rw [decompileLoop_switch _ _ _ _ 0x48 (by simp) (by rfl) (by rfl)]
  simp only [emitLabel, List.mem_singleton, Nat.reduceAdd, if_true, execOp_returnvalue, out, hn]
  rw [decompileLoop_switch _ _ _ _ 0x2C (by simp) (by rfl) (by rfl)]
  simp only [emitLabel, List.mem_singleton, Nat.reduceAdd, Nat.reduceEqDiff, if_false,
    execOp_pushstring, hu10, push]
  rw [decompileLoop_switch _ _ _ _ 0x48 (by simp) (by rfl) (by rfl)]
  simp only [emitLabel, List.mem_singleton, Nat.reduceAdd, Nat.reduceEqDiff, if_false,
    execOp_returnvalue, out]
  rw [decompileLoop_end _ _ _ _ (by simp)]
  simp only [Option.map_some', Option.some.injEq, getString]
  decide

/-- Claim C28, on the code.  For the body `26 48` (pushtrue; returnvalue), every local
count and every `ABC`, `decompileMethod` returns no statement: the text is empty, or
with `keepOpcodeComments` the comment line of the suppressed opcode.  The opcodes `20`,
`21`, `26` and `27` are in `isNonSemanticOpcode`, so the loop leaves them before the
`switch`, and their cases, which push `null`, `undefined`, `true` and `false`, are never
reached.  The opcodes `28` and `24` are not in it: pushnan; returnvalue gives
`return NaN;` and pushbyte FF; returnvalue gives `return -1;`. -/
theorem decompileMethod_pushtrue (abc : Abc.ABC) (keepOpcodeComments : Bool)
    (doubleText : List u8 → String) (hex : Bool) (method maxStack localCount : Nat) :
    decompileMethod ⟨abc, keepOpcodeComments, doubleText⟩ hex
        { method := method, maxStack := maxStack, localCount := localCount,
          code := [0x26, 0x48] }
      = some (if keepOpcodeComments then "// opcode 0x26\n" else "") ∧
    isNonSemanticOpcode 0x20 = true ∧ isNonSemanticOpcode 0x21 = true ∧
    isNonSemanticOpcode 0x26 = true ∧ isNonSemanticOpcode 0x27 = true ∧
    isNonSemanticOpcode 0x28 = false ∧ isNonSemanticOpcode 0x24 = false ∧
    decompileMethod ⟨abc, keepOpcodeComments, doubleText⟩ hex
        { method := method, maxStack := maxStack, localCount := localCount,
          code := [0x28, 0x48] } = some "    return NaN;\n" ∧
    decompileMethod ⟨abc, keepOpcodeComments, doubleText⟩ hex
        { method := method, maxStack := maxStack, localCount := localCount,
          code := [0x24, 0xFF, 0x48] } = some "    return -1;\n" := by
  refine ⟨?_, rfl, rfl, rfl, rfl, rfl, rfl, ?_, ?_⟩
  · unfold decompileMethod
    simp only [initState, List.length_cons, List.length_nil, Nat.zero_add, Nat.reduceAdd]
    rw [decompileLoop_suppressed _ _ _ _ 0x26 (by simp) (by rfl) (by rfl)]
    cases keepOpcodeComments
    · simp only [emitLabel, List.not_mem_nil, if_false, Bool.false_eq_true]
      rw [decompileLoop_switch _ _ _ _ 0x48 (by simp) (by rfl) (by rfl)]
      simp only [emitLabel, List.not_mem_nil, if_false, execOp_returnvalue]
      rw [decompileLoop_end _ _ _ _ (by simp)]
      rfl
    · simp only [emitLabel, List.not_mem_nil, if_false, if_true]
      rw [decompileLoop_switch _ _ _ _ 0x48 (by simp) (by rfl) (by rfl)]
      simp only [emitLabel, List.not_mem_nil, if_false, execOp_returnvalue]
      rw [decompileLoop_end _ _ _ _ (by simp)]
      simp only [Option.map_some', Option.some.injEq]
      decide
  · unfold decompileMethod
    simp only [initState, List.length_cons, List.length_nil, Nat.zero_add, Nat.reduceAdd]
    rw [decompileLoop_switch _ _ _ _ 0x28 (by simp) (by rfl) (by rfl)]
    simp only [emitLabel, List.not_mem_nil, if_false, execOp_pushnan, push]
    rw [decompileLoop_switch _ _ _ _ 0x48 (by simp) (by rfl) (by rfl)]
    simp only [emitLabel, List.not_mem_nil, if_false, execOp_returnvalue, out]
    rw [decompileLoop_end _ _ _ _ (by simp)]
    simp only [Option.map_some', Option.some.injEq]
    decide
  · unfold decompileMethod
    simp only [initState, List.length_cons, List.length_nil, Nat.zero_add, Nat.reduceAdd]
    rw [decompileLoop_switch _ _ _ _ 0x24 (by simp) (by rfl) (by rfl)]
    simp only [emitLabel, List.not_mem_nil, if_false, execOp_pushbyte, List.length_cons,
      List.length_nil, Nat.reduceAdd, Nat.reduceLT, if_true, push]
    rw [decompileLoop_switch _ _ _ _ 0x48 (by simp) (by rfl) (by rfl)]
    simp only [emitLabel, List.not_mem_nil, if_false, execOp_returnvalue, out]
    rw [decompileLoop_end _ _ _ _ (by simp)]
    simp only [Option.map_some', Option.some.injEq]
    decide

theorem stack_of_reverse {α : Type} (stack s t : List α) (h : stack.reverse = s ++ t) :
    stack = t.reverse ++ s.reverse := by
  have := congrArg List.reverse h
  rw [List.reverse_reverse, List.reverse_append] at this
  exact this

/-- Claim C26.  Let the opcode at `pc` be one of add, subtract, multiply, divide, equals,
lessthan (`A0`, `A1`, `A2`, `A3`, `AB`, `AD`) with the operator text ` + `, ` - `, ` * `,
` / `, ` == `, ` < `, and let the operand stack be `s ++ [l, r]`, bottom first.  The
round of the loop leaves the stack `s ++ ["(" l OP r ")"]` and `pc` one higher, and the
case of the `switch` changes nothing else: it writes nothing, so the output after the
round is the output after the label test of the loop head, and the output before the
round when `pc + 1` is not a recorded jump target. -/
theorem binaryOp_spec (env : Env) (code : List u8) (st : State) (op : Nat) (opText : String)
    (s : List String) (l r : String)
    (hop : (op, opText) ∈ [(0xA0, " + "), (0xA1, " - "), (0xA2, " * "), (0xA3, " / "),
                            (0xAB, " == "), (0xAD, " < ")])
    (hcode : (code.getD st.pc 0).val = op)
    (hstack : st.stack.reverse = s ++ [l, r]) :
    step env code st
      = { emitLabel { st with pc := st.pc + 1 } with
          stack := ("(" ++ l ++ opText ++ r ++ ")") :: s.reverse } ∧
    (step env code st).stack.reverse = s ++ ["(" ++ l ++ opText ++ r ++ ")"] ∧
    (step env code st).pc = st.pc + 1 ∧
    (step env code st).output = (emitLabel { st with pc := st.pc + 1 }).output ∧
    (st.pc + 1 ∉ st.jumpTargets → (step env code st).output = st.output) ∧
    execOp env code op st = { st with stack := ("(" ++ l ++ opText ++ r ++ ")") :: s.reverse } := by
  have hst : st.stack = r :: l :: s.reverse := by
    have := stack_of_reverse _ _ _ hstack
    simpa using this
  have hexec : ∀ st1 : State, st1.stack = r :: l :: s.reverse →
      execOp env code op st1
        = { st1 with stack := ("(" ++ l ++ opText ++ r ++ ")") :: s.reverse } := by
    intro st1 h1
    simp only [List.mem_cons, Prod.mk.injEq, List.mem_singleton, List.not_mem_nil,
      or_false] at hop
    rcases hop with ⟨rfl, rfl⟩ | ⟨rfl, rfl⟩ | ⟨rfl, rfl⟩ | ⟨rfl, rfl⟩ | ⟨rfl, rfl⟩ | ⟨rfl, rfl⟩
    · rw [(execOp_binary env code st1).1, binaryOp, h1]
    · rw [(execOp_binary env code st1).2.1, binaryOp, h1]
    · rw [(execOp_binary env code st1).2.2.1, binaryOp, h1]
    · rw [(execOp_binary env code st1).2.2.2.1, binaryOp, h1]
    · rw [(execOp_binary env code st1).2.2.2.2.1, binaryOp, h1]
    · rw [(execOp_binary env code st1).2.2.2.2.2, binaryOp, h1]
  have hns : isNonSemanticOpcode op = false := by
    simp only [List.mem_cons, Prod.mk.injEq, List.mem_singleton, List.not_mem_nil,
      or_false] at hop
    rcases hop with ⟨rfl, _⟩ | ⟨rfl, _⟩ | ⟨rfl, _⟩ | ⟨rfl, _⟩ | ⟨rfl, _⟩ | ⟨rfl, _⟩ <;> rfl
  have hlab := emitLabel_fields { st with pc := st.pc + 1 }
  have hstep : step env code st
      = { emitLabel { st with pc := st.pc + 1 } with
          stack := ("(" ++ l ++ opText ++ r ++ ")") :: s.reverse } := by
    rw [step_switch env code st op hcode hns, hexec _ (by rw [hlab.1]; exact hst)]
  refine ⟨hstep, ?_, ?_, ?_, ?_, hexec st hst⟩
  · rw [hstep]
    simp
  · rw [hstep]
    exact hlab.2.2.1
  · rw [hstep]
  · intro hnot
    rw [hstep]
    exact emitLabel_output _ hnot

/-- Witness of `binaryOp_spec`: `add` on the stack `["x", "a", "b"]`. -/
theorem binaryOp_spec_witness :
    (step ⟨{}, false, fun _ => ""⟩ [0xA0] { stack := ["b", "a", "x"] }).stack.reverse
      = ["x"] ++ ["(" ++ "a" ++ " + " ++ "b" ++ ")"] :=
  (binaryOp_spec ⟨{}, false, fun _ => ""⟩ [0xA0] { stack := ["b", "a", "x"] } 0xA0 " + "
    ["x"] "a" "b" (by decide) (by decide) (by decide)).2.1

theorem popArgs_eq : ∀ (n : Nat) (stack args : List String),
    popArgs n stack args = (args ++ stack.take n, stack.drop n) := by
  intro n
  induction n with
  | zero => intro stack args; simp [popArgs]
  | succ n ih =>
    intro stack args
    cases stack with
    | nil => simp [popArgs]
    | cons top rest => simp [popArgs, ih]

theorem popN_eq : ∀ (n : Nat) (stack : List String), popN n stack = stack.drop n := by
  intro n
  induction n with
  | zero => intro stack; rfl
  | succ n ih =>
    intro stack
    cases stack with
    | nil => simp [popN, ih]
    | cons top rest => simp [popN, ih]

theorem intercalate_go_append (sep : String) : ∀ (rest : List String) (x a : String),
    String.intercalate.go (x ++ a) sep rest = x ++ String.intercalate.go a sep rest := by
  intro rest
  induction rest with
  | nil => intro x a; rfl
  | cons b rest ih =>
    intro x a
    simp only [String.intercalate.go]
    rw [← ih, String.append_assoc, String.append_assoc, String.append_assoc]

theorem joinArgs_succ : ∀ (rest : List String) (i : Nat) (acc : String),
    joinArgs rest (i + 1) acc = String.intercalate.go acc ", " rest := by
  intro rest
  induction rest with
  | nil => intro i acc; rfl
  | cons b rest ih =>
    intro i acc
    rw [joinArgs, if_pos (Nat.succ_pos i), ih]
    rfl

theorem joinArgs_eq (args : List String) (call : String) :
    joinArgs args 0 call = call ++ ", ".intercalate args := by
  cases args with
  | nil => simp [joinArgs, String.intercalate]
  | cons a rest =>
    rw [joinArgs, if_neg (Nat.lt_irrefl 0), joinArgs_succ, intercalate_go_append]
    rfl

/-- Claim C27.  Let the opcode at `pc` be callproperty (`46`) or callpropvoid (`4F`),
let its operands decode to the multiname index `m` and the argument count `n`, and let
the operand stack be `s ++ [obj, a1, ..., an]`, bottom first.  Neither opcode is one of
those that `isNonSemanticOpcode` suppresses, so the round of the loop reaches the case
of the `switch`.  The round of callproperty leaves the stack
`s ++ ["obj.NAME(a1, ..., an)"]` and the case writes nothing: the output after the round
is the output after the label test of the loop head, and the output before the round
when `pc + 1` is not a recorded jump target.  The round of callpropvoid leaves the stack
`s` and the case writes the one statement `obj.NAME(a1, ..., an);` with `out`.  `NAME`
is `getName(m)` and the arguments are in the order in which they were pushed, separated
by `, `. -/
theorem callproperty_spec (env : Env) (code : List u8) (st : State) (s : List String)
    (obj : String) (args : List String)
    (hargc : (Abc.readU30FromBytes code (Abc.readU30FromBytes code (st.pc + 1)).2).1
      = args.length)
    (hstack : st.stack.reverse = s ++ obj :: args) :
    isNonSemanticOpcode 0x46 = false ∧ isNonSemanticOpcode 0x4F = false ∧
    ((code.getD st.pc 0).val = 0x46 →
      step env code st
        = { emitLabel { st with pc := st.pc + 1 } with
            pc := (Abc.readU30FromBytes code (Abc.readU30FromBytes code (st.pc + 1)).2).2,
            stack := (obj ++ "." ++ getName env (Abc.readU30FromBytes code (st.pc + 1)).1
                        ++ "(" ++ ", ".intercalate args ++ ")") :: s.reverse } ∧
      (step env code st).stack.reverse
        = s ++ [obj ++ "." ++ getName env (Abc.readU30FromBytes code (st.pc + 1)).1 ++ "("
                  ++ ", ".intercalate args ++ ")"] ∧
      (step env code st).pc
        = (Abc.readU30FromBytes code (Abc.readU30FromBytes code (st.pc + 1)).2).2 ∧
      (step env code st).output = (emitLabel { st with pc := st.pc + 1 }).output ∧
      (st.pc + 1 ∉ st.jumpTargets → (step env code st).output = st.output)) ∧
    ((code.getD st.pc 0).val = 0x4F →
      step env code st
        = { out { emitLabel { st with pc := st.pc + 1 } with
                  pc := (Abc.readU30FromBytes code
                          (Abc.readU30FromBytes code (st.pc + 1)).2).2 }
              (obj ++ "." ++ getName env (Abc.readU30FromBytes code (st.pc + 1)).1 ++ "("
                ++ ", ".intercalate args ++ ");") with
            stack := s.reverse } ∧
      (step env code st).stack.reverse = s ∧
      (step env code st).pc
        = (Abc.readU30FromBytes code (Abc.readU30FromBytes code (st.pc + 1)).2).2 ∧
      (step env code st).output
        = writeIndent st.indent (emitLabel { st with pc := st.pc + 1 }).output
            ++ (obj ++ "." ++ getName env (Abc.readU30FromBytes code (st.pc + 1)).1 ++ "("
                ++ ", ".intercalate args ++ ");") ++ "\n" ∧
      (st.pc + 1 ∉ st.jumpTargets →
        (step env code st).output
          = writeIndent st.indent st.output
              ++ (obj ++ "." ++ getName env (Abc.readU30FromBytes code (st.pc + 1)).1 ++ "("
                  ++ ", ".intercalate args ++ ");") ++ "\n")) := by
  have hst : st.stack = args.reverse ++ obj :: s.reverse := by
    have := stack_of_reverse _ _ _ hstack
    simpa using this
  have hlab := emitLabel_fields { st with pc := st.pc + 1 }
  have hpc : (emitLabel { st with pc := st.pc + 1 }).pc = st.pc + 1 := hlab.2.2.1
  have hstk : (emitLabel { st with pc := st.pc + 1 }).stack
      = args.reverse ++ obj :: s.reverse := by rw [hlab.1]; exact hst
  have hind : (emitLabel { st with pc := st.pc + 1 }).indent = st.indent := hlab.2.2.2.2.2
  have hpop : popArgs (Abc.readU30FromBytes code (Abc.readU30FromBytes code (st.pc + 1)).2).1
      (emitLabel { st with pc := st.pc + 1 }).stack [] = (args.reverse, obj :: s.reverse) := by
    rw [popArgs_eq, hargc, hstk]
    simp [List.take_append_eq_append_take, List.drop_append_eq_append_drop]
  have h46 : (code.getD st.pc 0).val = 0x46 →
      step env code st
        = { emitLabel { st with pc := st.pc + 1 } with
            pc := (Abc.readU30FromBytes code (Abc.readU30FromBytes code (st.pc + 1)).2).2,
            stack := (obj ++ "." ++ getName env (Abc.readU30FromBytes code (st.pc + 1)).1
                        ++ "(" ++ ", ".intercalate args ++ ")") :: s.reverse } := by
    intro hcode
    rw [step_switch env code st 0x46 hcode rfl, execOp_callproperty, hpc, hpop]
    simp only [List.reverse_reverse, joinArgs_eq]
  have h4F : (code.getD st.pc 0).val = 0x4F →
      step env code st
        = { out { emitLabel { st with pc := st.pc + 1 } with
                  pc := (Abc.readU30FromBytes code
                          (Abc.readU30FromBytes code (st.pc + 1)).2).2 }
              (obj ++ "." ++ getName env (Abc.readU30FromBytes code (st.pc + 1)).1 ++ "("
                ++ ", ".intercalate args ++ ");") with
            stack := s.reverse } := by
    intro hcode
    rw [step_switch env code st 0x4F hcode rfl, execOp_callpropvoid, hpc, hpop]
    simp only [List.reverse_reverse, joinArgs_eq]
  refine ⟨rfl, rfl, ?_, ?_⟩
  · intro hcode
    have h := h46 hcode
    refine ⟨h, ?_, ?_, ?_, ?_⟩
    · rw [h]; simp
    · rw [h]
    · rw [h]
    · intro hnot
      rw [h]
      exact emitLabel_output _ hnot
  · intro hcode
    have h := h4F hcode
    have hout : (step env code st).output
        = writeIndent st.indent (emitLabel { st with pc := st.pc + 1 }).output
            ++ (obj ++ "." ++ getName env (Abc.readU30FromBytes code (st.pc + 1)).1 ++ "("
                ++ ", ".intercalate args ++ ");") ++ "\n" := by
      rw [h]
      show writeIndent (emitLabel { st with pc := st.pc + 1 }).indent _ ++ _ ++ _ = _
      rw [hind]
    refine ⟨h, ?_, ?_, hout, ?_⟩
    · rw [h]; simp
    · rw [h]; rfl
    · intro hnot
      rw [hout, emitLabel_output _ hnot]

/-- Witness of `callproperty_spec`: the round of the code `46 01 02` (callproperty,
multiname 1, two arguments) from `pc = 0` on the stack `["o", "a", "b"]`. -/
theorem callproperty_spec_witness :
    (step ⟨{}, false, fun _ => ""⟩ [0x46, 1, 2] { stack := ["b", "a", "o"] }).stack.reverse
      = [] ++ ["o" ++ "." ++ getName ⟨{}, false, fun _ => ""⟩
                  (Abc.readU30FromBytes [0x46, 1, 2] (0 + 1)).1 ++ "("
                ++ ", ".intercalate ["a", "b"] ++ ")"] :=
  ((callproperty_spec ⟨{}, false, fun _ => ""⟩ [0x46, 1, 2] { stack := ["b", "a", "o"] }
    [] "o" ["a", "b"] (by decide) (by decide)).2.2.1 (by decide)).2.1

/-- The rounds of `46 01 02` and `4F 01 02` on the stack `["o", "a", "b"]` with no
multiname table: the expression pushed and the statement written. -/
theorem callproperty_example :
    (step ⟨{}, false, fun _ => ""⟩ [0x46, 1, 2] { stack := ["b", "a", "o"] }).stack
      = ["o.unknown(a, b)"] ∧
    (step ⟨{}, false, fun _ => ""⟩ [0x46, 1, 2] { stack := ["b", "a", "o"] }).output = "" ∧
    (step ⟨{}, false, fun _ => ""⟩ [0x4F, 1, 2] { stack := ["b", "a", "o"], indent := 1 }).stack
      = [] ∧
    (step ⟨{}, false, fun _ => ""⟩ [0x4F, 1, 2] { stack := ["b", "a", "o"], indent := 1 }).output
      = "    o.unknown(a, b);\n" := by
  decide

theorem binaryOp_short (st : State) (opText : String) (h : st.stack.length < 2) :
    binaryOp st opText = st := by
  unfold binaryOp
  split
  · rename_i hs
    rw [hs] at h
    simp only [List.length_cons] at h
    omega
  · rfl

/-- Claim C29, as the code has it.  With fewer operands than the opcode needs:
returnvalue, the short setlocal forms, pop, dup and the three conversions on an empty
stack, and the six binary operators on fewer than two operands, leave the whole state as
it is; setlocal and getproperty on an empty stack and setproperty/initproperty on fewer
than two operands only move `pc` past the operand; iftrue and iffalse on an empty stack
move `pc` and record the jump target.  None of them writes a line.  The other cases do
change the stack: callproperty and callpropvoid with fewer than `argc + 1` operands pop
every operand and push nothing; newarray with fewer than `N` operands replaces the whole
stack by one array of the operands it found; newobject with fewer than `2N` operands
replaces it by `{}`; newclass on an empty stack pushes its placeholder. -/
theorem underflow_spec (env : Env) (code : List u8) (st : State) :
    (∀ op, op ∈ [0x48, 0xD4, 0xD5, 0xD6, 0xD7, 0x29, 0x2A, 0x73, 0x74, 0x75] →
      st.stack = [] → execOp env code op st = st) ∧
    (∀ op, op ∈ [0xA0, 0xA1, 0xA2, 0xA3, 0xAB, 0xAD] → st.stack.length < 2 →
      execOp env code op st = st) ∧
    (∀ op, op ∈ [0x63, 0x66] → st.stack = [] →
      execOp env code op st = { st with pc := (Abc.readU30FromBytes code st.pc).2 }) ∧
    (∀ op, op ∈ [0x61, 0x68] → st.stack.length < 2 →
      execOp env code op st = { st with pc := (Abc.readU30FromBytes code st.pc).2 }) ∧
    (∀ op, op ∈ [0x11, 0x12] → st.stack = [] →
      execOp env code op st
        = { st with pc := (Abc.readS24 code st.pc).2,
                    jumpTargets := jumpTarget (Abc.readS24 code st.pc).2
                                     (Abc.readS24 code st.pc).1 :: st.jumpTargets }) ∧
    (∀ op, op ∈ [0x46, 0x4F] →
      st.stack.length
        < (Abc.readU30FromBytes code (Abc.readU30FromBytes code st.pc).2).1 + 1 →
      execOp env code op st
        = { st with
            pc := (Abc.readU30FromBytes code (Abc.readU30FromBytes code st.pc).2).2,
            stack := [] }) ∧
    (st.stack.length < (Abc.readU30FromBytes code st.pc).1 →
      execOp env code 0x57 st
        = { st with pc := (Abc.readU30FromBytes code st.pc).2,
                    stack := ["[" ++ ", ".intercalate st.stack.reverse ++ "]"] }) ∧
    ((Abc.readU30FromBytes code st.pc).1 * 2 < 2 ^ 32 →
      st.stack.length < (Abc.readU30FromBytes code st.pc).1 * 2 →
      execOp env code 0x56 st
        = { st with pc := (Abc.readU30FromBytes code st.pc).2, stack := ["\x7b\x7d"] }) ∧
    (st.stack = [] →
      execOp env code 0x55 st
        = { st with pc := (Abc.readU30FromBytes code st.pc).2,
                    stack := ["Class_" ++ toString (Abc.readU30FromBytes code st.pc).1] }) := by
  refine ⟨?_, ?_, ?_, ?_, ?_, ?_, ?_, ?_, ?_⟩
  · intro op hop hs
    simp only [List.mem_cons, List.mem_singleton, List.not_mem_nil, or_false] at hop
    rcases hop with rfl | rfl | rfl | rfl | rfl | rfl | rfl | rfl | rfl | rfl
    · rw [execOp_returnvalue, hs]
    · rw [(execOp_setlocal_n env code st).1, setLocal, hs]
    · rw [(execOp_setlocal_n env code st).2.1, setLocal, hs]
    · rw [(execOp_setlocal_n env code st).2.2.1, setLocal, hs]
    · rw [(execOp_setlocal_n env code st).2.2.2, setLocal, hs]
    · rw [execOp_pop, hs]
    · rw [execOp_dup, hs]
    · rw [(execOp_convert env code st).1, convertOp, hs]
    · rw [(execOp_convert env code st).2.1, convertOp, hs]
    · rw [(execOp_convert env code st).2.2, convertOp, hs]
  · intro op hop hs
    simp only [List.mem_cons, List.mem_singleton, List.not_mem_nil, or_false] at hop
    rcases hop with rfl | rfl | rfl | rfl | rfl | rfl
    · rw [(execOp_binary env code st).1, binaryOp_short _ _ hs]
    · rw [(execOp_binary env code st).2.1, binaryOp_short _ _ hs]
    · rw [(execOp_binary env code st).2.2.1, binaryOp_short _ _ hs]
    · rw [(execOp_binary env code st).2.2.2.1, binaryOp_short _ _ hs]
    · rw [(execOp_binary env code st).2.2.2.2.1, binaryOp_short _ _ hs]
    · rw [(execOp_binary env code st).2.2.2.2.2, binaryOp_short _ _ hs]
  · intro op hop hs
    simp only [List.mem_cons, List.mem_singleton, List.not_mem_nil, or_false] at hop
    rcases hop with rfl | rfl
    · rw [execOp_setlocal, setLocal]
      simp only [hs]
    · rw [execOp_getproperty, hs]
  · intro op hop hs
    have hop2 : op = 0x61 ∨ op = 0x68 := by simpa using hop
    rw [execOp_setproperty env code st op hop2]
    split
    · rename_i h
      rw [h] at hs
      simp only [List.length_cons] at hs
      omega
    · rfl
  · intro op hop hs
    simp only [List.mem_cons, List.mem_singleton, List.not_mem_nil, or_false] at hop
    rcases hop with rfl | rfl
    · rw [execOp_iftrue, hs]
    · rw [execOp_iffalse, hs]
  · intro op hop hs
    have hpop : (popArgs (Abc.readU30FromBytes code (Abc.readU30FromBytes code st.pc).2).1
        st.stack []).2 = [] := by
      rw [popArgs_eq]
      simp only [List.drop_eq_nil_iff]
      omega
    simp only [List.mem_cons, List.mem_singleton, List.not_mem_nil, or_false] at hop
    rcases hop with rfl | rfl
    · rw [execOp_callproperty, hpop]
    · rw [execOp_callpropvoid, hpop]
  · intro hs
    rw [execOp_newarray, popArgs_eq, joinArgs_eq]
    simp only [List.nil_append]
    rw [List.take_of_length_le (by omega), List.drop_eq_nil_iff.2 (by omega)]
  · intro hw hs
    rw [execOp_newobject, popN_eq, Nat.mod_eq_of_lt hw, List.drop_eq_nil_iff.2 (by omega)]
  · intro hs
    rw [execOp_newclass, hs]
    rfl

/-- Witness of `underflow_spec`: callproperty with one argument (`46 01 01`) on a stack
of one operand, where two are needed. -/
theorem underflow_spec_witness :
    execOp ⟨{}, false, fun _ => ""⟩ [0x46, 1, 1] 0x46 { stack := ["a"], pc := 1 }
      = { ({ stack := ["a"], pc := 1 } : State) with
          pc := (Abc.readU30FromBytes [0x46, 1, 1]
                  (Abc.readU30FromBytes [0x46, 1, 1] 1).2).2,
          stack := [] } :=
  (underflow_spec ⟨{}, false, fun _ => ""⟩ [0x46, 1, 1] { stack := ["a"], pc := 1 }).2.2.2.2.2.1
    0x46 (by decide) (by decide)

/-- Counterexample to claim C29 as stated.  The code is `46 01 01` (callproperty,
multiname 1, one argument) and the operand stack holds the one operand `a`, fewer than
the two the opcode needs.  The round pops `a` as an argument, finds no receiver and
pushes nothing: the stack is empty afterwards, not unchanged.  The code `57 02`
(newarray of two items) on the same stack leaves the one operand `[a]`. -/
theorem underflow_counterexample :
    (step ⟨{}, false, fun _ => ""⟩ [0x46, 1, 1] { stack := ["a"] }).stack = [] ∧
    (step ⟨{}, false, fun _ => ""⟩ [0x46, 1, 1] { stack := ["a"] }).output = "" ∧
    (Abc.readU30FromBytes [0x46, 1, 1] (Abc.readU30FromBytes [0x46, 1, 1] 1).2).1 = 1 ∧
    (step ⟨{}, false, fun _ => ""⟩ [0x57, 2] { stack := ["a"] }).stack = ["[a]"] := by
  decide

/-- Claim C30, as the code has it.  The change of the depth of the operand stack made by
the case of an opcode, when the stack holds enough operands: one more for pushnan,
pushshort, pushstring, pushint, pushuint, pushdouble, getlex, getlocal, newfunction and
dup, and for pushbyte when its operand byte is in the code; one less for the six binary
operators add, subtract, multiply, divide, equals, lessthan, for pop, setlocal and its
short forms, iftrue and iffalse; none for getproperty, the three conversions, newclass
and jump; two less for setproperty and initproperty; `argc` less for callproperty and
`argc + 1` less for callpropvoid; `1 - 2N` for newobject and `1 - N` for newarray.
Every opcode without a case of its own, modulo (`A4`) among them, leaves the stack as it
is. -/
theorem stackDepth_spec (env : Env) (code : List u8) (st : State) :
    (∀ op, op ∈ [0x28, 0x25, 0x2C, 0x2D, 0x2E, 0x2F, 0x60, 0x62, 0x40] →
      (execOp env code op st).stack.length = st.stack.length + 1) ∧
    (st.pc < code.length → (execOp env code 0x24 st).stack.length = st.stack.length + 1) ∧
    (1 ≤ st.stack.length → (execOp env code 0x2A st).stack.length = st.stack.length + 1) ∧
    (∀ op, op ∈ [0xA0, 0xA1, 0xA2, 0xA3, 0xAB, 0xAD] → 2 ≤ st.stack.length →
      (execOp env code op st).stack.length + 1 = st.stack.length) ∧
    (∀ op, op ∈ [0x29, 0x63, 0xD4, 0xD5, 0xD6, 0xD7, 0x11, 0x12] → 1 ≤ st.stack.length →
      (execOp env code op st).stack.length + 1 = st.stack.length) ∧
    (∀ op, op ∈ [0x66, 0x73, 0x74, 0x75, 0x55] → 1 ≤ st.stack.length →
      (execOp env code op st).stack.length = st.stack.length) ∧
    (execOp env code 0x10 st).stack.length = st.stack.length ∧
    (∀ op, op ∈ [0x61, 0x68] → 2 ≤ st.stack.length →
      (execOp env code op st).stack.length + 2 = st.stack.length) ∧
    ((Abc.readU30FromBytes code (Abc.readU30FromBytes code st.pc).2).1 + 1
        ≤ st.stack.length →
      (execOp env code 0x46 st).stack.length
          + (Abc.readU30FromBytes code (Abc.readU30FromBytes code st.pc).2).1
        = st.stack.length ∧
      (execOp env code 0x4F st).stack.length
          + ((Abc.readU30FromBytes code (Abc.readU30FromBytes code st.pc).2).1 + 1)
        = st.stack.length) ∧
    ((Abc.readU30FromBytes code st.pc).1 * 2 < 2 ^ 32 →
      (Abc.readU30FromBytes code st.pc).1 * 2 ≤ st.stack.length →
      (execOp env code 0x56 st).stack.length + (Abc.readU30FromBytes code st.pc).1 * 2
        = st.stack.length + 1) ∧
    ((Abc.readU30FromBytes code st.pc).1 ≤ st.stack.length →
      (execOp env code 0x57 st).stack.length + (Abc.readU30FromBytes code st.pc).1
        = st.stack.length + 1) ∧
    (∀ op, op ∉ [0x47, 0x48, 0x20, 0x21, 0x26, 0x27, 0x28, 0x24, 0x25, 0x2C, 0x2D, 0x2E, 0x2F,
        0x30, 0xD0, 0xD1, 0xD2, 0xD3, 0x62, 0x63, 0xD4, 0xD5, 0xD6, 0xD7, 0xA0, 0xA1, 0xA2,
        0xA3, 0xAB, 0xAD, 0x60, 0x66, 0x61, 0x68, 0x46, 0x4F, 0x40, 0x55, 0x56, 0x57, 0x10,
        0x11, 0x12, 0x29, 0x2A, 0x73, 0x74, 0x75] →
      (execOp env code op st).stack = st.stack) := by
  refine ⟨?_, ?_, ?_, ?_, ?_, ?_, ?_, ?_, ?_, ?_, ?_, ?_⟩
  · intro op hop
    simp only [List.mem_cons, List.mem_singleton, List.not_mem_nil, or_false] at hop
    rcases hop with rfl | rfl | rfl | rfl | rfl | rfl | rfl | rfl | rfl
    · rw [execOp_pushnan]; rfl
    · rw [execOp_pushshort]; rfl
    · rw [execOp_pushstring]; rfl
    · rw [execOp_pushint]; rfl
    · rw [execOp_pushuint]; rfl
    · rw [execOp_pushdouble]; rfl
    · rw [execOp_getlex]; rfl
    · rw [execOp_getlocal]; rfl
    · rw [execOp_newfunction]; rfl
  · intro h
    rw [execOp_pushbyte, if_pos h]
    rfl
  · intro h
    rw [execOp_dup]
    cases hs : st.stack with
    | nil => rw [hs] at h; simp at h
    | cons top rest => simp
  · intro op hop h
    have hb : ∀ t, (binaryOp st t).stack.length + 1 = st.stack.length := by
      intro t
      unfold binaryOp
      split
      · rename_i hs
        rw [hs]
        simp
      · rename_i hs
        cases h1 : st.stack with
        | nil => rw [h1] at h; simp at h
        | cons a rest =>
          cases rest with
          | nil => rw [h1] at h; simp at h
          | cons b rest2 => exact absurd h1 (hs a b rest2)
    simp only [List.mem_cons, List.mem_singleton, List.not_mem_nil, or_false] at hop
    rcases hop with rfl | rfl | rfl | rfl | rfl | rfl
    · rw [(execOp_binary env code st).1]; exact hb _
    · rw [(execOp_binary env code st).2.1]; exact hb _
    · rw [(execOp_binary env code st).2.2.1]; exact hb _
    · rw [(execOp_binary env code st).2.2.2.1]; exact hb _
    · rw [(execOp_binary env code st).2.2.2.2.1]; exact hb _
    · rw [(execOp_binary env code st).2.2.2.2.2]; exact hb _
  · intro op hop h
    obtain ⟨top, rest, hs⟩ : ∃ top rest, st.stack = top :: rest := by
      cases hs : st.stack with
      | nil => rw [hs] at h; simp at h
      | cons top rest => exact ⟨top, rest, rfl⟩
    simp only [List.mem_cons, List.mem_singleton, List.not_mem_nil, or_false] at hop
    rcases hop with rfl | rfl | rfl | rfl | rfl | rfl | rfl | rfl
    · rw [execOp_pop, hs]; simp
    · rw [execOp_setlocal, setLocal]; simp [hs]
    · rw [(execOp_setlocal_n env code st).1, setLocal, hs]; simp
    · rw [(execOp_setlocal_n env code st).2.1, setLocal, hs]; simp
    · rw [(execOp_setlocal_n env code st).2.2.1, setLocal, hs]; simp
    · rw [(execOp_setlocal_n env code st).2.2.2, setLocal, hs]; simp
    · rw [execOp_iftrue, hs]; simp
    · rw [execOp_iffalse, hs]; simp
  · intro op hop h
    obtain ⟨top, rest, hs⟩ : ∃ top rest, st.stack = top :: rest := by
      cases hs : st.stack with
      | nil => rw [hs] at h; simp at h
      | cons top rest => exact ⟨top, rest, rfl⟩
    simp only [List.mem_cons, List.mem_singleton, List.not_mem_nil, or_false] at hop
    rcases hop with rfl | rfl | rfl | rfl | rfl
    · rw [execOp_getproperty, hs]; simp
    · rw [(execOp_convert env code st).1, convertOp, hs]; simp
    · rw [(execOp_convert env code st).2.1, convertOp, hs]; simp
    · rw [(execOp_convert env code st).2.2, convertOp, hs]; simp
    · rw [execOp_newclass, hs]; simp
  · rw [execOp_jump]; rfl
  · intro op hop h
    have hop2 : op = 0x61 ∨ op = 0x68 := by simpa using hop
    rw [execOp_setproperty env code st op hop2]
    split
    · rename_i hs
      rw [hs]
      simp
    · rename_i hs
      cases h1 : st.stack with
      | nil => rw [h1] at h; simp at h
      | cons a rest =>
        cases rest with
        | nil => rw [h1] at h; simp at h
        | cons b rest2 => exact absurd h1 (hs a b rest2)
  · intro h
    obtain ⟨obj, rest, hd⟩ : ∃ obj rest,
        st.stack.drop (Abc.readU30FromBytes code (Abc.readU30FromBytes code st.pc).2).1
          = obj :: rest := by
      cases hd : st.stack.drop
          (Abc.readU30FromBytes code (Abc.readU30FromBytes code st.pc).2).1 with
      | nil =>
        rw [List.drop_eq_nil_iff] at hd
        omega
      | cons obj rest => exact ⟨obj, rest, rfl⟩
    have hlen := congrArg List.length hd
    simp only [List.length_drop, List.length_cons] at hlen
    have hpop : (popArgs (Abc.readU30FromBytes code (Abc.readU30FromBytes code st.pc).2).1
        st.stack []).2 = obj :: rest := by
      rw [popArgs_eq]
      exact hd
    constructor
    · rw [execOp_callproperty, hpop]
      simp only [List.length_cons]
      omega
    · rw [execOp_callpropvoid, hpop]
      simp only [out]
      omega
  · intro hw h
    rw [execOp_newobject, popN_eq, Nat.mod_eq_of_lt hw]
    simp only [List.length_cons, List.length_drop]
    omega
  · intro h
    rw [execOp_newarray, popArgs_eq]
    simp only [List.length_cons, List.length_drop]
    omega
  · intro op hop
    rw [execOp_default env code op st hop]
    split <;> rfl

/-- Witness of `stackDepth_spec`: `add` on a stack of two operands. -/
theorem stackDepth_spec_witness :
    (execOp ⟨{}, false, fun _ => ""⟩ [0xA0] 0xA0 { stack := ["b", "a"], pc := 1 }).stack.length
        + 1
      = ({ stack := ["b", "a"], pc := 1 } : State).stack.length :=
  (stackDepth_spec ⟨{}, false, fun _ => ""⟩ [0xA0] { stack := ["b", "a"], pc := 1 }).2.2.2.1
    0xA0 (by decide) (by decide)

/-- Counterexample to claim C30 as stated.  The opcode `A4` (modulo) is not one of the
suppressed opcodes and has no case in the `switch`: on the stack `["a", "b"]` the round
leaves both operands, a change of depth of 0 where the documented one is -1. -/
theorem stackDepth_modulo_counterexample :
    isNonSemanticOpcode 0xA4 = false ∧
    (step ⟨{}, false, fun _ => ""⟩ [0xA4] { stack := ["b", "a"] }).stack = ["b", "a"] ∧
    (step ⟨{}, true, fun _ => ""⟩ [0xA4] { stack := ["b", "a"] }).stack = ["b", "a"] := by
  decide

/-! ### The loop of `decompileMethod` ends -/

theorem readU30FromBytesLoop_pos_ge : ∀ (l : List u8) (pos v shift : Nat),
    pos ≤ (Abc.readU30FromBytesLoop l pos v shift).2 := by
  intro l
  induction l with
  | nil => intro pos v shift; exact Nat.le_refl _
  | cons b rest ih =>
    intro pos v shift
    simp only [Abc.readU30FromBytesLoop]
    split
    · exact Nat.le_succ _
    · exact Nat.le_trans (Nat.le_succ _) (ih _ _ _)

theorem readU30FromBytes_pos_ge (code : List u8) (pos : Nat) :
    pos ≤ (Abc.readU30FromBytes code pos).2 :=
  readU30FromBytesLoop_pos_ge _ _ _ _

theorem readS24_pos_ge (code : List u8) (pos : Nat) : pos ≤ (Abc.readS24 code pos).2 := by
  unfold Abc.readS24
  split
  · exact Nat.le_refl _
  · simp only []
    split <;> exact Nat.le_add_right _ _

theorem execOp_shadowed (env : Env) (code : List u8) (st : State) :
    execOp env code 0x20 st = push st "null" ∧ execOp env code 0x21 st = push st "undefined" ∧
    execOp env code 0x26 st = push st "true" ∧ execOp env code 0x27 st = push st "false" ∧
    execOp env code 0x30 st = { st with stack := st.stack.tail } ∧
    execOp env code 0xD0 st = push st "this" ∧
    execOp env code 0xD1 st
      = push st (if st.locals.length > 1 then st.locals.getD 1 "" else "arg1") ∧
    execOp env code 0xD2 st
      = push st (if st.locals.length > 2 then st.locals.getD 2 "" else "arg2") ∧
    execOp env code 0xD3 st
      = push st (if st.locals.length > 3 then st.locals.getD 3 "" else "arg3") :=
  ⟨rfl, rfl, rfl, rfl, rfl, rfl, rfl, rfl, rfl⟩

theorem setLocal_pc (st : State) (idx : Nat) : (setLocal st idx).pc = st.pc := by
  unfold setLocal
  split <;> rfl

theorem binaryOp_pc (st : State) (opText : String) : (binaryOp st opText).pc = st.pc := by
  unfold binaryOp
  split <;> rfl

theorem convertOp_pc (st : State) (castText : String) : (convertOp st castText).pc = st.pc := by
  unfold convertOp
  split <;> rfl

theorem execOp_pc_ge (env : Env) (code : List u8) (op : Nat) (st : State) :
    st.pc ≤ (execOp env code op st).pc := by
  have h1 := readU30FromBytes_pos_ge code st.pc
  have h2 := readS24_pos_ge code st.pc
  have h3 := readU30FromBytes_pos_ge code (Abc.readU30FromBytes code st.pc).2
  by_cases hop : op ∈ [0x47, 0x48, 0x20, 0x21, 0x26, 0x27, 0x28, 0x24, 0x25, 0x2C, 0x2D, 0x2E,
      0x2F, 0x30, 0xD0, 0xD1, 0xD2, 0xD3, 0x62, 0x63, 0xD4, 0xD5, 0xD6, 0xD7, 0xA0, 0xA1, 0xA2,
      0xA3, 0xAB, 0xAD, 0x60, 0x66, 0x61, 0x68, 0x46, 0x4F, 0x40, 0x55, 0x56, 0x57, 0x10,
      0x11, 0x12, 0x29, 0x2A, 0x73, 0x74, 0x75]
  · simp only [List.mem_cons, List.mem_singleton, List.not_mem_nil, or_false] at hop
    rcases hop with rfl | rfl | rfl | rfl | rfl | rfl | rfl | rfl | rfl | rfl | rfl | rfl |
      rfl | rfl | rfl | rfl | rfl | rfl | rfl | rfl | rfl | rfl | rfl | rfl | rfl | rfl | rfl |
      rfl | rfl | rfl | rfl | rfl | rfl | rfl | rfl | rfl | rfl | rfl | rfl | rfl | rfl | rfl |
      rfl | rfl | rfl | rfl | rfl | rfl
    all_goals
      simp only [execOp_returnvoid, execOp_returnvalue, execOp_shadowed, execOp_pushnan,
        execOp_pushbyte, execOp_pushshort, execOp_pushstring, execOp_pushint, execOp_pushuint,
        execOp_pushdouble, execOp_getlocal, execOp_setlocal, execOp_setlocal_n, execOp_binary,
        execOp_getlex, execOp_getproperty, execOp_setproperty _ _ _ _ (Or.inl rfl),
        execOp_setproperty _ _ _ _ (Or.inr rfl), execOp_callproperty, execOp_callpropvoid,
        execOp_newfunction, execOp_newclass, execOp_newobject, execOp_newarray, execOp_jump,
        execOp_iftrue, execOp_iffalse, execOp_pop, execOp_dup, execOp_convert,
        setLocal_pc, binaryOp_pc, convertOp_pc]
    all_goals first
      | exact Nat.le_refl _
      | exact h1
      | exact h2
      | exact Nat.le_trans h1 h3
      | (split <;> first
          | exact Nat.le_refl _
          | exact h1
          | exact h2
          | exact Nat.le_trans h1 h3
          | exact Nat.le_succ _)
  · rw [execOp_default env code op st hop]
    split <;> exact Nat.le_refl _

theorem step_pc_gt (env : Env) (code : List u8) (st : State) :
    st.pc < (step env code st).pc := by
  have hl := (emitLabel_fields { st with pc := st.pc + 1 }).2.2.1
  unfold step
  split
  · split
    · exact Nat.lt_of_lt_of_le (Nat.lt_succ_self _) (Nat.le_of_eq hl.symm)
    · exact Nat.lt_of_lt_of_le (Nat.lt_succ_self _) (Nat.le_of_eq hl.symm)
  · have := execOp_pc_ge env code (code.getD st.pc 0).val (emitLabel { st with pc := st.pc + 1 })
    rw [hl] at this
    exact this

theorem decompileLoop_isSome (env : Env) (code : List u8) :
    ∀ (fuel : Nat) (st : State), code.length ≤ st.pc + fuel →
      ∃ st1, decompileLoop env code fuel st = some st1 ∧ code.length ≤ st1.pc := by
  intro fuel
  induction fuel with
  | zero =>
    intro st h
    exact ⟨st, by rw [decompileLoop, if_neg (by omega)], by omega⟩
  | succ n ih =>
    intro st h
    rw [decompileLoop]
    split
    · have := step_pc_gt env code st
      exact ih _ (by omega)
    · exact ⟨st, rfl, by omega⟩

/-- The bound in `decompileMethod` is enough: for every `ABC`, flag, number base and
method body the loop leaves within `code.size()` rounds and a text is returned. -/
theorem decompileMethod_returns (env : Env) (hex : Bool) (body : Abc.MethodBody) :
    ∃ text, decompileMethod env hex body = some text := by
  obtain ⟨st1, h, _⟩ := decompileLoop_isSome env body.code body.code.length
    (initState hex body) (Nat.le_add_left _ _)
  exact ⟨st1.output, by unfold decompileMethod; rw [h]; rfl⟩

end Decompiler

/-! ## The readers of the shape decoder move forward -/

namespace BitReader

theorem Advances.refl (br : BitReader) (h : br.bitPos < 8) : Advances br br :=
  ⟨rfl, h, Nat.le_refl _⟩

theorem Advances.trans {a b c : BitReader} (h1 : Advances a b) (h2 : Advances b c) :
    Advances a c :=
  ⟨h2.1.trans h1.1, h2.2.1, Nat.le_trans h1.2.2 h2.2.2⟩

theorem readBits_cursor (br : BitReader) (n : Nat) (h : br.bitPos < 8) :
    (br.readBits n).2.data = br.data ∧ (br.readBits n).2.bitPos < 8 ∧
    (br.readBits n).2.cursor = br.cursor + min n br.remaining := by
  unfold readBits
  rw [readBitsLoop_spec n br 0 h (by norm_num)]
  refine ⟨rfl, Nat.mod_lt _ (by norm_num), ?_⟩
  simp only [cursor]
  omega

theorem readBits_advances (br : BitReader) (n : Nat) (h : br.bitPos < 8) :
    Advances br (br.readBits n).2 := by
  have := readBits_cursor br n h
  exact ⟨this.1, this.2.1, by omega⟩

theorem readSignedBits_snd (br : BitReader) (n : Nat) :
    (br.readSignedBits n).2 = (br.readBits n).2 := by
  unfold readSignedBits
  simp only []
  split <;> rfl

theorem readSignedBits_advances (br : BitReader) (n : Nat) (h : br.bitPos < 8) :
    Advances br (br.readSignedBits n).2 := by
  rw [readSignedBits_snd]
  exact readBits_advances br n h

theorem alignByte_advances (br : BitReader) (h : br.bitPos < 8) :
    Advances br br.alignByte := by
  unfold alignByte
  split
  · exact ⟨rfl, by norm_num, by simp only [cursor]; omega⟩
  · exact Advances.refl br h

theorem alignByte_bitPos (br : BitReader) : br.alignByte.bitPos = 0 := by
  unfold alignByte
  split
  · rfl
  · rename_i h
    simpa using h

end BitReader

namespace Shape
open BitReader

theorem readU8_advances (br : BitReader) (h : br.bitPos < 8) :
    Advances br (readU8 br).2 := by
  have h1 := alignByte_advances br h
  have h0 := alignByte_bitPos br
  unfold readU8
  simp only []
  split
  · exact h1
  · refine h1.trans ⟨rfl, by norm_num [setBytePos], ?_⟩
    simp only [cursor, setBytePos, getBytePos, h0]
    omega

theorem readU16_advances (br : BitReader) (h : br.bitPos < 8) :
    Advances br (readU16 br).2 := by
  have h1 := alignByte_advances br h
  have h0 := alignByte_bitPos br
  unfold readU16
  simp only []
  split
  · exact h1
  · refine h1.trans ⟨rfl, by norm_num [setBytePos], ?_⟩
    simp only [cursor, setBytePos, getBytePos, h0]
    omega

theorem readRect_advances (br : BitReader) (h : br.bitPos < 8) :
    Advances br (readRect br).2 := by
  unfold readRect
  simp only []
  have h1 := readBits_advances br 5 h
  have h2 := readSignedBits_advances _ (br.readBits 5).1 h1.2.1
  have h3 := readSignedBits_advances _ (br.readBits 5).1 h2.2.1
  have h4 := readSignedBits_advances _ (br.readBits 5).1 h3.2.1
  have h5 := readSignedBits_advances _ (br.readBits 5).1 h4.2.1
  have h6 := alignByte_advances _ h5.2.1
  exact h1.trans (h2.trans (h3.trans (h4.trans (h5.trans h6))))

theorem readRGB_advances (br : BitReader) (h : br.bitPos < 8) :
    Advances br (readRGB br).2 := by
  unfold readRGB
  simp only []
  have h1 := readU8_advances br h
  have h2 := readU8_advances _ h1.2.1
  have h3 := readU8_advances _ h2.2.1
  exact h1.trans (h2.trans h3)

theorem readRGBA_advances (br : BitReader) (h : br.bitPos < 8) :
    Advances br (readRGBA br).2 := by
  unfold readRGBA
  simp only []
  have h1 := readU8_advances br h
  have h2 := readU8_advances _ h1.2.1
  have h3 := readU8_advances _ h2.2.1
  have h4 := readU8_advances _ h3.2.1
  exact h1.trans (h2.trans (h3.trans h4))

theorem readColor_advances (br : BitReader) (hasAlpha : Bool) (h : br.bitPos < 8) :
    Advances br (readColor br hasAlpha).2 := by
  unfold readColor
  split
  · exact readRGBA_advances br h
  · exact readRGB_advances br h

theorem readGradientStops_advances (hasAlpha : Bool) : ∀ (k : Nat) (br : BitReader),
    br.bitPos < 8 → Advances br (readGradientStops hasAlpha k br).2.2 := by
  intro k
  induction k with
  | zero => intro br h; exact Advances.refl br h
  | succ n ih =>
    intro br h
    simp only [readGradientStops]
    have h1 := readU8_advances br h
    have h2 := readColor_advances _ hasAlpha h1.2.1
    have h3 := ih _ h2.2.1
    exact h1.trans (h2.trans h3)

end Shape

namespace BitReader

theorem Advances.readBits {a b : BitReader} (n : Nat) (h : Advances a b) :
    Advances a (b.readBits n).2 := h.trans (readBits_advances b n h.2.1)

theorem Advances.readSignedBits {a b : BitReader} (n : Nat) (h : Advances a b) :
    Advances a (b.readSignedBits n).2 := h.trans (readSignedBits_advances b n h.2.1)

theorem Advances.alignByte {a b : BitReader} (h : Advances a b) :
    Advances a b.alignByte := h.trans (alignByte_advances b h.2.1)

theorem Advances.readU8 {a b : BitReader} (h : Advances a b) :
    Advances a (Shape.readU8 b).2 := h.trans (Shape.readU8_advances b h.2.1)

theorem Advances.readU16 {a b : BitReader} (h : Advances a b) :
    Advances a (Shape.readU16 b).2 := h.trans (Shape.readU16_advances b h.2.1)

theorem Advances.readRect {a b : BitReader} (h : Advances a b) :
    Advances a (Shape.readRect b).2 := h.trans (Shape.readRect_advances b h.2.1)

theorem Advances.readRGBA {a b : BitReader} (h : Advances a b) :
    Advances a (Shape.readRGBA b).2 := h.trans (Shape.readRGBA_advances b h.2.1)

theorem Advances.readColor {a b : BitReader} (hasAlpha : Bool) (h : Advances a b) :
    Advances a (Shape.readColor b hasAlpha).2 := h.trans (Shape.readColor_advances b hasAlpha h.2.1)

theorem Advances.readGradientStops {a b : BitReader} (hasAlpha : Bool) (k : Nat)
    (h : Advances a b) : Advances a (Shape.readGradientStops hasAlpha k b).2.2 :=
  h.trans (Shape.readGradientStops_advances hasAlpha k b h.2.1)

theorem Advances.ite {a x y : BitReader} (c : Prop) [Decidable c] (hx : Advances a x)
    (hy : Advances a y) : Advances a (if c then x else y) := by
  split
  · exact hx
  · exact hy

end BitReader

namespace BitReader

theorem Advances.readMatrix {a b : BitReader} (h : Advances a b) :
    Advances a (Swf.readMatrix b).2 := by
  unfold Swf.readMatrix
  simp only [apply_ite Prod.snd]
  repeat' (first
    | apply Advances.readBits
    | apply Advances.readSignedBits
    | apply Advances.ite)
  all_goals exact h


theorem Advances.readFillStyle {a b : BitReader} (v i : Int) (hasAlpha : Bool)
    (h : Advances a b) : Advances a (Shape.readFillStyle v i hasAlpha b).2 := by
  unfold Shape.readFillStyle
  dsimp only []
  repeat' rw [apply_ite Prod.snd]
  repeat' with_reducible (first
    | apply Advances.ite
    | apply Advances.readBits
    | apply Advances.alignByte
    | apply Advances.readU8
    | apply Advances.readU16
    | apply Advances.readColor
    | apply Advances.readMatrix
    | apply Advances.readGradientStops)
  all_goals exact h

theorem Advances.readFillStylesLoop {a : BitReader} (v i : Int) (hasAlpha : Bool) :
    ∀ (count : Nat) (b : BitReader), Advances a b →
      Advances a (Shape.readFillStylesLoop v i hasAlpha count b).2 := by
  intro count
  induction count with
  | zero => intro b h; exact h
  | succ n ih =>
    intro b h
    simp only [Shape.readFillStylesLoop]
    exact ih _ (Advances.readFillStyle v i hasAlpha h)

theorem Advances.readStyleCount {a b : BitReader} (v : Int) (h : Advances a b) :
    Advances a (Shape.readStyleCount v b).2 := by
  unfold Shape.readStyleCount
  dsimp only []
  repeat' rw [apply_ite Prod.snd]
  repeat' with_reducible (first
    | apply Advances.ite
    | apply Advances.readU8
    | apply Advances.readU16)
  all_goals exact h

theorem Advances.readFillStyles {a b : BitReader} (v i : Int) (hasAlpha : Bool)
    (h : Advances a b) : Advances a (Shape.readFillStyles v i hasAlpha b).2 := by
  unfold Shape.readFillStyles
  exact Advances.readFillStylesLoop v i hasAlpha _ _ (Advances.readStyleCount v h)

theorem Advances.readLineStyle {a b : BitReader} (v i : Int) (hasAlpha : Bool)
    (fills : List Shape.FillStyle) (h : Advances a b) :
    Advances a (Shape.readLineStyle v i hasAlpha fills b).2.2 := by
  unfold Shape.readLineStyle
  dsimp only []
  repeat' rw [apply_ite Prod.snd]
  repeat' with_reducible (first
    | apply Advances.ite
    | apply Advances.readBits
    | apply Advances.alignByte
    | apply Advances.readU16
    | apply Advances.readColor
    | apply Advances.readRGBA
    | apply Advances.readFillStyles)
  all_goals exact h

theorem Advances.readLineStylesLoop {a : BitReader} (v i : Int) (hasAlpha : Bool) :
    ∀ (count : Nat) (fills : List Shape.FillStyle) (b : BitReader), Advances a b →
      Advances a (Shape.readLineStylesLoop v i hasAlpha count fills b).2.2 := by
  intro count
  induction count with
  | zero => intro fills b h; exact h
  | succ n ih =>
    intro fills b h
    simp only [Shape.readLineStylesLoop]
    exact ih _ _ (Advances.readLineStyle v i hasAlpha fills h)

theorem Advances.readLineStyles {a b : BitReader} (v i : Int) (hasAlpha : Bool)
    (fills : List Shape.FillStyle) (h : Advances a b) :
    Advances a (Shape.readLineStyles v i hasAlpha fills b).2.2 := by
  unfold Shape.readLineStyles
  exact Advances.readLineStylesLoop v i hasAlpha _ _ _ (Advances.readStyleCount v h)

end BitReader

/-! ## The record loop of `renderToSVG` ends -/

namespace Shape
open BitReader

theorem readRecord_advances (v i : Int) (hasAlpha : Bool) (nf nl : Nat) (a br : BitReader)
    (h : Advances a (br.readBits 1).2) :
    Advances a (readRecord v i hasAlpha nf nl br).2 := by
  unfold readRecord
  dsimp only []
  repeat' rw [apply_ite Prod.snd]
  repeat' with_reducible (first
    | exact h
    | apply Advances.ite
    | apply Advances.readBits
    | apply Advances.readSignedBits
    | apply Advances.readLineStyles
    | apply Advances.readFillStyles)


theorem readRecord_at_end (v i : Int) (hasAlpha : Bool) (nf nl : Nat) (br : BitReader)
    (hbit : br.bitPos < 8) (h : br.remaining = 0) :
    readRecord v i hasAlpha nf nl br = (.endOfShape, br) := by
  have h1 : ∀ n, br.readBits n = (0, br) := by
    intro n
    have hs := readBitsLoop_spec n br 0 hbit (by norm_num)
    unfold BitReader.readBits
    rw [hs, h]
    obtain ⟨d, bp, bi⟩ := br
    simp only [Nat.min_zero, pow_zero, mul_one, bitsValue, add_zero, Nat.zero_mod,
      BitReader.cursor, Prod.mk.injEq, BitReader.mk.injEq, true_and]
    simp only at hbit
    omega
  unfold readRecord
  dsimp only []
  rw [h1 1]
  dsimp only []
  rw [if_pos rfl, h1 5]
  dsimp only []
  rw [if_pos rfl]

/-- One round of the record loop either reads the end record or moves the cursor
forward, by one bit at least. -/
theorem readRecord_progress (v i : Int) (hasAlpha : Bool) (nf nl : Nat) (br : BitReader)
    (hbit : br.bitPos < 8) :
    Advances br (readRecord v i hasAlpha nf nl br).2 ∧
    ((readRecord v i hasAlpha nf nl br).1 = .endOfShape ∨
      (readRecord v i hasAlpha nf nl br).2.remaining < br.remaining) := by
  have h1 := readBits_advances br 1 hbit
  have h2 := readRecord_advances v i hasAlpha nf nl _ br (Advances.refl _ h1.2.1)
  refine ⟨h1.trans h2, ?_⟩
  by_cases h0 : br.remaining = 0
  · left
    rw [readRecord_at_end v i hasAlpha nf nl br hbit h0]
  · right
    have hc := (readBits_cursor br 1 hbit).2.2
    have hd := h2.1.trans h1.1
    have hle := h2.2.2
    unfold BitReader.remaining at h0 hc ⊢
    rw [hd]
    omega

end Shape

namespace Shape
open BitReader

theorem edgesToPathD_isSome {F : Type} (A : Arith F) (fuel : Nat) (edges : List (Edge F))
    (isFill : Bool) (h : edges.length < fuel) :
    ∃ d left, edgesToPathD A fuel edges isFill = some (d, left) := by
  unfold edgesToPathD
  split
  · exact ⟨_, _, rfl⟩
  · obtain ⟨subs, h1, _⟩ := edgesToPathDLoop_spec A isFill fuel edges h
    exact ⟨_, _, h1⟩

theorem flushFills_isSome {F : Type} (A : Arith F) (fuel : Nat) :
    ∀ (layers : List (Nat × List (Edge F))) (r : ShapeRenderer F),
      (∀ p ∈ layers, p.2.length < fuel) →
      ∃ r1, flushFills A fuel layers r = some r1 ∧ r1.strokeLayers = r.strokeLayers := by
  intro layers
  induction layers with
  | nil => intro r _; exact ⟨r, rfl, rfl⟩
  | cons p layers ih =>
    intro r h
    obtain ⟨styleIdx, edges⟩ := p
    have hrest : ∀ p ∈ layers, p.2.length < fuel :=
      fun p hp => h p (List.mem_cons_of_mem _ hp)
    obtain ⟨d, left, hd⟩ := edgesToPathD_isSome A fuel edges true
      (h (styleIdx, edges) (List.mem_cons_self _ _))
    unfold flushFills
    split
    · exact ih r hrest
    · split
      · exact ih r hrest
      · split
        · exact ih r hrest
        · rename_i fs hfs
          simp only [hd]
          split
          · obtain ⟨r1, h1, h2⟩ := ih _ hrest
            exact ⟨r1, h1, h2⟩
          · split
            · obtain ⟨r1, h1, h2⟩ := ih _ hrest
              exact ⟨r1, h1, h2⟩
            · obtain ⟨r1, h1, h2⟩ := ih _ hrest
              exact ⟨r1, h1, h2⟩

theorem flushStrokes_isSome {F : Type} (A : Arith F) (fuel : Nat) :
    ∀ (layers : List (Nat × List (Edge F))) (r : ShapeRenderer F),
      (∀ p ∈ layers, p.2.length < fuel) →
      ∃ r1, flushStrokes A fuel layers r = some r1 := by
  intro layers
  induction layers with
  | nil => intro r _; exact ⟨r, rfl⟩
  | cons p layers ih =>
    intro r h
    obtain ⟨styleIdx, edges⟩ := p
    have hrest : ∀ p ∈ layers, p.2.length < fuel :=
      fun p hp => h p (List.mem_cons_of_mem _ hp)
    obtain ⟨d, left, hd⟩ := edgesToPathD_isSome A fuel edges false
      (h (styleIdx, edges) (List.mem_cons_self _ _))
    unfold flushStrokes
    split
    · exact ih r hrest
    · split
      · exact ih r hrest
      · split
        · exact ih r hrest
        · simp only [hd]
          exact ih _ hrest

theorem flushLayers_isSome {F : Type} (A : Arith F) (fuel : Nat) (r : ShapeRenderer F)
    (hf : ∀ p ∈ r.fillLayers, p.2.length < fuel)
    (hs : ∀ p ∈ r.strokeLayers, p.2.length < fuel) :
    ∃ r1, flushLayers A fuel r = some r1 ∧ r1.fillLayers = [] ∧ r1.strokeLayers = [] := by
  obtain ⟨r1, h1, h2⟩ := flushFills_isSome A fuel r.fillLayers r hf
  obtain ⟨r2, h3⟩ := flushStrokes_isSome A fuel r1.strokeLayers r1 (by rw [h2]; exact hs)
  exact ⟨{ r2 with fillLayers := [], strokeLayers := [] },
    by simp only [flushLayers, h1, h3], rfl, rfl⟩

end Shape

namespace Shape
open BitReader

theorem mapFind_mem {V : Type} (k : Nat) : ∀ (l : List (Nat × V)) (v : V),
    Swf.mapFind k l = some v → (k, v) ∈ l := by
  intro l
  induction l with
  | nil => intro v h; cases h
  | cons a rest ih =>
    intro v h
    obtain ⟨k1, v1⟩ := a
    unfold Swf.mapFind at h
    split at h
    · rename_i hk
      cases h
      rw [hk]
      exact List.mem_cons_self _ _
    · exact List.mem_cons_of_mem _ (ih v h)

theorem mapInsert_mem {V : Type} (k : Nat) (v : V) : ∀ (l : List (Nat × V)) (p : Nat × V),
    p ∈ Swf.mapInsert k v l → p = (k, v) ∨ p ∈ l := by
  intro l
  induction l with
  | nil =>
    intro p h
    simp only [Swf.mapInsert, List.mem_singleton] at h
    exact Or.inl h
  | cons a rest ih =>
    intro p h
    obtain ⟨k1, v1⟩ := a
    unfold Swf.mapInsert at h
    split at h
    · rcases List.mem_cons.1 h with h | h
      · exact Or.inl h
      · exact Or.inr h
    · split at h
      · rcases List.mem_cons.1 h with h | h
        · exact Or.inl h
        · exact Or.inr (List.mem_cons_of_mem _ h)
      · rcases List.mem_cons.1 h with h | h
        · exact Or.inr (by rw [h]; exact List.mem_cons_self _ _)
        · rcases ih p h with h | h
          · exact Or.inl h
          · exact Or.inr (List.mem_cons_of_mem _ h)

theorem pushEdge_bound {F : Type} (layers : List (Nat × List (Edge F))) (idx : Nat)
    (e : Edge F) (M : Nat) (h : ∀ p ∈ layers, p.2.length ≤ M) :
    ∀ p ∈ pushEdge layers idx e, p.2.length ≤ M + 1 := by
  intro p hp
  unfold pushEdge at hp
  rcases mapInsert_mem _ _ _ _ hp with rfl | hp
  · simp only [List.length_append, List.length_singleton, Nat.add_le_add_iff_right]
    cases hf : Swf.mapFind idx layers with
    | none => simp
    | some v => exact h _ (mapFind_mem idx layers v hf)
  · exact Nat.le_succ_of_le (h p hp)

theorem emitEdge_bound {F : Type} (r : ShapeRenderer F) (pen : Pen F) (edge : Edge F)
    (M : Nat) (hf : ∀ p ∈ r.fillLayers, p.2.length ≤ M)
    (hs : ∀ p ∈ r.strokeLayers, p.2.length ≤ M) :
    (∀ p ∈ (emitEdge r pen edge).1.fillLayers, p.2.length ≤ M + 2) ∧
    (∀ p ∈ (emitEdge r pen edge).1.strokeLayers, p.2.length ≤ M + 2) := by
  have h0 : ∀ p ∈ (if pen.currentFill0 ≠ 0 then pushEdge r.fillLayers pen.currentFill0
      edge.reversed else r.fillLayers), p.2.length ≤ M + 1 := by
    split
    · exact pushEdge_bound _ _ _ M hf
    · exact fun p hp => Nat.le_succ_of_le (hf p hp)
  unfold emitEdge
  dsimp only []
  constructor
  · split
    · exact pushEdge_bound _ _ _ (M + 1) h0
    · exact fun p hp => Nat.le_succ_of_le (h0 p hp)
  · split
    · exact fun p hp => Nat.le_succ_of_le (pushEdge_bound _ _ _ M hs p hp)
    · exact fun p hp => Nat.le_trans (hs p hp) (by omega)

theorem applyRecord_isSome {F : Type} (A : Arith F) (fuel : Nat) (r : ShapeRenderer F)
    (pen : Pen F) (record : Record) (M : Nat) (hM : M < fuel)
    (hf : ∀ p ∈ r.fillLayers, p.2.length ≤ M)
    (hs : ∀ p ∈ r.strokeLayers, p.2.length ≤ M) :
    ∃ r1 pen1, applyRecord A fuel r pen record = some (r1, pen1) ∧
      (∀ p ∈ r1.fillLayers, p.2.length ≤ M + 2) ∧
      (∀ p ∈ r1.strokeLayers, p.2.length ≤ M + 2) := by
  have hkeep : (∀ p ∈ r.fillLayers, p.2.length ≤ M + 2) ∧
      (∀ p ∈ r.strokeLayers, p.2.length ≤ M + 2) :=
    ⟨fun p hp => Nat.le_trans (hf p hp) (by omega),
     fun p hp => Nat.le_trans (hs p hp) (by omega)⟩
  cases record with
  | endOfShape => exact ⟨r, pen, rfl, hkeep⟩
  | styleChange moveTo fill0 fill1 line newStyles =>
    cases newStyles with
    | none => exact ⟨_, _, rfl, hkeep⟩
    | some ns =>
      obtain ⟨fills, lines, nf, nl⟩ := ns
      obtain ⟨r1, h1, h2, h3⟩ := flushLayers_isSome A fuel r
        (fun p hp => Nat.lt_of_le_of_lt (hf p hp) hM)
        (fun p hp => Nat.lt_of_le_of_lt (hs p hp) hM)
      simp only [applyRecord, h1]
      refine ⟨_, _, rfl, ?_, ?_⟩
      · intro p hp
        rw [show ({ r1 with activeFillStyles := fills, activeLineStyles := lines }
          : ShapeRenderer F).fillLayers = r1.fillLayers from rfl, h2] at hp
        cases hp
      · intro p hp
        rw [show ({ r1 with activeFillStyles := fills, activeLineStyles := lines }
          : ShapeRenderer F).strokeLayers = r1.strokeLayers from rfl, h3] at hp
        cases hp
  | straight dx dy => exact ⟨_, _, rfl, emitEdge_bound r pen _ M hf hs⟩
  | curve cdx cdy adx ady => exact ⟨_, _, rfl, emitEdge_bound r pen _ M hf hs⟩

theorem recordLoop_isSome {F : Type} (A : Arith F) (hasAlpha : Bool) :
    ∀ (fuel : Nat) (r : ShapeRenderer F) (pen : Pen F) (br : BitReader) (M : Nat),
      br.bitPos < 8 →
      (∀ p ∈ r.fillLayers, p.2.length ≤ M) → (∀ p ∈ r.strokeLayers, p.2.length ≤ M) →
      M + 3 * br.remaining < fuel →
      ∃ r1 pen1 br1, recordLoop A hasAlpha fuel r pen br = some (r1, pen1, br1) ∧
        (∀ p ∈ r1.fillLayers, p.2.length ≤ M + 2 * br.remaining) ∧
        (∀ p ∈ r1.strokeLayers, p.2.length ≤ M + 2 * br.remaining) := by
  intro fuel
  induction fuel with
  | zero => intro r pen br M _ _ _ h; omega
  | succ f ih =>
    intro r pen br M hbit hf hs hfuel
    have hp := readRecord_progress r.shapeVersion r.indeterminate hasAlpha pen.numFillBits
      pen.numLineBits br hbit
    rw [recordLoop]
    split
    · exact ⟨r, pen, _, rfl, fun p hp => Nat.le_trans (hf p hp) (by omega),
        fun p hp => Nat.le_trans (hs p hp) (by omega)⟩
    · rename_i hne
      have hlt := hp.2.resolve_left (fun h => hne h)
      obtain ⟨r1, pen1, h1, h2, h3⟩ := applyRecord_isSome A f r pen
        (readRecord r.shapeVersion r.indeterminate hasAlpha pen.numFillBits
          pen.numLineBits br).1 M (by omega) hf hs
      rw [h1]
      dsimp only []
      obtain ⟨r2, pen2, br2, h4, h5, h6⟩ := ih r1 pen1 _ (M + 2) hp.1.2.1 h2 h3 (by omega)
      exact ⟨r2, pen2, br2, h4, fun p hp => Nat.le_trans (h5 p hp) (by omega),
        fun p hp => Nat.le_trans (h6 p hp) (by omega)⟩

end Shape

namespace Shape
open BitReader

theorem renderStart_advances {F : Type} (A : Arith F) (v i : Int) (data : List u8) :
    Advances (BitReader.new data) (renderStart A v i data).2.2 := by
  have h : Advances (BitReader.new data) (BitReader.new data) :=
    Advances.refl _ (by simp [BitReader.new])
  unfold renderStart
  dsimp only []
  repeat' with_reducible (first
    | exact h
    | apply Advances.ite
    | apply Advances.readBits
    | apply Advances.alignByte
    | apply Advances.readU16
    | apply Advances.readRect
    | apply Advances.readLineStyles
    | apply Advances.readFillStyles)

theorem renderStart_layers {F : Type} (A : Arith F) (v i : Int) (data : List u8) :
    (renderStart A v i data).1.fillLayers = [] ∧
    (renderStart A v i data).1.strokeLayers = [] := ⟨rfl, rfl⟩

/-- Claim C40.  On every payload and for every shape version, the record loop of
`renderToSVG` ends: with a bound above 24 times the number of bytes the decoder returns
the renderer and `renderToSVG` its result.  A round of the loop, from a reader whose bit
index is in `0..7`, leaves such a reader over the same bytes and either reads the end
record or leaves fewer bits than it found; and at the end of the buffer the round reads
the type flag 0 and the flag field 0, the end record, without moving the reader. -/
theorem recordLoop_terminates {F : Type} (A : Arith F) (fuel : Nat)
    (shapeVersion indeterminate : Int) (data : List u8) (canOpen : Bool)
    (hfuel : 24 * data.length < fuel) :
    (∃ r, decodeShape A fuel shapeVersion indeterminate data = some r) ∧
    (∃ doc, renderToSVG A fuel shapeVersion indeterminate data canOpen = some doc) ∧
    (∀ (hasAlpha : Bool) (nf nl : Nat) (br : BitReader), br.bitPos < 8 →
      (readRecord shapeVersion indeterminate hasAlpha nf nl br).2.data = br.data ∧
      (readRecord shapeVersion indeterminate hasAlpha nf nl br).2.bitPos < 8 ∧
      ((readRecord shapeVersion indeterminate hasAlpha nf nl br).1 = .endOfShape ∨
        (readRecord shapeVersion indeterminate hasAlpha nf nl br).2.remaining
          < br.remaining)) ∧
    (∀ (hasAlpha : Bool) (nf nl : Nat) (br : BitReader), br.bitPos < 8 →
      br.remaining = 0 →
      readRecord shapeVersion indeterminate hasAlpha nf nl br = (.endOfShape, br)) := by
  have hstart := renderStart_advances A shapeVersion indeterminate data
  have hl := renderStart_layers A shapeVersion indeterminate data
  have hrem : (renderStart A shapeVersion indeterminate data).2.2.remaining
      ≤ 8 * data.length := by
    unfold BitReader.remaining
    rw [hstart.1]
    exact Nat.sub_le _ _
  obtain ⟨r1, pen1, br1, h1, h2, h3⟩ := recordLoop_isSome A (decide (shapeVersion ≥ 3)) fuel
    (renderStart A shapeVersion indeterminate data).1
    (renderStart A shapeVersion indeterminate data).2.1
    (renderStart A shapeVersion indeterminate data).2.2 0 hstart.2.1
    (by rw [hl.1]; intro p hp; cases hp) (by rw [hl.2]; intro p hp; cases hp) (by omega)
  have hdec : decodeShape A fuel shapeVersion indeterminate data = some r1 := by
    unfold decodeShape
    dsimp only []
    rw [h1]
  obtain ⟨r2, h4, _⟩ := flushLayers_isSome A fuel r1
    (fun p hp => Nat.lt_of_le_of_lt (h2 p hp) (by omega))
    (fun p hp => Nat.lt_of_le_of_lt (h3 p hp) (by omega))
  refine ⟨⟨r1, hdec⟩, ?_, ?_, ?_⟩
  · unfold renderToSVG
    rw [hdec]
    dsimp only []
    rw [h4]
    dsimp only []
    split
    · exact ⟨_, rfl⟩
    · exact ⟨_, rfl⟩
  · intro hasAlpha nf nl br hbit
    have hp := readRecord_progress shapeVersion indeterminate hasAlpha nf nl br hbit
    exact ⟨hp.1.1, hp.1.2.1, hp.2⟩
  · intro hasAlpha nf nl br hbit h0
    exact readRecord_at_end shapeVersion indeterminate hasAlpha nf nl br hbit h0

/-- Witness of `recordLoop_terminates`: a payload of three bytes `FF`, which is cut
short inside its header. -/
theorem recordLoop_terminates_witness :
    (∃ r, decodeShape Arith.exact 73 1 0 [0xFF, 0xFF, 0xFF] = some r) ∧
    (∃ doc, renderToSVG Arith.exact 73 1 0 [0xFF, 0xFF, 0xFF] true = some doc) :=
  ⟨(recordLoop_terminates Arith.exact 73 1 0 [0xFF, 0xFF, 0xFF] true (by decide)).1,
   (recordLoop_terminates Arith.exact 73 1 0 [0xFF, 0xFF, 0xFF] true (by decide)).2.1⟩

end Shape

/-! ## The chains of `edgesToPathD` -/

namespace Shape

theorem findNext_none {F : Type} (A : Arith F) (tip : Point F) :
    ∀ (l : List (Edge F)), findNext A tip l = none →
      ∀ x ∈ l, Point.eq A x.p1 tip = false := by
  intro l
  induction l with
  | nil => intro _ x hx; cases hx
  | cons a l ih =>
    intro h x hx
    unfold findNext at h
    split at h
    · cases h
    · rename_i hne
      split at h
      · rename_i hf
        rcases List.mem_cons.1 hx with rfl | hx
        · simpa using hne
        · exact ih hf x hx
      · cases h

theorem findNext_some {F : Type} (A : Arith F) (tip : Point F) :
    ∀ (l : List (Edge F)) (e : Edge F) (rest : List (Edge F)),
      findNext A tip l = some (e, rest) →
      ∃ before after, l = before ++ e :: after ∧ rest = before ++ after ∧
        (∀ x ∈ before, Point.eq A x.p1 tip = false) ∧ Point.eq A e.p1 tip = true := by
  intro l
  induction l with
  | nil => intro e rest h; simp [findNext] at h
  | cons a l ih =>
    intro e rest h
    unfold findNext at h
    split at h
    · rename_i heq
      simp only [Option.some.injEq, Prod.mk.injEq] at h
      obtain ⟨rfl, rfl⟩ := h
      exact ⟨[], _, rfl, rfl, by simp, heq⟩
    · rename_i hne
      split at h
      · cases h
      · rename_i found rest1 hf
        simp only [Option.some.injEq, Prod.mk.injEq] at h
        obtain ⟨rfl, rfl⟩ := h
        obtain ⟨before, after, h1, h2, h3, h4⟩ := ih _ _ hf
        refine ⟨a :: before, after, by rw [h1]; rfl, by rw [h2]; rfl, ?_, h4⟩
        intro x hx
        rcases List.mem_cons.1 hx with rfl | hx
        · simpa using hne
        · exact h3 x hx

theorem extendPath_greedy {F : Type} (A : Arith F) : ∀ (fuel : Nat) (tip : Point F)
    (edges : List (Edge F)), edges.length < fuel →
    ∃ chain left, extendPath A fuel tip edges = some (chain.map segment, left) ∧
      greedyChain A tip edges chain left ∧ left.length ≤ edges.length := by
  intro fuel
  induction fuel with
  | zero => intro tip edges h; omega
  | succ f ih =>
    intro tip edges hlen
    unfold extendPath
    split
    · rename_i hf
      exact ⟨[], edges, rfl, ⟨findNext_none A tip edges hf, rfl⟩, Nat.le_refl _⟩
    · rename_i e rest hf
      obtain ⟨before, after, h1, h2, h3, h4⟩ := findNext_some A tip edges e rest hf
      have hl : rest.length + 1 = edges.length := by
        rw [h1, h2]
        simp only [List.length_append, List.length_cons]
        omega
      obtain ⟨chain, left, h5, h6, h7⟩ := ih e.p2 rest (by omega)
      rw [h5]
      refine ⟨e :: chain, left, rfl, ⟨before, after, h1, h3, h4, ?_⟩, by omega⟩
      rw [← h2]
      exact h6

theorem edgesToPathDLoop_greedy {F : Type} (A : Arith F) (isFill : Bool) : ∀ (fuel : Nat)
    (edges : List (Edge F)), edges.length < fuel →
    ∃ subs : List (List (Edge F)),
      edgesToPathDLoop A isFill fuel edges = some ((subs.map (subPathD isFill)).flatten, []) ∧
      greedySubPaths A edges subs := by
  intro fuel
  induction fuel with
  | zero => intro edges h; omega
  | succ f ih =>
    intro edges hlen
    cases edges with
    | nil => exact ⟨[], rfl, rfl⟩
    | cons current rest =>
      simp only [List.length_cons] at hlen
      obtain ⟨chain, left, h1, h2, h3⟩ := extendPath_greedy A f current.p2 rest (by omega)
      obtain ⟨subs, h4, h5⟩ := ih left (by omega)
      refine ⟨(current :: chain) :: subs, ?_, ⟨current, rest, chain, left, rfl, rfl, h2, h5⟩⟩
      simp only [edgesToPathDLoop, h1, h4, List.map_cons, List.flatten_cons, subPathD,
        List.cons_append, List.append_assoc, List.singleton_append, List.nil_append]

/-- Claim C33.  For every list of edges, with a bound above the number of edges,
`edgesToPathD` returns the path data of a sequence of sub-paths that are the greedy
chains of the specification: the first sub-path starts with the first edge of the list;
within a sub-path each later edge starts (as `Point::operator==` compares) at the end
point of the edge before it and is the first such edge, in list order, among the edges
not yet used; a sub-path ends only when no unused edge starts at its tip, and the next
one starts with the first unused edge. -/
theorem edgesToPathD_greedy {F : Type} (A : Arith F) (fuel : Nat) (edges : List (Edge F))
    (isFill : Bool) (hfuel : edges.length < fuel) :
    ∃ subs : List (List (Edge F)),
      edgesToPathD A fuel edges isFill = some ((subs.map (subPathD isFill)).flatten, []) ∧
      greedySubPaths A edges subs := by
  unfold edgesToPathD
  split
  · rename_i hempty
    have : edges = [] := by simpa using hempty
    subst this
    exact ⟨[], rfl, rfl⟩
  · exact edgesToPathDLoop_greedy A isFill fuel edges hfuel

end Shape

/-! ## The fill-style table across `readLineStyles` -/

namespace Shape

theorem readLineStylesLoop_fills_of_lt (shapeVersion indeterminate : Int) (hasAlpha : Bool)
    (h : shapeVersion < 4) :
    ∀ (count : Nat) (fills : List FillStyle) (br : BitReader),
      (readLineStylesLoop shapeVersion indeterminate hasAlpha count fills br).1 = fills := by
  intro count
  induction count with
  | zero => intro fills br; rfl
  | succ n ih =>
    intro fills br
    have h1 : (readLineStyle shapeVersion indeterminate hasAlpha fills br).1 = fills := by
      have hv : ¬ shapeVersion ≥ 4 := by omega
      unfold readLineStyle
      show (ite (shapeVersion ≥ 4) _ _ : List FillStyle × LineStyle × BitReader).1 = fills
      rw [if_neg hv]
    rw [readLineStylesLoop]
    show (readLineStylesLoop shapeVersion indeterminate hasAlpha n
      (readLineStyle shapeVersion indeterminate hasAlpha fills br).1
      (readLineStyle shapeVersion indeterminate hasAlpha fills br).2.2).1 = fills
    rw [ih, h1]

theorem readLineStyles_fills_of_lt (shapeVersion indeterminate : Int) (hasAlpha : Bool)
    (h : shapeVersion < 4) (fills : List FillStyle) (br : BitReader) :
    (readLineStyles shapeVersion indeterminate hasAlpha fills br).1 = fills := by
  unfold readLineStyles
  exact readLineStylesLoop_fills_of_lt shapeVersion indeterminate hasAlpha h _ _ _

/-- Claim C39, on the code.  Version 4, with a fill-style table of one solid red fill
(`01 00 FF 00 00 FF`) followed by a line-style table of one style of width 20 whose
has-fill bit is set (`01 14 00 08 00`) and the count byte `00` of that style's fill.
`readFillStyles` leaves the table of one fill.  `readLineStyles` reads the fill of the
line style by a call of `readFillStyles`, which clears `activeFillStyles` and stores
what it reads there: after the line-style table the active fill-style table is empty,
and the fill index 1 of a following edge record finds no style. -/
theorem readLineStyles_replaces_fills :
    (readFillStyles 4 0 true (BitReader.new [1, 0, 255, 0, 0, 255, 1, 20, 0, 8, 0, 0])).1
      = [{ type := 0, color := { r := 255, g := 0, b := 0, a := 255 } }] ∧
    (readLineStyles 4 0 true
      (readFillStyles 4 0 true (BitReader.new [1, 0, 255, 0, 0, 255, 1, 20, 0, 8, 0, 0])).1
      (readFillStyles 4 0 true (BitReader.new [1, 0, 255, 0, 0, 255, 1, 20, 0, 8, 0, 0])).2).1
      = [] ∧
    ((readLineStyles 4 0 true
      (readFillStyles 4 0 true (BitReader.new [1, 0, 255, 0, 0, 255, 1, 20, 0, 8, 0, 0])).1
      (readFillStyles 4 0 true (BitReader.new [1, 0, 255, 0, 0, 255, 1, 20, 0, 8, 0, 0])).2).2.1.map
        (fun s => (s.width, s.hasFill))) = [(20, true)] ∧
    (readLineStyles 4 0 true
      (readFillStyles 4 0 true (BitReader.new [1, 0, 255, 0, 0, 255, 1, 20, 0, 8, 0, 0])).1
      (readFillStyles 4 0 true (BitReader.new [1, 0, 255, 0, 0, 255, 1, 20, 0, 8, 0, 0])).2).2.2.bytePos
      = 12 := by
  decide
end Shape

/-! ## The data of a trait -/

namespace Abc

theorem readTraitData_slot (kind : u8) (t : Trait) (s : IStream)
    (h : kind.val &&& 0x0F = 0 ∨ kind.val &&& 0x0F = 6) :
    readTraitData kind t s =
      match readU30s 3 s with
      | .error e => .error e
      | .ok (vs, s3) => if vs.getD 2 0 ≠ 0 then .ok (t, s3.get.2) else .ok (t, s3) := by
  unfold readTraitData
  simp only [readU30s]
  rcases h1 : readU30 s with e | ⟨a, s1⟩
  · rfl
  · simp only [if_pos h]
    rcases h2 : readU30 s1 with e | ⟨b, s2⟩
    · rfl
    · simp only []
      rcases h3 : readU30 s2 with e | ⟨c, s3⟩
      · rfl
      · simp only [List.getD_cons_succ, List.getD_cons_zero]

theorem readTraitData_two (kind : u8) (t : Trait) (s : IStream)
    (h0 : ¬ (kind.val &&& 0x0F = 0 ∨ kind.val &&& 0x0F = 6)) (h7 : kind.val &&& 0x0F < 7) :
    readTraitData kind t s =
      match readU30s 2 s with
      | .error e => .error e
      | .ok (vs, s2) =>
        if kind.val &&& 0x0F = 1 ∨ kind.val &&& 0x0F = 2 ∨ kind.val &&& 0x0F = 3 then
          .ok ({ t with methodIndex := vs.getD 1 0 }, s2)
        else if kind.val &&& 0x0F = 4 then .ok ({ t with classIndex := vs.getD 1 0 }, s2)
        else .ok (t, s2) := by
  unfold readTraitData
  simp only [readU30s]
  rcases h1 : readU30 s with e | ⟨a, s1⟩
  · rfl
  · simp only [if_neg h0]
    by_cases hm : kind.val &&& 0x0F = 1 ∨ kind.val &&& 0x0F = 2 ∨ kind.val &&& 0x0F = 3
    · simp only [if_pos hm]
      rcases h2 : readU30 s1 with e | ⟨b, s2⟩
      · rfl
      · simp only [List.getD_cons_succ, List.getD_cons_zero]
    · simp only [if_neg hm]
      by_cases hc : kind.val &&& 0x0F = 4
      · simp only [if_pos hc]
        rcases h2 : readU30 s1 with e | ⟨b, s2⟩
        · rfl
        · simp only [List.getD_cons_succ, List.getD_cons_zero]
      · have h5 : kind.val &&& 0x0F = 5 := by
          simp only [not_or] at h0 hm
          omega
        simp only [if_neg hc, if_pos h5]
        rcases h2 : readU30 s1 with e | ⟨b, s2⟩
        · rfl
        · simp only []

theorem readTraitData_unknown (kind : u8) (t : Trait) (s : IStream)
    (h : 7 ≤ kind.val &&& 0x0F) :
    readTraitData kind t s =
      match readU30 s with
      | .error e => .error e
      | .ok _ => .error "Unknown trait kind" := by
  unfold readTraitData
  rcases h1 : readU30 s with e | ⟨a, s1⟩
  · rfl
  · simp only []
    rw [if_neg (by omega), if_neg (by omega), if_neg (by omega), if_neg (by omega)]


/-- Claim C34, as the code has it.  After the shared prefix `readTraitData` reads, by
the low nibble of the kind: for Slot (0) and Const (6) three u30 values and one more
byte exactly when the third is not 0; for Method, Getter and Setter (1, 2, 3) two u30
values, the second kept as the method index; for Class (4) two u30 values, the second
kept as the class index; for Function (5) two u30 values; for a nibble of 7 or more one
u30 value and then the error `Unknown trait kind`.  It raises an error exactly when the
nibble is 7 or more or one of the u30 values of the kind has six continuation bytes, and
the error is one of these two. -/
theorem readTraitData_spec (kind : u8) (t : Trait) (s : IStream) :
    ((kind.val &&& 0x0F = 0 ∨ kind.val &&& 0x0F = 6) →
      readTraitData kind t s =
        match readU30s 3 s with
        | .error e => .error e
        | .ok (vs, s3) => if vs.getD 2 0 ≠ 0 then .ok (t, s3.get.2) else .ok (t, s3)) ∧
    ((kind.val &&& 0x0F = 1 ∨ kind.val &&& 0x0F = 2 ∨ kind.val &&& 0x0F = 3) →
      readTraitData kind t s =
        match readU30s 2 s with
        | .error e => .error e
        | .ok (vs, s2) => .ok ({ t with methodIndex := vs.getD 1 0 }, s2)) ∧
    (kind.val &&& 0x0F = 4 →
      readTraitData kind t s =
        match readU30s 2 s with
        | .error e => .error e
        | .ok (vs, s2) => .ok ({ t with classIndex := vs.getD 1 0 }, s2)) ∧
    (kind.val &&& 0x0F = 5 →
      readTraitData kind t s =
        match readU30s 2 s with
        | .error e => .error e
        | .ok (_, s2) => .ok (t, s2)) ∧
    (7 ≤ kind.val &&& 0x0F →
      readTraitData kind t s =
        match readU30 s with
        | .error e => .error e
        | .ok _ => .error "Unknown trait kind") ∧
    ((∃ e, readTraitData kind t s = .error e) ↔
      (7 ≤ kind.val &&& 0x0F ∨
        ∃ e, readU30s (if kind.val &&& 0x0F = 0 ∨ kind.val &&& 0x0F = 6 then 3 else 2) s
          = .error e)) ∧
    (∀ e, readTraitData kind t s = .error e →
      e = "Unknown trait kind" ∨ e = "Integer overflow in readU30") := by
  have hm : (kind.val &&& 0x0F = 1 ∨ kind.val &&& 0x0F = 2 ∨ kind.val &&& 0x0F = 3) →
      readTraitData kind t s =
        match readU30s 2 s with
        | .error e => .error e
        | .ok (vs, s2) => .ok ({ t with methodIndex := vs.getD 1 0 }, s2) := by
    intro h
    rw [readTraitData_two kind t s (by omega) (by omega)]
    simp only [if_pos h]
  have hc : kind.val &&& 0x0F = 4 →
      readTraitData kind t s =
        match readU30s 2 s with
        | .error e => .error e
        | .ok (vs, s2) => .ok ({ t with classIndex := vs.getD 1 0 }, s2) := by
    intro h
    rw [readTraitData_two kind t s (by omega) (by omega)]
    simp only [if_neg (show ¬ (kind.val &&& 0x0F = 1 ∨ kind.val &&& 0x0F = 2 ∨
      kind.val &&& 0x0F = 3) by omega), if_pos h]
  have hf : kind.val &&& 0x0F = 5 →
      readTraitData kind t s =
        match readU30s 2 s with
        | .error e => .error e
        | .ok (_, s2) => .ok (t, s2) := by
    intro h
    rw [readTraitData_two kind t s (by omega) (by omega)]
    simp only [if_neg (show ¬ (kind.val &&& 0x0F = 1 ∨ kind.val &&& 0x0F = 2 ∨
      kind.val &&& 0x0F = 3) by omega), if_neg (show ¬ kind.val &&& 0x0F = 4 by omega)]
  have hiff : (∃ e, readTraitData kind t s = .error e) ↔
      (7 ≤ kind.val &&& 0x0F ∨
        ∃ e, readU30s (if kind.val &&& 0x0F = 0 ∨ kind.val &&& 0x0F = 6 then 3 else 2) s
          = .error e) := by
    by_cases h7 : 7 ≤ kind.val &&& 0x0F
    · refine ⟨fun _ => Or.inl h7, fun _ => ?_⟩
      rw [readTraitData_unknown kind t s h7]
      cases readU30 s with
      | error e => exact ⟨e, rfl⟩
      | ok r => exact ⟨_, rfl⟩
    · by_cases h0 : kind.val &&& 0x0F = 0 ∨ kind.val &&& 0x0F = 6
      · rw [readTraitData_slot kind t s h0, if_pos h0]
        cases h3 : readU30s 3 s with
        | error e => exact ⟨fun _ => Or.inr ⟨e, rfl⟩, fun _ => ⟨e, rfl⟩⟩
        | ok r =>
          obtain ⟨vs, s3⟩ := r
          constructor
          · rintro ⟨e, he⟩
            simp only [] at he
            split at he <;> cases he
          · rintro (h | ⟨e, he⟩)
            · exact absurd h h7
            · cases he
      · rw [readTraitData_two kind t s h0 (by omega), if_neg h0]
        cases h2 : readU30s 2 s with
        | error e => exact ⟨fun _ => Or.inr ⟨e, rfl⟩, fun _ => ⟨e, rfl⟩⟩
        | ok r =>
          obtain ⟨vs, s2⟩ := r
          constructor
          · rintro ⟨e, he⟩
            simp only [] at he
            split at he
            · cases he
            · split at he <;> cases he
          · rintro (h | ⟨e, he⟩)
            · exact absurd h h7
            · cases he
  refine ⟨readTraitData_slot kind t s, hm, hc, hf, readTraitData_unknown kind t s, hiff, ?_⟩
  intro e he
  by_cases h7 : 7 ≤ kind.val &&& 0x0F
  · rw [readTraitData_unknown kind t s h7] at he
    cases h1 : readU30 s with
    | error e1 =>
      rw [h1] at he
      cases he
      exact Or.inr (readU30_error s _ h1)
    | ok r =>
      rw [h1] at he
      cases he
      exact Or.inl rfl
  · obtain ⟨e1, h1⟩ := (hiff.mp ⟨e, he⟩).resolve_left h7
    have := readU30s_error _ s e1 h1
    right
    by_cases h0 : kind.val &&& 0x0F = 0 ∨ kind.val &&& 0x0F = 6
    · rw [readTraitData_slot kind t s h0] at he
      rw [if_pos h0] at h1
      rw [h1] at he
      cases he
      exact this
    · rw [readTraitData_two kind t s h0 (by omega)] at he
      rw [if_neg h0] at h1
      rw [h1] at he
      cases he
      exact this

/-- Witness of `readTraitData_spec`: the Slot trait with the fields 1, 2 and 3 and the
value kind byte 9, followed by one more byte. -/
theorem readTraitData_spec_witness :
    readTraitData 0 {} (IStream.ofBytes [1, 2, 3, 9, 7]) =
      match readU30s 3 (IStream.ofBytes [1, 2, 3, 9, 7]) with
      | .error e => .error e
      | .ok (vs, s3) => if vs.getD 2 0 ≠ 0 then .ok ({}, s3.get.2) else .ok ({}, s3) :=
  (readTraitData_spec 0 {} (IStream.ofBytes [1, 2, 3, 9, 7])).1 (by decide)

/-- Counterexample to claim C34 as stated.  A Slot trait (kind byte 0, low nibble 0)
whose slot id has six continuation bytes makes `readTraitData` raise the overflow error
of `readU30`, although the nibble is below 7; a Class trait (kind 4) whose class index
has six continuation bytes does the same.  The same Slot trait with fields that read
(1, 2, 3 and the value kind 9) is accepted and leaves the byte after the value kind. -/
theorem readTraitData_overflow_counterexample :
    readTraitData 0 {} (IStream.ofBytes [0x80, 0x80, 0x80, 0x80, 0x80, 0x80, 0])
      = .error "Integer overflow in readU30" ∧
    readTraitData 4 {} (IStream.ofBytes [1, 0x80, 0x80, 0x80, 0x80, 0x80, 0x80, 0])
      = .error "Integer overflow in readU30" ∧
    (0 : u8).val &&& 0x0F < 7 ∧
    readTraitData 0 {} (IStream.ofBytes [1, 2, 3, 9, 7])
      = .ok ({}, IStream.ofBytes [7]) ∧
    readTraitData 0 {} (IStream.ofBytes [1, 2, 0, 9, 7])
      = .ok ({}, IStream.ofBytes [9, 7]) := by
  decide

end Abc

/-! ## The class index of a script trait -/

namespace Abc

/-- Claim C35, on the code.  The file holds a version, seven empty tables of the
constant pool, no method, no metadata, no class, one script with the one trait
`00 04 00 05` (name 0, kind Class, slot id 0, class index 5) and no method body.  The
parse succeeds, directly and through the header handling of `main`, and keeps the class
index 5 beside a class table of length 0; the lookup `abc.classes[t.classIndex]` of the
emission loop is then outside the vector. -/
theorem parse_class_index_unchecked :
    parse (fun _ => 0) (fun _ => 0)
        (IStream.ofBytes [0x10, 0, 0x2E, 0, 0, 0, 0, 0, 0, 0, 0, 0, 0, 0, 1, 0, 1, 0, 4, 0, 5, 0])
      = .ok { scripts := [{ init := 0, traits := [{ name := 0, kind := 4, classIndex := 5 }] }] } ∧
    mainParse 0 (fun _ => 0) (fun _ => 0)
        [0x10, 0, 0x2E, 0, 0, 0, 0, 0, 0, 0, 0, 0, 0, 0, 1, 0, 1, 0, 4, 0, 5, 0]
      = .ok { scripts := [{ init := 0, traits := [{ name := 0, kind := 4, classIndex := 5 }] }] } ∧
    mainClassLookups
        { scripts := [{ init := 0, traits := [{ name := 0, kind := 4, classIndex := 5 }] }] }
      = [none] := by
  decide

end Abc

/-! ## Indices taken from the code -/

namespace Decompiler

/-- Claim C31, as the code has it.  An index taken from the code is never used outside
its table: pushstring with an index outside the string pool pushes the literal of the
empty string, pushint and pushuint with an index outside their pool push `0`, pushdouble
pushes `0.0`; `getName` returns `unknown` for the index 0 and for an index outside the
multiname table, and `name<idx>` for a multiname of the table whose name index is
outside the string pool. -/
theorem index_placeholders (env : Env) (code : List u8) (st : State) :
    (env.abc.cp.strings.length ≤ (Abc.readU30FromBytes code st.pc).1 →
      (execOp env code 0x2C st).stack = "\"\"" :: st.stack) ∧
    (env.abc.cp.ints.length ≤ (Abc.readU30FromBytes code st.pc).1 →
      (execOp env code 0x2D st).stack = "0" :: st.stack) ∧
    (env.abc.cp.uints.length ≤ (Abc.readU30FromBytes code st.pc).1 →
      (execOp env code 0x2E st).stack = "0" :: st.stack) ∧
    (env.abc.cp.doubles.length ≤ (Abc.readU30FromBytes code st.pc).1 →
      (execOp env code 0x2F st).stack = "0.0" :: st.stack) ∧
    (∀ idx, idx = 0 ∨ env.abc.multinames.length ≤ idx → getName env idx = "unknown") ∧
    (∀ idx, idx ≠ 0 → idx < env.abc.multinames.length →
      env.abc.cp.strings.length ≤ (env.abc.multinames.getD idx {}).nameIndex →
      getName env idx = "name" ++ toString idx) := by
  refine ⟨?_, ?_, ?_, ?_, ?_, ?_⟩
  · intro h
    rw [execOp_pushstring]
    simp only [push, getString, if_neg (Nat.not_lt.mpr h)]
    rfl
  · intro h
    rw [execOp_pushint]
    simp only [push, if_neg (Nat.not_lt.mpr h)]
  · intro h
    rw [execOp_pushuint]
    simp only [push, if_neg (Nat.not_lt.mpr h)]
  · intro h
    rw [execOp_pushdouble]
    simp only [push, if_neg (Nat.not_lt.mpr h)]
  · intro idx h
    unfold getName
    rw [if_pos h]
  · intro idx h0 h1 h2
    unfold getName
    rw [if_neg (by simp only [ge_iff_le, not_or]; exact ⟨h0, Nat.not_le.mpr h1⟩),
      if_neg (Nat.not_lt.mpr h2)]

/-- Witness of `index_placeholders`: pushstring 7 with an empty string pool, and the
multiname 1 of a table of two whose name index 3 is outside the empty string pool. -/
theorem index_placeholders_witness :
    (execOp ⟨{}, false, fun _ => ""⟩ [0x2C, 7] 0x2C { pc := 1 }).stack = ["\"\""] ∧
    getName ⟨{ multinames := [{}, { nameIndex := 3 }] }, false, fun _ => ""⟩ 1
      = "name" ++ toString 1 :=
  ⟨(index_placeholders ⟨{}, false, fun _ => ""⟩ [0x2C, 7] { pc := 1 }).1 (by decide),
   (index_placeholders ⟨{ multinames := [{}, { nameIndex := 3 }] }, false, fun _ => ""⟩ []
      {}).2.2.2.2.2 1 (by decide) (by decide) (by decide)⟩

/-- Counterexample to claim C31 as stated.  With a multiname table of two entries the
index 5 is outside the table, and so is every index with an empty table; `getName`
returns `unknown` for them, not `name5`, and also for the index 0. -/
theorem getName_counterexample :
    getName ⟨{ multinames := [{}, {}] }, false, fun _ => ""⟩ 5 = "unknown" ∧
    getName ⟨{}, false, fun _ => ""⟩ 5 = "unknown" ∧
    getName ⟨{ multinames := [{}, {}] }, false, fun _ => ""⟩ 0 = "unknown" ∧
    "unknown" ≠ "name" ++ toString 5 := by
  decide

end Decompiler

/-! ## The number base of the output stream -/

namespace Decompiler

theorem setLocal_hex (st : State) (idx : Nat) : (setLocal st idx).hex = st.hex := by
  unfold setLocal
  split <;> rfl

theorem binaryOp_hex (st : State) (opText : String) : (binaryOp st opText).hex = st.hex := by
  unfold binaryOp
  split <;> rfl

theorem convertOp_hex (st : State) (castText : String) :
    (convertOp st castText).hex = st.hex := by
  unfold convertOp
  split <;> rfl

theorem execOp_hex (env : Env) (code : List u8) (op : Nat) (st : State) :
    (execOp env code op st).hex = st.hex := by
  by_cases hop : op ∈ [0x47, 0x48, 0x20, 0x21, 0x26, 0x27, 0x28, 0x24, 0x25, 0x2C, 0x2D, 0x2E,
      0x2F, 0x30, 0xD0, 0xD1, 0xD2, 0xD3, 0x62, 0x63, 0xD4, 0xD5, 0xD6, 0xD7, 0xA0, 0xA1, 0xA2,
      0xA3, 0xAB, 0xAD, 0x60, 0x66, 0x61, 0x68, 0x46, 0x4F, 0x40, 0x55, 0x56, 0x57, 0x10,
      0x11, 0x12, 0x29, 0x2A, 0x73, 0x74, 0x75]
  · simp only [List.mem_cons, List.mem_singleton, List.not_mem_nil, or_false] at hop
    rcases hop with rfl | rfl | rfl | rfl | rfl | rfl | rfl | rfl | rfl | rfl | rfl | rfl |
      rfl | rfl | rfl | rfl | rfl | rfl | rfl | rfl | rfl | rfl | rfl | rfl | rfl | rfl | rfl |
      rfl | rfl | rfl | rfl | rfl | rfl | rfl | rfl | rfl | rfl | rfl | rfl | rfl | rfl | rfl |
      rfl | rfl | rfl | rfl | rfl | rfl
    all_goals
      simp only [execOp_returnvoid, execOp_returnvalue, execOp_shadowed, execOp_pushnan,
        execOp_pushbyte, execOp_pushshort, execOp_pushstring, execOp_pushint, execOp_pushuint,
        execOp_pushdouble, execOp_getlocal, execOp_setlocal, execOp_setlocal_n, execOp_binary,
        execOp_getlex, execOp_getproperty, execOp_setproperty _ _ _ _ (Or.inl rfl),
        execOp_setproperty _ _ _ _ (Or.inr rfl), execOp_callproperty, execOp_callpropvoid,
        execOp_newfunction, execOp_newclass, execOp_newobject, execOp_newarray, execOp_jump,
        execOp_iftrue, execOp_iffalse, execOp_pop, execOp_dup, execOp_convert,
        setLocal_hex, binaryOp_hex, convertOp_hex]
    all_goals first
      | rfl
      | (split <;> rfl)
  · rw [execOp_default env code op st hop]
    split <;> rfl

theorem step_hex (env : Env) (code : List u8) (st : State)
    (h : env.keepOpcodeComments = false) : (step env code st).hex = st.hex := by
  have hl := (emitLabel_fields { st with pc := st.pc + 1 }).2.2.2.2.1
  unfold step
  rw [h]
  split
  · simp only [Bool.false_eq_true, if_false]
    exact hl
  · rw [execOp_hex]
    exact hl

theorem decompileLoop_hex (env : Env) (code : List u8)
    (h : env.keepOpcodeComments = false) :
    ∀ (fuel : Nat) (st st1 : State), decompileLoop env code fuel st = some st1 →
      st1.hex = st.hex := by
  intro fuel
  induction fuel with
  | zero =>
    intro st st1 hr
    rw [decompileLoop] at hr
    split at hr
    · cases hr
    · cases hr; rfl
  | succ n ih =>
    intro st st1 hr
    rw [decompileLoop] at hr
    split at hr
    · rw [ih _ _ hr, step_hex env code st h]
    · cases hr; rfl
end Decompiler

/-! ## Labels and jump targets -/

namespace Decompiler

/-- Claim C36, on the code.  Three bodies whose jump target is the offset of an
instruction.  (1) `24 01 12 02 00 00 2C 01 48`: the iffalse at offset 2 targets the
returnvalue at offset 8, which follows the two-byte pushstring; the text has
`goto label_8` and no line `label_8:`, for both settings of the flag and both number
bases.  (2) `D0 10 06 00 00 02 02 02 02 02 02 47` with the opcode comments on: the jump
targets the returnvoid at offset 11; the comment of `D0` has set `std::hex`, the goto is
spelled `label_11` and the label line `label_b:`.  (3) `02 02 10 FB FF FF`: the jump
at offset 2 targets the instruction at offset 1, behind it; no label line is written. -/
theorem decompileMethod_goto_without_label :
    (∀ keep hex : Bool,
      decompileMethod ⟨{ cp := { strings := [[], [0x41]] } }, keep, fun _ => ""⟩ hex
          { code := [0x24, 1, 0x12, 2, 0, 0, 0x2C, 1, 0x48] }
        = some "    if (!(1)) goto label_8;\n    return \"A\";\n") ∧
    decompileMethod ⟨{}, true, fun _ => ""⟩ false
        { code := [0xD0, 0x10, 6, 0, 0, 2, 2, 2, 2, 2, 2, 0x47] }
      = some ("// opcode 0xd0\n    goto label_11;\n    // opcode 0x2\n    // opcode 0x2\n"
          ++ "    // opcode 0x2\n    // opcode 0x2\n    // opcode 0x2\nlabel_b:\n"
          ++ "    // opcode 0x2\n    return;\n") ∧
    (∀ hex : Bool,
      decompileMethod ⟨{}, false, fun _ => ""⟩ hex { code := [2, 2, 0x10, 0xFB, 0xFF, 0xFF] }
        = some "    goto label_1;\n") ∧
    (∀ hex : Bool,
      decompileMethod ⟨{}, true, fun _ => ""⟩ hex { code := [2, 2, 0x10, 0xFB, 0xFF, 0xFF] }
        = some "    // opcode 0x2\n    // opcode 0x2\n    goto label_1;\n") := by
  decide

/-- Claim C37, on the code.  The opcode comments are on.  Decompiling the body `D0 47`
first leaves `std::hex` set on the output stream of the `Decompiler`, which the reset
`output.str(""); output.clear();` at the head of the next call keeps.  The body
`10 06 00 00 02 02 02 02 02 02 47` (a jump to the returnvoid at offset 10) decompiled
first gives the label line `label_10:`; decompiled after `D0 47` it gives `label_a:`. -/
theorem decompileMethod_depends_on_history :
    (decompileLoop ⟨{}, true, fun _ => ""⟩ [0xD0, 0x47] 2
        (initState false { code := [0xD0, 0x47] })).map (fun st => (st.hex, st.output))
      = some (true, "// opcode 0xd0\n    return;\n") ∧
    decompileMethod ⟨{}, true, fun _ => ""⟩ false
        { code := [0x10, 6, 0, 0, 2, 2, 2, 2, 2, 2, 0x47] }
      = some ("    goto label_10;\n    // opcode 0x2\n    // opcode 0x2\n    // opcode 0x2\n"
          ++ "    // opcode 0x2\n    // opcode 0x2\nlabel_10:\n    // opcode 0x2\n"
          ++ "    return;\n") ∧
    decompileMethod ⟨{}, true, fun _ => ""⟩ true
        { code := [0x10, 6, 0, 0, 2, 2, 2, 2, 2, 2, 0x47] }
      = some ("    goto label_10;\n    // opcode 0x2\n    // opcode 0x2\n    // opcode 0x2\n"
          ++ "    // opcode 0x2\n    // opcode 0x2\nlabel_a:\n    // opcode 0x2\n"
          ++ "    return;\n") := by
  decide
end Decompiler

/-! ## The chains of `edgesToPathD`: an instance -/

namespace Shape

/-- In exact arithmetic `Point::operator==` holds of two points exactly when each
coordinate differs by less than `0.0001`. -/
theorem Point.eq_exact_iff (p q : Point ℚ) :
    Point.eq Arith.exact p q = true ↔ |p.x - q.x| < 1 / 10000 ∧ |p.y - q.y| < 1 / 10000 := by
  simp [Point.eq, Arith.exact]

/-- Witness of `edgesToPathD_greedy`: three edges, the third continuing the first. -/
theorem edgesToPathD_greedy_witness :
    ∃ subs : List (List (Edge ℚ)),
      edgesToPathD Arith.exact 4
        [⟨⟨0, 0⟩, ⟨5, 0⟩, ⟨0, 0⟩, false⟩, ⟨⟨9, 9⟩, ⟨7, 7⟩, ⟨8, 8⟩, true⟩,
         ⟨⟨5, 0⟩, ⟨5, 5⟩, ⟨0, 0⟩, false⟩] true
        = some ((subs.map (subPathD true)).flatten, []) ∧
      greedySubPaths Arith.exact
        [⟨⟨0, 0⟩, ⟨5, 0⟩, ⟨0, 0⟩, false⟩, ⟨⟨9, 9⟩, ⟨7, 7⟩, ⟨8, 8⟩, true⟩,
         ⟨⟨5, 0⟩, ⟨5, 5⟩, ⟨0, 0⟩, false⟩] subs :=
  edgesToPathD_greedy Arith.exact 4
    [⟨⟨0, 0⟩, ⟨5, 0⟩, ⟨0, 0⟩, false⟩, ⟨⟨9, 9⟩, ⟨7, 7⟩, ⟨8, 8⟩, true⟩,
     ⟨⟨5, 0⟩, ⟨5, 5⟩, ⟨0, 0⟩, false⟩] true (by decide)

/-- Two edges start at the tip `(5, 0)`: the one earlier in the list is taken, and the
other starts the next sub-path. -/
theorem edgesToPathD_first_match_example :
    edgesToPathD Arith.exact 4
        [⟨⟨0, 0⟩, ⟨5, 0⟩, ⟨0, 0⟩, false⟩, ⟨⟨5, 0⟩, ⟨7, 7⟩, ⟨0, 0⟩, false⟩,
         ⟨⟨5, 0⟩, ⟨5, 5⟩, ⟨0, 0⟩, false⟩] false
      = some ([.M ⟨0, 0⟩, .L ⟨5, 0⟩, .L ⟨7, 7⟩, .gap, .M ⟨5, 0⟩, .L ⟨5, 5⟩, .gap], []) := by
  decide!

end Shape

/-! ## The frame counters and the display snapshots across a sprite -/

namespace Swf

theorem sameFrames.chain {a b c : SWFExtractor} (h1 : sameFrames a b) (h2 : sameFrames b c) :
    sameFrames a c :=
  ⟨h2.1.trans h1.1, h2.2.1.trans h1.2.1, h2.2.2.1.trans h1.2.2.1, h2.2.2.2.trans h1.2.2.2⟩

theorem sameFrames.of_fields {st st1 : SWFExtractor} (hd : st1.data = st.data)
    (hc : st1.currentFrame = st.currentFrame) (hg : st1.globalFrame = st.globalFrame)
    (hf : st1.files = st.files) : sameFrames st st1 :=
  ⟨hd, hc, hg, by unfold frameSnapshots; rw [hf]⟩

theorem sameFrames.register {st st1 : SWFExtractor} (id : Nat) (p k : String)
    (h : sameFrames st st1) : sameFrames st (register st1 id p k) :=
  h.chain (sameFrames.of_fields rfl rfl rfl rfl)

theorem sameFrames.logBytes {st st1 : SWFExtractor} (n : String) (b : List u8)
    (h : sameFrames st st1) : sameFrames st (logFile st1 n (.bytes b)) :=
  h.chain ⟨rfl, rfl, rfl, by simp [frameSnapshots, logFile, List.filter_append]⟩

theorem sameFrames.logText {st st1 : SWFExtractor} (n : String)
    (h : sameFrames st st1) : sameFrames st (logFile st1 n .text) :=
  h.chain ⟨rfl, rfl, rfl, by simp [frameSnapshots, logFile, List.filter_append]⟩

theorem sameFrames.raise {st st1 : SWFExtractor} (f : Fault) (h : sameFrames st st1) :
    sameFrames st (Swf.raise st1 f) :=
  h.chain (sameFrames.of_fields (raise_fields st1 f).1 (raise_fields st1 f).2.2.1
    (raise_fields st1 f).2.2.2.1 (raise_fields st1 f).2.2.2.2)

theorem sameFrames.raiseUnless {st st1 : SWFExtractor} (f : Fault) (c : Prop) [Decidable c]
    (h : sameFrames st st1) : sameFrames st (if c then st1 else Swf.raise st1 f) := by
  split
  · exact h
  · exact h.raise f

theorem sameFrames.logSideFile {st st1 : SWFExtractor} (env : Env) (n : String)
    (h : sameFrames st st1) : sameFrames st (logSideFile env st1 n) := by
  unfold Swf.logSideFile
  split
  · exact h.logText n
  · exact h

theorem sameFrames.extractShape {st st1 : SWFExtractor} (env : Env) (a b c d : Nat)
    (h : sameFrames st st1) : sameFrames st (extractShape env st1 a b c d) := by
  unfold Swf.extractShape
  dsimp only []
  split
  · split
    · exact ((h.logBytes _ _).logSideFile env _).register _ _ _
    · exact h.logBytes _ _
  · exact h

theorem sameFrames.extractJPEG {st st1 : SWFExtractor} (env : Env) (img : List u8) (id : Nat)
    (t : Bool) (h : sameFrames st st1) : sameFrames st (extractJPEG env st1 img id t) := by
  unfold Swf.extractJPEG
  dsimp only []
  split
  · exact (h.logBytes _ _).register _ _ _
  · exact h

theorem sameFrames.extractPNG {st st1 : SWFExtractor} (env : Env) (img : List u8)
    (w ht f id : Nat) (a : Bool) (h : sameFrames st st1) :
    sameFrames st (extractPNG env st1 img w ht f id a) := by
  unfold Swf.extractPNG
  dsimp only []
  split
  · exact (((h.raiseUnless _ _).logBytes _ _).logSideFile env _).register _ _ _
  · exact h

theorem sameFrames.extractBinaryData {st st1 : SWFExtractor} (env : Env) (b : List u8)
    (id : Nat) (h : sameFrames st st1) : sameFrames st (extractBinaryData env st1 b id) := by
  unfold Swf.extractBinaryData
  dsimp only []
  split
  · exact (h.logBytes _ _).register _ _ _
  · exact h

theorem sameFrames.extractSound {st st1 : SWFExtractor} (env : Env) (b : List u8)
    (id f : Nat) (h : sameFrames st st1) : sameFrames st (extractSound env st1 b id f) := by
  unfold Swf.extractSound
  dsimp only []
  split <;> split
  · exact (h.logBytes _ _).register _ _ _
  · exact h
  · exact (h.logBytes _ _).register _ _ _
  · exact h

theorem sameFrames.extractActionScript {st st1 : SWFExtractor} (env : Env) (b : List u8)
    (f n : Nat) (c : String) (h : sameFrames st st1) :
    sameFrames st (extractActionScript env st1 b f n c) := by
  unfold Swf.extractActionScript
  dsimp only []
  split <;> split
  · exact (h.logBytes _ _).logSideFile env _
  · exact h
  · exact (h.logBytes _ _).logSideFile env _
  · exact h

end Swf

namespace Swf

end Swf

namespace Swf

end Swf

/-! ## The tag loops end -/

namespace Swf

theorem readU8_pos_ge (data : List u8) (p : Nat) : p ≤ (readU8 data p).2 := by
  unfold readU8; split <;> simp

theorem readU32_pos_ge (data : List u8) (p : Nat) : p ≤ (readU32 data p).2 := by
  unfold readU32; split <;> simp

theorem readU16_pos_le (data : List u8) (p : Nat) (h : p ≤ data.length) :
    (readU16 data p).2 ≤ data.length := by
  unfold readU16; split
  · exact h
  · simp only []; omega

theorem readU32_pos_le (data : List u8) (p : Nat) (h : p ≤ data.length) :
    (readU32 data p).2 ≤ data.length := by
  unfold readU32; split
  · exact h
  · simp only []; omega

theorem readU8_pos_le (data : List u8) (p : Nat) (h : p ≤ data.length) :
    (readU8 data p).2 ≤ data.length := by
  unfold readU8; split
  · exact h
  · simp only []; omega

theorem readStringLoop_pos_ge : ∀ (l : List u8) (p : Nat) (acc : List u8),
    p ≤ (readStringLoop l p acc).2 := by
  intro l
  induction l with
  | nil => intro p acc; exact Nat.le_refl _
  | cons b rest ih =>
    intro p acc
    unfold readStringLoop
    split
    · exact Nat.le_trans (Nat.le_succ p) (ih _ _)
    · exact Nat.le_succ p

theorem symbolClassLoop_pos_ge (data : List u8) : ∀ (n p : Nat),
    p ≤ symbolClassLoop data n p := by
  intro n
  induction n with
  | zero => intro p; exact Nat.le_refl _
  | succ k ih =>
    intro p
    unfold symbolClassLoop
    simp only []
    exact Nat.le_trans (readU16_pos_ge data p)
      (Nat.le_trans (readStringLoop_pos_ge _ _ _) (ih _))

/-- The cursor of the `TAG_DEFINE_SOUND` case after its fixed fields, with the step back
`pos--` between the two reads of the format byte: not before the payload start, and not
behind the end of the buffer. -/
theorem defineSound_cursor (data : List u8) (pos : Nat) (h1 : 1 ≤ pos)
    (hle : pos ≤ data.length) (hlen : data.length < 2 ^ 63) :
    pos ≤ (readU32 data (readU8 data
        (szSub (readU8 data (readU16 data pos).2).2 1)).2).2 ∧
    (readU32 data (readU8 data
        (szSub (readU8 data (readU16 data pos).2).2 1)).2).2 ≤ data.length := by
  have ha := readU16_pos_ge data pos
  have ha2 := readU16_pos_le data pos hle
  have hb := readU8_pos_ge data (readU16 data pos).2
  have hb2 := readU8_pos_le data (readU16 data pos).2 ha2
  have hsub : szSub (readU8 data (readU16 data pos).2).2 1
      = (readU8 data (readU16 data pos).2).2 - 1 := by
    unfold szSub
    norm_num at hlen ⊢
    omega
  rw [hsub]
  have hc2 := readU8_pos_le data ((readU8 data (readU16 data pos).2).2 - 1) (by omega)
  have hd := readU32_pos_ge data (readU8 data ((readU8 data (readU16 data pos).2).2 - 1)).2
  have hd2 := readU32_pos_le data _ hc2
  refine ⟨?_, hd2⟩
  have key : pos ≤ (readU8 data ((readU8 data (readU16 data pos).2).2 - 1)).2 := by
    by_cases hx : (readU8 data (readU16 data pos).2).2 = pos
    · rw [hx]
      have h16 : (readU16 data pos).2 = pos := by omega
      have : ¬ pos < data.length := by
        intro hlt
        rw [h16] at hx
        unfold readU8 at hx
        rw [if_neg (by omega)] at hx
        simp only [] at hx
        omega
      unfold readU8
      rw [if_neg (by omega)]
      simp only []
      omega
    · exact Nat.le_trans (by omega) (readU8_pos_ge data _)
  omega

end Swf

namespace Swf

set_option maxRecDepth 4000 in
set_option maxHeartbeats 1000000 in
/-- Whatever the tag, `processTag` leaves the cursor at the payload start or behind it,
when the payload starts inside the buffer or at its end. -/
theorem processTagWith_pos_ge (env : Env)
    (procSprite : SWFExtractor → Nat → Nat → Nat → Option (SWFExtractor × Nat))
    (st : SWFExtractor) (tagType tagLength pos : Nat) (h1 : 1 ≤ pos)
    (hle : pos ≤ st.data.length) (hlen : st.data.length < 2 ^ 63) :
    ∀ st1 p1, processTagWith env procSprite st tagType tagLength pos = some (st1, p1) →
      pos ≤ p1 := by
  have ha := readU16_pos_ge st.data pos
  have hb := readU16_pos_ge st.data (readU16 st.data pos).2
  have hc := readU32_pos_ge st.data (readU16 st.data pos).2
  have hd := symbolClassLoop_pos_ge st.data (readU16 st.data pos).1 (readU16 st.data pos).2
  have hs := defineSound_cursor st.data pos h1 hle hlen
  have hu : u32Sub tagLength 7 < 2 ^ 32 := Nat.mod_lt _ (by norm_num)
  have hadd : szAdd (readU32 st.data (readU8 st.data
        (szSub (readU8 st.data (readU16 st.data pos).2).2 1)).2).2 (u32Sub tagLength 7)
      = (readU32 st.data (readU8 st.data
        (szSub (readU8 st.data (readU16 st.data pos).2).2 1)).2).2 + u32Sub tagLength 7 := by
    unfold szAdd
    norm_num at hlen hu ⊢
    omega
  by_cases hmem : tagType ∈ handledTagCodes
  · simp only [handledTagCodes, List.mem_cons, List.mem_singleton, List.not_mem_nil,
      or_false] at hmem
    rcases hmem with rfl | rfl | rfl | rfl | rfl | rfl | rfl | rfl | rfl | rfl | rfl | rfl |
      rfl | rfl | rfl | rfl | rfl | rfl | rfl | rfl | rfl | rfl | rfl | rfl | rfl
    all_goals
      unfold processTagWith
      simp -zeta only [Nat.reduceEqDiff, if_true, if_false, or_self, or_true, true_or, or_false,
        false_or, TAG_SHOW_FRAME, TAG_DEFINE_SHAPE, TAG_PLACE_OBJECT,
        TAG_REMOVE_OBJECT, TAG_DEFINE_BITS, TAG_JPEG_TABLES, TAG_DEFINE_BITS_JPEG2,
        TAG_DEFINE_BITS_JPEG3, TAG_DEFINE_BITS_LOSSLESS, TAG_DEFINE_BITS_LOSSLESS2,
        TAG_DEFINE_BITS_JPEG4, TAG_DO_ACTION, TAG_DO_ABC, TAG_PLACE_OBJECT2,
        TAG_PLACE_OBJECT3, TAG_REMOVE_OBJECT2, TAG_DEFINE_SHAPE2, TAG_DEFINE_SHAPE3,
        TAG_DEFINE_SHAPE4, TAG_DEFINE_SPRITE, TAG_DEFINE_SOUND, TAG_DEFINE_BINARY_DATA,
        TAG_SYMBOL_CLASS, TAG_DEFINE_MORPH_SHAPE, TAG_DEFINE_MORPH_SHAPE2]
      try simp only []
      repeat' split
      all_goals intro st1 p1 he
      all_goals cases he
      all_goals first
        | omega
        | (rw [logSideFile_data]; omega)
  · rw [processTagWith_default env procSprite st tagType tagLength pos hmem]
    intro st1 p1 he
    cases he
    omega

end Swf

namespace Swf

theorem readTagHead_pos_le (data : List u8) (p : Nat) (h : p ≤ data.length) :
    (readTagHead data p).2.2 ≤ data.length := by
  have h16 := readU16_pos_le data p h
  unfold readTagHead
  simp only
  split
  · exact readU32_pos_le data _ h16
  · exact h16

theorem readTagHead_at_end (data : List u8) (p : Nat) (h : p + 2 > data.length) :
    (readTagHead data p).1 = TAG_END := by
  have h16 : readU16 data p = (0, p) := by unfold readU16; rw [if_pos h]
  unfold readTagHead
  simp only [h16]
  split <;> rfl

theorem processSprite_returns (env : Env) (fuel : Nat) (st : SWFExtractor) (id p e : Nat)
    (hf : 1 ≤ fuel) (hlen : st.data.length < p + fuel) :
    ∃ st1 p1, processSprite env fuel st id p e = some (st1, p1) ∧ st1.data = st.data := by
  apply processSpriteWith_keeps_data
  intro st0 hst0
  obtain ⟨st2, p2, h3, h4⟩ := processSpriteLoop_terminates env fuel st0 id 0 0 p e hf
    (by rw [hst0]; exact hlen)
  exact ⟨st2, p2, h3, by rw [h4, hst0]⟩

/-- The tag loop of `extract` returns, and keeps the buffer, whenever its bound exceeds
the number of bytes from the cursor to the end of the buffer. -/
theorem extractLoop_returns (env : Env) : ∀ (fuel : Nat) (st : SWFExtractor) (pos : Nat),
    st.data.length < 2 ^ 63 → 1 ≤ fuel → st.data.length < pos + fuel →
    ∃ st1 p1, extractLoop env fuel st pos = some (st1, p1) ∧ st1.data = st.data := by
  intro fuel
  induction fuel with
  | zero => intro st pos _ h; omega
  | succ f ih =>
    intro st pos hlen _ hfuel
    rw [extractLoop]
    split
    · rename_i hpos
      simp only
      split
      · exact ⟨_, _, rfl, rfl⟩
      · rename_i hne
        have hge := readTagHead_pos_ge st.data pos hne
        have hle := readTagHead_pos_le st.data pos (Nat.le_of_lt hpos)
        have hf : 1 ≤ f := by omega
        obtain ⟨st1, p1, h1, h2⟩ := processTagWith_keeps_data env (processSprite env f) st
          (readTagHead st.data pos).1 (readTagHead st.data pos).2.1
          (readTagHead st.data pos).2.2
          (fun id p e hp => processSprite_returns env f st id p e hf (by omega))
        have h3 := processTagWith_pos_ge env (processSprite env f) st
          (readTagHead st.data pos).1 (readTagHead st.data pos).2.1
          (readTagHead st.data pos).2.2 (by omega) hle hlen st1 p1 h1
        unfold processTag
        rw [h1]
        simp only
        obtain ⟨st2, p2, h4, h5⟩ := ih st1 p1 (by rw [h2]; exact hlen) hf (by rw [h2]; omega)
        exact ⟨st2, p2, h4, by rw [h5, h2]⟩
    · exact ⟨_, _, rfl, rfl⟩

/-- The walk of the tags never goes round for ever.  On a body of fewer than `2^63`
bytes, with a bound above the number of bytes, the model of `extract` gives a state (with
the first fault of the run, if there is one): its tag loop ends from every cursor, and
so does every sprite loop.  A round of the tag loop that starts at a cursor `p` inside
the body either reads the End code and stops, or reads a head that ends at `p + 2` at
least and inside the body, and `processTag` then leaves the cursor at the end of that
head or behind it, whatever the tag and its declared length (DefineBits,
DefineBinaryData and DefineSound with a length below their fixed fields among them).  A
head with fewer than two bytes left reads as the End code. -/
theorem extract_walk_returns (env : Env) (fuel : Nat) (st : SWFExtractor)
    (hlen : st.data.length < 2 ^ 63) (hfuel : st.data.length < fuel) :
    (∃ st1 p1, extract env fuel st = some (st1, p1) ∧ st1.data = st.data) ∧
    (∀ pos, ∃ st1 p1, extractLoop env fuel st pos = some (st1, p1) ∧ st1.data = st.data) ∧
    (∀ id frame actions pos endPos, ∃ st1 p1,
      processSpriteLoop env fuel st id frame actions pos endPos = some (st1, p1) ∧
      st1.data = st.data) ∧
    (∀ p, p < st.data.length →
      (readTagHead st.data p).1 = TAG_END ∨
      (p + 2 ≤ (readTagHead st.data p).2.2 ∧
       (readTagHead st.data p).2.2 ≤ st.data.length ∧
       ∀ f st1 p1, processTag env f st (readTagHead st.data p).1 (readTagHead st.data p).2.1
           (readTagHead st.data p).2.2 = some (st1, p1) →
         (readTagHead st.data p).2.2 ≤ p1 ∧ p < p1)) ∧
    (∀ p, p + 2 > st.data.length → (readTagHead st.data p).1 = TAG_END) := by
  have hf : 1 ≤ fuel := by omega
  refine ⟨extractLoop_returns env fuel st _ hlen hf (by omega),
    fun pos => extractLoop_returns env fuel st pos hlen hf (by omega),
    fun id frame actions pos endPos =>
      processSpriteLoop_terminates env fuel st id frame actions pos endPos hf (by omega),
    ?_, fun p hp => readTagHead_at_end st.data p hp⟩
  intro p hp
  by_cases hend : (readTagHead st.data p).1 = TAG_END
  · exact Or.inl hend
  · right
    have hge := readTagHead_pos_ge st.data p hend
    have hle := readTagHead_pos_le st.data p (Nat.le_of_lt hp)
    refine ⟨hge, hle, ?_⟩
    intro f st1 p1 h1
    have h3 := processTagWith_pos_ge env (processSprite env f) st
      (readTagHead st.data p).1 (readTagHead st.data p).2.1
      (readTagHead st.data p).2.2 (by omega) hle hlen st1 p1 h1
    exact ⟨h3, by omega⟩

end Swf

namespace Swf

theorem defineSprite_frames_example :
    (processTag ⟨fun _ => true, fun _ _ => none, 0⟩ 25
        (SWFExtractor.loaded "out"
          [0, 0, 0x18, 1, 0, 0xCD, 0x09, 9, 0, 2, 0, 0x40, 0, 0x01, 0x03, 0, 0x40, 0, 0, 0,
           0x40, 0, 0, 0]) TAG_DEFINE_SPRITE 13 7).map
      (fun r => (r.1.currentFrame, frameSnapshots r.1, mapFind 9 r.1.characterTypes, r.2))
      = some (0, [], some "sprite", 20) := by
  decide

/-- With a bound above the number of bytes a run of `extract` has a result: the fault
at which the program ends, or the state it returns with. -/
theorem extractOutcome_isSome (env : Env) (fuel : Nat) (st : SWFExtractor)
    (hlen : st.data.length < 2 ^ 63) (hfuel : st.data.length < fuel) :
    ∃ r, extractOutcome env fuel st = some r := by
  obtain ⟨st1, p1, h1, _⟩ := (extract_walk_returns env fuel st hlen hfuel).1
  unfold extractOutcome
  rw [h1]
  dsimp only []
  split
  · exact ⟨_, rfl⟩
  · exact ⟨_, rfl⟩

theorem extract_short_tags_example :
    readTagHead [0, 0, 0x18, 1, 0, 0x81, 0x01, 0xAA, 0x80, 0x03] 5 = (TAG_DEFINE_BITS, 1, 7) ∧
    (extract ⟨fun _ => true, fun _ _ => none, 0⟩ 11
        (SWFExtractor.loaded "out" [0, 0, 0x18, 1, 0, 0x81, 0x01, 0xAA, 0x80, 0x03])).map
      (fun r => (r.1.files, r.2)) = some ([], 9) ∧
    readTagHead [0, 0, 0x18, 1, 0, 0x80, 0x03] 5 = (TAG_DEFINE_SOUND, 0, 7) ∧
    (extract ⟨fun _ => true, fun _ _ => none, 0⟩ 8
        (SWFExtractor.loaded "out" [0, 0, 0x18, 1, 0, 0x80, 0x03])).map
      (fun r => (r.1.files, r.2)) = some ([], 7) ∧
    readTagHead [0, 0, 0x18, 1, 0, 0xC0, 0x15, 0xAA] 5 = (TAG_DEFINE_BINARY_DATA, 0, 7) ∧
    (extract ⟨fun _ => true, fun _ _ => none, 0⟩ 9
        (SWFExtractor.loaded "out" [0, 0, 0x18, 1, 0, 0xC0, 0x15, 0xAA])).map
      (fun r => (r.1.files, r.2)) = some ([], 7) := by
  decide

end Swf
